import Mathlib

/-!
# CScript bytecode virtual machine (`packages/vm/src/vm/playvm.c`)

A shallow embedding of the stack machine and of the bytecode loader of
`playvm.c` together with the data structures of `vm.h`, `symbol.h`, `types.h`
and `playvm.h`.

Modelling conventions.

* An `unsigned char` is a `UInt8`; an `int` holding a count or an index is a
  `Nat`; a `VM_NUMBER` (`int`, 32 bits) is an `Int`, and every arithmetic
  result stored into one is reduced with `toVM_NUMBER` (two's complement).
* A pointer to an object is `Ptr α`: `NULL`, an object, or a pointer that was
  never assigned.  A memory cell holding a number is `Option VM_NUMBER`,
  `none` being a cell that the code has not assigned since the memory was
  obtained, so that its content is indeterminate.
* Behaviour on which C places no requirement (an index outside an array, the
  use of a value that was never assigned, division by zero) is the result
  `none` of the operation, and the outcome `Outcome.undefined` of the machine.
* `stdout` is the list of the texts written by the successive `printf` calls.
* The `while(1)` loop of `execute` is run with fuel: `none` means that the
  fuel ran out, never that the machine stopped.
* The two branches of `#ifdef USE_ARENA` are both embedded; the functions
  that contain one take the flag as their first argument and `USE_ARENA` is
  the value `playvm.h` gives it.
* A frame is a value: its locals and the cells of its operand stack are its
  own, as they are when `createStackFrame` takes them from `malloc`.  Of the
  memory of an arena block only the offsets and the `size_t` words that
  `allocFromArena` stores are kept, each at the address that the code
  computes for it, whether or not this address lies within the bytes that
  `malloc` gave the block: a write outside these bytes, on which C places no
  requirement, is kept as a write, so that what is proved of `pos` and of the
  offsets is proved of the bookkeeping, and the addresses are stated apart.
  Where `createStackFrame` puts the locals and the operand stack of a frame
  taken from the arena is kept apart, in `framePointers`; the frame does not
  depend on it.
* `clock()` is a function of the number of calls made before.
* The bytes `bc` given to `readBCModule` are a `List UInt8` (its argument
  `size` is never used); an `int*` into them is an index that the reading
  functions return with their result, and reading past the last byte is
  undefined.  A `char*` made by `readString` is the `String` of the
  characters stored before its terminating zero; `strcmp` and `printf` see it
  up to its first zero character (`cstr`).
* A `Type*` kept in a type object is the index of the object in the array
  `types` of the module, which holds each type object once; `theType` of a
  symbol is kept with the object pointed to, the objects being final when
  symbols are read.  `free` is not part of the embedding.
-/

namespace CScript

/-! ## `playvm.h` -/

/-- Whether frames are carved from the arena: `#define USE_ARENA`. -/
def USE_ARENA : Bool := true

/-- Size of an arena block in bytes: `#define ARENA_BLOCK_SIZE 4096`. -/
def ARENA_BLOCK_SIZE : Nat := 4096

/-- Number of predefined types: `#define SYS_TYPES 9`. -/
def SYS_TYPES : Nat := 9

/-- Number of built-in functions: `#define SYS_FUNS 3`. -/
def SYS_FUNS : Nat := 3

/-- The machine word of the stack machine: `#define VM_NUMBER int`. -/
abbrev VM_NUMBER := Int

/-- Reduction of an integer to the 32-bit two's complement range of `int`. -/
def toVM_NUMBER (x : Int) : VM_NUMBER :=
  (x + 2147483648) % 4294967296 - 2147483648

/-- The least `int`. -/
def INT_MIN : Int := -2147483648

/-! ## Object sizes of the LP64 data model (`sizeof`) -/

/-- Size of `VM_NUMBER`, an `int`. -/
def sizeof_VM_NUMBER : Nat := 4

/-- Size of `size_t`. -/
def sizeof_size_t : Nat := 8

/-- Size of `StackFrame`: a pointer, an `int` (padded) and three pointers. -/
def sizeof_StackFrame : Nat := 40

/-- Size of `OprandStack`: a pointer and an `int` (padded). -/
def sizeof_OprandStack : Nat := 16

/-- Size of `ArenaBlock`: two `size_t`. -/
def sizeof_ArenaBlock : Nat := 16

/-- Size of `Arena`: a pointer and two `int`. -/
def sizeof_Arena : Nat := 16

/-! ## Pointers and C strings -/

/-- A pointer to an object of type `α`. -/
inductive Ptr (α : Type) where
  /-- The pointer `NULL`. -/
  | null : Ptr α
  /-- A pointer that was declared or allocated but never assigned. -/
  | indeterminate : Ptr α
  /-- A pointer to the object `x`. -/
  | to (x : α) : Ptr α
  deriving Repr

/-- The characters of a `char*` up to its terminating zero. -/
def cstr (s : String) : List Char :=
  s.data.takeWhile (fun c => c != Char.ofNat 0)

/-- Whether `strcmp(a, b) == 0`. -/
def strcmp_eq (a b : String) : Bool :=
  cstr a == cstr b

/-- Text that `printf` writes for `%s`. -/
def fmt_s (s : String) : String :=
  String.mk (cstr s)

/-- Text that `printf` writes for `%d`. -/
def fmt_d (n : Int) : String :=
  toString n

/-- Text that `printf` writes for `%x` given an `unsigned char`. -/
def fmt_x (b : UInt8) : String :=
  String.mk (Nat.toDigits 16 b.toNat)

/-! ## `types.h` -/

/-- The enumeration `TypeKind`. -/
inductive TypeKind where
  | SimpleT
  | UnionT
  | FunctionT
  deriving DecidableEq, Repr

/-- A `Type*` stored in a type object: the index of the referenced object in
the type table of the module. -/
abbrev TypeRef := Ptr Nat

/-- A type object (`Type` and the three structures that start with one).  The
constructor is the structure that was allocated, `kind` is the tag stored in
its `Type` header; a pointer array is `none` when it is `NULL`. -/
inductive PType where
  | SimpleType (name : String) (kind : TypeKind)
      (numUpperTypes : Nat) (upperTypes : Option (List TypeRef))
  | FunctionType (name : String) (kind : TypeKind)
      (returnType : TypeRef) (numParams : Nat) (paramTypes : Option (List TypeRef))
  | UnionType (name : String) (kind : TypeKind)
      (numTypes : Nat) (types : Option (List TypeRef))
  deriving Repr

/-- The field `name` of the `Type` header. -/
def PType.name : PType → String
  | .SimpleType name _ _ _ => name
  | .FunctionType name _ _ _ _ => name
  | .UnionType name _ _ _ => name

/-- The field `kind` of the `Type` header. -/
def PType.kind : PType → TypeKind
  | .SimpleType _ kind _ _ => kind
  | .FunctionType _ kind _ _ _ => kind
  | .UnionType _ kind _ _ => kind

/-- The function `createSimpleType`. -/
def createSimpleType (typeName : String) (numUpperTypes : Nat)
    (upperTypes : Option (List TypeRef)) : PType :=
  .SimpleType typeName .SimpleT numUpperTypes upperTypes

/-- The function `createFunctionType`: it stores `numParams` and `paramTypes`
and never assigns the field `returnType`. -/
def createFunctionType (typeName : String) (_returnType : TypeRef) (numParams : Nat)
    (paramTypes : Option (List TypeRef)) : PType :=
  .FunctionType typeName .FunctionT .indeterminate numParams paramTypes

/-- The function `createUnionType`: the tag it stores is `SimpleT`. -/
def createUnionType (typeName : String) (numTypes : Nat)
    (types : Option (List TypeRef)) : PType :=
  .UnionType typeName .SimpleT numTypes types

/-- The structure `SysTypes`. -/
structure SysTypes where
  Number : PType
  String : PType
  Boolean : PType
  Integer : PType
  Decimal : PType
  Null : PType
  Void : PType
  Undefined : PType
  Any : PType

/-- Index that `addSystemTypes` gives each predefined type in the type table,
by which a `Type*` to one of them is represented. -/
def sysTypeIndex : String → Nat
  | "any" => 0
  | "number" => 1
  | "string" => 2
  | "boolean" => 3
  | "null" => 4
  | "undefined" => 5
  | "integer" => 6
  | "decimal" => 7
  | _ => 8

/-- The function `initSysTypes` (the static variable `sysTypes` afterwards). -/
def sysTypes : SysTypes :=
  { Any := createSimpleType "any" 0 none
    String := createSimpleType "string" 1 (some [.to (sysTypeIndex "any")])
    Number := createSimpleType "number" 1 (some [.to (sysTypeIndex "any")])
    Boolean := createSimpleType "boolean" 1 (some [.to (sysTypeIndex "any")])
    Null := createSimpleType "null" 0 none
    Undefined := createSimpleType "undefined" 0 none
    Void := createSimpleType "void" 0 none
    Integer := createSimpleType "integer" 1 (some [.to (sysTypeIndex "number")])
    Decimal := createSimpleType "decimal" 1 (some [.to (sysTypeIndex "number")]) }

/-! ## `symbol.h` -/

/-- The enumeration `SymKind`. -/
inductive SymKind where
  | VariableSym
  | FunctionSym
  | ClassSym
  | InterfaceSym
  | ParameterSym
  | ProgSym
  deriving DecidableEq, Repr

/-- The structure `Symbol`. -/
structure Symbol where
  name : String
  theType : Ptr PType
  kind : SymKind
  deriving Repr

/-- The structure `VarSymbol`. -/
structure VarSymbol where
  symbol : Symbol
  deriving Repr

/-- The structure `FunctionSymbol`; `byteCode` is `none` when it is `NULL`. -/
structure FunctionSymbol where
  symbol : Symbol
  numVars : Nat
  vars : Option (List VarSymbol)
  opStackSize : Nat
  numByteCodes : Nat
  byteCode : Option (List UInt8)
  frameSize : Nat
  deriving Repr

/-- The function `createFunctionSymbol`; `frameSize` is computed as under
`USE_ARENA`. -/
def createFunctionSymbol (functionName : String) (functionType : Ptr PType)
    (numVars : Nat) (vars : Option (List VarSymbol)) (opStackSize : Nat)
    (numByteCodes : Nat) (byteCode : Option (List UInt8)) : FunctionSymbol :=
  { symbol := { name := functionName, theType := functionType, kind := .FunctionSym }
    numVars := numVars
    vars := vars
    opStackSize := opStackSize
    numByteCodes := numByteCodes
    byteCode := byteCode
    frameSize := sizeof_StackFrame + sizeof_VM_NUMBER * numVars
      + sizeof_OprandStack + sizeof_VM_NUMBER * opStackSize }

/-- The function `createVarSymbol`. -/
def createVarSymbol (varName : String) (varType : Ptr PType) : VarSymbol :=
  { symbol := { name := varName, theType := varType, kind := .VariableSym } }

/-! ## `vm.h` -/

/-- The enumeration `OpCode`. -/
inductive OpCode where
  | iconst_0 | iconst_1 | iconst_2 | iconst_3 | iconst_4 | iconst_5
  | bipush | sipush | ldc
  | iload | iload_0 | iload_1 | iload_2 | iload_3
  | istore | istore_0 | istore_1 | istore_2 | istore_3
  | iadd | isub | imul | idiv | iinc
  | lcmp
  | ifeq | ifne | iflt | ifge | ifgt | ifle
  | if_icmpeq | if_icmpne | if_icmplt | if_icmpge | if_icmpgt | if_icmple
  | _goto | ireturn | _return | invokestatic
  | sadd | sldc
  deriving DecidableEq, Repr

/-- The encoding of each member of `OpCode`. -/
def OpCode.toByte : OpCode → UInt8
  | .iconst_0 => 0x03 | .iconst_1 => 0x04 | .iconst_2 => 0x05
  | .iconst_3 => 0x06 | .iconst_4 => 0x07 | .iconst_5 => 0x08
  | .bipush => 0x10 | .sipush => 0x11 | .ldc => 0x12
  | .iload => 0x15 | .iload_0 => 0x1a | .iload_1 => 0x1b
  | .iload_2 => 0x1c | .iload_3 => 0x1d
  | .istore => 0x36 | .istore_0 => 0x3b | .istore_1 => 0x3c
  | .istore_2 => 0x3d | .istore_3 => 0x3e
  | .iadd => 0x60 | .isub => 0x64 | .imul => 0x68 | .idiv => 0x6c
  | .iinc => 0x84 | .lcmp => 0x94
  | .ifeq => 0x99 | .ifne => 0x9a | .iflt => 0x9b | .ifge => 0x9c
  | .ifgt => 0x9d | .ifle => 0x9e
  | .if_icmpeq => 0x9f | .if_icmpne => 0xa0 | .if_icmplt => 0xa1
  | .if_icmpge => 0xa2 | .if_icmpgt => 0xa3 | .if_icmple => 0xa4
  | ._goto => 0xa7 | .ireturn => 0xac | ._return => 0xb1
  | .invokestatic => 0xb8
  | .sadd => 0x61 | .sldc => 0x13

/-- The member of `OpCode` that a byte encodes, if any: the `case` label that
the `switch` of `execute` compares the byte with. -/
def OpCode.ofByte (b : UInt8) : Option OpCode :=
  if b = 0x03 then some .iconst_0 else if b = 0x04 then some .iconst_1
  else if b = 0x05 then some .iconst_2 else if b = 0x06 then some .iconst_3
  else if b = 0x07 then some .iconst_4 else if b = 0x08 then some .iconst_5
  else if b = 0x10 then some .bipush else if b = 0x11 then some .sipush
  else if b = 0x12 then some .ldc else if b = 0x13 then some .sldc
  else if b = 0x15 then some .iload
  else if b = 0x1a then some .iload_0 else if b = 0x1b then some .iload_1
  else if b = 0x1c then some .iload_2 else if b = 0x1d then some .iload_3
  else if b = 0x36 then some .istore
  else if b = 0x3b then some .istore_0 else if b = 0x3c then some .istore_1
  else if b = 0x3d then some .istore_2 else if b = 0x3e then some .istore_3
  else if b = 0x60 then some .iadd else if b = 0x61 then some .sadd
  else if b = 0x64 then some .isub else if b = 0x68 then some .imul
  else if b = 0x6c then some .idiv else if b = 0x84 then some .iinc
  else if b = 0x94 then some .lcmp
  else if b = 0x99 then some .ifeq else if b = 0x9a then some .ifne
  else if b = 0x9b then some .iflt else if b = 0x9c then some .ifge
  else if b = 0x9d then some .ifgt else if b = 0x9e then some .ifle
  else if b = 0x9f then some .if_icmpeq else if b = 0xa0 then some .if_icmpne
  else if b = 0xa1 then some .if_icmplt else if b = 0xa2 then some .if_icmpge
  else if b = 0xa3 then some .if_icmpgt else if b = 0xa4 then some .if_icmple
  else if b = 0xa7 then some ._goto else if b = 0xac then some .ireturn
  else if b = 0xb1 then some ._return else if b = 0xb8 then some .invokestatic
  else none

/-- The structure `OprandStack`: the cells of `data` and the index `top` of
the topmost value (`-1` for an empty stack, `none` when never assigned). -/
structure OprandStack where
  data : List (Option VM_NUMBER)
  top : Option Int
  deriving Repr

/-- The structure `StackFrame`; `prev` is `none` when it is `NULL`. -/
structure StackFrame where
  byteCode : Option (List UInt8)
  returnIndex : Nat
  localVars : List (Option VM_NUMBER)
  oprandStack : OprandStack
  prev : Option StackFrame

/-- The three structures that start with a `Const`. -/
inductive Const where
  | NumberConst (value : Int)
  | StringConst (value : String)
  | FunctionConst (functionSym : FunctionSymbol)
  deriving Repr

/-- The enumeration `ConstKind`. -/
inductive ConstKind where
  | NumberC
  | StringC
  | FunctionC
  deriving DecidableEq, Repr

/-- The field `kind` of the `Const` header. -/
def Const.kind : Const → ConstKind
  | .NumberConst _ => .NumberC
  | .StringConst _ => .StringC
  | .FunctionConst _ => .FunctionC

/-- The structure `BCModule`. -/
structure BCModule where
  numConsts : Nat
  consts : List (Ptr Const)
  _main : Ptr FunctionSymbol
  numTypes : Nat
  types : List (Ptr PType)

/-- The function `createNumberConst`. -/
def createNumberConst (value : Int) : Const :=
  .NumberConst value

/-- The function `createStringConst`. -/
def createStringConst (value : String) : Const :=
  .StringConst value

/-- The function `createFunctionConst`. -/
def createFunctionConst (functionSym : FunctionSymbol) : Const :=
  .FunctionConst functionSym

/-- The function `createBCModule`. -/
def createBCModule (numConsts : Nat) (consts : List (Ptr Const)) (_main : Ptr FunctionSymbol)
    (numTypes : Nat) (types : List (Ptr PType)) : BCModule :=
  { numConsts := numConsts, consts := consts, _main := _main
    numTypes := numTypes, types := types }

/-- The function `addSystemTypes`: the first `SYS_TYPES` entries of `types`. -/
def addSystemTypes : List (Ptr PType) :=
  [ .to sysTypes.Any, .to sysTypes.Number, .to sysTypes.String, .to sysTypes.Boolean
  , .to sysTypes.Null, .to sysTypes.Undefined, .to sysTypes.Integer, .to sysTypes.Decimal
  , .to sysTypes.Void ]

/-- The function `addSystemFunctions`: the first `SYS_FUNS` entries of
`consts`. -/
def addSystemFunctions : List (Ptr Const) :=
  [ .to (createFunctionConst (createFunctionSymbol "println"
      (.to (createFunctionType "@println" (.to (sysTypeIndex "void")) 1
        (some [.to (sysTypeIndex "integer")])))
      1 (some [createVarSymbol "a" (.to sysTypes.Integer)]) 10 0 none))
  , .to (createFunctionConst (createFunctionSymbol "tick"
      (.to (createFunctionType "@tick" (.to (sysTypeIndex "integer")) 0 none))
      0 none 10 0 none))
  , .to (createFunctionConst (createFunctionSymbol "integer_to_string"
      (.to (createFunctionType "@integer_to_string" (.to (sysTypeIndex "string")) 1
        (some [.to (sysTypeIndex "integer")])))
      1 (some [createVarSymbol "num" (.to sysTypes.Integer)]) 10 0 none)) ]

/-! ## The arena (`playvm.c`, "基于Arena的内存管理机制") -/

/-- The structure `ArenaBlock` with the `size_t` words that were stored in
its memory: `words k` is the word at `k` bytes from the start of the block,
`none` when none was stored there. -/
structure ArenaBlock where
  size : Nat
  offset : Nat
  words : Nat → Option Nat

/-- The structure `Arena` (the static variable `arena`). -/
structure Arena where
  blocks : List ArenaBlock
  numBlocks : Nat
  pos : Int

/-- An address inside the arena: a block and a distance in bytes from the
start of that block. -/
structure ArenaPtr where
  block : Nat
  byteOffset : Nat
  deriving DecidableEq, Repr

/-- Distance in bytes from `block` to `block + k`, for `ArenaBlock* block`. -/
def blockPlus (k : Nat) : Nat :=
  sizeof_ArenaBlock * k

/-- The element `arena.blocks[i]`. -/
def Arena.blockAt (arena : Arena) (i : Int) : Option ArenaBlock :=
  if 0 ≤ i then arena.blocks[i.toNat]? else none

/-- Assignment to the fields of `*arena.blocks[i]`. -/
def Arena.setBlock (arena : Arena) (i : Int) (block : ArenaBlock) : Arena :=
  { arena with blocks := arena.blocks.set i.toNat block }

/-- The function `addArenaBlock`. -/
def addArenaBlock (arena : Arena) (blockSize : Nat) : Arena :=
  { arena with
    numBlocks := arena.numBlocks + 1
    blocks := arena.blocks ++ [{ size := blockSize, offset := 0, words := fun _ => none }] }

/-- The function `initArena`. -/
def initArena : Arena :=
  { addArenaBlock { blocks := [], numBlocks := 0, pos := 0 } ARENA_BLOCK_SIZE with pos := 0 }

/-- The function `allocFromArena`: the address handed out and the arena
afterwards. -/
def allocFromArena (arena : Arena) (size : Nat) : Option (ArenaPtr × Arena) := do
  let cur ← arena.blockAt arena.pos
  let arena :=
    if cur.offset + size + sizeof_size_t > cur.size then
      if arena.pos < (arena.numBlocks : Int) - 1 then
        { arena with pos := arena.pos + 1 }
      else
        addArenaBlock arena ARENA_BLOCK_SIZE
    else arena
  let block ← arena.blockAt arena.pos
  let mem : ArenaPtr :=
    { block := arena.pos.toNat, byteOffset := blockPlus (sizeof_ArenaBlock + block.offset) }
  let lastOffset := block.offset
  let block := { block with offset := block.offset + size }
  let top := blockPlus (sizeof_ArenaBlock + block.offset)
  let block := { block with words := Function.update block.words top (some lastOffset) }
  let block := { block with offset := block.offset + sizeof_size_t }
  some (mem, arena.setBlock arena.pos block)

/-- The function `returnToArena`. -/
def returnToArena (arena : Arena) : Option Arena := do
  let block ← arena.blockAt arena.pos
  let prevOffset ← block.words (blockPlus (sizeof_Arena + block.offset - sizeof_size_t))
  let block := { block with offset := prevOffset }
  let arena := arena.setBlock arena.pos block
  if block.offset = 0 then
    some { arena with pos := arena.pos - 1 }
  else
    some arena

/-! ## Frames (`createStackFrame`, `pushToOpStack`, `popFromOpStack`) -/

/-- The function `createOprandStack`. -/
def createOprandStack (maxOpStackSize : Nat) : OprandStack :=
  { top := some (-1), data := List.replicate maxOpStackSize none }

/-- The function `createStackFrame`.  With the arena the frame is one piece of
`frameSize` bytes of the arena, of which `localVars`, `oprandStack` and
`oprandStack->data` are set to point into it while `oprandStack->top` is not
assigned; otherwise the operand stack comes from `createOprandStack`.  In
both branches no cell of the locals or of the operand stack is assigned. -/
def createStackFrame (useArena : Bool) (arena : Arena) (functionSym : FunctionSymbol) :
    Option (StackFrame × Arena) :=
  if useArena then do
    let (_, arena) ← allocFromArena arena functionSym.frameSize
    some ({ byteCode := functionSym.byteCode
            returnIndex := 0
            localVars := List.replicate functionSym.numVars none
            oprandStack := { data := List.replicate functionSym.opStackSize none, top := none }
            prev := none }, arena)
  else
    some ({ byteCode := functionSym.byteCode
            returnIndex := 0
            localVars := List.replicate functionSym.numVars none
            oprandStack := createOprandStack functionSym.opStackSize
            prev := none }, arena)

/-- The function `deleteStackFrame`. -/
def deleteStackFrame (useArena : Bool) (arena : Arena) (_frame : StackFrame) : Option Arena :=
  if useArena then returnToArena arena else some arena

/-- The function `pushToOpStack`: `data[++top] = value`. -/
def pushToOpStack (frame : StackFrame) (value : VM_NUMBER) : Option StackFrame :=
  match frame.oprandStack.top with
  | none => none
  | some top =>
    if 0 ≤ top + 1 ∧ top + 1 < frame.oprandStack.data.length then
      some { frame with
        oprandStack :=
          { data := frame.oprandStack.data.set (top + 1).toNat (some value)
            top := some (top + 1) } }
    else none

/-- The function `popFromOpStack`: `return data[top--]`. -/
def popFromOpStack (frame : StackFrame) : Option (VM_NUMBER × StackFrame) :=
  match frame.oprandStack.top with
  | none => none
  | some top =>
    if 0 ≤ top then
      match frame.oprandStack.data[top.toNat]? with
      | some (some value) =>
        some (value, { frame with oprandStack := { frame.oprandStack with top := some (top - 1) } })
      | _ => none
    else none

/-- Read of `frame->localVars[i]`. -/
def loadLocal (frame : StackFrame) (i : Nat) : Option VM_NUMBER :=
  match frame.localVars[i]? with
  | some (some value) => some value
  | _ => none

/-- Assignment `frame->localVars[i] = value`. -/
def storeLocal (frame : StackFrame) (i : Nat) (value : VM_NUMBER) : Option StackFrame :=
  if i < frame.localVars.length then
    some { frame with localVars := frame.localVars.set i (some value) }
  else none

/-! ## The stack machine (`execute`) -/

/-- How a run of `execute` ends. -/
inductive Outcome where
  /-- The statement `return code;` was reached, with what had been written to
  the standard output and the arena as it was left. -/
  | returned (code : Int) (stdout : List String) (arena : Arena)
  /-- The run reached an operation on which C places no requirement. -/
  | undefined

/-- The variables of `execute` that live across iterations of its loop, with
the arena, the standard output and the number of `clock()` calls made. -/
structure ExecState where
  arena : Arena
  stdout : List String
  clockCalls : Nat
  functionSym : FunctionSymbol
  frame : StackFrame
  code : List UInt8
  codeIndex : Nat
  opCode : UInt8

/-- What one iteration of the loop of `execute` does. -/
inductive StepResult where
  /-- The statement `continue;` was reached. -/
  | next (st : ExecState)
  /-- The function returned, or its behaviour is undefined. -/
  | done (outcome : Outcome)

/-- The value of `byte1<<8|byte2`. -/
def twoBytes (byte1 byte2 : UInt8) : Nat :=
  byte1.toNat <<< 8 ||| byte2.toNat

/-- The value of `vleft / vright` in C. -/
def cDiv (vleft vright : VM_NUMBER) : Option VM_NUMBER :=
  if vright = 0 then none
  else if vleft = INT_MIN ∧ vright = -1 then none
  else some (Int.tdiv vleft vright)

/-- The statements `codeIndex = index; opCode = code[codeIndex]; continue;`
with the frame as the instruction left it. -/
def fetch (st : ExecState) (frame : StackFrame) (index : Nat) : Option StepResult :=
  match st.code[index]? with
  | some opCode =>
    some (.next { st with frame := frame, codeIndex := index, opCode := opCode })
  | none => none

/-- The instructions that push one value: `pushToOpStack(frame, value);
opCode = code[++codeIndex];` where `index` is the value of `codeIndex` once
the operands of the instruction have been read. -/
def pushAndFetch (st : ExecState) (value : VM_NUMBER) (index : Nat) : Option StepResult := do
  let frame ← pushToOpStack st.frame value
  fetch st frame (index + 1)

/-- The instructions `istore` and `istore_<k>`. -/
def storeAndFetch (st : ExecState) (varIndex : Nat) (index : Nat) : Option StepResult := do
  let (value, frame) ← popFromOpStack st.frame
  let frame ← storeLocal frame varIndex value
  fetch st frame (index + 1)

/-- The instructions `if_icmplt`, `if_icmpge`, `if_icmpgt` and `if_icmple`,
which differ in the comparison `rel vleft vright`. -/
def compareAndBranch (st : ExecState) (rel : VM_NUMBER → VM_NUMBER → Bool) :
    Option StepResult := do
  let byte1 ← st.code[st.codeIndex + 1]?
  let byte2 ← st.code[st.codeIndex + 2]?
  let (vright, frame) ← popFromOpStack st.frame
  let (vleft, frame) ← popFromOpStack frame
  if rel vleft vright then
    fetch st frame (twoBytes byte1 byte2)
  else
    fetch st frame (st.codeIndex + 2 + 1)

/-- The instructions `ifeq` and `ifne`, which differ in the test. -/
def testAndBranch (st : ExecState) (test : VM_NUMBER → Bool) : Option StepResult := do
  let byte1 ← st.code[st.codeIndex + 1]?
  let byte2 ← st.code[st.codeIndex + 2]?
  let (value, frame) ← popFromOpStack st.frame
  if test value then
    fetch st frame (twoBytes byte1 byte2)
  else
    fetch st frame (st.codeIndex + 2 + 1)

/-- The loop `for(int i = paramCount -1; i>= 0; i--)` of `invokestatic`, from
the iteration with `i = n - 1` on: the new frame and the frame of the caller
once the remaining `n` arguments have been moved. -/
def passParams : Nat → StackFrame → StackFrame → Option (StackFrame × StackFrame)
  | 0, frame, lastFrame => some (frame, lastFrame)
  | i + 1, frame, lastFrame => do
    let (value, lastFrame) ← popFromOpStack lastFrame
    let frame ← storeLocal frame i value
    passParams i frame lastFrame

/-- The value of `((FunctionType*)((Symbol*)functionSym)->theType)->numParams`. -/
def paramCountOf (functionSym : FunctionSymbol) : Option Nat :=
  match functionSym.symbol.theType with
  | .to (.FunctionType _ _ _ numParams _) => some numParams
  | _ => none

/-- The value of `((FunctionConst*)bcModule->consts[index])->functionSym`. -/
def functionConstAt (bcModule : BCModule) (index : Nat) : Option FunctionSymbol :=
  match bcModule.consts[index]? with
  | some (.to (.FunctionConst functionSym)) => some functionSym
  | _ => none

/-- The value of `((NumberConst*)bcModule->consts[index])->value`. -/
def numberConstAt (bcModule : BCModule) (index : Nat) : Option Int :=
  match bcModule.consts[index]? with
  | some (.to (.NumberConst value)) => some value
  | _ => none

/-- The cases `ireturn` and `_return`. -/
def doReturn (useArena : Bool) (st : ExecState) (isIreturn : Bool) : Option StepResult := do
  let (retValue, lastFrame) ←
    if isIreturn then popFromOpStack st.frame else some (0, st.frame)
  let arena ← deleteStackFrame useArena st.arena lastFrame
  match lastFrame.prev with
  | none => some (.done (.returned 0 st.stdout arena))
  | some frame =>
    let frame ← if isIreturn then pushToOpStack frame retValue else some frame
    match frame.byteCode with
    | some code =>
      let opCode ← code[frame.returnIndex]?
      some (.next { st with
        arena := arena, frame := frame, code := code
        codeIndex := frame.returnIndex, opCode := opCode })
    | none =>
      some (.done (.returned (-1)
        (st.stdout ++ ["Can not find code for function '" ++ fmt_s st.functionSym.symbol.name ++ "'."])
        arena))

/-- The case `invokestatic`; `clock k` is the value of the call of `clock()`
that `k` calls preceded. -/
def doInvokestatic (useArena : Bool) (clock : Nat → Int) (bcModule : BCModule)
    (st : ExecState) : Option StepResult := do
  let byte1 ← st.code[st.codeIndex + 1]?
  let byte2 ← st.code[st.codeIndex + 2]?
  let functionSym ← functionConstAt bcModule (twoBytes byte1 byte2)
  let st := { st with functionSym := functionSym }
  if strcmp_eq functionSym.symbol.name "println" then
    let (param, frame) ← popFromOpStack st.frame
    let opCode ← st.code[st.codeIndex + 2 + 1]?
    some (.next { st with
      frame := frame, codeIndex := st.codeIndex + 2 + 1, opCode := opCode
      stdout := st.stdout ++ [fmt_d param ++ "\n"] })
  else if strcmp_eq functionSym.symbol.name "tick" then
    let opCode ← st.code[st.codeIndex + 2 + 1]?
    let tick := toVM_NUMBER (clock st.clockCalls)
    let frame ← pushToOpStack st.frame tick
    some (.next { st with
      frame := frame, codeIndex := st.codeIndex + 2 + 1, opCode := opCode
      clockCalls := st.clockCalls + 1 })
  else
    let lastFrame := { st.frame with returnIndex := st.codeIndex + 2 + 1 }
    let (frame, arena) ← createStackFrame useArena st.arena functionSym
    let paramCount ← paramCountOf functionSym
    let (frame, lastFrame) ← passParams paramCount frame lastFrame
    let frame := { frame with prev := some lastFrame }
    match frame.byteCode with
    | some code =>
      let opCode ← code[0]?
      some (.next { st with
        arena := arena, frame := frame, code := code, codeIndex := 0, opCode := opCode })
    | none =>
      some (.done (.returned (-1)
        (st.stdout ++ ["Can not find code for function '" ++ fmt_s functionSym.symbol.name ++ "'."])
        arena))

/-- One iteration of `while(1){ switch (opCode){ ... } }`; `none` is undefined
behaviour. -/
def stepCase (useArena : Bool) (clock : Nat → Int) (bcModule : BCModule) (st : ExecState) :
    Option StepResult :=
  match OpCode.ofByte st.opCode with
  | some .iconst_0 => pushAndFetch st 0 st.codeIndex
  | some .iconst_1 => pushAndFetch st 1 st.codeIndex
  | some .iconst_2 => pushAndFetch st 2 st.codeIndex
  | some .iconst_3 => pushAndFetch st 3 st.codeIndex
  | some .iconst_4 => pushAndFetch st 4 st.codeIndex
  | some .iconst_5 => pushAndFetch st 5 st.codeIndex
  | some .bipush => do
    let byte ← st.code[st.codeIndex + 1]?
    pushAndFetch st byte.toNat (st.codeIndex + 1)
  | some .sipush => do
    let byte1 ← st.code[st.codeIndex + 1]?
    let byte2 ← st.code[st.codeIndex + 2]?
    pushAndFetch st (twoBytes byte1 byte2) (st.codeIndex + 2)
  | some .ldc => do
    let constIndex ← st.code[st.codeIndex + 1]?
    let value ← numberConstAt bcModule constIndex.toNat
    pushAndFetch st value (st.codeIndex + 1)
  | some .iload => do
    let varIndex ← st.code[st.codeIndex + 1]?
    let value ← loadLocal st.frame varIndex.toNat
    pushAndFetch st value (st.codeIndex + 1)
  | some .iload_0 => do
    let value ← loadLocal st.frame 0
    pushAndFetch st value st.codeIndex
  | some .iload_1 => do
    let value ← loadLocal st.frame 1
    pushAndFetch st value st.codeIndex
  | some .iload_2 => do
    let value ← loadLocal st.frame 2
    pushAndFetch st value st.codeIndex
  | some .iload_3 => do
    let value ← loadLocal st.frame 3
    pushAndFetch st value st.codeIndex
  | some .istore => do
    let varIndex ← st.code[st.codeIndex + 1]?
    storeAndFetch st varIndex.toNat (st.codeIndex + 1)
  | some .istore_0 => storeAndFetch st 0 st.codeIndex
  | some .istore_1 => storeAndFetch st 1 st.codeIndex
  | some .istore_2 => storeAndFetch st 2 st.codeIndex
  | some .istore_3 => storeAndFetch st 3 st.codeIndex
  | some .iadd => do
    let (x, frame) ← popFromOpStack st.frame
    let (y, frame) ← popFromOpStack frame
    pushAndFetch { st with frame := frame } (toVM_NUMBER (x + y)) st.codeIndex
  | some .isub => do
    let (vright, frame) ← popFromOpStack st.frame
    let (vleft, frame) ← popFromOpStack frame
    pushAndFetch { st with frame := frame } (toVM_NUMBER (vleft - vright)) st.codeIndex
  | some .imul => do
    let (x, frame) ← popFromOpStack st.frame
    let (y, frame) ← popFromOpStack frame
    pushAndFetch { st with frame := frame } (toVM_NUMBER (x * y)) st.codeIndex
  | some .idiv => do
    let (vright, frame) ← popFromOpStack st.frame
    let (vleft, frame) ← popFromOpStack frame
    let quotient ← cDiv vleft vright
    pushAndFetch { st with frame := frame } quotient st.codeIndex
  | some .iinc => do
    let varIndex ← st.code[st.codeIndex + 1]?
    let offset ← st.code[st.codeIndex + 2]?
    let value ← loadLocal st.frame varIndex.toNat
    let frame ← storeLocal st.frame varIndex.toNat (toVM_NUMBER (value + offset.toNat))
    fetch st frame (st.codeIndex + 2 + 1)
  | some .ireturn => doReturn useArena st true
  | some ._return => doReturn useArena st false
  | some .invokestatic => doInvokestatic useArena clock bcModule st
  | some .ifeq => testAndBranch st (fun value => value == 0)
  | some .ifne => testAndBranch st (fun value => value != 0)
  | some .if_icmplt => compareAndBranch st (fun vleft vright => vleft < vright)
  | some .if_icmpge => compareAndBranch st (fun vleft vright => vleft ≥ vright)
  | some .if_icmpgt => compareAndBranch st (fun vleft vright => vleft > vright)
  | some .if_icmple => compareAndBranch st (fun vleft vright => vleft ≤ vright)
  | some ._goto => do
    let byte1 ← st.code[st.codeIndex + 1]?
    let byte2 ← st.code[st.codeIndex + 2]?
    fetch st st.frame (twoBytes byte1 byte2)
  | _ =>
    some (.done (.returned (-2)
      (st.stdout ++ ["Unknown op code: " ++ fmt_x st.opCode ++ "."]) st.arena))

/-- One iteration of the loop of `execute`. -/
def step (useArena : Bool) (clock : Nat → Int) (bcModule : BCModule) (st : ExecState) :
    StepResult :=
  match stepCase useArena clock bcModule st with
  | some result => result
  | none => .done .undefined

/-- The loop `while(1)` of `execute`, for at most `fuel` iterations. -/
def run (useArena : Bool) (clock : Nat → Int) (bcModule : BCModule) :
    Nat → ExecState → Option Outcome
  | 0, _ => none
  | fuel + 1, st =>
    match step useArena clock bcModule st with
    | .next st => run useArena clock bcModule fuel st
    | .done outcome => some outcome

/-- The state in which `execute` enters its loop, or the outcome when it does
not enter it. -/
def enter (useArena : Bool) (arena : Arena) (bcModule : BCModule) : StepResult :=
  match bcModule._main with
  | .indeterminate => .done .undefined
  | .null => .done (.returned (-1) ["Can not find main function."] arena)
  | .to functionSym =>
    match createStackFrame useArena arena functionSym with
    | none => .done .undefined
    | some (frame, arena) =>
      match functionSym.byteCode with
      | none => .done (.returned (-1) ["Can not find code for 'main'."] arena)
      | some code =>
        match code[0]? with
        | none => .done .undefined
        | some opCode =>
          .next { arena := arena, stdout := [], clockCalls := 0, functionSym := functionSym
                  frame := frame, code := code, codeIndex := 0, opCode := opCode }

/-- The function `execute`, its loop running for at most `fuel` iterations:
`none` when the loop has not been left by then. -/
def execute (useArena : Bool) (clock : Nat → Int) (arena : Arena) (bcModule : BCModule)
    (fuel : Nat) : Option Outcome :=
  match enter useArena arena bcModule with
  | .next st => run useArena clock bcModule fuel st
  | .done outcome => some outcome

/-! ## Runs and the chain of frames -/

/-- The frames linked from `frame` through `prev`, nearest first. -/
def StackFrame.callers : StackFrame → List StackFrame
  | ⟨_, _, _, _, none⟩ => []
  | ⟨_, _, _, _, some frame⟩ => frame :: frame.callers

/-- The state after `n` iterations of the loop of `execute`, `none` when the
loop is left before. -/
def stepsFrom (useArena : Bool) (clock : Nat → Int) (bcModule : BCModule) :
    Nat → ExecState → Option ExecState
  | 0, st => some st
  | n + 1, st =>
    match step useArena clock bcModule st with
    | .next st => stepsFrom useArena clock bcModule n st
    | .done _ => none

/-- The state after `n` iterations of the loop of `execute`, and `st` itself
when the loop is left before. -/
def stateAfter (useArena : Bool) (clock : Nat → Int) (bcModule : BCModule)
    (n : Nat) (st : ExecState) : ExecState :=
  (stepsFrom useArena clock bcModule n st).getD st

/-- The variable `opCode` holds the byte of `code` at the current instruction
index `codeIndex`. -/
def ExecState.Fetched (st : ExecState) : Prop :=
  st.code[st.codeIndex]? = some st.opCode

/-! ## The programs of the end-to-end scenarios -/

/-- A function type as `readFunctionType` and `buildTypes` leave it: the
return type and the parameter types are entries of the type table. -/
def loadedFunctionType (typeName : String) (returnType : Nat) (paramTypes : List Nat) : PType :=
  .FunctionType typeName .FunctionT (.to returnType) paramTypes.length
    (some (paramTypes.map Ptr.to))

/-- The function `add(a,b) { iload_0 iload_1 iadd ireturn }`. -/
def addFunction : FunctionSymbol :=
  createFunctionSymbol "add" (.to (loadedFunctionType "@add" 6 [6, 6])) 2
    (some [createVarSymbol "a" (.to sysTypes.Integer), createVarSymbol "b" (.to sysTypes.Integer)])
    20 4 (some [0x1a, 0x1b, 0x60, 0xac])

/-- A function `main` without parameters, with `numVars` integer locals and
the given bytecode, as `readFunctionSymbol` builds it. -/
def mainFunction (numVars : Nat) (byteCode : List UInt8) : FunctionSymbol :=
  createFunctionSymbol "main" (.to (loadedFunctionType "@main" 8 [])) numVars
    (some (List.replicate numVars (createVarSymbol "v" (.to sysTypes.Integer))))
    20 byteCode.length (some byteCode)

/-- The module with the built-in functions in slots 0 to 2, the user function
`callee` in slot 3 and the given `main` in slot 4; its user types are the
function types of the two. -/
def scenarioModuleWith (callee main : FunctionSymbol) : BCModule :=
  createBCModule 5
    (addSystemFunctions ++
      [.to (createFunctionConst callee), .to (createFunctionConst main)])
    (.to main) 11
    (addSystemTypes ++ [callee.symbol.theType, main.symbol.theType])

/-- The module with the built-in functions in slots 0 to 2, `add` in slot 3
and the given `main` in slot 4. -/
def scenarioModule (main : FunctionSymbol) : BCModule :=
  scenarioModuleWith addFunction main

/-- The function `noop() { _return }`. -/
def noopFunction : FunctionSymbol :=
  createFunctionSymbol "noop" (.to (loadedFunctionType "@noop" 8 [])) 0 (some [])
    20 1 (some [0xb1])

/-- Bytecode `invokestatic noop; _return`, `noop` being in slot 3. -/
def noopCallCode : List UInt8 :=
  [0xb8, 0x00, 0x03, 0xb1]

/-- Bytecode `bipush 3; bipush 4; iadd; invokestatic println; _return`. -/
def additionCode : List UInt8 :=
  [0x10, 3, 0x10, 4, 0x60, 0xb8, 0x00, 0x00, 0xb1]

/-- Bytecode `bipush a; bipush b; invokestatic add; invokestatic println;
_return`. -/
def callCode (a b : UInt8) : List UInt8 :=
  [0x10, a, 0x10, b, 0xb8, 0x00, 0x03, 0xb8, 0x00, 0x00, 0xb1]

/-- Bytecode `iconst_0 istore_0 iconst_1 istore_1 L: iload_0 iload_1 iadd
istore_0 iinc 1,1 iload_1 bipush n if_icmple L; iload_0 invokestatic println
_return`, where `L` is the index 4. -/
def loopCode (n : UInt8) : List UInt8 :=
  [0x03, 0x3b, 0x04, 0x3c, 0x1a, 0x1b, 0x60, 0x3b, 0x84, 1, 1, 0x1b, 0x10, n, 0xa4, 0x00, 0x04,
   0x1a, 0xb8, 0x00, 0x00, 0xb1]

/-- Bytecode `iconst_k ifeq L1; bipush 1; invokestatic println; _goto L2;
L1: bipush 2; invokestatic println; L2: _return`, where `iconst` is the byte
of `iconst_k`, `L1` the index 12 and `L2` the index 17. -/
def branchCode (iconst : UInt8) : List UInt8 :=
  [iconst, 0x99, 0x00, 0x0c, 0x10, 1, 0xb8, 0x00, 0x00, 0xa7, 0x00, 0x11,
   0x10, 2, 0xb8, 0x00, 0x00, 0xb1]

/-- The state of `execute` on `main` with the given bytecode and no caller,
at `codeIndex`, with the given locals and the given values on the operand
stack (bottom first), the operand stack having 20 cells. -/
def mainState (byteCode : List UInt8) (codeIndex : Nat) (opCode : UInt8)
    (localVars : List (Option VM_NUMBER)) (values : List VM_NUMBER) : ExecState :=
  { arena := initArena
    stdout := []
    clockCalls := 0
    functionSym := mainFunction localVars.length byteCode
    frame :=
      { byteCode := some byteCode
        returnIndex := 0
        localVars := localVars
        oprandStack :=
          { data := values.map some ++ List.replicate (20 - values.length) none
            top := some ((values.length : Int) - 1) }
        prev := none }
    code := byteCode
    codeIndex := codeIndex
    opCode := opCode }

/-- The state of `main` at the `invokestatic add` of `bipush 20; bipush 22;
invokestatic add; invokestatic println; _return`. -/
def addCallSite : ExecState :=
  mainState (callCode 20 22) 4 0xb8 [] [20, 22]

/-- The state of `main` at the `invokestatic noop` of `invokestatic noop;
_return`. -/
def noopCallSite : ExecState :=
  mainState noopCallCode 0 0xb8 [] []

/-- The state of `main` of the loop program `loopCode n` without the arena
at an `iload_0` (index 4, the head of the loop, or index 17, after the loop),
with `s` in local 0 and `i` in local 1 and an empty operand stack whose two
lowest cells hold `c0` and `c1` from earlier pushes. -/
def loopState (n : UInt8) (codeIndex : Nat) (s i : VM_NUMBER) (c0 c1 : Option VM_NUMBER) :
    ExecState :=
  { arena := initArena
    stdout := []
    clockCalls := 0
    functionSym := mainFunction 2 (loopCode n)
    frame :=
      { byteCode := some (loopCode n)
        returnIndex := 0
        localVars := [some s, some i]
        oprandStack := { data := c0 :: c1 :: List.replicate 18 none, top := some (-1) }
        prev := none }
    code := loopCode n
    codeIndex := codeIndex
    opCode := 0x1a }

/-! ## Definitions that follow the words of the specification -/

/-- The value of a byte read as a signed 8-bit integer ("signed-ext"). -/
def signExtend8 (d : UInt8) : Int :=
  if d.toNat < 128 then d.toNat else (d.toNat : Int) - 256

/-- The bytes to which the opcode table of the specification (section 4.4)
gives an effect: `iconst_<k>`, `bipush`, `sipush`, `ldc`, `iload`,
`iload_<k>`, `istore`, `istore_<k>`, `iadd`, `isub`, `imul`, `idiv`, `iinc`,
`ifeq`, `ifne`, `if_icmplt`, `if_icmpge`, `if_icmpgt`, `if_icmple`, `_goto`,
`ireturn`, `_return` and `invokestatic`. -/
def executedOpcodes : List UInt8 :=
  [0x03, 0x04, 0x05, 0x06, 0x07, 0x08, 0x10, 0x11, 0x12, 0x15, 0x1a, 0x1b, 0x1c, 0x1d,
   0x36, 0x3b, 0x3c, 0x3d, 0x3e, 0x60, 0x64, 0x68, 0x6c, 0x84, 0x99, 0x9a,
   0xa1, 0xa2, 0xa3, 0xa4, 0xa7, 0xac, 0xb1, 0xb8]

/-- The members of the enumeration `OpCode` that the specification reserves
or leaves out of its opcode table. -/
def reservedOpcodes : List OpCode :=
  [.sadd, .sldc, .lcmp, .iflt, .ifge, .ifgt, .ifle, .if_icmpeq, .if_icmpne]

/-! ## Programs and functions without code -/

/-- A function `idle` without parameters, without locals and without
bytecode, as `readFunctionSymbol` builds it from `numByteCodes = 0`. -/
def idleFunction : FunctionSymbol :=
  createFunctionSymbol "idle" (.to (loadedFunctionType "@idle" 8 [])) 0 (some []) 20 0 none

/-- The `char` that a byte of the stream becomes in a string. -/
def byteToChar (b : UInt8) : Char :=
  Char.ofNat b.toNat

/-- The loop `for (int i = 0; i< len; i++) str[i] = bc[(*index)++];` of
`readString`, with `n` iterations left. -/
def readChars (bc : List UInt8) : Nat → Nat → Option (List Char)
  | 0, _ => some []
  | n + 1, index => do
    let b ← bc[index]?
    let rest ← readChars bc n (index + 1)
    some (byteToChar b :: rest)

/-- The function `readString`: the string read (the `len` characters stored
before the terminating zero) and the value of `*index` afterwards. -/
def readString (bc : List UInt8) (index : Nat) : Option (String × Nat) := do
  let len ← bc[index]?
  let str ← readChars bc len.toNat (index + 1)
  some (String.mk str, index + 1 + len.toNat)

/-- The loops `for (int i = 0; i < n; i++) names[i] = readString(bc, index);`
of the functions that read a type, with `n` iterations left. -/
def readStrings (bc : List UInt8) : Nat → Nat → Option (List String × Nat)
  | 0, index => some ([], index)
  | n + 1, index => do
    let (str, index) ← readString bc index
    let (rest, index) ← readStrings bc n index
    some (str :: rest, index)

/-- The three structures `SimpleTypeInfo`, `FunctionTypeInfo` and
`UnionTypeInfo`, which hold the names that a type refers to until
`buildTypes` resolves them. -/
inductive TypeInfo where
  | SimpleTypeInfo (numUpperTypes : Nat) (upperTypes : List String)
  | FunctionTypeInfo (returnType : String) (numParams : Nat) (paramTypes : List String)
  | UnionTypeInfo (numTypes : Nat) (types : List String)
  deriving Repr

/-- The function `createSimpleTypeInfo`. -/
def createSimpleTypeInfo (numUpperTypes : Nat) (upperTypes : List String) : TypeInfo :=
  .SimpleTypeInfo numUpperTypes upperTypes

/-- The function `createFuntionTypeInfo`. -/
def createFuntionTypeInfo (returnType : String) (numParams : Nat) (paramTypes : List String) :
    TypeInfo :=
  .FunctionTypeInfo returnType numParams paramTypes

/-- The function `createUnionTypeInfo`. -/
def createUnionTypeInfo (numTypes : Nat) (unionTypes : List String) : TypeInfo :=
  .UnionTypeInfo numTypes unionTypes

/-- The arrays `typeNames`, `types` and `typeInfos` that `readBCModule`
allocates and passes to the functions that read and build the types.  An
entry of `typeNames` or `typeInfos` is `none`, and one of `types` is
`Ptr.indeterminate`, as long as it has not been assigned. -/
structure TypeArrays where
  typeNames : List (Option String)
  types : List (Ptr PType)
  typeInfos : List (Option TypeInfo)

/-- The assignment `array[i] = x`; `none` when `i` is outside the array. -/
def store {α : Type} (array : List α) (i : Nat) (x : α) : Option (List α) :=
  if i < array.length then some (array.set i x) else none

/-- The three assignments that end `readSimpleType`, `readFunctionType` and
`readUnionType`: `typeNames[typeIndex] = typeName; types[typeIndex] = t;
typeInfos[typeIndex-SYS_TYPES] = typeInfo;`. -/
def storeType (arrays : TypeArrays) (typeIndex : Nat) (typeName : String) (t : PType)
    (typeInfo : TypeInfo) : Option TypeArrays := do
  let typeNames ← store arrays.typeNames typeIndex (some typeName)
  let types ← store arrays.types typeIndex (.to t)
  let typeInfos ←
    if typeIndex < SYS_TYPES then none
    else store arrays.typeInfos (typeIndex - SYS_TYPES) (some typeInfo)
  some { typeNames := typeNames, types := types, typeInfos := typeInfos }

/-- The function `readSimpleType`. -/
def readSimpleType (bc : List UInt8) (index typeIndex : Nat) (arrays : TypeArrays) :
    Option (Nat × TypeArrays) := do
  let (typeName, index) ← readString bc index
  let numUpperTypes ← bc[index]?
  let (upperTypes, index) ← readStrings bc numUpperTypes.toNat (index + 1)
  let simpleType := createSimpleType typeName numUpperTypes.toNat none
  let typeInfo := createSimpleTypeInfo numUpperTypes.toNat upperTypes
  let arrays ← storeType arrays typeIndex typeName simpleType typeInfo
  some (index, arrays)

/-- The function `readFunctionType`. -/
def readFunctionType (bc : List UInt8) (index typeIndex : Nat) (arrays : TypeArrays) :
    Option (Nat × TypeArrays) := do
  let (typeName, index) ← readString bc index
  let (returnType, index) ← readString bc index
  let numParams ← bc[index]?
  let (paramTypes, index) ← readStrings bc numParams.toNat (index + 1)
  let functionType := createFunctionType typeName .null numParams.toNat none
  let typeInfo := createFuntionTypeInfo returnType numParams.toNat paramTypes
  let arrays ← storeType arrays typeIndex typeName functionType typeInfo
  some (index, arrays)

/-- The function `readUnionType`. -/
def readUnionType (bc : List UInt8) (index typeIndex : Nat) (arrays : TypeArrays) :
    Option (Nat × TypeArrays) := do
  let (typeName, index) ← readString bc index
  let numTypes ← bc[index]?
  let (unionTypes, index) ← readStrings bc numTypes.toNat (index + 1)
  let unionType := createUnionType typeName numTypes.toNat none
  let typeInfo := createUnionTypeInfo numTypes.toNat unionTypes
  let arrays ← storeType arrays typeIndex typeName unionType typeInfo
  some (index, arrays)

/-- The value `types[i]` as a reference: the index `i` stands for the pointer
to the object that `types[i]` points to. -/
def typeRefAt (types : List (Ptr PType)) (i : Nat) : Option TypeRef :=
  match types[i]? with
  | some (.to _) => some (.to i)
  | some .null => some .null
  | some .indeterminate => some .indeterminate
  | none => none

/-- The loop of `getType` from the index `i` on, with `n` iterations left;
after the loop the function returns `NULL`. -/
def getTypeFrom (typeName : String) (typeNames : List (Option String))
    (types : List (Ptr PType)) : Nat → Nat → Option TypeRef
  | 0, _ => some .null
  | n + 1, i =>
    match typeNames[i]? with
    | some (some name) =>
      if strcmp_eq typeName name then typeRefAt types i
      else getTypeFrom typeName typeNames types n (i + 1)
    | _ => none

/-- The function `getType`. -/
def getType (typeName : String) (numTypes : Nat) (typeNames : List (Option String))
    (types : List (Ptr PType)) : Option TypeRef :=
  getTypeFrom typeName typeNames types numTypes 0

/-- The loops `for (int j = 0; j < n; j++) refs[j] = getType(names[j],
numTypes, typeNames, types);` of `buildTypes`, from the index `j` on with `n`
iterations left. -/
def getTypes (names : List String) (numTypes : Nat) (typeNames : List (Option String))
    (types : List (Ptr PType)) : Nat → Nat → Option (List TypeRef)
  | 0, _ => some []
  | n + 1, j => do
    let name ← names[j]?
    let t ← getType name numTypes typeNames types
    let rest ← getTypes names numTypes typeNames types n (j + 1)
    some (t :: rest)

/-- One iteration of the loop of `buildTypes`: the type `types[i+SYS_TYPES]`
with its references resolved.  The branch is chosen by the tag `kind`; the
branch for `SimpleT` reads the object through `SimpleType*` and its
information through `SimpleTypeInfo*`, which for an object that is a
`UnionType` with a `UnionTypeInfo` are the fields at the same places (an
`int` and a pointer after the header, in both). -/
def buildType (numTypes i : Nat) (arrays : TypeArrays) : Option PType := do
  let t ← (match arrays.types[i + SYS_TYPES]? with
    | some (.to t) => some t
    | _ => none)
  let typeInfo ← (match arrays.typeInfos[i]? with
    | some (some typeInfo) => some typeInfo
    | _ => none)
  match t.kind with
  | .SimpleT =>
    match t, typeInfo with
    | .SimpleType name kind numUpperTypes _, .SimpleTypeInfo num names => do
      let upperTypes ←
        getTypes names (numTypes + SYS_TYPES) arrays.typeNames arrays.types num 0
      some (.SimpleType name kind numUpperTypes (some upperTypes))
    | .UnionType name kind numTypes' _, .UnionTypeInfo num names => do
      let types ←
        getTypes names (numTypes + SYS_TYPES) arrays.typeNames arrays.types num 0
      some (.UnionType name kind numTypes' (some types))
    | _, _ => none
  | .FunctionT =>
    match t, typeInfo with
    | .FunctionType name kind _ numParams _, .FunctionTypeInfo returnName num names => do
      let returnType ← getType returnName (numTypes + SYS_TYPES) arrays.typeNames arrays.types
      let paramTypes ←
        getTypes names (numTypes + SYS_TYPES) arrays.typeNames arrays.types num 0
      some (.FunctionType name kind returnType numParams (some paramTypes))
    | _, _ => none
  | .UnionT =>
    match t, typeInfo with
    | .UnionType name kind numTypes' _, .UnionTypeInfo num names => do
      let types ←
        getTypes names (numTypes + SYS_TYPES) arrays.typeNames arrays.types num 0
      some (.UnionType name kind numTypes' (some types))
    | _, _ => none

/-- The loop of `buildTypes` from the index `i` on, with `n` iterations left:
the array `types` afterwards. -/
def buildTypesFrom (numTypes : Nat) : Nat → Nat → TypeArrays → Option (List (Ptr PType))
  | 0, _, arrays => some arrays.types
  | n + 1, i, arrays => do
    let t ← buildType numTypes i arrays
    let types ← store arrays.types (i + SYS_TYPES) (.to t)
    buildTypesFrom numTypes n (i + 1) { arrays with types := types }

/-- The function `buildTypes`: the array `types` afterwards. -/
def buildTypes (numTypes : Nat) (arrays : TypeArrays) : Option (List (Ptr PType)) :=
  buildTypesFrom numTypes (numTypes - SYS_TYPES) 0 arrays

/-- The object that a `Type*` returned by `getType` points to, for the field
`theType` of a symbol, which is kept with its object. -/
def typeAt (types : List (Ptr PType)) : TypeRef → Ptr PType
  | .to i => types.getD i .indeterminate
  | .null => .null
  | .indeterminate => .indeterminate

/-- The function `readVarSymbol`. -/
def readVarSymbol (bc : List UInt8) (index numTypes : Nat) (typeNames : List (Option String))
    (types : List (Ptr PType)) : Option (VarSymbol × Nat) := do
  let (varName, index) ← readString bc index
  let (typeName, index) ← readString bc index
  let varType ← getType typeName numTypes typeNames types
  let varSymbol := createVarSymbol varName (typeAt types varType)
  some (varSymbol, index)

/-- The loop `for (int i = 0; i < numVars; i++) vars[i] = readVarSymbol(...);`
of `readFunctionSymbol`, with `n` iterations left. -/
def readVarSymbols (bc : List UInt8) (numTypes : Nat) (typeNames : List (Option String))
    (types : List (Ptr PType)) : Nat → Nat → Option (List VarSymbol × Nat)
  | 0, index => some ([], index)
  | n + 1, index => do
    let (varSymbol, index) ← readVarSymbol bc index numTypes typeNames types
    let (rest, index) ← readVarSymbols bc numTypes typeNames types n index
    some (varSymbol :: rest, index)

/-- The call `memcpy(byteCode, bc + *index, numByteCodes)`: the bytes copied. -/
def copyBytes (bc : List UInt8) (index numByteCodes : Nat) : Option (List UInt8) :=
  if index + numByteCodes ≤ bc.length then some ((bc.drop index).take numByteCodes) else none

/-- The function `readFunctionSymbol`. -/
def readFunctionSymbol (bc : List UInt8) (index numTypes : Nat)
    (typeNames : List (Option String)) (types : List (Ptr PType)) :
    Option (FunctionSymbol × Nat) := do
  let (functionName, index) ← readString bc index
  let (typeName, index) ← readString bc index
  let functionType ← getType typeName numTypes typeNames types
  let _opStackSize ← bc[index]?
  let index := index + 1
  let opStackSize := 20
  let numVars ← bc[index]?
  let index := index + 1
  let (vars, index) ← readVarSymbols bc numTypes typeNames types numVars.toNat index
  let numByteCodes ← bc[index]?
  let index := index + 1
  let (byteCode, index) ←
    if numByteCodes.toNat = 0 then some (none, index)
    else do
      let byteCode ← copyBytes bc index numByteCodes.toNat
      some (some byteCode, index + numByteCodes.toNat)
  let functionSym := createFunctionSymbol functionName (typeAt types functionType)
    numVars.toNat (some vars) opStackSize numByteCodes.toNat byteCode
  some (functionSym, index)

/-- The names that `addSystemTypes` stores in the first `SYS_TYPES` entries of
`typeNames`. -/
def systemTypeNames : List (Option String) :=
  [ some "any", some "number", some "string", some "boolean", some "null", some "undefined"
  , some "integer", some "decimal", some "void" ]

/-- What `readBCModule` has at hand while it reads the types: the index into
the stream, the three arrays and the texts printed. -/
structure TypesState where
  index : Nat
  arrays : TypeArrays
  stdout : List String

/-- The loop `for (int i = 0; i < numTypes; i++)` of `readBCModule` from the
index `i` on, with `n` iterations left. -/
def readTypes (bc : List UInt8) : Nat → Nat → TypesState → Option TypesState
  | 0, _, st => some st
  | n + 1, i, st => do
    let typeKind ← bc[st.index]?
    let index := st.index + 1
    let st ←
      if typeKind.toNat = 1 then do
        let (index, arrays) ← readSimpleType bc index (i + SYS_TYPES) st.arrays
        some { st with index := index, arrays := arrays }
      else if typeKind.toNat = 2 then do
        let (index, arrays) ← readFunctionType bc index (i + SYS_TYPES) st.arrays
        some { st with index := index, arrays := arrays }
      else if typeKind.toNat = 3 then do
        let (index, arrays) ← readUnionType bc index (i + SYS_TYPES) st.arrays
        some { st with index := index, arrays := arrays }
      else
        some { st with
          index := index
          stdout := st.stdout ++ ["Unsupported type kind: " ++ fmt_d typeKind.toNat ++ "\n"] }
    readTypes bc n (i + 1) st

/-- What `readBCModule` has at hand while it reads the constants: the index
into the stream, the array `consts`, the variable `_main` and the texts
printed. -/
structure ConstsState where
  index : Nat
  consts : List (Ptr Const)
  _main : Ptr FunctionSymbol
  stdout : List String

/-- The loop `for (int i = 0; i< numConsts; i++)` of `readBCModule` from the
index `i` on, with `n` iterations left; `numTypes`, `typeNames` and `types`
are the arguments it gives `readFunctionSymbol`. -/
def readConsts (bc : List UInt8) (numTypes : Nat) (typeNames : List (Option String))
    (types : List (Ptr PType)) : Nat → Nat → ConstsState → Option ConstsState
  | 0, _, st => some st
  | n + 1, i, st => do
    let constType ← bc[st.index]?
    let index := st.index + 1
    let st ←
      if constType.toNat = 1 then do
        let value ← bc[index]?
        let numberConst := createNumberConst value.toNat
        let consts ← store st.consts (i + SYS_FUNS) (.to numberConst)
        some { st with index := index + 1, consts := consts }
      else if constType.toNat = 2 then do
        let (strValue, index) ← readString bc index
        let stringConst := createStringConst strValue
        let consts ← store st.consts (i + SYS_FUNS) (.to stringConst)
        some { st with index := index, consts := consts }
      else if constType.toNat = 3 then do
        let (functionSym, index) ← readFunctionSymbol bc index numTypes typeNames types
        let functionConst := createFunctionConst functionSym
        let consts ← store st.consts (i + SYS_FUNS) (.to functionConst)
        let _main :=
          if strcmp_eq functionSym.symbol.name "main" then .to functionSym else st._main
        some { st with index := index, consts := consts, _main := _main }
      else
        some { st with
          index := index
          stdout := st.stdout ++ ["Unsupported const type: " ++ fmt_d constType.toNat] }
    readConsts bc numTypes typeNames types n (i + 1) st

/-- The function `readBCModule`: the module and the texts printed.  The
variable `_main` is declared without a value, so that it is `indeterminate`
when no function named `main` is read; `none` is undefined behaviour, among
which reading past the end of `bc`. -/
def readBCModule (bc : List UInt8) : Option (BCModule × List String) := do
  let (_, index) ← readString bc 0
  let numTypes ← bc[index]?
  let index := index + 1
  let arrays : TypeArrays :=
    { typeNames := systemTypeNames ++ List.replicate numTypes.toNat none
      types := addSystemTypes ++ List.replicate numTypes.toNat .indeterminate
      typeInfos := List.replicate numTypes.toNat none }
  let st ← readTypes bc numTypes.toNat 0 { index := index, arrays := arrays, stdout := [] }
  let types ← buildTypes (numTypes.toNat + SYS_TYPES) st.arrays
  let (_, index) ← readString bc st.index
  let numConsts ← bc[index]?
  let index := index + 1
  let consts := addSystemFunctions ++ List.replicate numConsts.toNat .indeterminate
  let st' ← readConsts bc (numTypes.toNat + SYS_TYPES) st.arrays.typeNames types
    numConsts.toNat 0
    { index := index, consts := consts, _main := .indeterminate, stdout := st.stdout }
  some (createBCModule (numConsts.toNat + SYS_FUNS) st'.consts st'._main
    (numTypes.toNat + SYS_TYPES) types, st'.stdout)

/-! ## The grammar of the byte stream (specification, section 4.1) -/

/-- A string of the stream: its bytes, without the length that precedes them. -/
abbrev ByteString := List UInt8

/-- The production `str`: `u8 len` followed by `len` bytes. -/
def encodeStr (s : ByteString) : List UInt8 :=
  UInt8.ofNat s.length :: s

/-- The production `str*(n)`. -/
def encodeStrs : List ByteString → List UInt8
  | [] => []
  | s :: rest => encodeStr s ++ encodeStrs rest

/-- The production `Type` without its kind byte: a simple type with the names
of its upper types, a function type with the names of its return type and of
its parameter types, or a union type with the names of its members. -/
inductive TypeDecl where
  | SimpleType (name : ByteString) (upperTypes : List ByteString)
  | FunctionType (name returnTypeName : ByteString) (paramTypes : List ByteString)
  | UnionType (name : ByteString) (members : List ByteString)
  deriving Repr, DecidableEq

/-- The production `VarDecl`. -/
structure VarDecl where
  name : ByteString
  typeName : ByteString
  deriving Repr, DecidableEq

/-- The production `FunctionBody`. -/
structure FunctionBody where
  name : ByteString
  typeName : ByteString
  opStackSize : UInt8
  vars : List VarDecl
  byteCode : List UInt8
  deriving Repr, DecidableEq

/-- The production `Const` without its kind byte. -/
inductive ConstDecl where
  | NumberConst (value : UInt8)
  | StringConst (value : ByteString)
  | FunctionConst (body : FunctionBody)
  deriving Repr, DecidableEq

/-- The production `Module`: the user types and the user constants. -/
structure ModuleDecl where
  types : List TypeDecl
  consts : List ConstDecl
  deriving Repr, DecidableEq

/-- The name of a declared type. -/
def TypeDecl.name : TypeDecl → ByteString
  | .SimpleType name _ => name
  | .FunctionType name _ _ => name
  | .UnionType name _ => name

/-- The kind byte of a declared type. -/
def TypeDecl.kindByte : TypeDecl → UInt8
  | .SimpleType _ _ => 1
  | .FunctionType _ _ _ => 2
  | .UnionType _ _ => 3

/-- The names that a declared type refers to, in the order of the stream:
upper types; return type, then parameter types; members. -/
def TypeDecl.refNames : TypeDecl → List ByteString
  | .SimpleType _ upperTypes => upperTypes
  | .FunctionType _ returnTypeName paramTypes => returnTypeName :: paramTypes
  | .UnionType _ members => members

/-- The bytes of a `Type`. -/
def encodeType : TypeDecl → List UInt8
  | .SimpleType name upperTypes =>
    1 :: (encodeStr name ++ UInt8.ofNat upperTypes.length :: encodeStrs upperTypes)
  | .FunctionType name returnTypeName paramTypes =>
    2 :: (encodeStr name ++ (encodeStr returnTypeName
      ++ UInt8.ofNat paramTypes.length :: encodeStrs paramTypes))
  | .UnionType name members =>
    3 :: (encodeStr name ++ UInt8.ofNat members.length :: encodeStrs members)

/-- The production `Type*(n)`. -/
def encodeTypes : List TypeDecl → List UInt8
  | [] => []
  | t :: rest => encodeType t ++ encodeTypes rest

/-- The bytes of a `VarDecl`. -/
def encodeVar (v : VarDecl) : List UInt8 :=
  encodeStr v.name ++ encodeStr v.typeName

/-- The production `VarDecl*(n)`. -/
def encodeVars : List VarDecl → List UInt8
  | [] => []
  | v :: rest => encodeVar v ++ encodeVars rest

/-- The bytes of a `FunctionBody`. -/
def encodeFunctionBody (f : FunctionBody) : List UInt8 :=
  encodeStr f.name ++ (encodeStr f.typeName
    ++ f.opStackSize :: UInt8.ofNat f.vars.length :: (encodeVars f.vars
    ++ UInt8.ofNat f.byteCode.length :: f.byteCode))

/-- The bytes of a `Const`. -/
def encodeConst : ConstDecl → List UInt8
  | .NumberConst value => [1, value]
  | .StringConst value => 2 :: encodeStr value
  | .FunctionConst body => 3 :: encodeFunctionBody body

/-- The production `Const*(n)`. -/
def encodeConsts : List ConstDecl → List UInt8
  | [] => []
  | c :: rest => encodeConst c ++ encodeConsts rest

/-- The marker `"types"` as a `str`. -/
def typesMarker : ByteString :=
  [0x74, 0x79, 0x70, 0x65, 0x73]

/-- The marker `"consts"` as a `str`. -/
def constsMarker : ByteString :=
  [0x63, 0x6f, 0x6e, 0x73, 0x74, 0x73]

/-- The bytes of a `Module`. -/
def encodeModule (d : ModuleDecl) : List UInt8 :=
  encodeStr typesMarker ++ UInt8.ofNat d.types.length :: (encodeTypes d.types
    ++ (encodeStr constsMarker ++ UInt8.ofNat d.consts.length :: encodeConsts d.consts))

/-- A string whose length fits the byte that precedes it. -/
def ByteString.Fits (s : ByteString) : Prop :=
  s.length < 256

instance (s : ByteString) : Decidable s.Fits :=
  inferInstanceAs (Decidable (s.length < 256))

/-- A list of strings whose number and whose lengths fit their count bytes. -/
def FitAll (names : List ByteString) : Prop :=
  names.length < 256 ∧ ∀ s ∈ names, ByteString.Fits s

instance (names : List ByteString) : Decidable (FitAll names) :=
  inferInstanceAs (Decidable (_ ∧ _))

/-- A declared type all of whose counts fit one byte. -/
def TypeDecl.WellFormed : TypeDecl → Prop
  | .SimpleType name upperTypes => name.Fits ∧ FitAll upperTypes
  | .FunctionType name returnTypeName paramTypes =>
    name.Fits ∧ returnTypeName.Fits ∧ FitAll paramTypes
  | .UnionType name members => name.Fits ∧ FitAll members

instance (t : TypeDecl) : Decidable t.WellFormed := by
  cases t <;> unfold TypeDecl.WellFormed <;> infer_instance

/-- A declared variable whose strings fit. -/
def VarDecl.WellFormed (v : VarDecl) : Prop :=
  v.name.Fits ∧ v.typeName.Fits

instance (v : VarDecl) : Decidable v.WellFormed :=
  inferInstanceAs (Decidable (_ ∧ _))

/-- A function body all of whose counts fit one byte. -/
def FunctionBody.WellFormed (f : FunctionBody) : Prop :=
  f.name.Fits ∧ f.typeName.Fits ∧ f.vars.length < 256 ∧ (∀ v ∈ f.vars, v.WellFormed)
    ∧ f.byteCode.length < 256

instance (f : FunctionBody) : Decidable f.WellFormed :=
  inferInstanceAs (Decidable (_ ∧ _))

/-- A declared constant all of whose counts fit one byte. -/
def ConstDecl.WellFormed : ConstDecl → Prop
  | .NumberConst _ => True
  | .StringConst value => value.Fits
  | .FunctionConst body => body.WellFormed

instance (c : ConstDecl) : Decidable c.WellFormed := by
  cases c <;> unfold ConstDecl.WellFormed <;> infer_instance

/-- A module all of whose counts fit one byte: a stream of the grammar. -/
def ModuleDecl.WellFormed (d : ModuleDecl) : Prop :=
  d.types.length < 256 ∧ (∀ t ∈ d.types, t.WellFormed)
    ∧ d.consts.length < 256 ∧ (∀ c ∈ d.consts, c.WellFormed)

instance (d : ModuleDecl) : Decidable d.WellFormed :=
  inferInstanceAs (Decidable (_ ∧ _))

/-! ## The module that a stream of the grammar is loaded into

A closed form of what `readBCModule` builds from the stream of a
`ModuleDecl`; the theorem `readBCModule_encodeModule` relates the two. -/

/-- The string that `readString` makes of the bytes of a `str`. -/
def stringOfBytes (s : ByteString) : String :=
  String.mk (s.map byteToChar)

/-- The smallest index, counted from `i`, of a name of `names` that `strcmp`
finds equal to `typeName`. -/
def firstIndexFrom (typeName : String) : List String → Nat → Option Nat
  | [], _ => none
  | name :: names, i =>
    if strcmp_eq typeName name then some i else firstIndexFrom typeName names (i + 1)

/-- The reference to the first type named `typeName` in a table whose names
are `names`, and `NULL` when there is none. -/
def resolveName (names : List String) (typeName : String) : TypeRef :=
  match firstIndexFrom typeName names 0 with
  | some i => .to i
  | none => .null

/-- The names of the system types. -/
def systemNames : List String :=
  ["any", "number", "string", "boolean", "null", "undefined", "integer", "decimal", "void"]

/-- The names of the entries of the type table of a module: the system types,
then the declared types. -/
def typeNamesOf (types : List TypeDecl) : List String :=
  systemNames ++ types.map (fun t => stringOfBytes t.name)

/-- The object that `readSimpleType`, `readFunctionType` or `readUnionType`
creates for a declared type, its references not yet resolved. -/
def shellOf : TypeDecl → PType
  | .SimpleType name upperTypes =>
    createSimpleType (stringOfBytes name) upperTypes.length none
  | .FunctionType name _ paramTypes =>
    createFunctionType (stringOfBytes name) .null paramTypes.length none
  | .UnionType name members =>
    createUnionType (stringOfBytes name) members.length none

/-- The names that `readSimpleType`, `readFunctionType` or `readUnionType`
keeps for `buildTypes`. -/
def infoOf : TypeDecl → TypeInfo
  | .SimpleType _ upperTypes =>
    createSimpleTypeInfo upperTypes.length (upperTypes.map stringOfBytes)
  | .FunctionType _ returnTypeName paramTypes =>
    createFuntionTypeInfo (stringOfBytes returnTypeName) paramTypes.length
      (paramTypes.map stringOfBytes)
  | .UnionType _ members =>
    createUnionTypeInfo members.length (members.map stringOfBytes)

/-- The object of a declared type once `buildTypes` has resolved its
references in a table whose names are `names`. -/
def loadedType (names : List String) : TypeDecl → PType
  | .SimpleType name upperTypes =>
    .SimpleType (stringOfBytes name) .SimpleT upperTypes.length
      (some (upperTypes.map (fun s => resolveName names (stringOfBytes s))))
  | .FunctionType name returnTypeName paramTypes =>
    .FunctionType (stringOfBytes name) .FunctionT
      (resolveName names (stringOfBytes returnTypeName)) paramTypes.length
      (some (paramTypes.map (fun s => resolveName names (stringOfBytes s))))
  | .UnionType name members =>
    .UnionType (stringOfBytes name) .SimpleT members.length
      (some (members.map (fun s => resolveName names (stringOfBytes s))))

/-- The type table of the module loaded from the declared types. -/
def loadedTypes (types : List TypeDecl) : List (Ptr PType) :=
  addSystemTypes ++ types.map (fun t => .to (loadedType (typeNamesOf types) t))

/-- The three arrays of `readBCModule` once the types `done` have been read,
`n` entries being left to assign. -/
def arraysAfter (done : List TypeDecl) (n : Nat) : TypeArrays :=
  { typeNames := (systemTypeNames ++ done.map (fun t => some (stringOfBytes t.name)))
      ++ List.replicate n none
    types := (addSystemTypes ++ done.map (fun t => .to (shellOf t)))
      ++ List.replicate n .indeterminate
    typeInfos := done.map (fun t => some (infoOf t)) ++ List.replicate n none }

/-- The symbol that `readVarSymbol` creates for a declared variable. -/
def loadedVar (names : List String) (types : List (Ptr PType)) (v : VarDecl) : VarSymbol :=
  createVarSymbol (stringOfBytes v.name)
    (typeAt types (resolveName names (stringOfBytes v.typeName)))

/-- The symbol that `readFunctionSymbol` creates for a function body. -/
def loadedFunction (names : List String) (types : List (Ptr PType)) (f : FunctionBody) :
    FunctionSymbol :=
  createFunctionSymbol (stringOfBytes f.name)
    (typeAt types (resolveName names (stringOfBytes f.typeName)))
    f.vars.length (some (f.vars.map (loadedVar names types))) 20 f.byteCode.length
    (if f.byteCode.length = 0 then none else some f.byteCode)

/-- The constant that `readBCModule` creates for a declared constant. -/
def loadedConst (names : List String) (types : List (Ptr PType)) : ConstDecl → Const
  | .NumberConst value => createNumberConst value.toNat
  | .StringConst value => createStringConst (stringOfBytes value)
  | .FunctionConst body => createFunctionConst (loadedFunction names types body)

/-- The value of the variable `_main` of `readBCModule` after the declared
constants have been read, `main` being its value before. -/
def loadedMain (names : List String) (types : List (Ptr PType)) :
    List ConstDecl → Ptr FunctionSymbol → Ptr FunctionSymbol
  | [], main => main
  | .FunctionConst body :: rest, main =>
    loadedMain names types rest
      (if strcmp_eq (stringOfBytes body.name) "main" then .to (loadedFunction names types body)
       else main)
  | _ :: rest, main => loadedMain names types rest main

/-- The module loaded from a stream of the grammar. -/
def loadedModule (d : ModuleDecl) : BCModule :=
  createBCModule (d.consts.length + SYS_FUNS)
    (addSystemFunctions
      ++ d.consts.map (fun c => .to (loadedConst (typeNamesOf d.types) (loadedTypes d.types) c)))
    (loadedMain (typeNamesOf d.types) (loadedTypes d.types) d.consts .indeterminate)
    (d.types.length + SYS_TYPES) (loadedTypes d.types)

/-- Every name that a declared type refers to is the name of a system type
or of a declared type. -/
def NamesResolve (types : List TypeDecl) : Prop :=
  ∀ t ∈ types, ∀ s ∈ t.refNames,
    ∃ name ∈ typeNamesOf types, strcmp_eq (stringOfBytes s) name = true

instance (types : List TypeDecl) : Decidable (NamesResolve types) :=
  inferInstanceAs (Decidable (∀ t ∈ types, _))

/-! ## Streams and views used to state the properties of the loader -/

/-- The name of the object that the entry `i` of the type table points to. -/
def typeNameAt (bcModule : BCModule) (i : Nat) : Option String :=
  match bcModule.types[i]? with
  | some (.to t) => some t.name
  | _ => none

/-- The references that a type object holds, in the order of the stream:
upper types; return type, then parameter types; members. -/
def PType.refs : PType → List TypeRef
  | .SimpleType _ _ _ upperTypes => upperTypes.getD []
  | .FunctionType _ _ returnType _ paramTypes => returnType :: paramTypes.getD []
  | .UnionType _ _ _ types => types.getD []

/-- The reference `ref` is an entry of the type table of the module whose
name `strcmp` finds equal to `name`. -/
def RefersTo (bcModule : BCModule) (ref : TypeRef) (name : ByteString) : Prop :=
  ∃ (k : Nat) (t : PType), ref = Ptr.to k ∧ bcModule.types[k]? = some (Ptr.to t)
    ∧ strcmp_eq (stringOfBytes name) t.name = true

/-- The field `theType` of a symbol points to the object of an entry of the
type table of the module whose name `strcmp` finds equal to `name`. -/
def PointsTo (bcModule : BCModule) (theType : Ptr PType) (name : ByteString) : Prop :=
  ∃ (k : Nat) (t : PType), theType = Ptr.to t ∧ bcModule.types[k]? = some (Ptr.to t)
    ∧ strcmp_eq (stringOfBytes name) t.name = true

/-- The ASCII bytes of a text. -/
def ascii (s : String) : ByteString :=
  s.data.map (fun c => UInt8.ofNat c.toNat)

/-- A stream with four user types (two function types, a simple type that
refers forward to a union type, and the union type) and four user constants
(the function `add`, a number, a string and the function `main` of the
user-call scenario). -/
def sampleDecl : ModuleDecl :=
  { types :=
      [ .FunctionType (ascii "@add") (ascii "integer") [ascii "integer", ascii "integer"]
      , .FunctionType (ascii "@main") (ascii "void") []
      , .SimpleType (ascii "T") [ascii "U", ascii "any"]
      , .UnionType (ascii "U") [ascii "T", ascii "number", ascii "U"] ]
    consts :=
      [ .FunctionConst
          { name := ascii "add", typeName := ascii "@add", opStackSize := 7
            vars := [⟨ascii "a", ascii "integer"⟩, ⟨ascii "b", ascii "integer"⟩]
            byteCode := [0x1a, 0x1b, 0x60, 0xac] }
      , .NumberConst 200
      , .StringConst (ascii "hi")
      , .FunctionConst
          { name := ascii "main", typeName := ascii "@main", opStackSize := 3
            vars := [], byteCode := callCode 20 22 } ] }

/-- The stream without user types and without user constants. -/
def emptyDecl : ModuleDecl :=
  { types := [], consts := [] }

/-- The stream whose only user type is the union type `U` of `integer` and
`string`, without user constants. -/
def unionDecl : ModuleDecl :=
  { types := [.UnionType (ascii "U") [ascii "integer", ascii "string"]], consts := [] }

/-- A declared constant with the byte `opStackSize` of its function body set
to zero: what is left of it when that byte is disregarded. -/
def ConstDecl.withoutOpStackSize : ConstDecl → ConstDecl
  | .FunctionConst body => .FunctionConst { body with opStackSize := 0 }
  | c => c

/-- The name of a type of the stream is the name of a system type or of a
declared type. -/
def Resolves (types : List TypeDecl) (typeName : ByteString) : Prop :=
  ∃ name ∈ typeNamesOf types, strcmp_eq (stringOfBytes typeName) name = true

instance (types : List TypeDecl) (typeName : ByteString) :
    Decidable (Resolves types typeName) :=
  inferInstanceAs (Decidable (∃ name ∈ typeNamesOf types, _))

/-- The type name of a function body and those of its locals are names of
system types or of declared types. -/
def ConstDecl.TypeNamesResolve (types : List TypeDecl) : ConstDecl → Prop
  | .FunctionConst body =>
    Resolves types body.typeName ∧ ∀ v ∈ body.vars, Resolves types v.typeName
  | _ => True

instance (types : List TypeDecl) (c : ConstDecl) : Decidable (c.TypeNamesResolve types) := by
  cases c <;> unfold ConstDecl.TypeNamesResolve <;> infer_instance

/-- The type names of the function bodies of the stream and of their locals
are names of system types or of declared types. -/
def SymbolNamesResolve (d : ModuleDecl) : Prop :=
  ∀ c ∈ d.consts, c.TypeNamesResolve d.types

instance (d : ModuleDecl) : Decidable (SymbolNamesResolve d) :=
  inferInstanceAs (Decidable (∀ c ∈ d.consts, _))

/-- The field `returnType` of the function type of a function symbol. -/
def returnTypeOf (functionSym : FunctionSymbol) : Option TypeRef :=
  match functionSym.symbol.theType with
  | .to (.FunctionType _ _ returnType _ _) => some returnType
  | _ => none

/-- The field `paramTypes` of the function type of a function symbol, `none`
when it is `NULL`. -/
def paramTypesOf (functionSym : FunctionSymbol) : Option (List TypeRef) :=
  match functionSym.symbol.theType with
  | .to (.FunctionType _ _ _ _ paramTypes) => paramTypes
  | _ => none

/-! ## The stream of a loaded module (for the round trip of the loader) -/

/-- The bytes of a C string: its characters before the terminating zero. -/
def bytesOfString (s : String) : ByteString :=
  (cstr s).map (fun c => UInt8.ofNat c.toNat)

/-- The list of the values when none is missing. -/
def allSome {α : Type} : List (Option α) → Option (List α)
  | [] => some []
  | none :: _ => none
  | some x :: rest => (allSome rest).map (fun xs => x :: xs)

/-- The name, as bytes of the stream, of the type that a reference of a type
object designates in the type table of the module. -/
def refName (bcModule : BCModule) : TypeRef → Option ByteString
  | .to k => (typeNameAt bcModule k).map bytesOfString
  | _ => none

/-- The production `Type` for a type object of the module: its name and the
names of the types that it refers to. -/
def declOfType (bcModule : BCModule) : Ptr PType → Option TypeDecl
  | .to (.SimpleType name _ _ (some upperTypes)) =>
    (allSome (upperTypes.map (refName bcModule))).map
      (fun names => .SimpleType (bytesOfString name) names)
  | .to (.FunctionType name _ returnType _ (some paramTypes)) =>
    match refName bcModule returnType, allSome (paramTypes.map (refName bcModule)) with
    | some returnTypeName, some names =>
      some (.FunctionType (bytesOfString name) returnTypeName names)
    | _, _ => none
  | .to (.UnionType name _ _ (some types)) =>
    (allSome (types.map (refName bcModule))).map
      (fun names => .UnionType (bytesOfString name) names)
  | _ => none

/-- The name, as bytes of the stream, of the type that `theType` of a symbol
points to. -/
def typeNameOf : Ptr PType → Option ByteString
  | .to t => some (bytesOfString t.name)
  | _ => none

/-- The production `VarDecl` for a variable symbol. -/
def declOfVar (varSymbol : VarSymbol) : Option VarDecl :=
  (typeNameOf varSymbol.symbol.theType).map
    (fun typeName => { name := bytesOfString varSymbol.symbol.name, typeName := typeName })

/-- The production `FunctionBody` for a function symbol. -/
def declOfFunction (functionSym : FunctionSymbol) : Option FunctionBody :=
  match typeNameOf functionSym.symbol.theType,
      allSome ((functionSym.vars.getD []).map declOfVar) with
  | some typeName, some vars =>
    some { name := bytesOfString functionSym.symbol.name
           typeName := typeName
           opStackSize := UInt8.ofNat functionSym.opStackSize
           vars := vars
           byteCode := functionSym.byteCode.getD [] }
  | _, _ => none

/-- The production `Const` for a constant of the pool. -/
def declOfConst : Ptr Const → Option ConstDecl
  | .to (.NumberConst value) => some (.NumberConst (UInt8.ofNat value.toNat))
  | .to (.StringConst value) => some (.StringConst (bytesOfString value))
  | .to (.FunctionConst functionSym) => (declOfFunction functionSym).map .FunctionConst
  | _ => none

/-- The production `Module` for a module: its user types (the entries of the
type table after the system types) and its user constants (the entries of
the pool after the built-in functions). -/
def declOfModule (bcModule : BCModule) : Option ModuleDecl :=
  match allSome ((bcModule.types.drop SYS_TYPES).map (declOfType bcModule)),
      allSome ((bcModule.consts.drop SYS_FUNS).map declOfConst) with
  | some types, some consts => some { types := types, consts := consts }
  | _, _ => none

/-- A string of the stream without a zero byte. -/
def ByteString.NulFree (s : ByteString) : Prop :=
  (0 : UInt8) ∉ s

instance (s : ByteString) : Decidable s.NulFree :=
  inferInstanceAs (Decidable (¬ _))

/-- A declared type whose strings have no zero byte. -/
def TypeDecl.NulFree (t : TypeDecl) : Prop :=
  t.name.NulFree ∧ ∀ s ∈ t.refNames, ByteString.NulFree s

instance (t : TypeDecl) : Decidable t.NulFree :=
  inferInstanceAs (Decidable (_ ∧ _))

/-- A declared variable whose strings have no zero byte. -/
def VarDecl.NulFree (v : VarDecl) : Prop :=
  v.name.NulFree ∧ v.typeName.NulFree

instance (v : VarDecl) : Decidable v.NulFree :=
  inferInstanceAs (Decidable (_ ∧ _))

/-- A declared constant whose strings have no zero byte. -/
def ConstDecl.NulFree : ConstDecl → Prop
  | .NumberConst _ => True
  | .StringConst value => value.NulFree
  | .FunctionConst body =>
    body.name.NulFree ∧ body.typeName.NulFree ∧ ∀ v ∈ body.vars, VarDecl.NulFree v

instance (c : ConstDecl) : Decidable c.NulFree := by
  cases c <;> unfold ConstDecl.NulFree <;> infer_instance

/-- A stream whose strings have no zero byte: each is the C string that the
loader makes of it. -/
def ModuleDecl.NulFree (d : ModuleDecl) : Prop :=
  (∀ t ∈ d.types, TypeDecl.NulFree t) ∧ ∀ c ∈ d.consts, ConstDecl.NulFree c

instance (d : ModuleDecl) : Decidable d.NulFree :=
  inferInstanceAs (Decidable (_ ∧ _))

/-- A declared constant with the byte `opStackSize` of its function body set
to 20, the capacity that the loader gives every function. -/
def ConstDecl.withCapacity : ConstDecl → ConstDecl
  | .FunctionConst body => .FunctionConst { body with opStackSize := 20 }
  | c => c

/-- A stream with every byte `opStackSize` set to 20. -/
def ModuleDecl.withCapacity (d : ModuleDecl) : ModuleDecl :=
  { d with consts := d.consts.map ConstDecl.withCapacity }

/-! ## The arena seen from its callers -/

/-- The value of `arena.blocks[arena.pos]->offset`. -/
def Arena.activeOffset (arena : Arena) : Option Nat :=
  (arena.blockAt arena.pos).map (fun block => block.offset)

/-- The number of bytes that `addArenaBlock` asks of `malloc` for a block:
`sizeof(ArenaBlock) + blockSize*sizeof(unsigned char)`. -/
def ArenaBlock.bytes (block : ArenaBlock) : Nat :=
  sizeof_ArenaBlock + block.size

/-- The arena after `k` successive calls `allocFromArena(size)`. -/
def allocTimes (size : Nat) : Nat → Arena → Option Arena
  | 0, arena => some arena
  | k + 1, arena => do
    let (_, arena) ← allocFromArena arena size
    allocTimes size k arena

/-- Bytecode `invokestatic <slot>; _return`. -/
def callAndReturnCode (slot : UInt8) : List UInt8 :=
  [0xb8, 0x00, slot, 0xb1]

/-- A function without parameters and without locals that calls the function
in the pool slot `slot` and returns, as `readFunctionSymbol` builds it. -/
def linkFunction (functionName : String) (slot : UInt8) : FunctionSymbol :=
  createFunctionSymbol functionName (.to (loadedFunctionType "@link" 8 [])) 0 (some [])
    20 4 (some (callAndReturnCode slot))

/-- A module whose `main` starts calls nested nine deep: the built-in
functions are in slots 0 to 2, `noop` is in slot 3, the function in slot
`k + 1` calls the function in slot `k` for `k` from 3 to 10, and `main`, in
slot 12, calls the function in slot 11. -/
def nestedCallsModule : BCModule :=
  createBCModule 13
    (addSystemFunctions ++
      [ .to (createFunctionConst noopFunction)
      , .to (createFunctionConst (linkFunction "f8" 3))
      , .to (createFunctionConst (linkFunction "f7" 4))
      , .to (createFunctionConst (linkFunction "f6" 5))
      , .to (createFunctionConst (linkFunction "f5" 6))
      , .to (createFunctionConst (linkFunction "f4" 7))
      , .to (createFunctionConst (linkFunction "f3" 8))
      , .to (createFunctionConst (linkFunction "f2" 9))
      , .to (createFunctionConst (linkFunction "f1" 10))
      , .to (createFunctionConst (linkFunction "main" 11)) ])
    (.to (linkFunction "main" 11)) 9 addSystemTypes

/-- The byte of a block at which the byte `o` of its payload lies when, as in
section 4.2 of the specification, a block is a header followed by the bytes
of the payload and `o` is an untyped byte offset from the start of the
payload. -/
def payloadByte (o : Nat) : Nat :=
  sizeof_ArenaBlock + o

/-! ## Streams with undeclared type names and with unknown kind bytes -/

/-- A stream without user types whose only constant is the function `main`
with the bytecode `_return`; the name of its type, `@main`, and the name of
the type of its local `x`, `T`, are names of no type. -/
def undeclaredNamesDecl : ModuleDecl :=
  { types := []
    consts :=
      [ .FunctionConst
          { name := ascii "main", typeName := ascii "@main", opStackSize := 0
            vars := [⟨ascii "x", ascii "T"⟩], byteCode := [0xb1] } ] }

/-- A stream whose only user type is the simple type `T` with the upper type
`V`, the name of no type, without user constants. -/
def undeclaredUpperDecl : ModuleDecl :=
  { types := [.SimpleType (ascii "T") [ascii "V"]], consts := [] }

/-- A constant of a stream as `readBCModule` reads it: a `Const` of the
grammar, or a kind byte that is none of 1, 2 and 3, after which the loop goes
on to the next constant without reading anything else. -/
inductive ConstEntry where
  | known (c : ConstDecl)
  | unknown (kind : UInt8)
  deriving Repr, DecidableEq

/-- The bytes of a constant as `readBCModule` reads it. -/
def encodeEntry : ConstEntry → List UInt8
  | .known c => encodeConst c
  | .unknown kind => [kind]

/-- The bytes of the constants as `readBCModule` reads them. -/
def encodeEntries : List ConstEntry → List UInt8
  | [] => []
  | e :: rest => encodeEntry e ++ encodeEntries rest

/-- A stream whose constants are read as `entries`. -/
def encodeModuleWith (types : List TypeDecl) (entries : List ConstEntry) : List UInt8 :=
  encodeStr typesMarker ++ UInt8.ofNat types.length :: (encodeTypes types
    ++ (encodeStr constsMarker ++ UInt8.ofNat entries.length :: encodeEntries entries))

/-- A constant all of whose counts fit one byte, or a kind byte that is none
of 1, 2 and 3. -/
def ConstEntry.WellFormed : ConstEntry → Prop
  | .known c => c.WellFormed
  | .unknown kind => kind.toNat ≠ 1 ∧ kind.toNat ≠ 2 ∧ kind.toNat ≠ 3

instance (e : ConstEntry) : Decidable e.WellFormed := by
  cases e <;> unfold ConstEntry.WellFormed <;> infer_instance

/-- The texts that `readBCModule` prints while it reads the constants. -/
def entryMessages : List ConstEntry → List String
  | [] => []
  | .known _ :: rest => entryMessages rest
  | .unknown kind :: rest =>
    ("Unsupported const type: " ++ fmt_d kind.toNat) :: entryMessages rest

/-- One operation of an instruction on the current frame: a push, a pop, or
an assignment to a local. -/
def LocalOp (frame frame' : StackFrame) : Prop :=
  (∃ value, pushToOpStack frame value = some frame')
  ∨ (∃ value, popFromOpStack frame = some (value, frame'))
  ∨ (∃ i value, storeLocal frame i value = some frame')

/-- A sequence of pushes, pops and assignments to locals leads from `frame`
to `frame'`. -/
def LocalOps : StackFrame → StackFrame → Prop :=
  Relation.ReflTransGen LocalOp

/-- The iteration ends with `continue;` after pushes, pops and assignments
to locals that lead from the frame `start` to the current frame; it changes
neither the arena, nor the bytecode that runs, nor the standard output, nor
the number of `clock()` calls. -/
def LocalStep (st : ExecState) (start : StackFrame) (r : StepResult) : Prop :=
  ∃ st', r = .next st' ∧ LocalOps start st'.frame ∧ st'.arena = st.arena
    ∧ st'.code = st.code ∧ st'.stdout = st.stdout ∧ st'.clockCalls = st.clockCalls

/-- The number of live frames: the current frame and the frames linked from
it through `prev`. -/
def ExecState.liveFrames (st : ExecState) : Nat :=
  st.frame.callers.length + 1

/-- The operand stack of the frame has `capacity` cells and its `top` has a
value with `0 <= top + 1 <= capacity`. -/
def StackFrame.StackOk (capacity : Nat) (frame : StackFrame) : Prop :=
  frame.oprandStack.data.length = capacity
    ∧ ∃ top : Int, frame.oprandStack.top = some top ∧ 0 ≤ top + 1 ∧ top + 1 ≤ capacity

/-- The operand stacks of the current frame and of every frame linked from it
have 20 cells and a `top` with `0 <= top + 1 <= 20`. -/
def ExecState.StacksOk (st : ExecState) : Prop :=
  st.frame.StackOk 20 ∧ ∀ frame ∈ st.frame.callers, frame.StackOk 20

/-- Every function of the pool that has bytecode has an operand stack of 20
cells, and so has `main`. -/
def BCModule.CapacityTwenty (bcModule : BCModule) : Prop :=
  (∀ (i : Nat) (functionSym : FunctionSymbol), bcModule.consts[i]? = some (.to (.FunctionConst functionSym)) →
    functionSym.byteCode = none ∨ functionSym.opStackSize = 20)
  ∧ ∀ functionSym : FunctionSymbol, bcModule._main = .to functionSym → functionSym.opStackSize = 20

/-- A stream whose function `main` pushes 21 times (`iconst_0`) and returns. -/
def overflowDecl : ModuleDecl :=
  { types := [.FunctionType (ascii "@main") (ascii "void") []]
    consts :=
      [ .FunctionConst
          { name := ascii "main", typeName := ascii "@main", opStackSize := 21
            vars := [], byteCode := List.replicate 21 0x03 ++ [0xb1] } ] }

/-- A stream whose function `main` is `istore_0; _return`, with one local:
it pops from the empty operand stack. -/
def underflowDecl : ModuleDecl :=
  { types := [.FunctionType (ascii "@main") (ascii "void") []]
    consts :=
      [ .FunctionConst
          { name := ascii "main", typeName := ascii "@main", opStackSize := 1
            vars := [⟨ascii "x", ascii "integer"⟩], byteCode := [0x3b, 0xb1] } ] }

/-! ## The arena as a stack of allocations -/

/-- The block in which `allocFromArena(size)` has taken its memory: the
offset word holds the previous offset, and the offset has passed the memory
and the word. -/
def ArenaBlock.pushed (block : ArenaBlock) (size : Nat) : ArenaBlock :=
  { block with
    offset := block.offset + size + sizeof_size_t
    words := Function.update block.words
      (blockPlus (sizeof_ArenaBlock + (block.offset + size))) (some block.offset) }

/-- The arena has a current block, `numBlocks` is the number of its blocks,
and the blocks after the current one hold no allocation. -/
def Arena.WellFormed (arena : Arena) : Prop :=
  0 ≤ arena.pos ∧ arena.pos.toNat < arena.blocks.length
    ∧ arena.numBlocks = arena.blocks.length
    ∧ ∀ (i : Nat) (block : ArenaBlock), arena.pos < (i : Int) →
        arena.blocks[i]? = some block → block.offset = 0

/-- The current block of the arena holds an allocation. -/
def Arena.Live (arena : Arena) : Prop :=
  ∃ cur, arena.blockAt arena.pos = some cur ∧ 0 < cur.offset

/-- The block `y` has the size and the offset of the block `x`, and the
words of `x` below the address that the offset designates. -/
def BlockAgree (x y : ArenaBlock) : Prop :=
  y.size = x.size ∧ y.offset = x.offset
    ∧ ∀ k, k < blockPlus (sizeof_ArenaBlock + x.offset) → y.words k = x.words k

/-- The arena `b` has the current block of the arena `a`, and its blocks up
to the current one agree with those of `a`: the allocations of `a` are those
of `b`. -/
def Arena.Agree (a b : Arena) : Prop :=
  b.pos = a.pos
    ∧ ∀ (i : Nat) (x : ArenaBlock), (i : Int) ≤ a.pos → a.blocks[i]? = some x →
        ∃ y, b.blocks[i]? = some y ∧ BlockAgree x y

/-- The arenas that hold the frames of a chain of `depth` callers and a
current frame: the frame of `main` was allocated in the well-formed arena
`arena0`, the
frame of every call in the arena that its caller had reached, and between two
calls the allocations above the current frame have come and gone. -/
inductive Arena.Stacked (arena0 : Arena) : Nat → Arena → Prop
  | main {arena : Arena} {size : Nat} {mem : ArenaPtr} :
      arena0.WellFormed → allocFromArena arena0 size = some (mem, arena) →
      Arena.Stacked arena0 0 arena
  | call {depth : Nat} {caller arena : Arena} {size : Nat} {mem : ArenaPtr} :
      Arena.Stacked arena0 depth caller → allocFromArena caller size = some (mem, arena) →
      Arena.Stacked arena0 (depth + 1) arena
  | agree {depth : Nat} {a b : Arena} :
      Arena.Stacked arena0 depth a → a.Agree b → b.WellFormed → Arena.Stacked arena0 depth b

/-- A function without parameters and with 255 integer locals that calls the
function in the pool slot `slot` and returns, as `readFunctionSymbol` builds
it: its frame takes 1156 bytes. -/
def wideLinkFunction (functionName : String) (slot : UInt8) : FunctionSymbol :=
  createFunctionSymbol functionName (.to (loadedFunctionType "@link" 8 [])) 255
    (some (List.replicate 255 (createVarSymbol "v" (.to sysTypes.Integer))))
    20 4 (some (callAndReturnCode slot))

/-- The function `noop() { _return }` with 255 integer locals. -/
def wideNoopFunction : FunctionSymbol :=
  createFunctionSymbol "noop" (.to (loadedFunctionType "@noop" 8 [])) 255
    (some (List.replicate 255 (createVarSymbol "v" (.to sysTypes.Integer))))
    20 1 (some [0xb1])

/-- A module whose functions have 255 locals each: `main`, in slot 7, calls
`w1`, which calls `w2`, which calls `w3`, which calls `noop`, in slot 3.  The
frames of `main`, `w1` and `w2` fill 3492 bytes of the first block of the
arena, where the frame of `w3` does not fit. -/
def wideCallsModule : BCModule :=
  createBCModule 8
    (addSystemFunctions ++
      [ .to (createFunctionConst wideNoopFunction)
      , .to (createFunctionConst (wideLinkFunction "w3" 3))
      , .to (createFunctionConst (wideLinkFunction "w2" 4))
      , .to (createFunctionConst (wideLinkFunction "w1" 5))
      , .to (createFunctionConst (wideLinkFunction "main" 6)) ])
    (.to (wideLinkFunction "main" 6)) 9 addSystemTypes

/-- Whether the chain of frames has at least `depth` callers in the state
`st` and in the states of the `n` iterations that follow it, as far as the
loop goes on. -/
def chainNotShorter (useArena : Bool) (clock : Nat → Int) (bcModule : BCModule) (depth : Nat) :
    Nat → ExecState → Bool
  | 0, st => decide (depth ≤ st.frame.callers.length)
  | n + 1, st =>
    decide (depth ≤ st.frame.callers.length) &&
      match step useArena clock bcModule st with
      | .next st' => chainNotShorter useArena clock bcModule depth n st'
      | .done _ => true

/-! ## Frames and the blocks of the arena -/

/-- The size of the frame of the function is the sum of the sizes of a
`StackFrame`, of its locals, of an `OprandStack` and of the cells of its
operand stack, and the frame fits, with the offset word that
`allocFromArena` puts after it, in a block of `ARENA_BLOCK_SIZE` bytes that
holds nothing. -/
def FunctionSymbol.FitsEmptyBlock (functionSym : FunctionSymbol) : Prop :=
  functionSym.frameSize = sizeof_StackFrame + functionSym.numVars * sizeof_VM_NUMBER
      + sizeof_OprandStack + functionSym.opStackSize * sizeof_VM_NUMBER
    ∧ functionSym.frameSize + sizeof_size_t ≤ ARENA_BLOCK_SIZE

instance (functionSym : FunctionSymbol) : Decidable functionSym.FitsEmptyBlock :=
  inferInstanceAs (Decidable (_ ∧ _))

/-- A stream with a function `wide` of 255 locals, the most that the byte of
the count admits, of which the names are empty and the type is `integer`, and
a function `main` without locals. -/
def wideDecl : ModuleDecl :=
  { types := [.FunctionType (ascii "@main") (ascii "void") []]
    consts :=
      [ .FunctionConst
          { name := ascii "wide", typeName := ascii "@main", opStackSize := 255
            vars := List.replicate 255 ⟨[], ascii "integer"⟩, byteCode := [0xb1] }
      , .FunctionConst
          { name := ascii "main", typeName := ascii "@main", opStackSize := 0
            vars := [], byteCode := [0xb8, 0x00, 0x03, 0xb1] } ] }

/-! ## Functions of the stream that bear the name of a built-in function -/

/-- A stream whose functions `println`, in the pool slot 3, and `tick`, in the
slot 4, have bytecode: `bipush 9; invokestatic #0; _return` and `bipush 5;
ireturn`.  Its `main`, in the slot 5, is `bipush 7; invokestatic #3;
invokestatic #4; invokestatic #3; _return`. -/
def shadowDecl : ModuleDecl :=
  { types := [.FunctionType (ascii "@main") (ascii "void") []]
    consts :=
      [ .FunctionConst
          { name := ascii "println", typeName := ascii "@main", opStackSize := 1
            vars := [], byteCode := [0x10, 9, 0xb8, 0x00, 0x00, 0xb1] }
      , .FunctionConst
          { name := ascii "tick", typeName := ascii "@main", opStackSize := 1
            vars := [], byteCode := [0x10, 5, 0xac] }
      , .FunctionConst
          { name := ascii "main", typeName := ascii "@main", opStackSize := 1
            vars := []
            byteCode := [0x10, 7, 0xb8, 0x00, 0x03, 0xb8, 0x00, 0x04, 0xb8, 0x00, 0x03, 0xb1] } ] }

/-- The bytecode of the `main` of `shadowDecl`. -/
def shadowCode : List UInt8 :=
  [0x10, 7, 0xb8, 0x00, 0x03, 0xb8, 0x00, 0x04, 0xb8, 0x00, 0x03, 0xb1]

/-! ## The first entry of a name in the type table -/

/-- The entry `k` of `typeNames` is the first one that `strcmp` finds equal
to `typeName`. -/
def FirstNamed (typeName : String) (typeNames : List (Option String)) (k : Nat) : Prop :=
  (∃ name, typeNames[k]? = some (some name) ∧ strcmp_eq typeName name = true)
    ∧ ∀ j, j < k → ∃ name, typeNames[j]? = some (some name) ∧ strcmp_eq typeName name = false

/-- The entry `k` of the type table of the module is the first one whose
object has a name that `strcmp` finds equal to `name`. -/
def FirstEntryNamed (bcModule : BCModule) (name : ByteString) (k : Nat) : Prop :=
  (∃ t, bcModule.types[k]? = some (Ptr.to t) ∧ strcmp_eq (stringOfBytes name) t.name = true)
    ∧ ∀ (j : Nat) (t : PType), j < k → bcModule.types[j]? = some (Ptr.to t) →
        strcmp_eq (stringOfBytes name) t.name = false

/-- The reference `ref` is the first entry of the type table of the module
whose name `strcmp` finds equal to `name`. -/
def RefersToFirst (bcModule : BCModule) (ref : TypeRef) (name : ByteString) : Prop :=
  ∃ k, ref = Ptr.to k ∧ FirstEntryNamed bcModule name k

/-- The field `theType` of a symbol points to the object of the first entry
of the type table of the module whose name `strcmp` finds equal to `name`. -/
def PointsToFirst (bcModule : BCModule) (theType : Ptr PType) (name : ByteString) : Prop :=
  ∃ k, theType = typeAt bcModule.types (Ptr.to k) ∧ FirstEntryNamed bcModule name k

/-- A stream in which names are declared twice: the user type 0 (entry 9), a
function type, has the name of the system type `integer` (entry 6); the user
types 1 (entry 10), a simple type, and 2 (entry 11), a union type, are both
named `T`.  The union type refers to `integer` and to `T`, the function type
`@main` (entry 12) returns `T` and takes an `integer`, and `main`, of the
type `@main`, has a local of the type `T` and one of the type `integer`. -/
def duplicateNamesDecl : ModuleDecl :=
  { types :=
      [ .FunctionType (ascii "integer") (ascii "void") []
      , .SimpleType (ascii "T") [ascii "any"]
      , .UnionType (ascii "T") [ascii "integer", ascii "T"]
      , .FunctionType (ascii "@main") (ascii "T") [ascii "integer"] ]
    consts :=
      [ .FunctionConst
          { name := ascii "main", typeName := ascii "@main", opStackSize := 1
            vars := [⟨ascii "x", ascii "T"⟩, ⟨ascii "y", ascii "integer"⟩]
            byteCode := [0xb1] } ] }

/-! ## The regions of a frame taken from the arena -/

/-- Distance in bytes from `frame` to `frame + k`, for `StackFrame* frame`. -/
def framePlus (k : Nat) : Nat :=
  sizeof_StackFrame * k

/-- Distance in bytes from `p` to `p + k`, for `VM_NUMBER* p`. -/
def numberPlus (k : Nat) : Nat :=
  sizeof_VM_NUMBER * k

/-- Distance in bytes from `p` to `p + k`, for `OprandStack* p`. -/
def oprandStackPlus (k : Nat) : Nat :=
  sizeof_OprandStack * k

/-- Where the regions of a frame begin, in bytes from the address of the
frame: the locals, the header of the operand stack and its cells. -/
structure FramePointers where
  localVars : Nat
  oprandStack : Nat
  data : Nat
  deriving DecidableEq, Repr

/-- The pointers that `createStackFrame` assigns under `USE_ARENA`, as
distances in bytes from the address `frame` that `allocFromArena` returned:
`frame->localVars = (VM_NUMBER*)(frame + sizeof(StackFrame))`,
`frame->oprandStack = (OprandStack*)(frame->localVars +
functionSym->numVars*sizeof(VM_NUMBER))` and `frame->oprandStack->data =
(VM_NUMBER*)(frame->oprandStack + sizeof(OprandStack))`. -/
def framePointers (functionSym : FunctionSymbol) : FramePointers :=
  let localVars := framePlus sizeof_StackFrame
  let oprandStack := localVars + numberPlus (functionSym.numVars * sizeof_VM_NUMBER)
  let data := oprandStack + oprandStackPlus sizeof_OprandStack
  { localVars := localVars, oprandStack := oprandStack, data := data }

/-- The partition of the slab of a frame as section 4.3 of the specification
has it, in untyped byte offsets from the start of the slab: the frame header
at 0, then the locals, then the header of the operand stack, then its
cells. -/
def slabPartition (functionSym : FunctionSymbol) : FramePointers :=
  { localVars := sizeof_StackFrame
    oprandStack := sizeof_StackFrame + functionSym.numVars * sizeof_VM_NUMBER
    data := sizeof_StackFrame + functionSym.numVars * sizeof_VM_NUMBER + sizeof_OprandStack }

/-! ## Sequences of calls of the arena -/

/-- A call of the arena: `allocFromArena(size)` or `returnToArena()`. -/
inductive ArenaCall where
  | alloc (size : Nat)
  | ret
  deriving DecidableEq, Repr

/-- The arena after the calls, made one after the other; `none` when one of
them is undefined. -/
def arenaCalls : List ArenaCall → Arena → Option Arena
  | [], arena => some arena
  | .alloc size :: calls, arena => do
    let (_, arena) ← allocFromArena arena size
    arenaCalls calls arena
  | .ret :: calls, arena => do
    let arena ← returnToArena arena
    arenaCalls calls arena

/-- The calls are in LIFO order when `live` allocations are outstanding:
every `returnToArena()` has an allocation to return, the most recent one. -/
def lifoOrder : Nat → List ArenaCall → Bool
  | _, [] => true
  | live, .alloc _ :: calls => lifoOrder (live + 1) calls
  | 0, .ret :: _ => false
  | live + 1, .ret :: calls => lifoOrder live calls

/-- Every size allocated fits, with the offset word, in a block of
`ARENA_BLOCK_SIZE` bytes that holds nothing. -/
def sizesFit : List ArenaCall → Bool
  | [] => true
  | .alloc size :: calls => decide (size + sizeof_size_t ≤ ARENA_BLOCK_SIZE) && sizesFit calls
  | .ret :: calls => sizesFit calls

/-- The offset of every block of the arena is at most the size of the
block. -/
def Arena.WithinCapacity (arena : Arena) : Prop :=
  ∀ block ∈ arena.blocks, block.offset ≤ block.size

instance (arena : Arena) : Decidable arena.WithinCapacity :=
  inferInstanceAs (Decidable (∀ block ∈ arena.blocks, _))

/-- The arena is well formed and its current block holds an allocation. -/
def Arena.InUse (arena : Arena) : Prop :=
  arena.WellFormed ∧ arena.Live

/-- The arena is in use, its blocks are of `ARENA_BLOCK_SIZE` bytes and their
offsets are within their sizes. -/
def Arena.Sound (arena : Arena) : Prop :=
  arena.InUse ∧ arena.WithinCapacity ∧ ∀ block ∈ arena.blocks, block.size = ARENA_BLOCK_SIZE

/-- The arenas reached from an arena by `depth` allocations not yet returned,
every arena along the way having the property `Good`; between two allocations
the allocations above have come and gone. -/
inductive Arena.Chain (Good : Arena → Prop) : Nat → Arena → Prop
  | base {arena : Arena} : Good arena → Arena.Chain Good 0 arena
  | alloc {depth : Nat} {caller arena : Arena} {size : Nat} {mem : ArenaPtr} :
      Arena.Chain Good depth caller → allocFromArena caller size = some (mem, arena) →
      Good arena → Arena.Chain Good (depth + 1) arena
  | agree {depth : Nat} {a b : Arena} :
      Arena.Chain Good depth a → a.Agree b → Good b → Arena.Chain Good depth b

/-- The arena after four allocations of 1156 bytes and the return of the
fourth: it has two blocks, of which the first is active with the offset 3492
and the second holds nothing. -/
def twoBlockArena : Arena :=
  (arenaCalls [.alloc 1156, .alloc 1156, .alloc 1156, .alloc 1156, .ret] initArena).getD
    initArena

/-! # Theorems -/

theorem twoBytes_eq (byte1 byte2 : UInt8) :
    twoBytes byte1 byte2 = byte1.toNat * 256 + byte2.toNat := by
  have h2 : byte2.toNat < 2 ^ 8 := byte2.toNat_lt
  unfold twoBytes
  rw [Nat.shiftLeft_eq, Nat.mul_comm, Nat.mul_add_lt_is_or h2]

theorem toVM_NUMBER_of_range {x : Int} (h1 : -2147483648 ≤ x) (h2 : x < 2147483648) :
    toVM_NUMBER x = x := by
  show ((x + 2147483648) % 4294967296 - 2147483648 : Int) = x
  omega

theorem toVM_NUMBER_range (x : Int) :
    -2147483648 ≤ toVM_NUMBER x ∧ toVM_NUMBER x < 2147483648 := by
  show (-2147483648 : Int) ≤ (x + 2147483648) % 4294967296 - 2147483648 ∧
    ((x + 2147483648) % 4294967296 - 2147483648 : Int) < 2147483648
  omega

theorem toVM_NUMBER_congruent (x : Int) : (toVM_NUMBER x - x) % 4294967296 = 0 := by
  show (((x + 2147483648) % 4294967296 - 2147483648 : Int) - x) % 4294967296 = 0
  omega

/-! ## The loop -/

theorem run_next {useArena : Bool} {clock : Nat → Int} {bcModule : BCModule}
    {st st' : ExecState} (fuel : Nat) (h : step useArena clock bcModule st = .next st') :
    run useArena clock bcModule (fuel + 1) st = run useArena clock bcModule fuel st' := by
  simp [run, h]

theorem run_done {useArena : Bool} {clock : Nat → Int} {bcModule : BCModule}
    {st : ExecState} {outcome : Outcome} (fuel : Nat)
    (h : step useArena clock bcModule st = .done outcome) :
    run useArena clock bcModule (fuel + 1) st = some outcome := by
  simp [run, h]

theorem run_mono {useArena : Bool} {clock : Nat → Int} {bcModule : BCModule}
    {outcome : Outcome} :
    ∀ (fuel : Nat) (st : ExecState), run useArena clock bcModule fuel st = some outcome →
      ∀ more, run useArena clock bcModule (fuel + more) st = some outcome := by
  intro fuel
  induction fuel with
  | zero => intro st h; simp [run] at h
  | succ n ih =>
    intro st h more
    rw [show n + 1 + more = (n + more) + 1 by omega]
    cases hs : step useArena clock bcModule st with
    | next st' =>
      rw [run_next _ hs] at h ⊢
      exact ih st' h more
    | done o =>
      rw [run_done _ hs] at h ⊢
      exact h

/-! ## The operand stack -/

theorem popFromOpStack_eq {frame : StackFrame} {t : Nat} {value : VM_NUMBER}
    (htop : frame.oprandStack.top = some (t : Int))
    (hcell : frame.oprandStack.data[t]? = some (some value)) :
    popFromOpStack frame = some (value,
      { frame with oprandStack := { frame.oprandStack with top := some ((t : Int) - 1) } }) := by
  simp [popFromOpStack, htop, hcell]

theorem pushToOpStack_eq {frame : StackFrame} {t : Nat} (value : VM_NUMBER)
    (htop : frame.oprandStack.top = some ((t : Int) - 1))
    (hroom : t < frame.oprandStack.data.length) :
    pushToOpStack frame value = some
      { frame with oprandStack :=
          { data := frame.oprandStack.data.set t (some value), top := some (t : Int) } } := by
  simp [pushToOpStack, htop, hroom]

/-! ## Single instructions -/

theorem step_of_stepCase {useArena : Bool} {clock : Nat → Int} {bcModule : BCModule}
    {st : ExecState} {result : StepResult}
    (h : stepCase useArena clock bcModule st = some result) :
    step useArena clock bcModule st = result := by
  simp [step, h]

theorem pushAndFetch_eq {st : ExecState} {value : VM_NUMBER} {index : Nat}
    {frame : StackFrame} {opCode : UInt8}
    (hpush : pushToOpStack st.frame value = some frame)
    (hnext : st.code[index + 1]? = some opCode) :
    pushAndFetch st value index =
      some (.next { st with frame := frame, codeIndex := index + 1, opCode := opCode }) := by
  simp [pushAndFetch, hpush, fetch, hnext]

theorem storeAndFetch_eq {st : ExecState} {varIndex index : Nat} {value : VM_NUMBER}
    {frame frame' : StackFrame} {opCode : UInt8}
    (hpop : popFromOpStack st.frame = some (value, frame))
    (hstore : storeLocal frame varIndex value = some frame')
    (hnext : st.code[index + 1]? = some opCode) :
    storeAndFetch st varIndex index =
      some (.next { st with frame := frame', codeIndex := index + 1, opCode := opCode }) := by
  simp [storeAndFetch, hpop, hstore, fetch, hnext]

theorem step_bipush {useArena : Bool} {clock : Nat → Int} {bcModule : BCModule}
    {st : ExecState} {byte opCode : UInt8} {frame : StackFrame}
    (hop : OpCode.ofByte st.opCode = some .bipush)
    (hbyte : st.code[st.codeIndex + 1]? = some byte)
    (hpush : pushToOpStack st.frame byte.toNat = some frame)
    (hnext : st.code[st.codeIndex + 1 + 1]? = some opCode) :
    step useArena clock bcModule st =
      .next { st with frame := frame, codeIndex := st.codeIndex + 1 + 1, opCode := opCode } := by
  apply step_of_stepCase
  simp [stepCase, hop, hbyte, pushAndFetch_eq hpush hnext]

theorem step_iload {useArena : Bool} {clock : Nat → Int} {bcModule : BCModule}
    {st : ExecState} {c : OpCode} {k : Nat} {value : VM_NUMBER} {opCode : UInt8} {frame : StackFrame}
    (hop : OpCode.ofByte st.opCode = some c)
    (hc : (c = .iload_0 ∧ k = 0) ∨ (c = .iload_1 ∧ k = 1) ∨ (c = .iload_2 ∧ k = 2)
      ∨ (c = .iload_3 ∧ k = 3))
    (hload : loadLocal st.frame k = some value)
    (hpush : pushToOpStack st.frame value = some frame)
    (hnext : st.code[st.codeIndex + 1]? = some opCode) :
    step useArena clock bcModule st =
      .next { st with frame := frame, codeIndex := st.codeIndex + 1, opCode := opCode } := by
  apply step_of_stepCase
  rcases hc with ⟨rfl, rfl⟩ | ⟨rfl, rfl⟩ | ⟨rfl, rfl⟩ | ⟨rfl, rfl⟩ <;>
    simp [stepCase, hop, hload, pushAndFetch_eq hpush hnext]

theorem step_iadd {useArena : Bool} {clock : Nat → Int} {bcModule : BCModule}
    {st : ExecState} {x y : VM_NUMBER} {opCode : UInt8} {f1 f2 f3 : StackFrame}
    (hop : OpCode.ofByte st.opCode = some .iadd)
    (hpop1 : popFromOpStack st.frame = some (x, f1))
    (hpop2 : popFromOpStack f1 = some (y, f2))
    (hpush : pushToOpStack f2 (toVM_NUMBER (x + y)) = some f3)
    (hnext : st.code[st.codeIndex + 1]? = some opCode) :
    step useArena clock bcModule st =
      .next { st with frame := f3, codeIndex := st.codeIndex + 1, opCode := opCode } := by
  apply step_of_stepCase
  have := @pushAndFetch_eq { st with frame := f2 } _ st.codeIndex _ _ hpush hnext
  simp [stepCase, hop, hpop1, hpop2, this]

theorem step_iconst {useArena : Bool} {clock : Nat → Int} {bcModule : BCModule}
    {st : ExecState} {c : OpCode} {k : Int} {opCode : UInt8} {frame : StackFrame}
    (hop : OpCode.ofByte st.opCode = some c)
    (hc : (c = .iconst_0 ∧ k = 0) ∨ (c = .iconst_1 ∧ k = 1) ∨ (c = .iconst_2 ∧ k = 2)
      ∨ (c = .iconst_3 ∧ k = 3) ∨ (c = .iconst_4 ∧ k = 4) ∨ (c = .iconst_5 ∧ k = 5))
    (hpush : pushToOpStack st.frame k = some frame)
    (hnext : st.code[st.codeIndex + 1]? = some opCode) :
    step useArena clock bcModule st =
      .next { st with frame := frame, codeIndex := st.codeIndex + 1, opCode := opCode } := by
  apply step_of_stepCase
  rcases hc with ⟨rfl, rfl⟩ | ⟨rfl, rfl⟩ | ⟨rfl, rfl⟩ | ⟨rfl, rfl⟩ | ⟨rfl, rfl⟩ | ⟨rfl, rfl⟩ <;>
    simp [stepCase, hop, pushAndFetch_eq hpush hnext]

theorem step_istore {useArena : Bool} {clock : Nat → Int} {bcModule : BCModule}
    {st : ExecState} {c : OpCode} {k : Nat} {value : VM_NUMBER} {opCode : UInt8}
    {frame frame' : StackFrame}
    (hop : OpCode.ofByte st.opCode = some c)
    (hc : (c = .istore_0 ∧ k = 0) ∨ (c = .istore_1 ∧ k = 1) ∨ (c = .istore_2 ∧ k = 2)
      ∨ (c = .istore_3 ∧ k = 3))
    (hpop : popFromOpStack st.frame = some (value, frame))
    (hstore : storeLocal frame k value = some frame')
    (hnext : st.code[st.codeIndex + 1]? = some opCode) :
    step useArena clock bcModule st =
      .next { st with frame := frame', codeIndex := st.codeIndex + 1, opCode := opCode } := by
  apply step_of_stepCase
  rcases hc with ⟨rfl, rfl⟩ | ⟨rfl, rfl⟩ | ⟨rfl, rfl⟩ | ⟨rfl, rfl⟩ <;>
    simp [stepCase, hop, storeAndFetch_eq hpop hstore hnext]

theorem step_iinc {useArena : Bool} {clock : Nat → Int} {bcModule : BCModule}
    {st : ExecState} {varIndex offset opCode : UInt8} {value : VM_NUMBER} {frame : StackFrame}
    (hop : OpCode.ofByte st.opCode = some .iinc)
    (hvar : st.code[st.codeIndex + 1]? = some varIndex)
    (hoff : st.code[st.codeIndex + 2]? = some offset)
    (hload : loadLocal st.frame varIndex.toNat = some value)
    (hstore : storeLocal st.frame varIndex.toNat (toVM_NUMBER (value + offset.toNat)) = some frame)
    (hnext : st.code[st.codeIndex + 2 + 1]? = some opCode) :
    step useArena clock bcModule st =
      .next { st with frame := frame, codeIndex := st.codeIndex + 2 + 1, opCode := opCode } := by
  apply step_of_stepCase
  simp [stepCase, hop, hvar, hoff, hload, hstore, fetch, hnext]

theorem compareAndBranch_eq {st : ExecState} {rel : VM_NUMBER → VM_NUMBER → Bool}
    {byte1 byte2 opCode : UInt8} {vleft vright : VM_NUMBER} {f1 f2 : StackFrame}
    (hb1 : st.code[st.codeIndex + 1]? = some byte1)
    (hb2 : st.code[st.codeIndex + 2]? = some byte2)
    (hpop1 : popFromOpStack st.frame = some (vright, f1))
    (hpop2 : popFromOpStack f1 = some (vleft, f2))
    (hnext : st.code[if rel vleft vright then twoBytes byte1 byte2 else st.codeIndex + 2 + 1]?
      = some opCode) :
    compareAndBranch st rel = some (.next { st with
      frame := f2
      codeIndex := if rel vleft vright then twoBytes byte1 byte2 else st.codeIndex + 2 + 1
      opCode := opCode }) := by
  cases hrel : rel vleft vright <;>
    simp [hrel] at hnext <;>
    simp [compareAndBranch, hb1, hb2, hpop1, hpop2, hrel, fetch, hnext]

theorem step_if_icmp {useArena : Bool} {clock : Nat → Int} {bcModule : BCModule}
    {st : ExecState} (byte1 byte2 : UInt8) {c : OpCode} {rel : VM_NUMBER → VM_NUMBER → Bool}
    {opCode : UInt8} {vleft vright : VM_NUMBER} {f1 f2 : StackFrame}
    (hop : OpCode.ofByte st.opCode = some c)
    (hc : (c = .if_icmplt ∧ rel = fun a b => decide (a < b))
      ∨ (c = .if_icmpge ∧ rel = fun a b => decide (a ≥ b))
      ∨ (c = .if_icmpgt ∧ rel = fun a b => decide (a > b))
      ∨ (c = .if_icmple ∧ rel = fun a b => decide (a ≤ b)))
    (hb1 : st.code[st.codeIndex + 1]? = some byte1)
    (hb2 : st.code[st.codeIndex + 2]? = some byte2)
    (hpop1 : popFromOpStack st.frame = some (vright, f1))
    (hpop2 : popFromOpStack f1 = some (vleft, f2))
    (hnext : st.code[if rel vleft vright then twoBytes byte1 byte2 else st.codeIndex + 2 + 1]?
      = some opCode) :
    step useArena clock bcModule st = .next { st with
      frame := f2
      codeIndex := if rel vleft vright then twoBytes byte1 byte2 else st.codeIndex + 2 + 1
      opCode := opCode } := by
  apply step_of_stepCase
  have key := compareAndBranch_eq hb1 hb2 hpop1 hpop2 hnext
  rcases hc with ⟨rfl, rfl⟩ | ⟨rfl, rfl⟩ | ⟨rfl, rfl⟩ | ⟨rfl, rfl⟩ <;>
    simpa [stepCase, hop] using key

theorem testAndBranch_eq {st : ExecState} {test : VM_NUMBER → Bool}
    {byte1 byte2 opCode : UInt8} {value : VM_NUMBER} {frame : StackFrame}
    (hb1 : st.code[st.codeIndex + 1]? = some byte1)
    (hb2 : st.code[st.codeIndex + 2]? = some byte2)
    (hpop : popFromOpStack st.frame = some (value, frame))
    (hnext : st.code[if test value then twoBytes byte1 byte2 else st.codeIndex + 2 + 1]?
      = some opCode) :
    testAndBranch st test = some (.next { st with
      frame := frame
      codeIndex := if test value then twoBytes byte1 byte2 else st.codeIndex + 2 + 1
      opCode := opCode }) := by
  cases htest : test value <;>
    simp [htest] at hnext <;>
    simp [testAndBranch, hb1, hb2, hpop, htest, fetch, hnext]

theorem step_if {useArena : Bool} {clock : Nat → Int} {bcModule : BCModule}
    {st : ExecState} (byte1 byte2 : UInt8) {c : OpCode} {test : VM_NUMBER → Bool}
    {opCode : UInt8} {value : VM_NUMBER} {frame : StackFrame}
    (hop : OpCode.ofByte st.opCode = some c)
    (hc : (c = .ifeq ∧ test = fun v => v == 0) ∨ (c = .ifne ∧ test = fun v => v != 0))
    (hb1 : st.code[st.codeIndex + 1]? = some byte1)
    (hb2 : st.code[st.codeIndex + 2]? = some byte2)
    (hpop : popFromOpStack st.frame = some (value, frame))
    (hnext : st.code[if test value then twoBytes byte1 byte2 else st.codeIndex + 2 + 1]?
      = some opCode) :
    step useArena clock bcModule st = .next { st with
      frame := frame
      codeIndex := if test value then twoBytes byte1 byte2 else st.codeIndex + 2 + 1
      opCode := opCode } := by
  apply step_of_stepCase
  have key := testAndBranch_eq hb1 hb2 hpop hnext
  rcases hc with ⟨rfl, rfl⟩ | ⟨rfl, rfl⟩ <;>
    simpa [stepCase, hop] using key

theorem step_goto {useArena : Bool} {clock : Nat → Int} {bcModule : BCModule}
    {st : ExecState} (byte1 byte2 : UInt8) {opCode : UInt8}
    (hop : OpCode.ofByte st.opCode = some ._goto)
    (hb1 : st.code[st.codeIndex + 1]? = some byte1)
    (hb2 : st.code[st.codeIndex + 2]? = some byte2)
    (hnext : st.code[twoBytes byte1 byte2]? = some opCode) :
    step useArena clock bcModule st =
      .next { st with codeIndex := twoBytes byte1 byte2, opCode := opCode } := by
  apply step_of_stepCase
  simp [stepCase, hop, hb1, hb2, fetch, hnext]

theorem step_println {useArena : Bool} {clock : Nat → Int} {bcModule : BCModule}
    {st : ExecState} (byte1 byte2 : UInt8) {opCode : UInt8} {functionSym : FunctionSymbol}
    {param : VM_NUMBER} {frame : StackFrame}
    (hop : OpCode.ofByte st.opCode = some .invokestatic)
    (hb1 : st.code[st.codeIndex + 1]? = some byte1)
    (hb2 : st.code[st.codeIndex + 2]? = some byte2)
    (hfun : functionConstAt bcModule (twoBytes byte1 byte2) = some functionSym)
    (hname : strcmp_eq functionSym.symbol.name "println" = true)
    (hpop : popFromOpStack st.frame = some (param, frame))
    (hnext : st.code[st.codeIndex + 2 + 1]? = some opCode) :
    step useArena clock bcModule st = .next { st with
      functionSym := functionSym
      frame := frame, codeIndex := st.codeIndex + 2 + 1, opCode := opCode
      stdout := st.stdout ++ [fmt_d param ++ "\n"] } := by
  apply step_of_stepCase
  simp [stepCase, hop, doInvokestatic, hb1, hb2, hfun, hname, hpop, hnext]

theorem step_call {useArena : Bool} {clock : Nat → Int} {bcModule : BCModule}
    {st : ExecState} (byte1 byte2 : UInt8) {opCode : UInt8} {functionSym : FunctionSymbol}
    {paramCount : Nat} {arena : Arena} {frame0 frame lastFrame : StackFrame}
    {code : List UInt8}
    (hop : OpCode.ofByte st.opCode = some .invokestatic)
    (hb1 : st.code[st.codeIndex + 1]? = some byte1)
    (hb2 : st.code[st.codeIndex + 2]? = some byte2)
    (hfun : functionConstAt bcModule (twoBytes byte1 byte2) = some functionSym)
    (hname1 : strcmp_eq functionSym.symbol.name "println" = false)
    (hname2 : strcmp_eq functionSym.symbol.name "tick" = false)
    (hcreate : createStackFrame useArena st.arena functionSym = some (frame0, arena))
    (hcount : paramCountOf functionSym = some paramCount)
    (hpass : passParams paramCount frame0 { st.frame with returnIndex := st.codeIndex + 2 + 1 }
      = some (frame, lastFrame))
    (hcode : frame.byteCode = some code)
    (hnext : code[0]? = some opCode) :
    step useArena clock bcModule st = .next { st with
      functionSym := functionSym
      arena := arena, frame := { frame with prev := some lastFrame }
      code := code, codeIndex := 0, opCode := opCode } := by
  apply step_of_stepCase
  simp [stepCase, hop, doInvokestatic, hb1, hb2, hfun, hname1, hname2, hcreate, hcount, hpass,
    hcode, hnext]

theorem step_return {useArena : Bool} {clock : Nat → Int} {bcModule : BCModule}
    {st : ExecState} {arena : Arena} {frame : StackFrame} {code : List UInt8} {opCode : UInt8}
    (hop : OpCode.ofByte st.opCode = some ._return)
    (hdel : deleteStackFrame useArena st.arena st.frame = some arena)
    (hprev : st.frame.prev = some frame)
    (hcode : frame.byteCode = some code)
    (hnext : code[frame.returnIndex]? = some opCode) :
    step useArena clock bcModule st = .next { st with
      arena := arena, frame := frame, code := code
      codeIndex := frame.returnIndex, opCode := opCode } := by
  apply step_of_stepCase
  simp [stepCase, hop, doReturn, hdel, hprev, hcode, hnext]

theorem step_ireturn {useArena : Bool} {clock : Nat → Int} {bcModule : BCModule}
    {st : ExecState} {arena : Arena} {retValue : VM_NUMBER} {lastFrame caller frame : StackFrame}
    {code : List UInt8} {opCode : UInt8}
    (hop : OpCode.ofByte st.opCode = some .ireturn)
    (hpop : popFromOpStack st.frame = some (retValue, lastFrame))
    (hdel : deleteStackFrame useArena st.arena lastFrame = some arena)
    (hprev : lastFrame.prev = some caller)
    (hpush : pushToOpStack caller retValue = some frame)
    (hcode : frame.byteCode = some code)
    (hnext : code[frame.returnIndex]? = some opCode) :
    step useArena clock bcModule st = .next { st with
      arena := arena, frame := frame, code := code
      codeIndex := frame.returnIndex, opCode := opCode } := by
  apply step_of_stepCase
  simp [stepCase, hop, doReturn, hpop, hdel, hprev, hpush, hcode, hnext]

theorem step_return_main {useArena : Bool} {clock : Nat → Int} {bcModule : BCModule}
    {st : ExecState} {arena : Arena}
    (hop : OpCode.ofByte st.opCode = some ._return)
    (hdel : deleteStackFrame useArena st.arena st.frame = some arena)
    (hprev : st.frame.prev = none) :
    step useArena clock bcModule st = .done (.returned 0 st.stdout arena) := by
  apply step_of_stepCase
  simp [stepCase, hop, doReturn, hdel, hprev]

theorem popFromOpStack_succ {frame : StackFrame} {t : Nat} {value : VM_NUMBER}
    (htop : frame.oprandStack.top = some ((t : Int) + 1))
    (hcell : frame.oprandStack.data[t + 1]? = some (some value)) :
    popFromOpStack frame = some (value,
      { frame with oprandStack := { frame.oprandStack with top := some (t : Int) } }) := by
  have h := @popFromOpStack_eq frame (t + 1) value (by simpa using htop) hcell
  simpa using h

/-! ## C4: `iadd` -/

/-- C4. For every state whose current instruction is `iadd` and whose operand
stack holds `b` on top (cell `t + 1`) and `a` below it (cell `t`), one
iteration of the loop leaves `toVM_NUMBER (a + b)` in cell `t` with `top = t`,
changes no other cell of the stack, no local and nothing else of the state,
and moves to `codeIndex + 1`; `toVM_NUMBER (a + b)` is the value congruent to
`a + b` modulo `2^32` that lies in the range of a 32-bit signed integer. -/
theorem iadd_replaces_operands_by_wrapped_sum
    (useArena : Bool) (clock : Nat → Int) (bcModule : BCModule) (st : ExecState)
    (t : Nat) (a b : VM_NUMBER) (opCode : UInt8)
    (hop : OpCode.ofByte st.opCode = some .iadd)
    (htop : st.frame.oprandStack.top = some ((t : Int) + 1))
    (hb : st.frame.oprandStack.data[t + 1]? = some (some b))
    (ha : st.frame.oprandStack.data[t]? = some (some a))
    (hnext : st.code[st.codeIndex + 1]? = some opCode) :
    step useArena clock bcModule st = .next { st with
        frame := { st.frame with oprandStack :=
          { data := st.frame.oprandStack.data.set t (some (toVM_NUMBER (a + b)))
            top := some (t : Int) } }
        codeIndex := st.codeIndex + 1
        opCode := opCode }
      ∧ (toVM_NUMBER (a + b) - (a + b)) % 4294967296 = 0
      ∧ -2147483648 ≤ toVM_NUMBER (a + b) ∧ toVM_NUMBER (a + b) < 2147483648 := by
  have hlen : t < st.frame.oprandStack.data.length := (List.getElem?_eq_some.1 ha).1
  refine ⟨?_, toVM_NUMBER_congruent _, toVM_NUMBER_range _⟩
  rw [Int.add_comm a b]
  exact step_iadd hop (popFromOpStack_succ htop hb) (popFromOpStack_eq rfl ha)
    (pushToOpStack_eq _ rfl hlen) hnext

/-- C4, witness: the program `bipush 3; bipush 4; iadd; invokestatic println;
_return` at its `iadd`, with 3 and 4 on the operand stack. -/
theorem iadd_replaces_operands_by_wrapped_sum_witness :
    step USE_ARENA (fun _ => 0) (scenarioModule (mainFunction 0 additionCode))
        (mainState additionCode 4 0x60 [] [3, 4])
      = .next { mainState additionCode 4 0x60 [] [3, 4] with
        frame := { (mainState additionCode 4 0x60 [] [3, 4]).frame with oprandStack :=
          { data := (mainState additionCode 4 0x60 [] [3, 4]).frame.oprandStack.data.set 0
              (some (toVM_NUMBER (3 + 4)))
            top := some ((0 : Nat) : Int) } }
        codeIndex := (mainState additionCode 4 0x60 [] [3, 4]).codeIndex + 1
        opCode := 0xb8 }
      ∧ (toVM_NUMBER (3 + 4) - (3 + 4)) % 4294967296 = 0
      ∧ -2147483648 ≤ toVM_NUMBER (3 + 4) ∧ toVM_NUMBER (3 + 4) < 2147483648 :=
  iadd_replaces_operands_by_wrapped_sum USE_ARENA (fun _ => 0)
    (scenarioModule (mainFunction 0 additionCode)) (mainState additionCode 4 0x60 [] [3, 4])
    0 3 4 0xb8 rfl rfl rfl rfl rfl

theorem step_sipush {useArena : Bool} {clock : Nat → Int} {bcModule : BCModule}
    {st : ExecState} {byte1 byte2 opCode : UInt8} {frame : StackFrame}
    (hop : OpCode.ofByte st.opCode = some .sipush)
    (hb1 : st.code[st.codeIndex + 1]? = some byte1)
    (hb2 : st.code[st.codeIndex + 2]? = some byte2)
    (hpush : pushToOpStack st.frame (twoBytes byte1 byte2) = some frame)
    (hnext : st.code[st.codeIndex + 2 + 1]? = some opCode) :
    step useArena clock bcModule st =
      .next { st with frame := frame, codeIndex := st.codeIndex + 2 + 1, opCode := opCode } := by
  apply step_of_stepCase
  simp [stepCase, hop, hb1, hb2, pushAndFetch_eq hpush hnext]

theorem step_isub {useArena : Bool} {clock : Nat → Int} {bcModule : BCModule}
    {st : ExecState} {vleft vright : VM_NUMBER} {opCode : UInt8} {f1 f2 f3 : StackFrame}
    (hop : OpCode.ofByte st.opCode = some .isub)
    (hpop1 : popFromOpStack st.frame = some (vright, f1))
    (hpop2 : popFromOpStack f1 = some (vleft, f2))
    (hpush : pushToOpStack f2 (toVM_NUMBER (vleft - vright)) = some f3)
    (hnext : st.code[st.codeIndex + 1]? = some opCode) :
    step useArena clock bcModule st =
      .next { st with frame := f3, codeIndex := st.codeIndex + 1, opCode := opCode } := by
  apply step_of_stepCase
  have := @pushAndFetch_eq { st with frame := f2 } _ st.codeIndex _ _ hpush hnext
  simp [stepCase, hop, hpop1, hpop2, this]

theorem step_idiv {useArena : Bool} {clock : Nat → Int} {bcModule : BCModule}
    {st : ExecState} {vleft vright quotient : VM_NUMBER} {opCode : UInt8} {f1 f2 f3 : StackFrame}
    (hop : OpCode.ofByte st.opCode = some .idiv)
    (hpop1 : popFromOpStack st.frame = some (vright, f1))
    (hpop2 : popFromOpStack f1 = some (vleft, f2))
    (hdiv : cDiv vleft vright = some quotient)
    (hpush : pushToOpStack f2 quotient = some f3)
    (hnext : st.code[st.codeIndex + 1]? = some opCode) :
    step useArena clock bcModule st =
      .next { st with frame := f3, codeIndex := st.codeIndex + 1, opCode := opCode } := by
  apply step_of_stepCase
  have := @pushAndFetch_eq { st with frame := f2 } _ st.codeIndex _ _ hpush hnext
  simp [stepCase, hop, hpop1, hpop2, hdiv, this]

theorem loadLocal_eq {frame : StackFrame} {i : Nat} {value : VM_NUMBER}
    (h : frame.localVars[i]? = some (some value)) : loadLocal frame i = some value := by
  simp [loadLocal, h]

theorem storeLocal_eq {frame : StackFrame} {i : Nat} (value : VM_NUMBER)
    (h : i < frame.localVars.length) :
    storeLocal frame i value =
      some { frame with localVars := frame.localVars.set i (some value) } := by
  simp [storeLocal, h]

/-! ## C7: `iinc` -/

/-- C7, as stated, fails. With 10 in local 0, the instruction `iinc 0, 0xFF`
leaves 265 in local 0, where adding the sign-extended operand would leave 9:
the operand byte is read as an `unsigned char` and added as it is. -/
theorem iinc_operand_is_not_sign_extended :
    ∃ st, step USE_ARENA (fun _ => 0) (scenarioModule (mainFunction 1 [0x84, 0, 0xFF, 0xb1]))
        (mainState [0x84, 0, 0xFF, 0xb1] 0 0x84 [some 10] []) = .next st
      ∧ loadLocal st.frame 0 = some 265
      ∧ toVM_NUMBER (10 + signExtend8 0xFF) = 9
      ∧ loadLocal st.frame 0 ≠ some (toVM_NUMBER (10 + signExtend8 0xFF)) :=
  ⟨_, rfl, rfl, rfl, by decide⟩

/-- C7, amended. For every state whose current instruction is `iinc i, d` and
whose local `i` holds `v`, one iteration of the loop stores
`toVM_NUMBER (v + d)` in local `i`, the operand byte `d` being taken as an
unsigned value from 0 to 255, changes no other local, nothing of the operand
stack and nothing else of the state, and moves to `codeIndex + 3`. -/
theorem iinc_adds_unsigned_operand
    (useArena : Bool) (clock : Nat → Int) (bcModule : BCModule) (st : ExecState)
    (i d opCode : UInt8) (v : VM_NUMBER)
    (hop : OpCode.ofByte st.opCode = some .iinc)
    (hi : st.code[st.codeIndex + 1]? = some i)
    (hd : st.code[st.codeIndex + 2]? = some d)
    (hv : st.frame.localVars[i.toNat]? = some (some v))
    (hnext : st.code[st.codeIndex + 3]? = some opCode) :
    step useArena clock bcModule st = .next { st with
        frame := { st.frame with
          localVars := st.frame.localVars.set i.toNat (some (toVM_NUMBER (v + (d.toNat : Int)))) }
        codeIndex := st.codeIndex + 3
        opCode := opCode }
      ∧ (0 : Int) ≤ (d.toNat : Int) ∧ (d.toNat : Int) ≤ 255 := by
  have hlen : i.toNat < st.frame.localVars.length := (List.getElem?_eq_some.1 hv).1
  have hd255 : d.toNat < 256 := d.toNat_lt
  refine ⟨?_, by omega, by omega⟩
  exact step_iinc hop hi hd (loadLocal_eq hv) (storeLocal_eq _ hlen) hnext

/-- C7, witness: `iinc 0, 0xFF` with 10 in local 0. -/
theorem iinc_adds_unsigned_operand_witness :
    step USE_ARENA (fun _ => 0) (scenarioModule (mainFunction 1 [0x84, 0, 0xFF, 0xb1]))
        (mainState [0x84, 0, 0xFF, 0xb1] 0 0x84 [some 10] []) =
      .next { mainState [0x84, 0, 0xFF, 0xb1] 0 0x84 [some 10] [] with
        frame := { (mainState [0x84, 0, 0xFF, 0xb1] 0 0x84 [some 10] []).frame with
          localVars := (mainState [0x84, 0, 0xFF, 0xb1] 0 0x84 [some 10] []).frame.localVars.set
            (0 : UInt8).toNat (some (toVM_NUMBER (10 + ((0xFF : UInt8).toNat : Int)))) }
        codeIndex := (mainState [0x84, 0, 0xFF, 0xb1] 0 0x84 [some 10] []).codeIndex + 3
        opCode := 0xb1 }
      ∧ (0 : Int) ≤ ((0xFF : UInt8).toNat : Int) ∧ ((0xFF : UInt8).toNat : Int) ≤ 255 :=
  iinc_adds_unsigned_operand USE_ARENA (fun _ => 0)
    (scenarioModule (mainFunction 1 [0x84, 0, 0xFF, 0xb1]))
    (mainState [0x84, 0, 0xFF, 0xb1] 0 0x84 [some 10] []) 0 0xFF 0xb1 10 rfl rfl rfl rfl rfl

/-! ## C8: `sipush` and `bipush` -/

/-- C8. For every state `s` whose current instruction is `sipush b1 b2`, one
iteration of the loop pushes `b1 * 256 + b2`, a value from 0 to 65535, and
moves to `codeIndex + 3`; for every state `s'` whose current instruction is
`bipush b`, one iteration pushes the value of the byte `b`, from 0 to 255,
and moves to `codeIndex + 2`.  In both cases the value goes to the cell above
`top`, and nothing else changes. -/
theorem sipush_and_bipush_push_unsigned
    (useArena : Bool) (clock : Nat → Int) (bcModule : BCModule)
    (s : ExecState) (t : Nat) (b1 b2 opCode : UInt8)
    (s' : ExecState) (t' : Nat) (b opCode' : UInt8)
    (hop : OpCode.ofByte s.opCode = some .sipush)
    (hb1 : s.code[s.codeIndex + 1]? = some b1)
    (hb2 : s.code[s.codeIndex + 2]? = some b2)
    (htop : s.frame.oprandStack.top = some ((t : Int) - 1))
    (hroom : t < s.frame.oprandStack.data.length)
    (hnext : s.code[s.codeIndex + 3]? = some opCode)
    (hop' : OpCode.ofByte s'.opCode = some .bipush)
    (hb : s'.code[s'.codeIndex + 1]? = some b)
    (htop' : s'.frame.oprandStack.top = some ((t' : Int) - 1))
    (hroom' : t' < s'.frame.oprandStack.data.length)
    (hnext' : s'.code[s'.codeIndex + 2]? = some opCode') :
    (step useArena clock bcModule s = .next { s with
        frame := { s.frame with oprandStack :=
          { data := s.frame.oprandStack.data.set t (some ((b1.toNat * 256 + b2.toNat : Nat) : Int))
            top := some (t : Int) } }
        codeIndex := s.codeIndex + 3
        opCode := opCode }
      ∧ b1.toNat * 256 + b2.toNat ≤ 65535)
    ∧ (step useArena clock bcModule s' = .next { s' with
        frame := { s'.frame with oprandStack :=
          { data := s'.frame.oprandStack.data.set t' (some (b.toNat : Int))
            top := some (t' : Int) } }
        codeIndex := s'.codeIndex + 2
        opCode := opCode' }
      ∧ b.toNat ≤ 255) := by
  have h1 : b1.toNat < 256 := b1.toNat_lt
  have h2 : b2.toNat < 256 := b2.toNat_lt
  have h3 : b.toNat < 256 := b.toNat_lt
  refine ⟨⟨?_, by omega⟩, ?_, by omega⟩
  · rw [← twoBytes_eq]
    exact step_sipush hop hb1 hb2 (pushToOpStack_eq _ htop hroom) hnext
  · exact step_bipush hop' hb (pushToOpStack_eq _ htop' hroom') hnext'

/-- C8, witness: `sipush 0xFF 0xFE` pushes 65534 and `bipush 0xFF` pushes 255,
each on an empty operand stack. -/
theorem sipush_and_bipush_push_unsigned_witness :
    (step USE_ARENA (fun _ => 0) (scenarioModule (mainFunction 0 [0x11, 0xFF, 0xFE, 0xb1]))
        (mainState [0x11, 0xFF, 0xFE, 0xb1] 0 0x11 [] []) =
      .next { mainState [0x11, 0xFF, 0xFE, 0xb1] 0 0x11 [] [] with
        frame := { (mainState [0x11, 0xFF, 0xFE, 0xb1] 0 0x11 [] []).frame with oprandStack :=
          { data := (mainState [0x11, 0xFF, 0xFE, 0xb1] 0 0x11 [] []).frame.oprandStack.data.set 0
              (some (((0xFF : UInt8).toNat * 256 + (0xFE : UInt8).toNat : Nat) : Int))
            top := some ((0 : Nat) : Int) } }
        codeIndex := (mainState [0x11, 0xFF, 0xFE, 0xb1] 0 0x11 [] []).codeIndex + 3
        opCode := 0xb1 }
      ∧ (0xFF : UInt8).toNat * 256 + (0xFE : UInt8).toNat ≤ 65535)
    ∧ (step USE_ARENA (fun _ => 0) (scenarioModule (mainFunction 0 [0x10, 0xFF, 0xb1]))
        (mainState [0x10, 0xFF, 0xb1] 0 0x10 [] []) =
      .next { mainState [0x10, 0xFF, 0xb1] 0 0x10 [] [] with
        frame := { (mainState [0x10, 0xFF, 0xb1] 0 0x10 [] []).frame with oprandStack :=
          { data := (mainState [0x10, 0xFF, 0xb1] 0 0x10 [] []).frame.oprandStack.data.set 0
              (some ((0xFF : UInt8).toNat : Int))
            top := some ((0 : Nat) : Int) } }
        codeIndex := (mainState [0x10, 0xFF, 0xb1] 0 0x10 [] []).codeIndex + 2
        opCode := 0xb1 }
      ∧ (0xFF : UInt8).toNat ≤ 255) :=
  sipush_and_bipush_push_unsigned USE_ARENA (fun _ => 0)
    (scenarioModule (mainFunction 0 [0x11, 0xFF, 0xFE, 0xb1]))
    (mainState [0x11, 0xFF, 0xFE, 0xb1] 0 0x11 [] []) 0 0xFF 0xFE 0xb1
    (mainState [0x10, 0xFF, 0xb1] 0 0x10 [] []) 0 0xFF 0xb1
    rfl rfl rfl rfl (by decide) rfl rfl rfl rfl (by decide) rfl

/-! ## C9: `if_icmplt`, `if_icmpge`, `if_icmpgt`, `if_icmple` -/

/-- C9. For every state whose current instruction `c` is one of `if_icmplt`,
`if_icmpge`, `if_icmpgt`, `if_icmple` with operand bytes `t1 t2`, and whose
operand stack holds `b` on top and `a` below it, one iteration of the loop
pops both values and continues at `t1 * 256 + t2` when `a REL b` holds, at
`codeIndex + 3` when it does not, `REL` being `<`, `≥`, `>`, `≤` in this
order; so, unless the target is the index of the next instruction, the index
becomes the target if and only if `a REL b`.  Nothing else changes. -/
theorem if_icmp_branches_on_relation
    (useArena : Bool) (clock : Nat → Int) (bcModule : BCModule) (st : ExecState)
    (c : OpCode) (REL : Prop) [Decidable REL] (t : Nat) (a b : VM_NUMBER) (t1 t2 opCode : UInt8)
    (hop : OpCode.ofByte st.opCode = some c)
    (hc : (c = .if_icmplt ∧ (REL ↔ a < b)) ∨ (c = .if_icmpge ∧ (REL ↔ a ≥ b))
      ∨ (c = .if_icmpgt ∧ (REL ↔ a > b)) ∨ (c = .if_icmple ∧ (REL ↔ a ≤ b)))
    (ht1 : st.code[st.codeIndex + 1]? = some t1)
    (ht2 : st.code[st.codeIndex + 2]? = some t2)
    (htop : st.frame.oprandStack.top = some ((t : Int) + 1))
    (hb : st.frame.oprandStack.data[t + 1]? = some (some b))
    (ha : st.frame.oprandStack.data[t]? = some (some a))
    (hnext : st.code[if REL then t1.toNat * 256 + t2.toNat else st.codeIndex + 3]?
      = some opCode) :
    ∃ st', step useArena clock bcModule st = .next st'
      ∧ st' = { st with
          frame := { st.frame with
            oprandStack := { st.frame.oprandStack with top := some ((t : Int) - 1) } }
          codeIndex := if REL then t1.toNat * 256 + t2.toNat else st.codeIndex + 3
          opCode := opCode }
      ∧ (REL → st'.codeIndex = t1.toNat * 256 + t2.toNat)
      ∧ (¬ REL → st'.codeIndex = st.codeIndex + 3)
      ∧ (t1.toNat * 256 + t2.toNat ≠ st.codeIndex + 3 →
          (st'.codeIndex = t1.toNat * 256 + t2.toNat ↔ REL)) := by
  have key : ∀ rel : VM_NUMBER → VM_NUMBER → Bool, (rel a b = true ↔ REL) →
      ((c = .if_icmplt ∧ rel = fun a b => decide (a < b))
        ∨ (c = .if_icmpge ∧ rel = fun a b => decide (a ≥ b))
        ∨ (c = .if_icmpgt ∧ rel = fun a b => decide (a > b))
        ∨ (c = .if_icmple ∧ rel = fun a b => decide (a ≤ b))) →
      step useArena clock bcModule st = .next { st with
          frame := { st.frame with
            oprandStack := { st.frame.oprandStack with top := some ((t : Int) - 1) } }
          codeIndex := if REL then t1.toNat * 256 + t2.toNat else st.codeIndex + 3
          opCode := opCode } := by
    intro rel hrel hcr
    have hif : (if rel a b = true then twoBytes t1 t2 else st.codeIndex + 2 + 1)
        = if REL then t1.toNat * 256 + t2.toNat else st.codeIndex + 3 := by
      by_cases hR : REL
      · simp [hR, hrel.2 hR, twoBytes_eq]
      · have : rel a b = false := by
          cases h : rel a b
          · rfl
          · exact absurd (hrel.1 h) hR
        simp [hR, this]
    have := @step_if_icmp useArena clock bcModule st t1 t2 c rel opCode a b _ _
      hop hcr ht1 ht2 (popFromOpStack_succ htop hb) (popFromOpStack_eq rfl ha)
      (by rw [hif]; exact hnext)
    rw [this, hif]
  have hstep : step useArena clock bcModule st = .next { st with
          frame := { st.frame with
            oprandStack := { st.frame.oprandStack with top := some ((t : Int) - 1) } }
          codeIndex := if REL then t1.toNat * 256 + t2.toNat else st.codeIndex + 3
          opCode := opCode } := by
    rcases hc with ⟨hc, hr⟩ | ⟨hc, hr⟩ | ⟨hc, hr⟩ | ⟨hc, hr⟩
    · exact key (fun a b => decide (a < b)) (by simpa using hr.symm) (.inl ⟨hc, rfl⟩)
    · exact key (fun a b => decide (a ≥ b)) (by simpa using hr.symm) (.inr (.inl ⟨hc, rfl⟩))
    · exact key (fun a b => decide (a > b)) (by simpa using hr.symm)
        (.inr (.inr (.inl ⟨hc, rfl⟩)))
    · exact key (fun a b => decide (a ≤ b)) (by simpa using hr.symm)
        (.inr (.inr (.inr ⟨hc, rfl⟩)))
  refine ⟨_, hstep, rfl, ?_, ?_, ?_⟩
  · intro hR; simp [hR]
  · intro hR; simp [hR]
  · intro hne
    by_cases hR : REL
    · simp [hR]
    · simp only [hR, if_false, iff_false]
      exact fun h => hne h.symm

/-- C9, witness: the `if_icmple` of the loop program (target 4) with 2 below
10 on the operand stack. -/
theorem if_icmp_branches_on_relation_witness :
    ∃ st', step USE_ARENA (fun _ => 0) (scenarioModule (mainFunction 2 (loopCode 10)))
        (mainState (loopCode 10) 14 0xa4 [some 1, some 2] [2, 10]) = .next st'
      ∧ st' = { mainState (loopCode 10) 14 0xa4 [some 1, some 2] [2, 10] with
          frame := { (mainState (loopCode 10) 14 0xa4 [some 1, some 2] [2, 10]).frame with
            oprandStack :=
              { (mainState (loopCode 10) 14 0xa4 [some 1, some 2] [2, 10]).frame.oprandStack with
                top := some (((0 : Nat) : Int) - 1) } }
          codeIndex := if (2 : Int) ≤ 10 then (0 : UInt8).toNat * 256 + (4 : UInt8).toNat
            else (mainState (loopCode 10) 14 0xa4 [some 1, some 2] [2, 10]).codeIndex + 3
          opCode := 0x1a }
      ∧ ((2 : Int) ≤ 10 → st'.codeIndex = (0 : UInt8).toNat * 256 + (4 : UInt8).toNat)
      ∧ (¬ (2 : Int) ≤ 10 → st'.codeIndex
          = (mainState (loopCode 10) 14 0xa4 [some 1, some 2] [2, 10]).codeIndex + 3)
      ∧ ((0 : UInt8).toNat * 256 + (4 : UInt8).toNat
          ≠ (mainState (loopCode 10) 14 0xa4 [some 1, some 2] [2, 10]).codeIndex + 3 →
          (st'.codeIndex = (0 : UInt8).toNat * 256 + (4 : UInt8).toNat ↔ (2 : Int) ≤ 10)) :=
  if_icmp_branches_on_relation USE_ARENA (fun _ => 0)
    (scenarioModule (mainFunction 2 (loopCode 10)))
    (mainState (loopCode 10) 14 0xa4 [some 1, some 2] [2, 10])
    .if_icmple ((2 : Int) ≤ 10) 0 2 10 0 4 0x1a
    rfl (.inr (.inr (.inr ⟨rfl, Iff.rfl⟩))) rfl rfl rfl rfl rfl rfl

/-! ## C10: `isub` and `idiv` -/

theorem tdiv_sign (a b : Int) :
    (0 ≤ a → 0 ≤ b → 0 ≤ Int.tdiv a b) ∧ (a ≤ 0 → b ≤ 0 → 0 ≤ Int.tdiv a b)
    ∧ (a ≤ 0 → 0 ≤ b → Int.tdiv a b ≤ 0) ∧ (0 ≤ a → b ≤ 0 → Int.tdiv a b ≤ 0) := by
  refine ⟨fun ha hb => Int.tdiv_nonneg ha hb, fun ha hb => ?_, fun ha hb => ?_, fun ha hb => ?_⟩
  · have h := Int.tdiv_nonneg (Int.neg_nonneg.2 ha) (Int.neg_nonneg.2 hb)
    rwa [Int.neg_tdiv_neg] at h
  · have h := Int.tdiv_nonneg (Int.neg_nonneg.2 ha) hb
    rw [Int.neg_tdiv] at h
    omega
  · have h := Int.tdiv_nonneg ha (Int.neg_nonneg.2 hb)
    rw [Int.tdiv_neg] at h
    omega

/-- C10. For every state `s` whose current instruction is `isub` and whose
operand stack holds `b` on top and `a` below it, one iteration of the loop
leaves `a - b` (reduced to 32 bits, and `a - b` itself when that is a 32-bit
value) in the cell of `a` with `top` one lower, and moves to `codeIndex + 1`.
For every state `s'` whose current instruction is `idiv`, with `b'` on top
and `a'` below it, `b'` not 0 and not (`a'` the least integer and `b'` -1),
one iteration leaves there the quotient `q` of `a'` by `b'` rounded toward
zero: the magnitude of `q` is the magnitude of `a'` divided by that of `b'`
with the remainder dropped, and `q` is not negative when `a'` and `b'` have
the same sign and not positive when they have opposite signs.  Nothing else
changes. -/
theorem isub_and_idiv_operand_order
    (useArena : Bool) (clock : Nat → Int) (bcModule : BCModule)
    (s : ExecState) (t : Nat) (a b : VM_NUMBER) (opCode : UInt8)
    (s' : ExecState) (t' : Nat) (a' b' : VM_NUMBER) (opCode' : UInt8)
    (hop : OpCode.ofByte s.opCode = some .isub)
    (htop : s.frame.oprandStack.top = some ((t : Int) + 1))
    (hb : s.frame.oprandStack.data[t + 1]? = some (some b))
    (ha : s.frame.oprandStack.data[t]? = some (some a))
    (hnext : s.code[s.codeIndex + 1]? = some opCode)
    (hop' : OpCode.ofByte s'.opCode = some .idiv)
    (htop' : s'.frame.oprandStack.top = some ((t' : Int) + 1))
    (hb' : s'.frame.oprandStack.data[t' + 1]? = some (some b'))
    (ha' : s'.frame.oprandStack.data[t']? = some (some a'))
    (hzero : b' ≠ 0)
    (hrepr : ¬ (a' = -2147483648 ∧ b' = -1))
    (hnext' : s'.code[s'.codeIndex + 1]? = some opCode') :
    (step useArena clock bcModule s = .next { s with
        frame := { s.frame with oprandStack :=
          { data := s.frame.oprandStack.data.set t (some (toVM_NUMBER (a - b)))
            top := some (t : Int) } }
        codeIndex := s.codeIndex + 1
        opCode := opCode }
      ∧ (-2147483648 ≤ a - b → a - b < 2147483648 → toVM_NUMBER (a - b) = a - b))
    ∧ (step useArena clock bcModule s' = .next { s' with
        frame := { s'.frame with oprandStack :=
          { data := s'.frame.oprandStack.data.set t' (some (Int.tdiv a' b'))
            top := some (t' : Int) } }
        codeIndex := s'.codeIndex + 1
        opCode := opCode' }
      ∧ (Int.tdiv a' b').natAbs = a'.natAbs / b'.natAbs
      ∧ (0 ≤ a' → 0 ≤ b' → 0 ≤ Int.tdiv a' b') ∧ (a' ≤ 0 → b' ≤ 0 → 0 ≤ Int.tdiv a' b')
      ∧ (a' ≤ 0 → 0 ≤ b' → Int.tdiv a' b' ≤ 0) ∧ (0 ≤ a' → b' ≤ 0 → Int.tdiv a' b' ≤ 0)) := by
  have hlen : t < s.frame.oprandStack.data.length := (List.getElem?_eq_some.1 ha).1
  have hlen' : t' < s'.frame.oprandStack.data.length := (List.getElem?_eq_some.1 ha').1
  have hdiv : cDiv a' b' = some (Int.tdiv a' b') := by
    have : ¬ (a' = INT_MIN ∧ b' = -1) := hrepr
    simp [cDiv, hzero, this]
  refine ⟨⟨?_, fun h1 h2 => toVM_NUMBER_of_range h1 h2⟩, ?_, Int.natAbs_tdiv a' b',
    tdiv_sign a' b'⟩
  · exact step_isub hop (popFromOpStack_succ htop hb) (popFromOpStack_eq rfl ha)
      (pushToOpStack_eq _ rfl hlen) hnext
  · exact step_idiv hop' (popFromOpStack_succ htop' hb') (popFromOpStack_eq rfl ha') hdiv
      (pushToOpStack_eq _ rfl hlen') hnext'

/-- C10, witness: `isub` with 3 below 10 (the result is -7) and `idiv` with
-7 below 2 (the result, `Int.tdiv (-7) 2`, is -3). -/
theorem isub_and_idiv_operand_order_witness :
    ((step USE_ARENA (fun _ => 0) (scenarioModule (mainFunction 0 [0x64, 0xb1]))
        (mainState [0x64, 0xb1] 0 0x64 [] [3, 10]) =
      .next { mainState [0x64, 0xb1] 0 0x64 [] [3, 10] with
        frame := { (mainState [0x64, 0xb1] 0 0x64 [] [3, 10]).frame with oprandStack :=
          { data := (mainState [0x64, 0xb1] 0 0x64 [] [3, 10]).frame.oprandStack.data.set 0
              (some (toVM_NUMBER (3 - 10)))
            top := some ((0 : Nat) : Int) } }
        codeIndex := (mainState [0x64, 0xb1] 0 0x64 [] [3, 10]).codeIndex + 1
        opCode := 0xb1 }
      ∧ (-2147483648 ≤ (3 : Int) - 10 → (3 : Int) - 10 < 2147483648 →
          toVM_NUMBER (3 - 10) = 3 - 10))
    ∧ (step USE_ARENA (fun _ => 0) (scenarioModule (mainFunction 0 [0x64, 0xb1]))
        (mainState [0x6c, 0xb1] 0 0x6c [] [-7, 2]) =
      .next { mainState [0x6c, 0xb1] 0 0x6c [] [-7, 2] with
        frame := { (mainState [0x6c, 0xb1] 0 0x6c [] [-7, 2]).frame with oprandStack :=
          { data := (mainState [0x6c, 0xb1] 0 0x6c [] [-7, 2]).frame.oprandStack.data.set 0
              (some (Int.tdiv (-7) 2))
            top := some ((0 : Nat) : Int) } }
        codeIndex := (mainState [0x6c, 0xb1] 0 0x6c [] [-7, 2]).codeIndex + 1
        opCode := 0xb1 }
      ∧ (Int.tdiv (-7) 2).natAbs = (-7 : Int).natAbs / (2 : Int).natAbs
      ∧ ((0 : Int) ≤ -7 → (0 : Int) ≤ 2 → 0 ≤ Int.tdiv (-7) 2)
      ∧ ((-7 : Int) ≤ 0 → (2 : Int) ≤ 0 → 0 ≤ Int.tdiv (-7) 2)
      ∧ ((-7 : Int) ≤ 0 → (0 : Int) ≤ 2 → Int.tdiv (-7) 2 ≤ 0)
      ∧ ((0 : Int) ≤ -7 → (2 : Int) ≤ 0 → Int.tdiv (-7) 2 ≤ 0)))
    ∧ Int.tdiv (-7) 2 = -3 ∧ toVM_NUMBER (3 - 10) = -7 :=
  ⟨isub_and_idiv_operand_order USE_ARENA (fun _ => 0)
    (scenarioModule (mainFunction 0 [0x64, 0xb1]))
    (mainState [0x64, 0xb1] 0 0x64 [] [3, 10]) 0 3 10 0xb1
    (mainState [0x6c, 0xb1] 0 0x6c [] [-7, 2]) 0 (-7) 2 0xb1
    rfl rfl rfl rfl rfl rfl rfl rfl rfl (by decide) (by decide) rfl, by decide, by decide⟩

/-! ## Calls -/

theorem createStackFrame_eq {useArena : Bool} {arena arena' : Arena}
    {functionSym : FunctionSymbol} {frame : StackFrame}
    (h : createStackFrame useArena arena functionSym = some (frame, arena')) :
    frame.byteCode = functionSym.byteCode ∧ frame.returnIndex = 0
      ∧ frame.localVars = List.replicate functionSym.numVars none
      ∧ frame.oprandStack.data = List.replicate functionSym.opStackSize none
      ∧ frame.prev = none := by
  cases useArena with
  | false =>
    simp only [createStackFrame, Bool.false_eq_true, if_false, Option.some.injEq,
      Prod.mk.injEq] at h
    obtain ⟨rfl, -⟩ := h
    simp [createOprandStack]
  | true =>
    simp only [createStackFrame, if_true] at h
    cases halloc : allocFromArena arena functionSym.frameSize with
    | none => simp [halloc] at h
    | some r =>
      simp only [halloc, Option.bind_eq_bind, Option.some_bind, Option.some.injEq,
        Prod.mk.injEq] at h
      obtain ⟨rfl, -⟩ := h
      simp

theorem passParams_eq (args : Nat → VM_NUMBER) :
    ∀ (n : Nat) (frame lastFrame : StackFrame) (h : Nat),
      lastFrame.oprandStack.top = some ((h : Int) - 1) → n ≤ h →
      (∀ i, i < n → lastFrame.oprandStack.data[h - n + i]? = some (some (args i))) →
      n ≤ frame.localVars.length →
      ∃ frame', passParams n frame lastFrame = some (frame',
          { lastFrame with
            oprandStack := { lastFrame.oprandStack with top := some ((h : Int) - 1 - n) } })
        ∧ frame'.localVars.length = frame.localVars.length
        ∧ (∀ i, i < n → frame'.localVars[i]? = some (some (args i)))
        ∧ (∀ i, n ≤ i → frame'.localVars[i]? = frame.localVars[i]?)
        ∧ frame'.byteCode = frame.byteCode ∧ frame'.returnIndex = frame.returnIndex
        ∧ frame'.oprandStack = frame.oprandStack ∧ frame'.prev = frame.prev := by
  intro n
  induction n with
  | zero =>
    intro frame lastFrame h htop _ _ _
    refine ⟨frame, ?_, rfl, fun i hi => absurd hi (Nat.not_lt_zero i), fun _ _ => rfl,
      rfl, rfl, rfl, rfl⟩
    cases lastFrame
    simp only [passParams, Nat.cast_zero, Int.sub_zero, ← htop]
  | succ n ih =>
    intro frame lastFrame h htop hn hcells hlen
    have hcell : lastFrame.oprandStack.data[h - 1]? = some (some (args n)) := by
      have := hcells n (Nat.lt_succ_self n)
      rwa [show h - (n + 1) + n = h - 1 by omega] at this
    have hpop := @popFromOpStack_eq lastFrame (h - 1) (args n)
      (by rw [htop]; congr 1; omega) hcell
    have hstore := @storeLocal_eq frame n (args n) (by omega)
    obtain ⟨frame', hpass, hlen', hlow, hhigh, hbc, hri, hos, hprev⟩ :=
      ih { frame with localVars := frame.localVars.set n (some (args n)) }
        { lastFrame with
          oprandStack := { lastFrame.oprandStack with top := some (((h - 1 : Nat) : Int) - 1) } }
        (h - 1) rfl (by omega)
        (fun i hi => by
          have := hcells i (by omega)
          rwa [show h - (n + 1) + i = h - 1 - n + i by omega] at this)
        (by rw [List.length_set]; omega)
    dsimp only at hpass hlen' hhigh hbc hri hos hprev
    have e : ((h - 1 : Nat) : Int) - 1 - n = (h : Int) - 1 - ((n + 1 : Nat) : Int) := by
      push_cast
      omega
    rw [e] at hpass
    refine ⟨frame', ?_, ?_, ?_, ?_, hbc, hri, hos, hprev⟩
    · simp only [passParams, hpop, hstore, Option.bind_eq_bind, Option.some_bind, hpass]
    · rw [hlen', List.length_set]
    · intro i hi
      by_cases hin : i < n
      · exact hlow i hin
      · have hi' : i = n := by omega
        subst hi'
        rw [hhigh i (Nat.le_refl i)]
        exact List.getElem?_set_self (by omega)
    · intro i hi
      rw [hhigh i (by omega)]
      exact List.getElem?_set_ne (by omega)

/-! ## C5: argument passing -/

/-- C5. For every state whose current instruction is an `invokestatic` of a
function `f` that is neither `println` nor `tick`, with `p` parameters, `p`
at most the number of locals of `f`, non-empty bytecode, and whose frame can
be created, when the operand stack of the caller holds `h` values of which
the topmost `p` are `v 0`, ..., `v (p - 1)` (`v (p - 1)` on top), one
iteration of the loop continues in a new frame with `locals[i] = v i` for
every `i < p`; `prev` of the new frame is the frame of the caller with these
`p` values removed from its operand stack (and `returnIndex` set), and the
machine is at index 0 of the bytecode of `f`. -/
theorem invokestatic_passes_arguments
    (useArena : Bool) (clock : Nat → Int) (bcModule : BCModule) (st : ExecState)
    (byte1 byte2 opCode : UInt8) (f : FunctionSymbol) (p h : Nat) (v : Nat → VM_NUMBER)
    (code : List UInt8)
    (hop : OpCode.ofByte st.opCode = some .invokestatic)
    (hb1 : st.code[st.codeIndex + 1]? = some byte1)
    (hb2 : st.code[st.codeIndex + 2]? = some byte2)
    (hfun : functionConstAt bcModule (byte1.toNat * 256 + byte2.toNat) = some f)
    (hname1 : strcmp_eq f.symbol.name "println" = false)
    (hname2 : strcmp_eq f.symbol.name "tick" = false)
    (hp : paramCountOf f = some p)
    (hvars : p ≤ f.numVars)
    (htop : st.frame.oprandStack.top = some ((h : Int) - 1))
    (hph : p ≤ h)
    (hargs : ∀ i, i < p → st.frame.oprandStack.data[h - p + i]? = some (some (v i)))
    (hcreate : (createStackFrame useArena st.arena f).isSome = true)
    (hcode : f.byteCode = some code)
    (hnext : code[0]? = some opCode) :
    ∃ st', step useArena clock bcModule st = .next st'
      ∧ (∀ i, i < p → st'.frame.localVars[i]? = some (some (v i)))
      ∧ st'.frame.localVars.length = f.numVars
      ∧ st'.frame.prev = some { st.frame with
          returnIndex := st.codeIndex + 3
          oprandStack := { st.frame.oprandStack with top := some ((h : Int) - 1 - p) } }
      ∧ st'.frame.byteCode = some code
      ∧ st'.code = code ∧ st'.codeIndex = 0 ∧ st'.opCode = opCode := by
  obtain ⟨⟨frame0, arena⟩, hcr⟩ := Option.isSome_iff_exists.1 hcreate
  obtain ⟨hbc0, -, hlv0, -, -⟩ := createStackFrame_eq hcr
  obtain ⟨frame', hpass, hlen', hlow, -, hbc, -, -, -⟩ :=
    passParams_eq v p frame0 { st.frame with returnIndex := st.codeIndex + 2 + 1 } h
      htop hph hargs (by rw [hlv0, List.length_replicate]; exact hvars)
  rw [← twoBytes_eq] at hfun
  refine ⟨_, step_call byte1 byte2 hop hb1 hb2 hfun hname1 hname2 hcr hp hpass
    (by rw [hbc, hbc0, hcode]) hnext, hlow, ?_, rfl, ?_, rfl, rfl, rfl⟩
  · show frame'.localVars.length = f.numVars
    rw [hlen', hlv0, List.length_replicate]
  · show frame'.byteCode = some code
    rw [hbc, hbc0, hcode]

/-- C5, witness: the `invokestatic add` of `bipush 20; bipush 22; invokestatic
add; ...` with 20 and 22 on the operand stack of `main`. -/
theorem invokestatic_passes_arguments_witness :
    ∃ st', step USE_ARENA (fun _ => 0) (scenarioModule (mainFunction 0 (callCode 20 22)))
        (mainState (callCode 20 22) 4 0xb8 [] [20, 22]) = .next st'
      ∧ (∀ i, i < 2 → st'.frame.localVars[i]? = some (some (if i = 0 then 20 else 22)))
      ∧ st'.frame.localVars.length = addFunction.numVars
      ∧ st'.frame.prev = some { (mainState (callCode 20 22) 4 0xb8 [] [20, 22]).frame with
          returnIndex := (mainState (callCode 20 22) 4 0xb8 [] [20, 22]).codeIndex + 3
          oprandStack :=
            { (mainState (callCode 20 22) 4 0xb8 [] [20, 22]).frame.oprandStack with
              top := some (((2 : Nat) : Int) - 1 - (2 : Nat)) } }
      ∧ st'.frame.byteCode = some [0x1a, 0x1b, 0x60, 0xac]
      ∧ st'.code = [0x1a, 0x1b, 0x60, 0xac] ∧ st'.codeIndex = 0 ∧ st'.opCode = 0x1a :=
  invokestatic_passes_arguments USE_ARENA (fun _ => 0)
    (scenarioModule (mainFunction 0 (callCode 20 22)))
    (mainState (callCode 20 22) 4 0xb8 [] [20, 22]) 0 3 0x1a addFunction 2 2
    (fun i => if i = 0 then 20 else 22) [0x1a, 0x1b, 0x60, 0xac]
    rfl rfl rfl rfl rfl rfl rfl (by decide) rfl (by decide)
    (fun i hi => by interval_cases i <;> rfl) rfl rfl rfl

/-! ## The chain of frames -/

theorem callers_of_prev_none {frame : StackFrame} (h : frame.prev = none) :
    frame.callers = [] := by
  cases frame
  simp only at h
  subst h
  rfl

theorem callers_of_prev_some {frame caller : StackFrame} (h : frame.prev = some caller) :
    frame.callers = caller :: caller.callers := by
  cases frame
  simp only at h
  subst h
  rfl

theorem callers_congr {frame frame' : StackFrame} (h : frame'.prev = frame.prev) :
    frame'.callers = frame.callers := by
  cases hp : frame.prev with
  | none => rw [callers_of_prev_none hp, callers_of_prev_none (h.trans hp)]
  | some caller => rw [callers_of_prev_some hp, callers_of_prev_some (h.trans hp)]

theorem prev_of_callers_eq {frame frame' : StackFrame} {caller : StackFrame}
    (h : frame'.callers = frame.callers) (hp : frame.prev = some caller) :
    frame'.prev = some caller := by
  rw [callers_of_prev_some hp] at h
  cases hp' : frame'.prev with
  | none => rw [callers_of_prev_none hp'] at h; cases h
  | some caller' =>
    rw [callers_of_prev_some hp'] at h
    injection h with h1 _
    rw [h1]

theorem pushToOpStack_prev {frame frame' : StackFrame} {value : VM_NUMBER}
    (h : pushToOpStack frame value = some frame') : frame'.prev = frame.prev := by
  unfold pushToOpStack at h
  split at h
  · cases h
  · split at h
    · injection h with h; rw [← h]
    · cases h

theorem popFromOpStack_prev {frame frame' : StackFrame} {value : VM_NUMBER}
    (h : popFromOpStack frame = some (value, frame')) : frame'.prev = frame.prev := by
  unfold popFromOpStack at h
  split at h
  · cases h
  · split at h
    · split at h
      · injection h with h; injection h with _ h; rw [← h]
      · cases h
    · cases h

theorem storeLocal_prev {frame frame' : StackFrame} {i : Nat} {value : VM_NUMBER}
    (h : storeLocal frame i value = some frame') : frame'.prev = frame.prev := by
  unfold storeLocal at h
  split at h
  · injection h with h; rw [← h]
  · cases h

theorem passParams_prev :
    ∀ (n : Nat) (frame lastFrame frame' lastFrame' : StackFrame),
      passParams n frame lastFrame = some (frame', lastFrame') →
      frame'.prev = frame.prev ∧ lastFrame'.prev = lastFrame.prev := by
  intro n
  induction n with
  | zero =>
    intro frame lastFrame frame' lastFrame' h
    simp only [passParams, Option.some.injEq, Prod.mk.injEq] at h
    obtain ⟨rfl, rfl⟩ := h
    exact ⟨rfl, rfl⟩
  | succ n ih =>
    intro frame lastFrame frame' lastFrame' h
    simp only [passParams, Option.bind_eq_bind] at h
    cases hpop : popFromOpStack lastFrame with
    | none => simp [hpop] at h
    | some r =>
      obtain ⟨value, lf⟩ := r
      simp only [hpop, Option.some_bind] at h
      cases hst : storeLocal frame n value with
      | none => simp [hst] at h
      | some fr =>
        simp only [hst, Option.some_bind] at h
        obtain ⟨h1, h2⟩ := ih fr lf frame' lastFrame' h
        exact ⟨h1.trans (storeLocal_prev hst), h2.trans (popFromOpStack_prev hpop)⟩

theorem fetch_frame {st : ExecState} {frame : StackFrame} {index : Nat} {st' : ExecState}
    (h : fetch st frame index = some (.next st')) : st'.frame = frame := by
  unfold fetch at h
  split at h
  · injection h with h; injection h with h; rw [← h]
  · cases h

theorem fetch_is_next {st : ExecState} {frame : StackFrame} {index : Nat} {r : StepResult}
    (h : fetch st frame index = some r) : ∃ st', r = .next st' := by
  unfold fetch at h
  split at h
  · injection h with h; exact ⟨_, h.symm⟩
  · cases h

theorem pushAndFetch_prev {st : ExecState} {value : VM_NUMBER} {index : Nat} {st' : ExecState}
    (h : pushAndFetch st value index = some (.next st')) : st'.frame.prev = st.frame.prev := by
  simp only [pushAndFetch, Option.bind_eq_bind, Option.bind_eq_some] at h
  obtain ⟨frame, hpush, hf⟩ := h
  rw [fetch_frame hf, pushToOpStack_prev hpush]

theorem storeAndFetch_prev {st : ExecState} {varIndex index : Nat} {st' : ExecState}
    (h : storeAndFetch st varIndex index = some (.next st')) :
    st'.frame.prev = st.frame.prev := by
  simp only [storeAndFetch, Option.bind_eq_bind, Option.bind_eq_some] at h
  obtain ⟨⟨value, frame⟩, hpop, frame', hstore, hf⟩ := h
  rw [fetch_frame hf, storeLocal_prev hstore, popFromOpStack_prev hpop]

theorem compareAndBranch_prev {st : ExecState} {rel : VM_NUMBER → VM_NUMBER → Bool}
    {st' : ExecState} (h : compareAndBranch st rel = some (.next st')) :
    st'.frame.prev = st.frame.prev := by
  simp only [compareAndBranch, Option.bind_eq_bind, Option.bind_eq_some] at h
  obtain ⟨byte1, -, byte2, -, ⟨vright, f1⟩, hpop1, ⟨vleft, f2⟩, hpop2, hf⟩ := h
  have : st'.frame = f2 := by
    dsimp only at hf
    split at hf <;> exact fetch_frame hf
  rw [this, popFromOpStack_prev hpop2, popFromOpStack_prev hpop1]

theorem testAndBranch_prev {st : ExecState} {test : VM_NUMBER → Bool}
    {st' : ExecState} (h : testAndBranch st test = some (.next st')) :
    st'.frame.prev = st.frame.prev := by
  simp only [testAndBranch, Option.bind_eq_bind, Option.bind_eq_some] at h
  obtain ⟨byte1, -, byte2, -, ⟨value, frame⟩, hpop, hf⟩ := h
  have : st'.frame = frame := by
    dsimp only at hf
    split at hf <;> exact fetch_frame hf
  rw [this, popFromOpStack_prev hpop]

theorem doReturn_prev {useArena : Bool} {st st' : ExecState} {isIreturn : Bool}
    (h : doReturn useArena st isIreturn = some (.next st')) :
    ∃ caller, st.frame.prev = some caller ∧ st'.frame.prev = caller.prev := by
  cases isIreturn with
  | false =>
    simp only [doReturn, Bool.false_eq_true, if_false, Option.bind_eq_bind, Option.some_bind,
      Option.bind_eq_some] at h
    obtain ⟨arena, -, h⟩ := h
    split at h
    · cases h
    · rename_i caller hprev
      refine ⟨caller, hprev, ?_⟩
      split at h
      · simp only [Option.bind_eq_bind, Option.bind_eq_some, Option.some.injEq,
          StepResult.next.injEq] at h
        obtain ⟨opCode, -, h⟩ := h
        rw [← h]
      · cases h
  | true =>
    simp only [doReturn, if_true, Option.bind_eq_bind, Option.some_bind,
      Option.bind_eq_some] at h
    obtain ⟨⟨retValue, lastFrame⟩, hpop, arena, -, h⟩ := h
    dsimp only at h
    split at h
    · cases h
    · rename_i caller hprev
      refine ⟨caller, (popFromOpStack_prev hpop) ▸ hprev, ?_⟩
      simp only [Option.bind_eq_bind, Option.bind_eq_some] at h
      obtain ⟨frame, hpush, h⟩ := h
      split at h
      · simp only [Option.bind_eq_bind, Option.bind_eq_some, Option.some.injEq,
          StepResult.next.injEq] at h
        obtain ⟨opCode, -, h⟩ := h
        rw [← h]
        exact pushToOpStack_prev hpush
      · cases h

theorem doInvokestatic_prev {useArena : Bool} {clock : Nat → Int} {bcModule : BCModule}
    {st st' : ExecState}
    (h : doInvokestatic useArena clock bcModule st = some (.next st')) :
    st'.frame.prev = st.frame.prev
      ∨ ∃ lastFrame, st'.frame.prev = some lastFrame ∧ lastFrame.prev = st.frame.prev := by
  simp only [doInvokestatic, Option.bind_eq_bind, Option.bind_eq_some] at h
  obtain ⟨byte1, -, byte2, -, functionSym, -, h⟩ := h
  split at h
  · simp only [Option.bind_eq_bind, Option.bind_eq_some, Option.some.injEq,
      StepResult.next.injEq] at h
    obtain ⟨⟨param, frame⟩, hpop, opCode, -, h⟩ := h
    left
    rw [← h]
    exact popFromOpStack_prev hpop
  · split at h
    · simp only [Option.bind_eq_bind, Option.bind_eq_some, Option.some.injEq,
        StepResult.next.injEq] at h
      obtain ⟨opCode, -, frame, hpush, h⟩ := h
      left
      rw [← h]
      exact pushToOpStack_prev hpush
    · simp only [Option.bind_eq_bind, Option.bind_eq_some] at h
      obtain ⟨⟨frame0, arena⟩, -, paramCount, -, ⟨frame, lastFrame⟩, hpass, h⟩ := h
      dsimp only at h
      split at h
      · simp only [Option.bind_eq_bind, Option.bind_eq_some, Option.some.injEq,
          StepResult.next.injEq] at h
        obtain ⟨opCode, -, h⟩ := h
        right
        refine ⟨lastFrame, by rw [← h], ?_⟩
        exact (passParams_prev _ _ _ _ _ hpass).2
      · cases h

theorem stepCase_prev {useArena : Bool} {clock : Nat → Int} {bcModule : BCModule}
    {st st' : ExecState} (h : stepCase useArena clock bcModule st = some (.next st')) :
    st'.frame.prev = st.frame.prev
      ∨ (∃ lastFrame, st'.frame.prev = some lastFrame ∧ lastFrame.prev = st.frame.prev)
      ∨ (∃ caller, st.frame.prev = some caller ∧ st'.frame.prev = caller.prev) := by
  unfold stepCase at h
  split at h
  all_goals first
    | exact Or.inl (pushAndFetch_prev h)
    | exact Or.inl (storeAndFetch_prev h)
    | exact Or.inl (compareAndBranch_prev h)
    | exact Or.inl (testAndBranch_prev h)
    | exact Or.inr (Or.inr (doReturn_prev h))
    | exact (doInvokestatic_prev h).elim Or.inl (fun h => Or.inr (Or.inl h))
    | (simp only [Option.bind_eq_bind, Option.bind_eq_some] at h
       obtain ⟨_, -, h⟩ := h
       first
         | exact Or.inl (pushAndFetch_prev h)
         | exact Or.inl (storeAndFetch_prev h)
         | (obtain ⟨_, -, h⟩ := h
            first
              | exact Or.inl (pushAndFetch_prev h)
              | exact Or.inl (by rw [fetch_frame h])))
    | (simp only [Option.bind_eq_bind, Option.bind_eq_some] at h
       obtain ⟨⟨_, f1⟩, hpop1, ⟨_, f2⟩, hpop2, h⟩ := h
       first
         | exact Or.inl ((pushAndFetch_prev h).trans
             ((popFromOpStack_prev hpop2).trans (popFromOpStack_prev hpop1)))
         | (obtain ⟨_, -, h⟩ := h
            exact Or.inl ((pushAndFetch_prev h).trans
              ((popFromOpStack_prev hpop2).trans (popFromOpStack_prev hpop1)))))
    | (simp only [Option.bind_eq_bind, Option.bind_eq_some] at h
       obtain ⟨_, -, _, -, _, -, frame, hstore, h⟩ := h
       exact Or.inl (by rw [fetch_frame h, storeLocal_prev hstore]))
    | (simp only [Option.some.injEq] at h
       cases h)

theorem stepCase_of_step {useArena : Bool} {clock : Nat → Int} {bcModule : BCModule}
    {st st' : ExecState} (h : step useArena clock bcModule st = .next st') :
    stepCase useArena clock bcModule st = some (.next st') := by
  unfold step at h
  split at h
  · rename_i r hr
    rw [hr, h]
  · cases h

theorem step_callers {useArena : Bool} {clock : Nat → Int} {bcModule : BCModule}
    {st st' : ExecState} (h : step useArena clock bcModule st = .next st') :
    st'.frame.callers = st.frame.callers
      ∨ (∃ lastFrame, st'.frame.callers = lastFrame :: st.frame.callers)
      ∨ (∃ caller, st.frame.callers = caller :: st'.frame.callers) := by
  rcases stepCase_prev (stepCase_of_step h) with h1 | ⟨lastFrame, h1, h2⟩ | ⟨caller, h1, h2⟩
  · exact Or.inl (callers_congr h1)
  · refine Or.inr (Or.inl ⟨lastFrame, ?_⟩)
    rw [callers_of_prev_some h1, callers_congr h2]
  · refine Or.inr (Or.inr ⟨caller, ?_⟩)
    rw [callers_of_prev_some h1, callers_congr h2]

theorem stepsFrom_succ {useArena : Bool} {clock : Nat → Int} {bcModule : BCModule}
    {st st' : ExecState} (n : Nat) (h : step useArena clock bcModule st = .next st') :
    stepsFrom useArena clock bcModule (n + 1) st = stepsFrom useArena clock bcModule n st' := by
  simp [stepsFrom, h]

/-- While the chain of frames is never shorter than a chain `chain` that it
ends with, it keeps ending with `chain`. -/
theorem callers_suffix_of_steps {useArena : Bool} {clock : Nat → Int} {bcModule : BCModule}
    (chain : List StackFrame) :
    ∀ (n : Nat) (st s : ExecState), chain <:+ st.frame.callers →
      stepsFrom useArena clock bcModule n st = some s →
      (∀ k, k ≤ n → ∀ sk, stepsFrom useArena clock bcModule k st = some sk →
        chain.length ≤ sk.frame.callers.length) →
      chain <:+ s.frame.callers := by
  intro n
  induction n with
  | zero =>
    intro st s hsuf hrun _
    simp only [stepsFrom, Option.some.injEq] at hrun
    rw [← hrun]
    exact hsuf
  | succ n ih =>
    intro st s hsuf hrun hdepth
    cases hstep : step useArena clock bcModule st with
    | done o => simp [stepsFrom, hstep] at hrun
    | next st2 =>
      rw [stepsFrom_succ n hstep] at hrun
      have hlen : chain.length ≤ st2.frame.callers.length :=
        hdepth 1 (by omega) st2 (by simp [stepsFrom, hstep])
      have hsuf2 : chain <:+ st2.frame.callers := by
        rcases step_callers hstep with h1 | ⟨lastFrame, h1⟩ | ⟨caller, h1⟩
        · rw [h1]; exact hsuf
        · rw [h1]; exact hsuf.trans (List.suffix_cons _ _)
        · rw [h1] at hsuf
          rcases List.suffix_cons_iff.1 hsuf with h2 | h2
          · rw [h2] at hlen
            simp at hlen
          · exact h2
      refine ih st2 s hsuf2 hrun (fun k hk sk hsk => hdepth (k + 1) (by omega) sk ?_)
      rw [stepsFrom_succ k hstep]
      exact hsk

theorem prev_of_steps {useArena : Bool} {clock : Nat → Int} {bcModule : BCModule}
    {n : Nat} {st s : ExecState} {caller : StackFrame}
    (hprev : st.frame.prev = some caller)
    (hrun : stepsFrom useArena clock bcModule n st = some s)
    (hdepth : ∀ k, k ≤ n → ∀ sk, stepsFrom useArena clock bcModule k st = some sk →
      st.frame.callers.length ≤ sk.frame.callers.length)
    (hsame : s.frame.callers.length = st.frame.callers.length) :
    s.frame.prev = some caller := by
  have hsuf := callers_suffix_of_steps st.frame.callers n st s (List.suffix_refl _) hrun hdepth
  exact prev_of_callers_eq (hsuf.eq_of_length hsame.symm).symm hprev

theorem passParams_lastFrame :
    ∀ (n : Nat) (frame lastFrame frame' lastFrame' : StackFrame) (h : Nat),
      lastFrame.oprandStack.top = some ((h : Int) - 1) →
      passParams n frame lastFrame = some (frame', lastFrame') →
      n ≤ h ∧ lastFrame' = { lastFrame with
        oprandStack := { lastFrame.oprandStack with top := some ((h : Int) - 1 - n) } } := by
  intro n
  induction n with
  | zero =>
    intro frame lastFrame frame' lastFrame' h htop hpass
    simp only [passParams, Option.some.injEq, Prod.mk.injEq] at hpass
    obtain ⟨-, rfl⟩ := hpass
    refine ⟨Nat.zero_le h, ?_⟩
    cases lastFrame
    simp only [Nat.cast_zero, Int.sub_zero, ← htop]
  | succ n ih =>
    intro frame lastFrame frame' lastFrame' h htop hpass
    simp only [passParams, Option.bind_eq_bind, Option.bind_eq_some] at hpass
    obtain ⟨⟨value, lf⟩, hpop, fr, -, hpass⟩ := hpass
    have hlf : 1 ≤ h ∧ lf = { lastFrame with
        oprandStack := { lastFrame.oprandStack with top := some (((h - 1 : Nat) : Int) - 1) } } := by
      unfold popFromOpStack at hpop
      rw [htop] at hpop
      dsimp only at hpop
      split at hpop
      · rename_i hnn
        split at hpop
        · simp only [Option.some.injEq, Prod.mk.injEq] at hpop
          refine ⟨by omega, ?_⟩
          rw [← hpop.2]
          congr 3
          omega
        · cases hpop
      · cases hpop
    obtain ⟨h1, hlf⟩ := hlf
    obtain ⟨h2, hlast⟩ := ih fr lf frame' lastFrame' (h - 1) (by rw [hlf]) hpass
    refine ⟨by omega, ?_⟩
    rw [hlast, hlf]
    have e : ((h - 1 : Nat) : Int) - 1 - n = (h : Int) - 1 - ((n + 1 : Nat) : Int) := by
      push_cast
      omega
    dsimp only
    rw [e]

theorem doInvokestatic_call {useArena : Bool} {clock : Nat → Int} {bcModule : BCModule}
    {st st' : ExecState} {byte1 byte2 : UInt8} {functionSym : FunctionSymbol} {paramCount : Nat}
    (hb1 : st.code[st.codeIndex + 1]? = some byte1)
    (hb2 : st.code[st.codeIndex + 2]? = some byte2)
    (hfun : functionConstAt bcModule (twoBytes byte1 byte2) = some functionSym)
    (hname1 : strcmp_eq functionSym.symbol.name "println" = false)
    (hname2 : strcmp_eq functionSym.symbol.name "tick" = false)
    (hcount : paramCountOf functionSym = some paramCount)
    (h : doInvokestatic useArena clock bcModule st = some (.next st')) :
    ∃ frame0 arena frame lastFrame,
      createStackFrame useArena st.arena functionSym = some (frame0, arena)
      ∧ passParams paramCount frame0 { st.frame with returnIndex := st.codeIndex + 2 + 1 }
          = some (frame, lastFrame)
      ∧ st'.frame.prev = some lastFrame := by
  simp only [doInvokestatic, hb1, hb2, hfun, hname1, hname2, hcount, Option.bind_eq_bind,
    Option.some_bind, Bool.false_eq_true, if_false, Option.bind_eq_some] at h
  obtain ⟨⟨frame0, arena⟩, hcreate, ⟨frame, lastFrame⟩, hpass, h⟩ := h
  refine ⟨frame0, arena, frame, lastFrame, hcreate, hpass, ?_⟩
  dsimp only at h
  split at h
  · simp only [Option.bind_eq_bind, Option.bind_eq_some, Option.some.injEq,
      StepResult.next.injEq] at h
    obtain ⟨opCode, -, h⟩ := h
    rw [← h]
  · cases h

/-! ## C6: the return protocol -/

/-- C6. Take a state `st` whose current instruction is an `invokestatic` of a
function `f` that is neither `println` nor `tick`, with `p` parameters, made
from a frame that runs `st.code` with `h` values on its operand stack, and
let `st1` be the state after this call.  Let `s` be a state that the machine
reaches from `st1` in `n` iterations during which the chain of frames is
never shorter than at `st1`, and in which it is as long as at `st1`: `s` is
in the frame of the callee.  If the instruction at `s` is `_return`, or is
`ireturn` with `rv` on top of the operand stack, then the next iteration
resumes the caller at the index `st.codeIndex + 3`, right after the two
operand bytes of the `invokestatic`; after `_return` the frame of the caller
has `h - p` values on its operand stack (`top = h - p - 1`), after `ireturn`
it has `h - p + 1` of them and the topmost one is `rv`.  The locals of the
caller and the cells below are those of `st`. -/
theorem return_resumes_caller_after_call
    (useArena : Bool) (clock : Nat → Int) (bcModule : BCModule) (st st1 s : ExecState)
    (byte1 byte2 opCode : UInt8) (f : FunctionSymbol) (p h n t : Nat) (rv : VM_NUMBER)
    (hop : OpCode.ofByte st.opCode = some .invokestatic)
    (hb1 : st.code[st.codeIndex + 1]? = some byte1)
    (hb2 : st.code[st.codeIndex + 2]? = some byte2)
    (hfun : functionConstAt bcModule (byte1.toNat * 256 + byte2.toNat) = some f)
    (hname1 : strcmp_eq f.symbol.name "println" = false)
    (hname2 : strcmp_eq f.symbol.name "tick" = false)
    (hp : paramCountOf f = some p)
    (htop : st.frame.oprandStack.top = some ((h : Int) - 1))
    (hroom : h - p < st.frame.oprandStack.data.length)
    (hcode : st.frame.byteCode = some st.code)
    (hafter : st.code[st.codeIndex + 3]? = some opCode)
    (hcall : step useArena clock bcModule st = .next st1)
    (hrun : stepsFrom useArena clock bcModule n st1 = some s)
    (hdepth : ∀ k, k ≤ n → ∀ sk, stepsFrom useArena clock bcModule k st1 = some sk →
      st1.frame.callers.length ≤ sk.frame.callers.length)
    (hsame : s.frame.callers.length = st1.frame.callers.length)
    (hret : OpCode.ofByte s.opCode = some ._return
      ∨ (OpCode.ofByte s.opCode = some .ireturn ∧ s.frame.oprandStack.top = some (t : Int)
          ∧ s.frame.oprandStack.data[t]? = some (some rv)))
    (hdel : (deleteStackFrame useArena s.arena s.frame).isSome = true) :
    ∃ s', step useArena clock bcModule s = .next s'
      ∧ s'.code = st.code ∧ s'.codeIndex = st.codeIndex + 3 ∧ s'.opCode = opCode
      ∧ (OpCode.ofByte s.opCode = some ._return →
          s'.frame = { st.frame with
            returnIndex := st.codeIndex + 3
            oprandStack := { st.frame.oprandStack with top := some ((h : Int) - p - 1) } })
      ∧ (OpCode.ofByte s.opCode = some .ireturn →
          s'.frame = { st.frame with
            returnIndex := st.codeIndex + 3
            oprandStack :=
              { data := st.frame.oprandStack.data.set (h - p) (some rv)
                top := some ((h : Int) - p) } }) := by
  rw [← twoBytes_eq] at hfun
  have hcase := stepCase_of_step hcall
  have hinv : doInvokestatic useArena clock bcModule st = some (.next st1) := by
    simpa only [stepCase, hop] using hcase
  obtain ⟨frame0, arena, frame, lastFrame, -, hpass, hprev1⟩ :=
    doInvokestatic_call hb1 hb2 hfun hname1 hname2 hp hinv
  obtain ⟨hph, hlast⟩ := passParams_lastFrame p frame0
    { st.frame with returnIndex := st.codeIndex + 2 + 1 } frame lastFrame h htop hpass
  dsimp only at hlast
  have hprev : s.frame.prev = some lastFrame := prev_of_steps hprev1 hrun hdepth hsame
  obtain ⟨arena', hdel'⟩ := Option.isSome_iff_exists.1 hdel
  have hbc : lastFrame.byteCode = some st.code := by rw [hlast]; exact hcode
  have hri : lastFrame.returnIndex = st.codeIndex + 3 := by rw [hlast]
  have hopne : (some OpCode._return : Option OpCode) ≠ some OpCode.ireturn := by decide
  rcases hret with hr | ⟨hr, hst, hsd⟩
  · refine ⟨_, step_return hr hdel' hprev hbc (by rw [hri]; exact hafter), rfl, hri, rfl,
      fun _ => ?_, fun hi => absurd (hr.symm.trans hi) hopne⟩
    show lastFrame = _
    rw [hlast]
    have e : (h : Int) - 1 - (p : Int) = (h : Int) - p - 1 := by omega
    rw [e]
  · have hpop := popFromOpStack_eq hst hsd
    have hpush := @pushToOpStack_eq lastFrame (h - p) rv
      (by rw [hlast]; dsimp only; congr 1; omega) (by rw [hlast]; exact hroom)
    have hbc' : ({ lastFrame with oprandStack :=
        { data := lastFrame.oprandStack.data.set (h - p) (some rv)
          top := some ((h - p : Nat) : Int) } } : StackFrame).byteCode = some st.code := hbc
    refine ⟨_, step_ireturn hr hpop hdel' hprev hpush hbc' (by
      show st.code[lastFrame.returnIndex]? = some opCode
      rw [hri]; exact hafter), rfl, hri, rfl,
      fun hi => absurd (hi.symm.trans hr) hopne, fun _ => ?_⟩
    show ({ lastFrame with oprandStack :=
        { data := lastFrame.oprandStack.data.set (h - p) (some rv)
          top := some ((h - p : Nat) : Int) } } : StackFrame) = _
    rw [hlast]
    have e : ((h - p : Nat) : Int) = (h : Int) - p := by omega
    dsimp only
    rw [e]

/-- C6, witness.  First the call of `add` from `main` with 20 and 22 on the
operand stack: three iterations later the callee is at its `ireturn` with 42
on top, and `main` resumes at index 7 with one value, 42.  Then the call of
`noop` from `main` with an empty operand stack: the callee is at its
`_return` at once, and `main` resumes at index 3 with an empty stack. -/
theorem return_resumes_caller_after_call_witness :
    (∃ s', step false (fun _ => 0) (scenarioModule (mainFunction 0 (callCode 20 22)))
        (stateAfter false (fun _ => 0) (scenarioModule (mainFunction 0 (callCode 20 22))) 4
          addCallSite) = .next s'
      ∧ s'.code = addCallSite.code ∧ s'.codeIndex = addCallSite.codeIndex + 3
      ∧ s'.opCode = 0xb8
      ∧ (OpCode.ofByte (stateAfter false (fun _ => 0)
            (scenarioModule (mainFunction 0 (callCode 20 22))) 4 addCallSite).opCode
            = some ._return →
          s'.frame = { addCallSite.frame with
            returnIndex := addCallSite.codeIndex + 3
            oprandStack := { addCallSite.frame.oprandStack with
              top := some (((2 : Nat) : Int) - (2 : Nat) - 1) } })
      ∧ (OpCode.ofByte (stateAfter false (fun _ => 0)
            (scenarioModule (mainFunction 0 (callCode 20 22))) 4 addCallSite).opCode
            = some .ireturn →
          s'.frame = { addCallSite.frame with
            returnIndex := addCallSite.codeIndex + 3
            oprandStack :=
              { data := addCallSite.frame.oprandStack.data.set (2 - 2) (some 42)
                top := some (((2 : Nat) : Int) - (2 : Nat)) } }))
    ∧ (∃ s', step false (fun _ => 0) (scenarioModuleWith noopFunction (mainFunction 0 noopCallCode))
        (stateAfter false (fun _ => 0)
          (scenarioModuleWith noopFunction (mainFunction 0 noopCallCode)) 1 noopCallSite)
          = .next s'
      ∧ s'.code = noopCallSite.code ∧ s'.codeIndex = noopCallSite.codeIndex + 3
      ∧ s'.opCode = 0xb1
      ∧ (OpCode.ofByte (stateAfter false (fun _ => 0)
            (scenarioModuleWith noopFunction (mainFunction 0 noopCallCode)) 1 noopCallSite).opCode
            = some ._return →
          s'.frame = { noopCallSite.frame with
            returnIndex := noopCallSite.codeIndex + 3
            oprandStack := { noopCallSite.frame.oprandStack with
              top := some (((0 : Nat) : Int) - (0 : Nat) - 1) } })
      ∧ (OpCode.ofByte (stateAfter false (fun _ => 0)
            (scenarioModuleWith noopFunction (mainFunction 0 noopCallCode)) 1 noopCallSite).opCode
            = some .ireturn →
          s'.frame = { noopCallSite.frame with
            returnIndex := noopCallSite.codeIndex + 3
            oprandStack :=
              { data := noopCallSite.frame.oprandStack.data.set (0 - 0) (some 0)
                top := some (((0 : Nat) : Int) - (0 : Nat)) } })) :=
  ⟨return_resumes_caller_after_call false (fun _ => 0)
      (scenarioModule (mainFunction 0 (callCode 20 22))) addCallSite
      (stateAfter false (fun _ => 0) (scenarioModule (mainFunction 0 (callCode 20 22))) 1
        addCallSite)
      (stateAfter false (fun _ => 0) (scenarioModule (mainFunction 0 (callCode 20 22))) 4
        addCallSite)
      0 3 0xb8 addFunction 2 2 3 0 42
      rfl rfl rfl rfl rfl rfl rfl rfl (by decide) rfl rfl rfl rfl
      (fun k hk sk hsk => by
        interval_cases k
        all_goals (cases Option.some.inj hsk; decide))
      rfl (.inr ⟨rfl, rfl, rfl⟩) rfl,
    return_resumes_caller_after_call false (fun _ => 0)
      (scenarioModuleWith noopFunction (mainFunction 0 noopCallCode)) noopCallSite
      (stateAfter false (fun _ => 0)
        (scenarioModuleWith noopFunction (mainFunction 0 noopCallCode)) 1 noopCallSite)
      (stateAfter false (fun _ => 0)
        (scenarioModuleWith noopFunction (mainFunction 0 noopCallCode)) 1 noopCallSite)
      0 3 0xb1 noopFunction 0 0 0 0 0
      rfl rfl rfl rfl rfl rfl rfl rfl (by decide) rfl rfl rfl rfl
      (fun k hk sk hsk => by
        interval_cases k
        all_goals (cases Option.some.inj hsk; decide))
      rfl (.inl rfl) rfl⟩

/-! ## The loop program -/

theorem loop_body (clock : Nat → Int) (n : UInt8) (s i : Int) (c0 c1 : Option VM_NUMBER)
    (fuel : Nat) :
    run false clock (scenarioModule (mainFunction 2 (loopCode n))) (fuel + 8)
        (loopState n 4 s i c0 c1)
      = run false clock (scenarioModule (mainFunction 2 (loopCode n))) fuel
        (loopState n (if toVM_NUMBER (i + ((1 : UInt8).toNat : Int)) ≤ (n.toNat : Int) then 4 else 17)
          (toVM_NUMBER (i + s)) (toVM_NUMBER (i + ((1 : UInt8).toNat : Int)))
          (some (toVM_NUMBER (i + ((1 : UInt8).toNat : Int)))) (some (n.toNat : Int))) := by
  refine (run_next _ (step_iload (by rfl) (.inl ⟨rfl, rfl⟩) (by rfl) (by rfl) (by rfl))).trans ?_
  refine (run_next _ (step_iload (by rfl) (.inr (.inl ⟨rfl, rfl⟩)) (by rfl) (by rfl)
    (by rfl))).trans ?_
  refine (run_next _ (step_iadd (by rfl) (by rfl) (by rfl) (by rfl) (by rfl))).trans ?_
  refine (run_next _ (step_istore (by rfl) (.inl ⟨rfl, rfl⟩) (by rfl) (by rfl) (by rfl))).trans ?_
  refine (run_next _ (step_iinc (by rfl) (by rfl) (by rfl) (by rfl) (by rfl) (by rfl))).trans ?_
  refine (run_next _ (step_iload (by rfl) (.inr (.inl ⟨rfl, rfl⟩)) (by rfl) (by rfl)
    (by rfl))).trans ?_
  refine (run_next _ (step_bipush (by rfl) (by rfl) (by rfl) (by rfl))).trans ?_
  refine (run_next _ (@step_if_icmp _ _ _ _ 0 4 _ _ 0x1a _ _ _ _ (by rfl)
    (.inr (.inr (.inr ⟨rfl, rfl⟩))) (by rfl) (by rfl) (by rfl) (by rfl) ?_)).trans ?_
  · dsimp only
    split <;> rfl
  · congr 1
    show ({ loopState n 4 (toVM_NUMBER (i + s)) (toVM_NUMBER (i + ((1 : UInt8).toNat : Int)))
          (some (toVM_NUMBER (i + ((1 : UInt8).toNat : Int)))) (some (n.toNat : Int)) with
        codeIndex :=
          if decide (toVM_NUMBER (i + ((1 : UInt8).toNat : Int)) ≤ (n.toNat : Int)) = true
          then twoBytes 0 4 else 17 } : ExecState) = _
    by_cases hc : toVM_NUMBER (i + ((1 : UInt8).toNat : Int)) ≤ (n.toNat : Int)
    · rw [if_pos hc, if_pos (decide_eq_true hc)]
      rfl
    · rw [if_neg hc, if_neg (by simpa using hc)]
      rfl

theorem loop_entry (clock : Nat → Int) (n : UInt8) (fuel : Nat) :
    execute false clock initArena (scenarioModule (mainFunction 2 (loopCode n))) (fuel + 4)
      = run false clock (scenarioModule (mainFunction 2 (loopCode n))) fuel
          (loopState n 4 0 1 (some 1) none) := by
  show run false clock (scenarioModule (mainFunction 2 (loopCode n))) (fuel + 4)
      { arena := initArena, stdout := [], clockCalls := 0
        functionSym := mainFunction 2 (loopCode n)
        frame := { byteCode := some (loopCode n), returnIndex := 0, localVars := [none, none]
                   oprandStack := createOprandStack 20, prev := none }
        code := loopCode n, codeIndex := 0, opCode := 0x03 } = _
  refine (run_next _ (step_iconst (by rfl) (.inl ⟨rfl, rfl⟩) (by rfl) (by rfl))).trans ?_
  refine (run_next _ (step_istore (by rfl) (.inl ⟨rfl, rfl⟩) (by rfl) (by rfl) (by rfl))).trans ?_
  refine (run_next _ (step_iconst (by rfl) (.inr (.inl ⟨rfl, rfl⟩)) (by rfl) (by rfl))).trans ?_
  refine (run_next _ (step_istore (by rfl) (.inr (.inl ⟨rfl, rfl⟩)) (by rfl) (by rfl)
    (by rfl))).trans ?_
  rfl

theorem loop_exit (clock : Nat → Int) (n : UInt8) (s i : Int) (c0 c1 : Option VM_NUMBER)
    (fuel : Nat) :
    run false clock (scenarioModule (mainFunction 2 (loopCode n))) (fuel + 3)
        (loopState n 17 s i c0 c1)
      = some (.returned 0 [fmt_d s ++ "\n"] initArena) := by
  refine (run_next _ (step_iload (by rfl) (.inl ⟨rfl, rfl⟩) (by rfl) (by rfl) (by rfl))).trans ?_
  refine (run_next _ (step_println 0 0 (by rfl) (by rfl) (by rfl) (by rfl) (by rfl) (by rfl)
    (by rfl))).trans ?_
  exact run_done _ (step_return_main (by rfl) (by rfl) (by rfl))

theorem loop_sum (clock : Nat → Int) (n : UInt8) :
    ∀ (d : Nat) (s i : Int) (c0 c1 : Option VM_NUMBER), i + d = n.toNat → 1 ≤ i →
      0 ≤ s → s ≤ 255 * i → 2 * s = i * (i - 1) →
      ∃ fuel, run false clock (scenarioModule (mainFunction 2 (loopCode n))) fuel
          (loopState n 4 s i c0 c1)
        = some (.returned 0 [fmt_d ((n.toNat * (n.toNat + 1) / 2 : Nat) : Int) ++ "\n"]
            initArena) := by
  have hn : n.toNat < 256 := n.toNat_lt
  have h1 : ((1 : UInt8).toNat : Int) = 1 := rfl
  intro d
  induction d with
  | zero =>
    intro s i c0 c1 hi h1i hs0 hs hprod
    have hin : i = n.toNat := by omega
    have hi1 : toVM_NUMBER (i + ((1 : UInt8).toNat : Int)) = i + 1 := by
      rw [h1]; exact toVM_NUMBER_of_range (by omega) (by omega)
    have hsum : toVM_NUMBER (i + s) = ((n.toNat * (n.toNat + 1) / 2 : Nat) : Int) := by
      rw [toVM_NUMBER_of_range (by omega) (by omega)]
      have h2 : 2 * (i + s) = ((n.toNat * (n.toNat + 1) : Nat) : Int) := by
        push_cast
        rw [← hin]
        linear_combination hprod
      have h3 : ((n.toNat * (n.toNat + 1) / 2 : Nat) : Int)
          = ((n.toNat * (n.toNat + 1) : Nat) : Int) / 2 := by
        norm_cast
      rw [h3, ← h2]
      show @Eq Int _ _
      omega
    have hgt : ¬ (i + 1 ≤ (n.toNat : Int)) := by omega
    refine ⟨3 + 8, ?_⟩
    rw [loop_body, hi1, if_neg hgt, loop_exit, hsum]
  | succ d ih =>
    intro s i c0 c1 hi h1i hs0 hs hprod
    have hi1 : toVM_NUMBER (i + ((1 : UInt8).toNat : Int)) = i + 1 := by
      rw [h1]; exact toVM_NUMBER_of_range (by omega) (by omega)
    have hsum : toVM_NUMBER (i + s) = i + s := toVM_NUMBER_of_range (by omega) (by omega)
    obtain ⟨fuel, hfuel⟩ := ih (i + s) (i + 1) (some (i + 1)) (some (n.toNat : Int))
      (by push_cast at hi ⊢; omega) (by omega) (by omega) (by omega)
      (by linear_combination hprod)
    have hle : i + 1 ≤ (n.toNat : Int) := by push_cast at hi; omega
    refine ⟨fuel + 8, ?_⟩
    rw [loop_body, hi1, hsum, if_pos hle]
    exact hfuel

theorem execute_mono {useArena : Bool} {clock : Nat → Int} {arena : Arena}
    {bcModule : BCModule} {outcome : Outcome} (fuel : Nat)
    (h : execute useArena clock arena bcModule fuel = some outcome) (more : Nat) :
    execute useArena clock arena bcModule (fuel + more) = some outcome := by
  unfold execute at h ⊢
  split
  · rename_i st hst
    rw [hst] at h
    exact run_mono fuel st h more
  · rename_i o ho
    rw [ho] at h
    exact h

/-! ## C1, C2, C3: the end-to-end scenarios

With `USE_ARENA`, `createStackFrame` returns a frame whose `oprandStack->top`
was never assigned, so the first push or pop of a run uses an indeterminate
index.  The three scenarios are evaluated in this build, and proved as the
specification states them for the build without `USE_ARENA`, whose
`createOprandStack` sets `top` to -1. -/

/-- C1, evaluated on the code as built (`USE_ARENA`): the frame that
`createStackFrame` returns for `main` has no value in `oprandStack->top`, and
`execute` on the module of the scenario "User function call" (`a = 20`,
`b = 22`) has undefined behaviour at its first instruction, `bipush 20`. -/
theorem user_call_undefined_with_arena (clock : Nat → Int) (fuel : Nat) :
    (∃ frame arena,
        createStackFrame USE_ARENA initArena (mainFunction 0 (callCode 20 22))
          = some (frame, arena) ∧ frame.oprandStack.top = none)
      ∧ execute USE_ARENA clock initArena (scenarioModule (mainFunction 0 (callCode 20 22)))
          (fuel + 1) = some .undefined :=
  ⟨⟨_, _, rfl, rfl⟩, rfl⟩

/-- The scenario "User function call" in the build without `USE_ARENA`: for
all bytes `a` and `b` the run ends after 9 iterations, returns 0 and has
printed the one line `a + b`. -/
theorem user_call_prints_sum_without_arena (clock : Nat → Int) (a b : UInt8) (fuel : Nat) :
    execute false clock initArena (scenarioModule (mainFunction 0 (callCode a b))) (fuel + 9)
      = some (.returned 0 [fmt_d ((a.toNat + b.toNat : Nat) : Int) ++ "\n"] initArena) := by
  have hsum : toVM_NUMBER ((b.toNat : Int) + (a.toNat : Int)) = ((a.toNat + b.toNat : Nat) : Int) := by
    have ha : a.toNat < 256 := a.toNat_lt
    have hb : b.toNat < 256 := b.toNat_lt
    rw [toVM_NUMBER_of_range (by omega) (by omega)]
    show @Eq Int _ _
    omega
  rw [Nat.add_comm fuel 9]
  refine run_mono 9 _ ?_ fuel
  rw [← hsum]
  show run false clock (scenarioModule (mainFunction 0 (callCode a b))) 9
      { arena := initArena, stdout := [], clockCalls := 0
        functionSym := mainFunction 0 (callCode a b)
        frame := { byteCode := some (callCode a b), returnIndex := 0, localVars := []
                   oprandStack := createOprandStack 20, prev := none }
        code := callCode a b, codeIndex := 0, opCode := 0x10 } = _
  refine (run_next _ (step_bipush (by rfl) (by rfl) (by rfl) (by rfl))).trans ?_
  refine (run_next _ (step_bipush (by rfl) (by rfl) (by rfl) (by rfl))).trans ?_
  refine (run_next _ (@step_call _ _ _ _ 0 3 _ addFunction _ _ _ _ _ _ (by rfl) (by rfl) (by rfl)
    (by rfl) (by rfl) (by rfl) (by rfl) (by rfl) (by rfl) (by rfl) (by rfl))).trans ?_
  refine (run_next _ (step_iload (by rfl) (.inl ⟨rfl, rfl⟩) (by rfl) (by rfl) (by rfl))).trans ?_
  refine (run_next _ (step_iload (by rfl) (.inr (.inl ⟨rfl, rfl⟩)) (by rfl) (by rfl)
    (by rfl))).trans ?_
  refine (run_next _ (step_iadd (by rfl) (by rfl) (by rfl) (by rfl) (by rfl))).trans ?_
  refine (run_next _ (step_ireturn (by rfl) (by rfl) (by rfl) (by rfl) (by rfl) (by rfl)
    (by rfl))).trans ?_
  refine (run_next _ (step_println 0 0 (by rfl) (by rfl) (by rfl) (by rfl) (by rfl) (by rfl)
    (by rfl))).trans ?_
  exact run_done _ (step_return_main (by rfl) (by rfl) (by rfl))

/-- The scenario "User function call" of the specification, `a = 20` and
`b = 22`, in the build without `USE_ARENA`: the one line 42. -/
theorem user_call_prints_42_without_arena (clock : Nat → Int) (fuel : Nat) :
    execute false clock initArena (scenarioModule (mainFunction 0 (callCode 20 22))) (fuel + 9)
      = some (.returned 0 ["42\n"] initArena) :=
  user_call_prints_sum_without_arena clock 20 22 fuel

/-- C2, evaluated on the code as built (`USE_ARENA`): for every bound `n`,
`execute` on the loop program has undefined behaviour at its first
instruction, `iconst_0`, which pushes on an operand stack whose `top` was
never assigned. -/
theorem loop_sum_undefined_with_arena (clock : Nat → Int) (n : UInt8) (fuel : Nat) :
    (∃ frame arena,
        createStackFrame USE_ARENA initArena (mainFunction 2 (loopCode n))
          = some (frame, arena) ∧ frame.oprandStack.top = none)
      ∧ execute USE_ARENA clock initArena (scenarioModule (mainFunction 2 (loopCode n)))
          (fuel + 1) = some .undefined :=
  ⟨⟨_, _, rfl, rfl⟩, rfl⟩

/-- The scenario "Loop sum" in the build without `USE_ARENA`: for every bound
`n` from 1 to 255 there is an amount of fuel from which on the run ends,
returns 0 and has printed the one line `n * (n + 1) / 2`. -/
theorem loop_sum_prints_triangular_without_arena (clock : Nat → Int) (n : UInt8)
    (hn : 1 ≤ n.toNat) :
    ∃ enough, ∀ fuel, enough ≤ fuel →
      execute false clock initArena (scenarioModule (mainFunction 2 (loopCode n))) fuel
        = some (.returned 0 [fmt_d ((n.toNat * (n.toNat + 1) / 2 : Nat) : Int) ++ "\n"]
            initArena) := by
  obtain ⟨fuel0, h0⟩ := loop_sum clock n (n.toNat - 1) 0 1 (some 1) none
    (by omega) (by omega) (by omega) (by omega) (by ring)
  refine ⟨fuel0 + 4, fun fuel hfuel => ?_⟩
  obtain ⟨more, rfl⟩ := Nat.exists_eq_add_of_le hfuel
  rw [show fuel0 + 4 + more = (fuel0 + more) + 4 by omega, loop_entry]
  exact run_mono fuel0 _ h0 more

/-- The scenario "Loop sum 1..10" of the specification in the build without
`USE_ARENA`: the run ends after 87 iterations with the one line 55. -/
theorem loop_sum_prints_55_without_arena (clock : Nat → Int) (fuel : Nat) :
    execute false clock initArena (scenarioModule (mainFunction 2 (loopCode 10))) (fuel + 87)
      = some (.returned 0 ["55\n"] initArena) := by
  rw [Nat.add_comm]
  exact execute_mono 87 (by rfl) fuel

/-- C3, evaluated on the code as built (`USE_ARENA`): `execute` on the
branching program has undefined behaviour at its first instruction, whether
that is `iconst_0` (0x03) or one of `iconst_1`, ..., `iconst_5`: it pushes on
an operand stack whose `top` was never assigned. -/
theorem branching_undefined_with_arena (clock : Nat → Int) (fuel : Nat) :
    (∃ frame arena,
        createStackFrame USE_ARENA initArena (mainFunction 0 (branchCode 0x03))
          = some (frame, arena) ∧ frame.oprandStack.top = none)
      ∧ execute USE_ARENA clock initArena (scenarioModule (mainFunction 0 (branchCode 0x03)))
          (fuel + 1) = some .undefined
      ∧ ∀ k, k ∈ [0x04, 0x05, 0x06, 0x07, 0x08] →
          execute USE_ARENA clock initArena (scenarioModule (mainFunction 0 (branchCode k)))
            (fuel + 1) = some .undefined := by
  refine ⟨⟨_, _, rfl, rfl⟩, rfl, fun k hk => ?_⟩
  simp only [List.mem_cons, List.mem_singleton, List.not_mem_nil, or_false] at hk
  rcases hk with rfl | rfl | rfl | rfl | rfl <;> rfl

/-- The scenario "Branching" in the build without `USE_ARENA`: the run
returns 0 and has printed the one line 2 when the first instruction is
`iconst_0`, the one line 1 when it is `iconst_1`, ..., `iconst_5`. -/
theorem branching_prints_without_arena (clock : Nat → Int) (fuel : Nat) :
    execute false clock initArena (scenarioModule (mainFunction 0 (branchCode 0x03))) (fuel + 6)
        = some (.returned 0 ["2\n"] initArena)
      ∧ ∀ k, k ∈ [0x04, 0x05, 0x06, 0x07, 0x08] →
          execute false clock initArena (scenarioModule (mainFunction 0 (branchCode k)))
            (fuel + 6) = some (.returned 0 ["1\n"] initArena) := by
  refine ⟨?_, fun k hk => ?_⟩
  · rw [Nat.add_comm]
    exact execute_mono 6 (by rfl) fuel
  · simp only [List.mem_cons, List.mem_singleton, List.not_mem_nil, or_false] at hk
    rw [Nat.add_comm]
    rcases hk with rfl | rfl | rfl | rfl | rfl <;> exact execute_mono 6 (by rfl) fuel

/-- The scenario "Addition" (`bipush 3; bipush 4; iadd; invokestatic println;
_return`): undefined behaviour in the build with `USE_ARENA`, the one line 7
and the result 0 in the build without. -/
theorem addition_scenario (clock : Nat → Int) (fuel : Nat) :
    execute USE_ARENA clock initArena (scenarioModule (mainFunction 0 additionCode)) (fuel + 1)
        = some .undefined
      ∧ execute false clock initArena (scenarioModule (mainFunction 0 additionCode)) (fuel + 5)
        = some (.returned 0 ["7\n"] initArena) := by
  refine ⟨rfl, ?_⟩
  rw [Nat.add_comm]
  exact execute_mono 5 (by rfl) fuel

/-! ## The opcode dispatched on is the byte at the instruction index -/

theorem fetch_fetched {st : ExecState} {frame : StackFrame} {index : Nat} {st' : ExecState}
    (h : fetch st frame index = some (.next st')) : st'.Fetched := by
  unfold fetch at h
  split at h
  · rename_i opCode hop
    injection h with h; injection h with h
    rw [← h]
    exact hop
  · cases h

theorem pushAndFetch_fetched {st : ExecState} {value : VM_NUMBER} {index : Nat}
    {st' : ExecState} (h : pushAndFetch st value index = some (.next st')) : st'.Fetched := by
  simp only [pushAndFetch, Option.bind_eq_bind, Option.bind_eq_some] at h
  obtain ⟨frame, -, hf⟩ := h
  exact fetch_fetched hf

theorem storeAndFetch_fetched {st : ExecState} {varIndex index : Nat} {st' : ExecState}
    (h : storeAndFetch st varIndex index = some (.next st')) : st'.Fetched := by
  simp only [storeAndFetch, Option.bind_eq_bind, Option.bind_eq_some] at h
  obtain ⟨⟨value, frame⟩, -, frame', -, hf⟩ := h
  exact fetch_fetched hf

theorem compareAndBranch_fetched {st : ExecState} {rel : VM_NUMBER → VM_NUMBER → Bool}
    {st' : ExecState} (h : compareAndBranch st rel = some (.next st')) : st'.Fetched := by
  simp only [compareAndBranch, Option.bind_eq_bind, Option.bind_eq_some] at h
  obtain ⟨byte1, -, byte2, -, ⟨vright, f1⟩, -, ⟨vleft, f2⟩, -, hf⟩ := h
  dsimp only at hf
  split at hf <;> exact fetch_fetched hf

theorem testAndBranch_fetched {st : ExecState} {test : VM_NUMBER → Bool}
    {st' : ExecState} (h : testAndBranch st test = some (.next st')) : st'.Fetched := by
  simp only [testAndBranch, Option.bind_eq_bind, Option.bind_eq_some] at h
  obtain ⟨byte1, -, byte2, -, ⟨value, frame⟩, -, hf⟩ := h
  dsimp only at hf
  split at hf <;> exact fetch_fetched hf

theorem doReturn_fetched {useArena : Bool} {st st' : ExecState} {isIreturn : Bool}
    (h : doReturn useArena st isIreturn = some (.next st')) : st'.Fetched := by
  cases isIreturn with
  | false =>
    simp only [doReturn, Bool.false_eq_true, if_false, Option.bind_eq_bind, Option.some_bind,
      Option.bind_eq_some] at h
    obtain ⟨arena, -, h⟩ := h
    split at h
    · cases h
    · split at h
      · simp only [Option.bind_eq_bind, Option.bind_eq_some, Option.some.injEq,
          StepResult.next.injEq] at h
        obtain ⟨opCode, hop, h⟩ := h
        rw [← h]
        exact hop
      · cases h
  | true =>
    simp only [doReturn, if_true, Option.bind_eq_bind, Option.some_bind,
      Option.bind_eq_some] at h
    obtain ⟨⟨retValue, lastFrame⟩, -, arena, -, h⟩ := h
    dsimp only at h
    split at h
    · cases h
    · simp only [Option.bind_eq_bind, Option.bind_eq_some] at h
      obtain ⟨frame, -, h⟩ := h
      split at h
      · simp only [Option.bind_eq_bind, Option.bind_eq_some, Option.some.injEq,
          StepResult.next.injEq] at h
        obtain ⟨opCode, hop, h⟩ := h
        rw [← h]
        exact hop
      · cases h

theorem doInvokestatic_fetched {useArena : Bool} {clock : Nat → Int} {bcModule : BCModule}
    {st st' : ExecState}
    (h : doInvokestatic useArena clock bcModule st = some (.next st')) : st'.Fetched := by
  simp only [doInvokestatic, Option.bind_eq_bind, Option.bind_eq_some] at h
  obtain ⟨byte1, -, byte2, -, functionSym, -, h⟩ := h
  split at h
  · simp only [Option.bind_eq_bind, Option.bind_eq_some, Option.some.injEq,
      StepResult.next.injEq] at h
    obtain ⟨⟨param, frame⟩, -, opCode, hop, h⟩ := h
    rw [← h]
    exact hop
  · split at h
    · simp only [Option.bind_eq_bind, Option.bind_eq_some, Option.some.injEq,
        StepResult.next.injEq] at h
      obtain ⟨opCode, hop, frame, -, h⟩ := h
      rw [← h]
      exact hop
    · simp only [Option.bind_eq_bind, Option.bind_eq_some] at h
      obtain ⟨⟨frame0, arena⟩, -, paramCount, -, ⟨frame, lastFrame⟩, -, h⟩ := h
      dsimp only at h
      split at h
      · simp only [Option.bind_eq_bind, Option.bind_eq_some, Option.some.injEq,
          StepResult.next.injEq] at h
        obtain ⟨opCode, hop, h⟩ := h
        rw [← h]
        exact hop
      · cases h

theorem stepCase_fetched {useArena : Bool} {clock : Nat → Int} {bcModule : BCModule}
    {st st' : ExecState} (h : stepCase useArena clock bcModule st = some (.next st')) :
    st'.Fetched := by
  unfold stepCase at h
  split at h
  all_goals first
    | exact pushAndFetch_fetched h
    | exact storeAndFetch_fetched h
    | exact compareAndBranch_fetched h
    | exact testAndBranch_fetched h
    | exact doReturn_fetched h
    | exact doInvokestatic_fetched h
    | (simp only [Option.bind_eq_bind, Option.bind_eq_some] at h
       obtain ⟨_, -, h⟩ := h
       first
         | exact pushAndFetch_fetched h
         | exact storeAndFetch_fetched h
         | (obtain ⟨_, -, h⟩ := h
            first
              | exact pushAndFetch_fetched h
              | exact fetch_fetched h))
    | (simp only [Option.bind_eq_bind, Option.bind_eq_some] at h
       obtain ⟨⟨_, f1⟩, -, ⟨_, f2⟩, -, h⟩ := h
       first
         | exact pushAndFetch_fetched h
         | (obtain ⟨_, -, h⟩ := h
            exact pushAndFetch_fetched h))
    | (simp only [Option.bind_eq_bind, Option.bind_eq_some] at h
       obtain ⟨_, -, _, -, _, -, frame, -, h⟩ := h
       exact fetch_fetched h)
    | (simp only [Option.some.injEq] at h
       cases h)

/-- The variable `opCode` of `execute` is the byte at the current instruction
index whenever the loop starts an iteration: when it is entered and after
every iteration that reaches `continue`. -/
theorem opCode_is_current_byte (useArena : Bool) (clock : Nat → Int) (arena : Arena)
    (bcModule : BCModule) :
    (∀ st, enter useArena arena bcModule = .next st → st.Fetched)
      ∧ (∀ st st', step useArena clock bcModule st = .next st' → st'.Fetched)
      ∧ (∀ n st st', st.Fetched → stepsFrom useArena clock bcModule n st = some st' →
          st'.Fetched) := by
  refine ⟨?_, fun st st' h => stepCase_fetched (stepCase_of_step h), ?_⟩
  · intro st h
    unfold enter at h
    split at h
    · cases h
    · cases h
    · split at h
      · cases h
      · split at h
        · cases h
        · split at h
          · cases h
          · rename_i opCode hop
            injection h with h
            rw [← h]
            exact hop
  · intro n
    induction n with
    | zero =>
      intro st st' hst h
      simp only [stepsFrom, Option.some.injEq] at h
      exact h ▸ hst
    | succ n ih =>
      intro st st' _ h
      simp only [stepsFrom] at h
      split at h
      · rename_i st1 hstep
        exact ih st1 st' (stepCase_fetched (stepCase_of_step hstep)) h
      · cases h

/-! ## C11: unknown opcodes -/

set_option maxRecDepth 100000 in
theorem ofByte_of_not_executed_nat : ∀ n : Nat, n < 256 → UInt8.ofNat n ∉ executedOpcodes →
    OpCode.ofByte (UInt8.ofNat n) = none
      ∨ ∃ op ∈ reservedOpcodes, OpCode.ofByte (UInt8.ofNat n) = some op := by
  decide

theorem ofByte_of_not_executed (b : UInt8) (h : b ∉ executedOpcodes) :
    OpCode.ofByte b = none ∨ ∃ op ∈ reservedOpcodes, OpCode.ofByte b = some op := by
  have hb : UInt8.ofNat b.toNat = b := UInt8.toNat.inj (UInt8.toNat_ofNat_of_lt b.toNat_lt)
  have key := ofByte_of_not_executed_nat b.toNat b.toNat_lt
  rw [hb] at key
  exact key h

theorem stepCase_unknown {useArena : Bool} {clock : Nat → Int} {bcModule : BCModule}
    {st : ExecState} (h : st.opCode ∉ executedOpcodes) :
    stepCase useArena clock bcModule st = some (.done (.returned (-2)
      (st.stdout ++ ["Unknown op code: " ++ fmt_x st.opCode ++ "."]) st.arena)) := by
  rcases ofByte_of_not_executed _ h with h0 | ⟨op, hop, h0⟩
  · simp only [stepCase, h0]
  · simp only [reservedOpcodes, List.mem_cons, List.mem_singleton, List.not_mem_nil,
      or_false] at hop
    rcases hop with rfl | rfl | rfl | rfl | rfl | rfl | rfl | rfl | rfl <;>
      simp only [stepCase, h0]

/-- C11. Whenever the opcode that the loop of `execute` dispatches on (the
byte it fetched at the current instruction index) is not one of the bytes of
the opcode table of the specification, the iteration prints the diagnostic
and executes `return -2`: the loop is left in that very iteration, with the
arena as it was, so no further instruction is executed.  This covers `sadd`
(0x61), `sldc` (0x13), `lcmp`, `iflt`, `ifge`, `ifgt`, `ifle`, `if_icmpeq`
and `if_icmpne`, none of which is in the table.  In particular `execute`
returns -2 when the first byte of `main` is such a byte. -/
theorem unknown_opcode_returns_minus_two
    (useArena : Bool) (clock : Nat → Int) (bcModule : BCModule) (st : ExecState)
    (h : st.opCode ∉ executedOpcodes) :
    step useArena clock bcModule st
        = .done (.returned (-2)
            (st.stdout ++ ["Unknown op code: " ++ fmt_x st.opCode ++ "."]) st.arena)
      ∧ (∀ fuel, run useArena clock bcModule (fuel + 1) st
          = some (.returned (-2)
              (st.stdout ++ ["Unknown op code: " ++ fmt_x st.opCode ++ "."]) st.arena))
      ∧ (∀ op ∈ reservedOpcodes, op.toByte ∉ executedOpcodes)
      ∧ (∀ (arena arena' : Arena) (main : FunctionSymbol) (frame : StackFrame)
            (code : List UInt8) (fuel : Nat),
          bcModule._main = .to main →
          createStackFrame useArena arena main = some (frame, arena') →
          main.byteCode = some code → code[0]? = some st.opCode →
          execute useArena clock arena bcModule (fuel + 1)
            = some (.returned (-2) ["Unknown op code: " ++ fmt_x st.opCode ++ "."] arena')) := by
  have hstep := step_of_stepCase (@stepCase_unknown useArena clock bcModule st h)
  refine ⟨hstep, fun fuel => ?_, by decide, ?_⟩
  · simp only [run, hstep]
  · intro arena arena' main frame code fuel hmain hcreate hcode hfirst
    have henter : enter useArena arena bcModule
        = .next { arena := arena', stdout := [], clockCalls := 0, functionSym := main
                  frame := frame, code := code, codeIndex := 0, opCode := st.opCode } := by
      simp only [enter, hmain, hcreate, hcode, hfirst]
    have hstep' := step_of_stepCase (@stepCase_unknown useArena clock bcModule _
      (show (ExecState.mk arena' [] 0 main frame code 0 st.opCode).opCode ∉ executedOpcodes
        from h))
    simp only [execute, henter, run, hstep', List.nil_append]

/-- C11, witness: `sadd` (0x61) as the first byte of `main`. -/
theorem unknown_opcode_returns_minus_two_witness :
    step USE_ARENA (fun _ => 0) (scenarioModule (mainFunction 0 [0x61]))
        (mainState [0x61] 0 0x61 [] [])
        = .done (.returned (-2)
            ((mainState [0x61] 0 0x61 [] []).stdout
              ++ ["Unknown op code: " ++ fmt_x (mainState [0x61] 0 0x61 [] []).opCode ++ "."])
            (mainState [0x61] 0 0x61 [] []).arena)
      ∧ (∀ fuel, run USE_ARENA (fun _ => 0) (scenarioModule (mainFunction 0 [0x61])) (fuel + 1)
          (mainState [0x61] 0 0x61 [] [])
          = some (.returned (-2)
              ((mainState [0x61] 0 0x61 [] []).stdout
                ++ ["Unknown op code: " ++ fmt_x (mainState [0x61] 0 0x61 [] []).opCode ++ "."])
              (mainState [0x61] 0 0x61 [] []).arena))
      ∧ (∀ op ∈ reservedOpcodes, op.toByte ∉ executedOpcodes)
      ∧ (∀ (arena arena' : Arena) (main : FunctionSymbol) (frame : StackFrame)
            (code : List UInt8) (fuel : Nat),
          (scenarioModule (mainFunction 0 [0x61]))._main = .to main →
          createStackFrame USE_ARENA arena main = some (frame, arena') →
          main.byteCode = some code → code[0]? = some (mainState [0x61] 0 0x61 [] []).opCode →
          execute USE_ARENA (fun _ => 0) arena (scenarioModule (mainFunction 0 [0x61])) (fuel + 1)
            = some (.returned (-2)
                ["Unknown op code: " ++ fmt_x (mainState [0x61] 0 0x61 [] []).opCode ++ "."]
                arena')) :=
  unknown_opcode_returns_minus_two USE_ARENA (fun _ => 0) (scenarioModule (mainFunction 0 [0x61]))
    (mainState [0x61] 0 0x61 [] []) (by decide)

/-- The run of `execute` in the build with the arena on a `main` whose first
byte is `sadd`: the diagnostic names the byte in hexadecimal, the result is
-2. -/
theorem execute_sadd_with_arena (clock : Nat → Int) (fuel : Nat) :
    ∃ arena, execute USE_ARENA clock initArena (scenarioModule (mainFunction 0 [0x61, 0xb1]))
      (fuel + 1) = some (.returned (-2) ["Unknown op code: 61."] arena) :=
  ⟨_, rfl⟩

/-! ## C12: missing code -/

/-- The run of `execute` in the build with the arena on `main { invokestatic
idle; _return }`, where `idle` (slot 3) has no parameters and no bytecode: the
result is -1 after the first iteration. -/
theorem execute_call_without_code_with_arena (clock : Nat → Int) (fuel : Nat) :
    ∃ arena, execute USE_ARENA clock initArena
        (scenarioModuleWith idleFunction (mainFunction 0 [0xb8, 0x00, 0x03, 0xb1])) (fuel + 1)
      = some (.returned (-1) ["Can not find code for function 'idle'."] arena) :=
  ⟨_, rfl⟩

/-! ## The loader on a stream of the grammar -/

theorem getElem?_of_drop {bc rest : List UInt8} {i : Nat} {b : UInt8}
    (h : bc.drop i = b :: rest) : bc[i]? = some b := by
  have h0 := congrArg (fun l => l[0]?) h
  simp only [List.getElem?_drop, Nat.add_zero, List.getElem?_cons_zero] at h0
  exact h0

theorem drop_add_of_drop {bc enc rest : List UInt8} {i : Nat}
    (h : bc.drop i = enc ++ rest) : bc.drop (i + enc.length) = rest := by
  rw [← List.drop_drop, h, List.drop_left]

theorem drop_succ_of_drop {bc rest : List UInt8} {i : Nat} {b : UInt8}
    (h : bc.drop i = b :: rest) : bc.drop (i + 1) = rest :=
  @drop_add_of_drop bc [b] rest i h

theorem toNat_ofNat_length {α : Type} {l : List α} (h : l.length < 256) :
    (UInt8.ofNat l.length).toNat = l.length :=
  UInt8.toNat_ofNat_of_lt h

theorem readChars_of_drop (bc : List UInt8) :
    ∀ (s : ByteString) (rest : List UInt8) (i : Nat), bc.drop i = s ++ rest →
      readChars bc s.length i = some (s.map byteToChar) := by
  intro s
  induction s with
  | nil => intro rest i _; rfl
  | cons b s ih =>
    intro rest i h
    have hb := getElem?_of_drop (show bc.drop i = b :: (s ++ rest) from h)
    have hrest := ih rest (i + 1) (drop_succ_of_drop (show bc.drop i = b :: (s ++ rest) from h))
    simp only [List.length_cons, readChars, hb, hrest, Option.bind_eq_bind, Option.some_bind,
      List.map_cons]

theorem encodeStr_length (s : ByteString) : (encodeStr s).length = s.length + 1 := rfl

theorem readString_of_drop {bc rest : List UInt8} {i : Nat} {s : ByteString}
    (h : bc.drop i = encodeStr s ++ rest) (hs : s.Fits) :
    readString bc i = some (stringOfBytes s, i + (encodeStr s).length) := by
  have h' : bc.drop i = UInt8.ofNat s.length :: (s ++ rest) := h
  have hchars := readChars_of_drop bc s rest (i + 1) (drop_succ_of_drop h')
  simp only [readString, getElem?_of_drop h', toNat_ofNat_length hs, hchars,
    Option.bind_eq_bind, Option.some_bind, stringOfBytes, encodeStr_length, Nat.add_assoc,
    Nat.add_comm 1]

theorem readStrings_of_drop (bc : List UInt8) :
    ∀ (names : List ByteString) (rest : List UInt8) (i : Nat),
      bc.drop i = encodeStrs names ++ rest → (∀ s ∈ names, ByteString.Fits s) →
      readStrings bc names.length i
        = some (names.map stringOfBytes, i + (encodeStrs names).length) := by
  intro names
  induction names with
  | nil => intro rest i _ _; rfl
  | cons s names ih =>
    intro rest i h hfit
    have h' : bc.drop i = encodeStr s ++ (encodeStrs names ++ rest) := by
      rw [h, encodeStrs, List.append_assoc]
    have hs := readString_of_drop h' (hfit s (List.mem_cons_self _ _))
    have hrest := ih rest (i + (encodeStr s).length) (drop_add_of_drop h')
      (fun x hx => hfit x (List.mem_cons_of_mem _ hx))
    simp only [List.length_cons, readStrings, hs, hrest, Option.bind_eq_bind, Option.some_bind,
      List.map_cons, encodeStrs, List.length_append, Nat.add_assoc]

theorem store_append_replicate {α : Type} (pre : List α) (k : Nat) (x v : α) :
    store (pre ++ List.replicate (k + 1) x) pre.length v
      = some ((pre ++ [v]) ++ List.replicate k x) := by
  have hlt : pre.length < (pre ++ List.replicate (k + 1) x).length := by
    rw [List.length_append, List.length_replicate]; omega
  rw [store, if_pos hlt, List.replicate_succ, List.set_append_right _ _ (Nat.le_refl _),
    Nat.sub_self, List.set_cons_zero, List.append_assoc, List.singleton_append]

theorem storeType_arraysAfter (done : List TypeDecl) (t : TypeDecl) (k : Nat) :
    storeType (arraysAfter done (k + 1)) (done.length + SYS_TYPES) (stringOfBytes t.name)
        (shellOf t) (infoOf t)
      = some (arraysAfter (done ++ [t]) k) := by
  have h1 : (systemTypeNames ++ done.map (fun t => some (stringOfBytes t.name))).length
      = done.length + SYS_TYPES := by
    rw [List.length_append, List.length_map, Nat.add_comm]; rfl
  have h2 : (addSystemTypes ++ done.map (fun t => Ptr.to (shellOf t))).length
      = done.length + SYS_TYPES := by
    rw [List.length_append, List.length_map, Nat.add_comm]; rfl
  have h3 : (done.map (fun t => some (infoOf t))).length
      = done.length + SYS_TYPES - SYS_TYPES := by
    rw [List.length_map, Nat.add_sub_cancel]
  have s1 := store_append_replicate
    (systemTypeNames ++ done.map (fun t => some (stringOfBytes t.name))) k none
    (some (stringOfBytes t.name))
  have s2 := store_append_replicate
    (addSystemTypes ++ done.map (fun t => Ptr.to (shellOf t))) k .indeterminate
    (Ptr.to (shellOf t))
  have s3 := store_append_replicate (done.map (fun t => some (infoOf t))) k none
    (some (infoOf t))
  rw [h1] at s1
  rw [h2] at s2
  rw [h3] at s3
  have hge : ¬ done.length + SYS_TYPES < SYS_TYPES := by omega
  simp only [storeType, arraysAfter, s1, s2, s3, hge, if_false, Option.bind_eq_bind,
    Option.some_bind, List.map_append, List.map_cons, List.map_nil]
  simp only [List.append_assoc]

theorem readSimpleType_of_drop {bc rest : List UInt8} {j : Nat} {name : ByteString}
    {upperTypes : List ByteString} (done : List TypeDecl) (k : Nat)
    (h : bc.drop j = encodeStr name
      ++ (UInt8.ofNat upperTypes.length :: (encodeStrs upperTypes ++ rest)))
    (hwf : (TypeDecl.SimpleType name upperTypes).WellFormed) :
    readSimpleType bc j (done.length + SYS_TYPES) (arraysAfter done (k + 1))
      = some (j + (encodeStr name).length + 1 + (encodeStrs upperTypes).length,
          arraysAfter (done ++ [.SimpleType name upperTypes]) k) := by
  obtain ⟨hname, hcount, hfit⟩ := hwf
  have hn := readString_of_drop h hname
  have h3 := drop_add_of_drop h
  have hs := readStrings_of_drop bc upperTypes _ _ (drop_succ_of_drop h3) hfit
  have hst := storeType_arraysAfter done (.SimpleType name upperTypes) k
  simp only [TypeDecl.name, shellOf, infoOf] at hst
  simp only [readSimpleType, hn, getElem?_of_drop h3, toNat_ofNat_length hcount, hs, hst,
    Option.bind_eq_bind, Option.some_bind]

theorem readFunctionType_of_drop {bc rest : List UInt8} {j : Nat}
    {name returnTypeName : ByteString}
    {paramTypes : List ByteString} (done : List TypeDecl) (k : Nat)
    (h : bc.drop j = encodeStr name ++ (encodeStr returnTypeName
      ++ (UInt8.ofNat paramTypes.length :: (encodeStrs paramTypes ++ rest))))
    (hwf : (TypeDecl.FunctionType name returnTypeName paramTypes).WellFormed) :
    readFunctionType bc j (done.length + SYS_TYPES) (arraysAfter done (k + 1))
      = some (j + (encodeStr name).length + (encodeStr returnTypeName).length + 1
            + (encodeStrs paramTypes).length,
          arraysAfter (done ++ [.FunctionType name returnTypeName paramTypes]) k) := by
  obtain ⟨hname, hret, hcount, hfit⟩ := hwf
  have hn := readString_of_drop h hname
  have h2 := drop_add_of_drop h
  have hr := readString_of_drop h2 hret
  have h3 := drop_add_of_drop h2
  have hs := readStrings_of_drop bc paramTypes _ _ (drop_succ_of_drop h3) hfit
  have hst := storeType_arraysAfter done (.FunctionType name returnTypeName paramTypes) k
  simp only [TypeDecl.name, shellOf, infoOf] at hst
  simp only [readFunctionType, hn, hr, getElem?_of_drop h3, toNat_ofNat_length hcount, hs, hst,
    Option.bind_eq_bind, Option.some_bind]

theorem readUnionType_of_drop {bc rest : List UInt8} {j : Nat} {name : ByteString}
    {members : List ByteString} (done : List TypeDecl) (k : Nat)
    (h : bc.drop j = encodeStr name
      ++ (UInt8.ofNat members.length :: (encodeStrs members ++ rest)))
    (hwf : (TypeDecl.UnionType name members).WellFormed) :
    readUnionType bc j (done.length + SYS_TYPES) (arraysAfter done (k + 1))
      = some (j + (encodeStr name).length + 1 + (encodeStrs members).length,
          arraysAfter (done ++ [.UnionType name members]) k) := by
  obtain ⟨hname, hcount, hfit⟩ := hwf
  have hn := readString_of_drop h hname
  have h3 := drop_add_of_drop h
  have hs := readStrings_of_drop bc members _ _ (drop_succ_of_drop h3) hfit
  have hst := storeType_arraysAfter done (.UnionType name members) k
  simp only [TypeDecl.name, shellOf, infoOf] at hst
  simp only [readUnionType, hn, getElem?_of_drop h3, toNat_ofNat_length hcount, hs, hst,
    Option.bind_eq_bind, Option.some_bind]

theorem readTypes_of_drop (bc : List UInt8) :
    ∀ (todo done : List TypeDecl) (rest : List UInt8) (i : Nat) (out : List String),
      bc.drop i = encodeTypes todo ++ rest → (∀ t ∈ todo, TypeDecl.WellFormed t) →
      readTypes bc todo.length done.length
          { index := i, arrays := arraysAfter done todo.length, stdout := out }
        = some { index := i + (encodeTypes todo).length
                 arrays := arraysAfter (done ++ todo) 0, stdout := out } := by
  intro todo
  induction todo with
  | nil =>
    intro done rest i out _ _
    simp only [readTypes, List.length_nil, encodeTypes, Nat.add_zero, List.append_nil]
  | cons t todo ih =>
    intro done rest i out h hwf
    have h' : bc.drop i = encodeType t ++ (encodeTypes todo ++ rest) := by
      rw [h, encodeTypes, List.append_assoc]
    have hrec := ih (done ++ [t]) rest (i + (encodeType t).length) out (drop_add_of_drop h')
        (fun x hx => hwf x (List.mem_cons_of_mem _ hx))
    rw [List.length_append, List.length_singleton, List.append_assoc, List.singleton_append]
      at hrec
    have hlen : i + (encodeTypes (t :: todo)).length
        = i + (encodeType t).length + (encodeTypes todo).length := by
      rw [encodeTypes, List.length_append, Nat.add_assoc]
    rw [hlen, ← hrec]
    have hwt := hwf t (List.mem_cons_self _ _)
    cases t with
    | SimpleType name upperTypes =>
      have h1 : bc.drop i = 1 :: (encodeStr name ++ (UInt8.ofNat upperTypes.length
          :: (encodeStrs upperTypes ++ (encodeTypes todo ++ rest)))) := by
        rw [h']; simp [encodeType]
      have hread := readSimpleType_of_drop done todo.length (drop_succ_of_drop h1) hwt
      simp only [List.length_cons, readTypes, getElem?_of_drop h1, hread,
        show (1 : UInt8).toNat = 1 from rfl, if_true, Option.bind_eq_bind, Option.some_bind]
      congr 2
      simp only [encodeType, List.length_cons, List.length_append]
      omega
    | FunctionType name returnTypeName paramTypes =>
      have h1 : bc.drop i = 2 :: (encodeStr name ++ (encodeStr returnTypeName
          ++ (UInt8.ofNat paramTypes.length
          :: (encodeStrs paramTypes ++ (encodeTypes todo ++ rest))))) := by
        rw [h']; simp [encodeType]
      have hread := readFunctionType_of_drop done todo.length (drop_succ_of_drop h1) hwt
      simp only [List.length_cons, readTypes, getElem?_of_drop h1, hread,
        show (2 : UInt8).toNat = 2 from rfl, if_true, Option.bind_eq_bind, Option.some_bind]
      simp only [show ¬ (2 = 1) by decide, if_false]
      congr 2
      simp only [encodeType, List.length_cons, List.length_append]
      omega
    | UnionType name members =>
      have h1 : bc.drop i = 3 :: (encodeStr name ++ (UInt8.ofNat members.length
          :: (encodeStrs members ++ (encodeTypes todo ++ rest)))) := by
        rw [h']; simp [encodeType]
      have hread := readUnionType_of_drop done todo.length (drop_succ_of_drop h1) hwt
      simp only [List.length_cons, readTypes, getElem?_of_drop h1, hread,
        show (3 : UInt8).toNat = 3 from rfl, if_true, Option.bind_eq_bind, Option.some_bind]
      simp only [show ¬ (3 = 1) by decide, show ¬ (3 = 2) by decide, if_false]
      congr 2
      simp only [encodeType, List.length_cons, List.length_append]
      omega

theorem firstIndexFrom_bounds (s : String) :
    ∀ (names : List String) (i k : Nat), firstIndexFrom s names i = some k →
      i ≤ k ∧ k < i + names.length ∧ ∃ name, names[k - i]? = some name ∧ strcmp_eq s name = true
        ∧ ∀ j name', j < k - i → names[j]? = some name' → strcmp_eq s name' = false := by
  intro names
  induction names with
  | nil => intro i k h; cases h
  | cons name names ih =>
    intro i k h
    rw [firstIndexFrom] at h
    by_cases hc : strcmp_eq s name = true
    · rw [if_pos hc] at h
      injection h with h
      subst h
      refine ⟨Nat.le_refl _, by simp, name, by simp, hc, ?_⟩
      intro j name' hj
      omega
    · rw [if_neg hc] at h
      obtain ⟨h1, h2, name0, h3, h4, h5⟩ := ih (i + 1) k h
      refine ⟨by omega, by simp only [List.length_cons]; omega, name0, ?_, h4, ?_⟩
      · rw [show k - i = (k - (i + 1)) + 1 by omega, List.getElem?_cons_succ]
        exact h3
      · intro j name' hj hget
        cases j with
        | zero =>
          simp only [List.getElem?_cons_zero, Option.some.injEq] at hget
          subst hget
          simpa using hc
        | succ j =>
          rw [List.getElem?_cons_succ] at hget
          exact h5 j name' (by omega) hget

theorem firstIndexFrom_isSome (s : String) :
    ∀ (names : List String) (i : Nat),
      (∃ name ∈ names, strcmp_eq s name = true) → (firstIndexFrom s names i).isSome = true := by
  intro names
  induction names with
  | nil => intro i h; obtain ⟨_, hm, _⟩ := h; cases hm
  | cons name names ih =>
    intro i h
    rw [firstIndexFrom]
    by_cases hc : strcmp_eq s name = true
    · rw [if_pos hc]; rfl
    · rw [if_neg hc]
      obtain ⟨name', hm, hs⟩ := h
      rcases List.mem_cons.1 hm with rfl | hm'
      · exact absurd hs hc
      · exact ih (i + 1) ⟨name', hm', hs⟩

theorem typeRefAt_of_object {types : List (Ptr PType)} {i : Nat} {t : PType}
    (h : types[i]? = some (.to t)) : typeRefAt types i = some (.to i) := by
  simp only [typeRefAt, h]

theorem getTypeFrom_eq (s : String) (typeNames : List (Option String))
    (types : List (Ptr PType))
    (hobj : ∀ i, i < typeNames.length → ∃ t, types[i]? = some (.to t)) :
    ∀ (suffix : List String) (i n : Nat), typeNames.drop i = suffix.map some →
      getTypeFrom s typeNames types n i =
        match firstIndexFrom s suffix i with
        | some k => if k < i + n then some (.to k) else some .null
        | none => if n ≤ suffix.length then some .null else none := by
  intro suffix
  induction suffix with
  | nil =>
    intro i n h
    cases n with
    | zero => simp [getTypeFrom, firstIndexFrom]
    | succ n =>
      have hnone : typeNames[i]? = none := by
        have := congrArg (fun l => l[0]?) h
        simpa [List.getElem?_drop] using this
      simp [getTypeFrom, firstIndexFrom, hnone]
  | cons name suffix ih =>
    intro i n h
    have hget : typeNames[i]? = some (some name) := by
      have := congrArg (fun l => l[0]?) h
      simpa [List.getElem?_drop] using this
    have hdrop : typeNames.drop (i + 1) = suffix.map some := by
      have := congrArg (fun l => l.drop 1) h
      simpa [List.drop_drop, Nat.add_comm] using this
    have hlt : i < typeNames.length := by
      by_contra hge
      rw [List.getElem?_eq_none (Nat.le_of_not_lt hge)] at hget
      cases hget
    cases n with
    | zero =>
      simp only [getTypeFrom, firstIndexFrom, Nat.add_zero]
      by_cases hc : strcmp_eq s name = true
      · simp [hc]
      · rw [if_neg hc]
        cases hf : firstIndexFrom s suffix (i + 1) with
        | none => simp
        | some k =>
          have := (firstIndexFrom_bounds s suffix (i + 1) k hf).1
          simp only
          rw [if_neg (by omega)]
    | succ n =>
      simp only [getTypeFrom, hget, firstIndexFrom]
      by_cases hc : strcmp_eq s name = true
      · obtain ⟨t, ht⟩ := hobj i hlt
        simp [hc, typeRefAt_of_object ht]
      · rw [if_neg hc, if_neg hc, ih (i + 1) n hdrop]
        cases hf : firstIndexFrom s suffix (i + 1) with
        | none => simp
        | some k => simp only [show i + 1 + n = i + (n + 1) by omega]

theorem getType_of_bound {s : String} {names : List String} {types : List (Ptr PType)}
    (hobj : ∀ i, i < names.length → ∃ t, types[i]? = some (.to t)) :
    getType s names.length (names.map some) types = some (resolveName names s) := by
  have h := getTypeFrom_eq s (names.map some) types
    (by simpa using hobj) names 0 names.length (by simp)
  rw [getType, h, resolveName]
  cases hf : firstIndexFrom s names 0 with
  | none => simp
  | some k =>
    have := (firstIndexFrom_bounds s names 0 k hf).2.1
    simp only
    rw [if_pos (by omega)]

theorem getType_of_resolved {s : String} {names : List String} {types : List (Ptr PType)}
    (n : Nat) (hobj : ∀ i, i < names.length → ∃ t, types[i]? = some (.to t))
    (hres : ∃ name ∈ names, strcmp_eq s name = true) :
    getType s (names.length + n) (names.map some) types = some (resolveName names s) := by
  have h := getTypeFrom_eq s (names.map some) types
    (by simpa using hobj) names 0 (names.length + n) (by simp)
  rw [getType, h, resolveName]
  obtain ⟨k, hf⟩ := Option.isSome_iff_exists.1 (firstIndexFrom_isSome s names 0 hres)
  have := (firstIndexFrom_bounds s names 0 k hf).2.1
  simp only [hf]
  rw [if_pos (by omega)]

theorem getTypes_eq {refs : List String} {numTypes : Nat} {typeNames : List (Option String)}
    {types : List (Ptr PType)} {resolve : String → TypeRef} :
    ∀ (suffix pre : List String), refs = pre ++ suffix →
      (∀ s ∈ suffix, getType s numTypes typeNames types = some (resolve s)) →
      getTypes refs numTypes typeNames types suffix.length pre.length
        = some (suffix.map resolve) := by
  intro suffix
  induction suffix with
  | nil => intro pre _ _; rfl
  | cons s suffix ih =>
    intro pre hrefs hall
    have hget : refs[pre.length]? = some s := by
      rw [hrefs, List.getElem?_append_right (Nat.le_refl _), Nat.sub_self,
        List.getElem?_cons_zero]
    have hrest := ih (pre ++ [s]) (by rw [hrefs, List.append_assoc]; rfl)
      (fun x hx => hall x (List.mem_cons_of_mem _ hx))
    rw [List.length_append, List.length_singleton] at hrest
    simp only [List.length_cons, getTypes, hget, hall s (List.mem_cons_self _ _), hrest,
      Option.bind_eq_bind, Option.some_bind, List.map_cons]

theorem store_middle {α : Type} (pre post : List α) (x v : α) :
    store (pre ++ x :: post) pre.length v = some (pre ++ v :: post) := by
  have hlt : pre.length < (pre ++ x :: post).length := by
    rw [List.length_append, List.length_cons]; omega
  rw [store, if_pos hlt, List.set_append_right _ _ (Nat.le_refl _), Nat.sub_self,
    List.set_cons_zero]

theorem getElem?_middle {α : Type} (pre post : List α) (x : α) :
    (pre ++ x :: post)[pre.length]? = some x := by
  rw [List.getElem?_append_right (Nat.le_refl _), Nat.sub_self, List.getElem?_cons_zero]

theorem typeNamesOf_length (ds : List TypeDecl) :
    (typeNamesOf ds).length = ds.length + SYS_TYPES := by
  rw [typeNamesOf, List.length_append, List.length_map, Nat.add_comm]; rfl

theorem object_of_mem {types : List (Ptr PType)} {n : Nat}
    (hlen : types.length = n) (hall : ∀ p ∈ types, ∃ t, p = Ptr.to t) :
    ∀ i, i < n → ∃ t, types[i]? = some (.to t) := by
  intro i hi
  have hi' : i < types.length := hlen ▸ hi
  obtain ⟨t, ht⟩ := hall types[i] (List.getElem_mem hi')
  exact ⟨t, by rw [List.getElem?_eq_getElem hi', ht]⟩

theorem buildType_core {numTypes i : Nat} {arrays : TypeArrays} {t : TypeDecl}
    {names : List String}
    (hty : arrays.types[i + SYS_TYPES]? = some (.to (shellOf t)))
    (hinfo : arrays.typeInfos[i]? = some (some (infoOf t)))
    (hget : ∀ s ∈ t.refNames,
      getType (stringOfBytes s) (numTypes + SYS_TYPES) arrays.typeNames arrays.types
        = some (resolveName names (stringOfBytes s))) :
    buildType numTypes i arrays = some (loadedType names t) := by
  have hgets : ∀ (refs : List ByteString), (∀ s ∈ refs, s ∈ t.refNames) →
      getTypes (refs.map stringOfBytes) (numTypes + SYS_TYPES) arrays.typeNames arrays.types
        refs.length 0
        = some (refs.map (fun s => resolveName names (stringOfBytes s))) := by
    intro refs hsub
    have := @getTypes_eq (refs.map stringOfBytes) (numTypes + SYS_TYPES)
      arrays.typeNames arrays.types (resolveName names) (refs.map stringOfBytes) [] rfl
      (by
        intro s hs
        obtain ⟨x, hx, rfl⟩ := List.mem_map.1 hs
        exact hget x (hsub x hx))
    simpa [List.map_map] using this
  cases t with
  | SimpleType name upperTypes =>
    have hg := hgets upperTypes (fun s hs => hs)
    simp only [shellOf, createSimpleType] at hty
    simp only [infoOf, createSimpleTypeInfo] at hinfo
    simp only [buildType, hty, hinfo, PType.kind, hg, loadedType, Option.bind_eq_bind,
      Option.some_bind]
  | FunctionType name returnTypeName paramTypes =>
    have hg := hgets paramTypes (fun s hs => List.mem_cons_of_mem _ hs)
    have hr := hget returnTypeName (List.mem_cons_self _ _)
    simp only [shellOf, createFunctionType] at hty
    simp only [infoOf, createFuntionTypeInfo] at hinfo
    simp only [buildType, hty, hinfo, PType.kind, hg, hr, loadedType, Option.bind_eq_bind,
      Option.some_bind]
  | UnionType name members =>
    have hg := hgets members (fun s hs => hs)
    simp only [shellOf, createUnionType] at hty
    simp only [infoOf, createUnionTypeInfo] at hinfo
    simp only [buildType, hty, hinfo, PType.kind, hg, loadedType, Option.bind_eq_bind,
      Option.some_bind]

theorem buildType_eq (ds : List TypeDecl) (hres : NamesResolve ds)
    (done : List TypeDecl) (t : TypeDecl) (todo : List TypeDecl) (hds : ds = done ++ t :: todo) :
    buildType (ds.length + SYS_TYPES) done.length
        { typeNames := (typeNamesOf ds).map some
          types := (addSystemTypes
            ++ done.map (fun t => Ptr.to (loadedType (typeNamesOf ds) t)))
            ++ (t :: todo).map (fun t => Ptr.to (shellOf t))
          typeInfos := ds.map (fun t => some (infoOf t)) }
      = some (loadedType (typeNamesOf ds) t) := by
  have hlen1 : (addSystemTypes
      ++ done.map (fun t => Ptr.to (loadedType (typeNamesOf ds) t))).length
      = done.length + SYS_TYPES := by
    rw [List.length_append, List.length_map, Nat.add_comm]; rfl
  have hty : ((addSystemTypes ++ done.map (fun t => Ptr.to (loadedType (typeNamesOf ds) t)))
      ++ (t :: todo).map (fun t => Ptr.to (shellOf t)))[done.length + SYS_TYPES]?
      = some (.to (shellOf t)) := by
    rw [← hlen1, List.map_cons, getElem?_middle]
  have hinfo : (ds.map (fun t => some (infoOf t)))[done.length]? = some (some (infoOf t)) := by
    rw [hds, List.map_append, List.map_cons, ← List.length_map done (fun t => some (infoOf t)),
      getElem?_middle]
  have hobj : ∀ i, i < (typeNamesOf ds).length →
      ∃ t', ((addSystemTypes ++ done.map (fun t => Ptr.to (loadedType (typeNamesOf ds) t)))
        ++ (t :: todo).map (fun t => Ptr.to (shellOf t)))[i]? = some (.to t') := by
    apply object_of_mem
    · rw [List.length_append, hlen1, List.length_map, typeNamesOf_length, hds,
        List.length_append]
      omega
    · intro p hp
      simp only [List.mem_append, List.mem_map] at hp
      rcases hp with (hp | ⟨x, _, rfl⟩) | ⟨x, _, rfl⟩
      · simp only [addSystemTypes, List.mem_cons, List.mem_singleton, List.not_mem_nil,
          or_false] at hp
        rcases hp with rfl | rfl | rfl | rfl | rfl | rfl | rfl | rfl | rfl <;> exact ⟨_, rfl⟩
      · exact ⟨_, rfl⟩
      · exact ⟨_, rfl⟩
  have hget : ∀ s ∈ t.refNames,
      getType (stringOfBytes s) (ds.length + SYS_TYPES + SYS_TYPES)
        ((typeNamesOf ds).map some)
        ((addSystemTypes ++ done.map (fun t => Ptr.to (loadedType (typeNamesOf ds) t)))
          ++ (t :: todo).map (fun t => Ptr.to (shellOf t)))
        = some (resolveName (typeNamesOf ds) (stringOfBytes s)) := by
    intro s hs
    rw [← typeNamesOf_length]
    exact getType_of_resolved SYS_TYPES hobj
      (hres t (by rw [hds]; exact List.mem_append_right _ (List.mem_cons_self _ _)) s hs)
  exact buildType_core hty hinfo hget

theorem buildTypesFrom_eq (ds : List TypeDecl) (hres : NamesResolve ds) :
    ∀ (todo done : List TypeDecl), ds = done ++ todo →
      buildTypesFrom (ds.length + SYS_TYPES) todo.length done.length
          { typeNames := (typeNamesOf ds).map some
            types := (addSystemTypes
              ++ done.map (fun t => Ptr.to (loadedType (typeNamesOf ds) t)))
              ++ todo.map (fun t => Ptr.to (shellOf t))
            typeInfos := ds.map (fun t => some (infoOf t)) }
        = some (loadedTypes ds) := by
  intro todo
  induction todo with
  | nil =>
    intro done hds
    rw [List.append_nil] at hds
    subst hds
    simp only [List.length_nil, buildTypesFrom, List.map_nil, List.append_nil, loadedTypes]
  | cons t todo ih =>
    intro done hds
    have hb := buildType_eq ds hres done t todo hds
    have hlen1 : (addSystemTypes
        ++ done.map (fun t => Ptr.to (loadedType (typeNamesOf ds) t))).length
        = done.length + SYS_TYPES := by
      rw [List.length_append, List.length_map, Nat.add_comm]; rfl
    have hst := store_middle
      (addSystemTypes ++ done.map (fun t => Ptr.to (loadedType (typeNamesOf ds) t)))
      (todo.map (fun t => Ptr.to (shellOf t))) (Ptr.to (shellOf t))
      (Ptr.to (loadedType (typeNamesOf ds) t))
    rw [hlen1] at hst
    have hrec := ih (done ++ [t]) (by rw [hds, List.append_assoc]; rfl)
    rw [List.length_append, List.length_singleton, List.map_append, List.map_cons, List.map_nil,
      ← List.append_assoc, List.append_assoc _ [_] _, List.singleton_append] at hrec
    simp only [List.length_cons, buildTypesFrom, hb, Option.bind_eq_bind, Option.some_bind]
    rw [List.map_cons, hst]
    exact hrec

theorem readVarSymbol_of_drop {bc rest : List UInt8} {i : Nat} {v : VarDecl}
    {names : List String} {types : List (Ptr PType)}
    (hobj : ∀ i, i < names.length → ∃ t, types[i]? = some (.to t))
    (h : bc.drop i = encodeVar v ++ rest) (hwf : v.WellFormed) :
    readVarSymbol bc i names.length (names.map some) types
      = some (loadedVar names types v, i + (encodeVar v).length) := by
  have h' : bc.drop i = encodeStr v.name ++ (encodeStr v.typeName ++ rest) := by
    rw [h, encodeVar, List.append_assoc]
  have hn := readString_of_drop h' hwf.1
  have ht := readString_of_drop (drop_add_of_drop h') hwf.2
  simp only [readVarSymbol, hn, ht, getType_of_bound hobj, loadedVar, encodeVar,
    List.length_append, Nat.add_assoc, Option.bind_eq_bind, Option.some_bind]

theorem readVarSymbols_of_drop {bc : List UInt8} {names : List String}
    {types : List (Ptr PType)}
    (hobj : ∀ i, i < names.length → ∃ t, types[i]? = some (.to t)) :
    ∀ (vars : List VarDecl) (rest : List UInt8) (i : Nat),
      bc.drop i = encodeVars vars ++ rest → (∀ v ∈ vars, VarDecl.WellFormed v) →
      readVarSymbols bc names.length (names.map some) types vars.length i
        = some (vars.map (loadedVar names types), i + (encodeVars vars).length) := by
  intro vars
  induction vars with
  | nil => intro rest i _ _; rfl
  | cons v vars ih =>
    intro rest i h hwf
    have h' : bc.drop i = encodeVar v ++ (encodeVars vars ++ rest) := by
      rw [h, encodeVars, List.append_assoc]
    have hv := readVarSymbol_of_drop hobj h' (hwf v (List.mem_cons_self _ _))
    have hrest := ih rest (i + (encodeVar v).length) (drop_add_of_drop h')
      (fun x hx => hwf x (List.mem_cons_of_mem _ hx))
    simp only [List.length_cons, readVarSymbols, hv, hrest, Option.bind_eq_bind,
      Option.some_bind, List.map_cons, encodeVars, List.length_append, Nat.add_assoc]

theorem copyBytes_of_drop {bc rest code : List UInt8} {i : Nat}
    (h : bc.drop i = code ++ rest) (hne : code.length ≠ 0) :
    copyBytes bc i code.length = some code := by
  have hlen := congrArg List.length h
  rw [List.length_drop, List.length_append] at hlen
  have hle : i + code.length ≤ bc.length := by omega
  rw [copyBytes, if_pos hle, h, List.take_left]

theorem readFunctionSymbol_of_drop {bc rest : List UInt8} {i : Nat} {f : FunctionBody}
    {names : List String} {types : List (Ptr PType)}
    (hobj : ∀ i, i < names.length → ∃ t, types[i]? = some (.to t))
    (h : bc.drop i = encodeFunctionBody f ++ rest) (hwf : f.WellFormed) :
    readFunctionSymbol bc i names.length (names.map some) types
      = some (loadedFunction names types f, i + (encodeFunctionBody f).length) := by
  obtain ⟨hname, htype, hcount, hvars, hcode⟩ := hwf
  have h1 : bc.drop i = encodeStr f.name ++ (encodeStr f.typeName
      ++ (f.opStackSize :: UInt8.ofNat f.vars.length :: (encodeVars f.vars
      ++ (UInt8.ofNat f.byteCode.length :: (f.byteCode ++ rest))))) := by
    rw [h]; simp [encodeFunctionBody]
  have hn := readString_of_drop h1 hname
  have h2 := drop_add_of_drop h1
  have ht := readString_of_drop h2 htype
  have h3 := drop_add_of_drop h2
  have h4 := drop_succ_of_drop h3
  have h5 := drop_succ_of_drop h4
  have hv := readVarSymbols_of_drop hobj f.vars _ _ h5 hvars
  have h6 := drop_add_of_drop h5
  have h7 := drop_succ_of_drop h6
  have hlen : i + (encodeFunctionBody f).length
      = i + (encodeStr f.name).length + (encodeStr f.typeName).length + 1 + 1
        + (encodeVars f.vars).length + 1 + f.byteCode.length := by
    simp only [encodeFunctionBody, List.length_append, List.length_cons]
    omega
  simp only [readFunctionSymbol, hn, ht, getType_of_bound hobj, getElem?_of_drop h3,
    getElem?_of_drop h4, toNat_ofNat_length hcount, hv, getElem?_of_drop h6,
    toNat_ofNat_length hcode, Option.bind_eq_bind, Option.some_bind, loadedFunction, hlen]
  by_cases hz : f.byteCode.length = 0
  · simp only [hz, if_true, Option.some_bind, Nat.add_zero]
  · simp only [hz, if_false, copyBytes_of_drop h7 hz, Option.some_bind]

theorem readConsts_of_drop {bc : List UInt8} {names : List String}
    {types : List (Ptr PType)}
    (hobj : ∀ i, i < names.length → ∃ t, types[i]? = some (.to t)) :
    ∀ (todo done : List ConstDecl) (rest : List UInt8) (i : Nat) (main : Ptr FunctionSymbol)
      (out : List String),
      bc.drop i = encodeConsts todo ++ rest → (∀ c ∈ todo, ConstDecl.WellFormed c) →
      readConsts bc names.length (names.map some) types todo.length done.length
          { index := i
            consts := (addSystemFunctions
              ++ done.map (fun c => Ptr.to (loadedConst names types c)))
              ++ List.replicate todo.length .indeterminate
            _main := main, stdout := out }
        = some { index := i + (encodeConsts todo).length
                 consts := addSystemFunctions
                   ++ (done ++ todo).map (fun c => Ptr.to (loadedConst names types c))
                 _main := loadedMain names types todo main, stdout := out } := by
  intro todo
  induction todo with
  | nil =>
    intro done rest i main out _ _
    simp only [readConsts, List.length_nil, encodeConsts, Nat.add_zero, List.append_nil,
      List.replicate_zero, loadedMain]
  | cons c todo ih =>
    intro done rest i main out h hwf
    have h' : bc.drop i = encodeConst c ++ (encodeConsts todo ++ rest) := by
      rw [h, encodeConsts, List.append_assoc]
    have hlen1 : (addSystemFunctions
        ++ done.map (fun c => Ptr.to (loadedConst names types c))).length
        = done.length + SYS_FUNS := by
      rw [List.length_append, List.length_map, Nat.add_comm]; rfl
    have hst := store_append_replicate
      (addSystemFunctions ++ done.map (fun c => Ptr.to (loadedConst names types c)))
      todo.length .indeterminate (Ptr.to (loadedConst names types c))
    rw [hlen1] at hst
    have hrec := fun main' => ih (done ++ [c]) rest (i + (encodeConst c).length) main' out
      (drop_add_of_drop h') (fun x hx => hwf x (List.mem_cons_of_mem _ hx))
    simp only [List.length_append, List.length_singleton, List.append_assoc,
      List.singleton_append, List.map_append, List.map_cons, List.map_nil] at hrec
    have hlen : i + (encodeConsts (c :: todo)).length
        = i + (encodeConst c).length + (encodeConsts todo).length := by
      rw [encodeConsts, List.length_append, Nat.add_assoc]
    have hwc := hwf c (List.mem_cons_self _ _)
    rw [hlen]
    simp only [List.length_cons]
    cases c with
    | NumberConst value =>
      have h1 : bc.drop i = 1 :: value :: (encodeConsts todo ++ rest) := h'
      have h2 := drop_succ_of_drop h1
      have hst' : store ((addSystemFunctions
          ++ done.map (fun c => Ptr.to (loadedConst names types c)))
          ++ List.replicate (todo.length + 1) .indeterminate) (done.length + SYS_FUNS)
          (Ptr.to (createNumberConst value.toNat)) = _ := hst
      have hrec' := hrec main
      rw [show i + (encodeConst (.NumberConst value)).length = i + 1 + 1 from rfl] at hrec' ⊢
      simp only [List.length_cons, readConsts, getElem?_of_drop h1, getElem?_of_drop h2,
        show (1 : UInt8).toNat = 1 from rfl, if_true, Option.bind_eq_bind, Option.some_bind,
        hst']
      simp only [List.append_assoc, List.singleton_append, List.map_append, List.map_cons,
        loadedMain]
      exact hrec'
    | StringConst value =>
      have h1 : bc.drop i = 2 :: (encodeStr value ++ (encodeConsts todo ++ rest)) := by
        rw [h']; simp [encodeConst]
      have hs := readString_of_drop (drop_succ_of_drop h1) hwc
      have hst' : store ((addSystemFunctions
          ++ done.map (fun c => Ptr.to (loadedConst names types c)))
          ++ List.replicate (todo.length + 1) .indeterminate) (done.length + SYS_FUNS)
          (Ptr.to (createStringConst (stringOfBytes value))) = _ := hst
      have hrec' := hrec main
      rw [show i + (encodeConst (.StringConst value)).length
        = i + 1 + (encodeStr value).length by
          simp only [encodeConst, List.length_cons]; omega] at hrec' ⊢
      simp only [List.length_cons, readConsts, getElem?_of_drop h1, hs,
        show (2 : UInt8).toNat = 2 from rfl, show ¬ (2 = 1) by decide, if_true, if_false,
        Option.bind_eq_bind, Option.some_bind, hst']
      simp only [List.append_assoc, List.singleton_append, List.map_append, List.map_cons,
        loadedMain]
      exact hrec'
    | FunctionConst body =>
      have h1 : bc.drop i = 3 :: (encodeFunctionBody body ++ (encodeConsts todo ++ rest)) := by
        rw [h']; simp [encodeConst]
      have hf := readFunctionSymbol_of_drop hobj (drop_succ_of_drop h1) hwc
      have hst' : store ((addSystemFunctions
          ++ done.map (fun c => Ptr.to (loadedConst names types c)))
          ++ List.replicate (todo.length + 1) .indeterminate) (done.length + SYS_FUNS)
          (Ptr.to (createFunctionConst (loadedFunction names types body))) = _ := hst
      have hrec' := hrec (if strcmp_eq (stringOfBytes body.name) "main" = true
        then Ptr.to (loadedFunction names types body) else main)
      rw [show i + (encodeConst (.FunctionConst body)).length
        = i + 1 + (encodeFunctionBody body).length by
          simp only [encodeConst, List.length_cons]; omega] at hrec' ⊢
      have hname : (loadedFunction names types body).symbol.name = stringOfBytes body.name :=
        rfl
      simp only [List.length_cons, readConsts, getElem?_of_drop h1, hf,
        show (3 : UInt8).toNat = 3 from rfl, show ¬ (3 = 1) by decide,
        show ¬ (3 = 2) by decide, if_true, if_false,
        Option.bind_eq_bind, Option.some_bind, hst', hname]
      simp only [List.append_assoc, List.singleton_append, List.map_append, List.map_cons,
        loadedMain]
      exact hrec'

theorem arraysAfter_zero (ds : List TypeDecl) :
    arraysAfter ds 0
      = { typeNames := (typeNamesOf ds).map some
          types := (addSystemTypes
              ++ ([] : List TypeDecl).map (fun t => Ptr.to (loadedType (typeNamesOf ds) t)))
              ++ ds.map (fun t => Ptr.to (shellOf t))
          typeInfos := ds.map (fun t => some (infoOf t)) } := by
  simp only [arraysAfter, typeNamesOf, List.replicate_zero, List.append_nil, List.map_append,
    List.map_map, List.map_nil]
  rfl

theorem loadedTypes_object (ds : List TypeDecl) :
    ∀ i, i < (typeNamesOf ds).length → ∃ t, (loadedTypes ds)[i]? = some (.to t) := by
  apply object_of_mem
  · rw [loadedTypes, List.length_append, List.length_map, typeNamesOf_length, Nat.add_comm]
    rfl
  · intro p hp
    simp only [loadedTypes, List.mem_append, List.mem_map] at hp
    rcases hp with hp | ⟨x, _, rfl⟩
    · simp only [addSystemTypes, List.mem_cons, List.mem_singleton, List.not_mem_nil,
        or_false] at hp
      rcases hp with rfl | rfl | rfl | rfl | rfl | rfl | rfl | rfl | rfl <;> exact ⟨_, rfl⟩
    · exact ⟨_, rfl⟩

/-- The loader on the stream of a well-formed module whose type names
resolve, whatever follows the stream: it returns the module `loadedModule d`
and prints nothing. -/
theorem readBCModule_encodeModule (d : ModuleDecl) (rest : List UInt8)
    (hwf : d.WellFormed) (hres : NamesResolve d.types) :
    readBCModule (encodeModule d ++ rest) = some (loadedModule d, []) := by
  obtain ⟨hnt, hwt, hnc, hwc⟩ := hwf
  have h0 : (encodeModule d ++ rest).drop 0 = encodeStr typesMarker
      ++ (UInt8.ofNat d.types.length :: (encodeTypes d.types
      ++ (encodeStr constsMarker ++ (UInt8.ofNat d.consts.length
      :: (encodeConsts d.consts ++ rest))))) := by
    simp [encodeModule]
  have hs1 := readString_of_drop h0 (by decide)
  have h1 := drop_add_of_drop h0
  have h2 := drop_succ_of_drop h1
  have ht := readTypes_of_drop (encodeModule d ++ rest) d.types [] _ _ [] h2 hwt
  rw [List.nil_append, arraysAfter_zero] at ht
  have hb := buildTypesFrom_eq d.types hres d.types [] rfl
  have h3 := drop_add_of_drop h2
  have hs2 := readString_of_drop h3 (by decide)
  have h4 := drop_add_of_drop h3
  have h5 := drop_succ_of_drop h4
  have hc := readConsts_of_drop (loadedTypes_object d.types) d.consts [] _ _ .indeterminate []
    h5 hwc
  rw [typeNamesOf_length] at hc
  simp only [readBCModule, hs1, getElem?_of_drop h1, toNat_ofNat_length hnt,
    Option.bind_eq_bind, Option.some_bind]
  have harr : ({ typeNames := systemTypeNames ++ List.replicate d.types.length none
                 types := addSystemTypes ++ List.replicate d.types.length Ptr.indeterminate
                 typeInfos := List.replicate d.types.length none } : TypeArrays)
      = arraysAfter [] d.types.length := rfl
  rw [harr]
  rw [show ([] : List TypeDecl).length = 0 from rfl] at ht hb
  simp only [ht, Option.some_bind, buildTypes, Nat.add_sub_cancel, hb, hs2,
    getElem?_of_drop h4, toNat_ofNat_length hnc]
  rw [show ([] : List ConstDecl).length = 0 from rfl] at hc
  simp only [List.map_nil, List.append_nil, List.nil_append] at hc
  simp only [hc, Option.some_bind, loadedModule]

/-! ## C13: layout of the type table -/

theorem getElem?_append_map {α β : Type} (pre : List β) (l : List α) (f : α → β) (n i : Nat)
    (hn : pre.length = n) : (pre ++ l.map f)[i + n]? = (l[i]?).map f := by
  rw [List.getElem?_append_right (by omega), ← hn, Nat.add_sub_cancel, List.getElem?_map]

theorem loadedModule_types_user {d : ModuleDecl} {i : Nat} {t : TypeDecl}
    (h : d.types[i]? = some t) :
    (loadedModule d).types[i + 9]? = some (.to (loadedType (typeNamesOf d.types) t)) := by
  show (addSystemTypes ++ d.types.map _)[i + 9]? = _
  rw [getElem?_append_map addSystemTypes _ _ 9 i (by rfl), h]
  rfl

theorem loadedModule_consts_user {d : ModuleDecl} {i : Nat} {c : ConstDecl}
    (h : d.consts[i]? = some c) :
    (loadedModule d).consts[i + 3]?
      = some (.to (loadedConst (typeNamesOf d.types) (loadedTypes d.types) c)) := by
  show (addSystemFunctions ++ d.consts.map _)[i + 3]? = _
  rw [getElem?_append_map addSystemFunctions _ _ 3 i (by rfl), h]
  rfl

theorem loadedType_name (names : List String) (t : TypeDecl) :
    (loadedType names t).name = stringOfBytes t.name := by
  cases t <;> rfl

/-- C13. For every stream of the grammar that declares `n` user types (their
references resolving) the loader returns a module, without printing, whose
type table has `n + 9` entries; the entries 0 to 8 are the objects of the
system types, named `any`, `number`, `string`, `boolean`, `null`,
`undefined`, `integer`, `decimal` and `void`, in that order, and the user
type `i` of the stream is the entry `i + 9`, an object with the name that the
stream gives. -/
theorem type_table_layout (d : ModuleDecl) (hwf : d.WellFormed)
    (hres : NamesResolve d.types) :
    ∃ m, readBCModule (encodeModule d) = some (m, [])
      ∧ m.numTypes = d.types.length + 9
      ∧ m.types.length = d.types.length + 9
      ∧ m.types.take 9 = addSystemTypes
      ∧ (List.range 9).map (typeNameAt m)
          = [some "any", some "number", some "string", some "boolean", some "null",
             some "undefined", some "integer", some "decimal", some "void"]
      ∧ ∀ i t, d.types[i]? = some t → typeNameAt m (i + 9) = some (stringOfBytes t.name) := by
  have hload := readBCModule_encodeModule d [] hwf hres
  rw [List.append_nil] at hload
  refine ⟨loadedModule d, hload, rfl, ?_, ?_, ?_, ?_⟩
  · show (addSystemTypes ++ d.types.map _).length = _
    rw [List.length_append, List.length_map, Nat.add_comm]
    rfl
  · show (addSystemTypes ++ d.types.map _).take 9 = _
    rw [List.take_left' (by rfl)]
  · have hsys : ∀ i, i < 9 → (loadedModule d).types[i]? = addSystemTypes[i]? := by
      intro i hi
      show (addSystemTypes ++ d.types.map _)[i]? = _
      rw [List.getElem?_append_left (by exact hi)]
    simp only [List.range, List.range.loop, List.map_cons, List.map_nil, typeNameAt,
      hsys _ (by decide : 0 < 9), hsys _ (by decide : 1 < 9), hsys _ (by decide : 2 < 9),
      hsys _ (by decide : 3 < 9), hsys _ (by decide : 4 < 9), hsys _ (by decide : 5 < 9),
      hsys _ (by decide : 6 < 9), hsys _ (by decide : 7 < 9), hsys _ (by decide : 8 < 9)]
    rfl
  · intro i t hi
    simp only [typeNameAt, loadedModule_types_user hi, loadedType_name]

/-- C13, witness: the sample stream, with four user types. -/
theorem type_table_layout_witness :
    ∃ m, readBCModule (encodeModule sampleDecl) = some (m, [])
      ∧ m.numTypes = sampleDecl.types.length + 9
      ∧ m.types.length = sampleDecl.types.length + 9
      ∧ m.types.take 9 = addSystemTypes
      ∧ (List.range 9).map (typeNameAt m)
          = [some "any", some "number", some "string", some "boolean", some "null",
             some "undefined", some "integer", some "decimal", some "void"]
      ∧ ∀ i t, sampleDecl.types[i]? = some t
          → typeNameAt m (i + 9) = some (stringOfBytes t.name) :=
  type_table_layout sampleDecl (by decide) (by decide)

/-! ## C15: layout of the constant pool -/

/-- C15. For every stream of the grammar that declares `n` user constants the
loader returns a module, without printing, whose pool has `n + 3` entries;
the user constant `i` of the stream is the entry `i + 3`: a number constant
whose value is the byte of the stream, a string constant holding the string
read, or a function constant whose symbol has the name, the number of locals
with their names, and the bytecode of the stream (`NULL` for no bytecode). -/
theorem constant_pool_layout (d : ModuleDecl) (hwf : d.WellFormed)
    (hres : NamesResolve d.types) :
    ∃ m, readBCModule (encodeModule d) = some (m, [])
      ∧ m.numConsts = d.consts.length + 3
      ∧ m.consts.length = d.consts.length + 3
      ∧ (∀ i value, d.consts[i]? = some (.NumberConst value) →
          m.consts[i + 3]? = some (.to (.NumberConst value.toNat)) ∧ value.toNat ≤ 255)
      ∧ (∀ i value, d.consts[i]? = some (.StringConst value) →
          m.consts[i + 3]? = some (.to (.StringConst (stringOfBytes value))))
      ∧ (∀ i body, d.consts[i]? = some (.FunctionConst body) →
          ∃ f vars, m.consts[i + 3]? = some (.to (.FunctionConst f))
            ∧ f.symbol.name = stringOfBytes body.name
            ∧ f.symbol.kind = .FunctionSym
            ∧ f.numVars = body.vars.length
            ∧ f.vars = some vars
            ∧ vars.map (fun v => v.symbol.name)
                = body.vars.map (fun v => stringOfBytes v.name)
            ∧ f.numByteCodes = body.byteCode.length
            ∧ f.byteCode = if body.byteCode.length = 0 then none else some body.byteCode) := by
  have hload := readBCModule_encodeModule d [] hwf hres
  rw [List.append_nil] at hload
  refine ⟨loadedModule d, hload, rfl, ?_, ?_, ?_, ?_⟩
  · show (addSystemFunctions ++ d.consts.map _).length = _
    rw [List.length_append, List.length_map, Nat.add_comm]
    rfl
  · intro i value hi
    exact ⟨loadedModule_consts_user hi, Nat.le_of_lt_succ value.toNat_lt⟩
  · intro i value hi
    exact loadedModule_consts_user hi
  · intro i body hi
    refine ⟨_, _, loadedModule_consts_user hi, rfl, rfl, rfl, rfl, ?_, rfl, rfl⟩
    rw [List.map_map]
    rfl

/-- C15, witness: the sample stream, with four user constants. -/
theorem constant_pool_layout_witness :
    ∃ m, readBCModule (encodeModule sampleDecl) = some (m, [])
      ∧ m.numConsts = sampleDecl.consts.length + 3
      ∧ m.consts.length = sampleDecl.consts.length + 3
      ∧ (∀ i value, sampleDecl.consts[i]? = some (.NumberConst value) →
          m.consts[i + 3]? = some (.to (.NumberConst value.toNat)) ∧ value.toNat ≤ 255)
      ∧ (∀ i value, sampleDecl.consts[i]? = some (.StringConst value) →
          m.consts[i + 3]? = some (.to (.StringConst (stringOfBytes value))))
      ∧ (∀ i body, sampleDecl.consts[i]? = some (.FunctionConst body) →
          ∃ f vars, m.consts[i + 3]? = some (.to (.FunctionConst f))
            ∧ f.symbol.name = stringOfBytes body.name
            ∧ f.symbol.kind = .FunctionSym
            ∧ f.numVars = body.vars.length
            ∧ f.vars = some vars
            ∧ vars.map (fun v => v.symbol.name)
                = body.vars.map (fun v => stringOfBytes v.name)
            ∧ f.numByteCodes = body.byteCode.length
            ∧ f.byteCode = if body.byteCode.length = 0 then none else some body.byteCode) :=
  constant_pool_layout sampleDecl (by decide) (by decide)

/-! ## C16: the capacity of the operand stack -/

theorem loadedConst_withoutOpStackSize (names : List String) (types : List (Ptr PType))
    (c : ConstDecl) :
    loadedConst names types c.withoutOpStackSize = loadedConst names types c := by
  cases c <;> rfl

theorem loadedMain_withoutOpStackSize (names : List String) (types : List (Ptr PType)) :
    ∀ (consts : List ConstDecl) (main : Ptr FunctionSymbol),
      loadedMain names types (consts.map ConstDecl.withoutOpStackSize) main
        = loadedMain names types consts main := by
  intro consts
  induction consts with
  | nil => intro main; rfl
  | cons c consts ih =>
    intro main
    cases c with
    | NumberConst value => exact ih main
    | StringConst value => exact ih main
    | FunctionConst body => exact ih _

theorem loadedModule_withoutOpStackSize (d : ModuleDecl) :
    loadedModule { d with consts := d.consts.map ConstDecl.withoutOpStackSize }
      = loadedModule d := by
  simp only [loadedModule, List.length_map, List.map_map, loadedMain_withoutOpStackSize]
  congr 2
  apply List.map_congr_left
  intro c _
  simp only [Function.comp, loadedConst_withoutOpStackSize]

/-- C16. For every function constant of a stream of the grammar, whatever
its byte `opStackSize`, the function symbol that the loader creates has the
capacity 20, and the byte is consumed: the number of locals, the locals and
the bytecode that follow are those of the stream, and a stream that differs
only in the `opStackSize` bytes is loaded into the same module. -/
theorem opstack_capacity_is_twenty (d : ModuleDecl) (hwf : d.WellFormed)
    (hres : NamesResolve d.types) :
    ∃ m, readBCModule (encodeModule d) = some (m, [])
      ∧ (∀ i body, d.consts[i]? = some (.FunctionConst body) →
          ∃ f vars, m.consts[i + 3]? = some (.to (.FunctionConst f))
            ∧ f.opStackSize = 20
            ∧ f.numVars = body.vars.length
            ∧ f.vars = some vars
            ∧ vars.map (fun v => v.symbol.name)
                = body.vars.map (fun v => stringOfBytes v.name)
            ∧ f.numByteCodes = body.byteCode.length
            ∧ f.byteCode = (if body.byteCode.length = 0 then none else some body.byteCode)
            ∧ f.frameSize = sizeof_StackFrame + sizeof_VM_NUMBER * body.vars.length
                + sizeof_OprandStack + sizeof_VM_NUMBER * 20)
      ∧ (∀ d' : ModuleDecl, d'.WellFormed → d'.types = d.types →
          d'.consts.map ConstDecl.withoutOpStackSize
            = d.consts.map ConstDecl.withoutOpStackSize →
          readBCModule (encodeModule d') = some (m, [])) := by
  have hload := readBCModule_encodeModule d [] hwf hres
  rw [List.append_nil] at hload
  refine ⟨loadedModule d, hload, ?_, ?_⟩
  · intro i body hi
    refine ⟨_, _, loadedModule_consts_user hi, rfl, rfl, rfl, ?_, rfl, rfl, rfl⟩
    rw [List.map_map]
    rfl
  · intro d' hwf' htypes hconsts
    have hload' := readBCModule_encodeModule d' [] hwf' (htypes ▸ hres)
    rw [List.append_nil] at hload'
    rw [hload', ← loadedModule_withoutOpStackSize d', ← loadedModule_withoutOpStackSize d,
      htypes, hconsts]

/-- C16, witness: the sample stream, whose functions declare the capacities 7
and 3. -/
theorem opstack_capacity_is_twenty_witness :
    ∃ m, readBCModule (encodeModule sampleDecl) = some (m, [])
      ∧ (∀ i body, sampleDecl.consts[i]? = some (.FunctionConst body) →
          ∃ f vars, m.consts[i + 3]? = some (.to (.FunctionConst f))
            ∧ f.opStackSize = 20
            ∧ f.numVars = body.vars.length
            ∧ f.vars = some vars
            ∧ vars.map (fun v => v.symbol.name)
                = body.vars.map (fun v => stringOfBytes v.name)
            ∧ f.numByteCodes = body.byteCode.length
            ∧ f.byteCode = (if body.byteCode.length = 0 then none else some body.byteCode)
            ∧ f.frameSize = sizeof_StackFrame + sizeof_VM_NUMBER * body.vars.length
                + sizeof_OprandStack + sizeof_VM_NUMBER * 20)
      ∧ (∀ d' : ModuleDecl, d'.WellFormed → d'.types = sampleDecl.types →
          d'.consts.map ConstDecl.withoutOpStackSize
            = sampleDecl.consts.map ConstDecl.withoutOpStackSize →
          readBCModule (encodeModule d') = some (m, [])) :=
  opstack_capacity_is_twenty sampleDecl (by decide) (by decide)

/-! ## C19: the entry point -/

theorem loadedMain_of_no_main (names : List String) (types : List (Ptr PType)) :
    ∀ (consts : List ConstDecl) (main : Ptr FunctionSymbol),
      (∀ body, ConstDecl.FunctionConst body ∈ consts →
        strcmp_eq (stringOfBytes body.name) "main" = false) →
      loadedMain names types consts main = main := by
  intro consts
  induction consts with
  | nil => intro main _; rfl
  | cons c consts ih =>
    intro main h
    have hrest : ∀ body, ConstDecl.FunctionConst body ∈ consts →
        strcmp_eq (stringOfBytes body.name) "main" = false :=
      fun body hb => h body (List.mem_cons_of_mem _ hb)
    cases c with
    | NumberConst value => exact ih main hrest
    | StringConst value => exact ih main hrest
    | FunctionConst body =>
      rw [loadedMain, h body (List.mem_cons_self _ _)]
      exact ih main hrest

theorem loadedMain_of_last_main (names : List String) (types : List (Ptr PType))
    (body : FunctionBody) (post : List ConstDecl)
    (hname : strcmp_eq (stringOfBytes body.name) "main" = true)
    (hpost : ∀ body', ConstDecl.FunctionConst body' ∈ post →
      strcmp_eq (stringOfBytes body'.name) "main" = false) :
    ∀ (pre : List ConstDecl) (main : Ptr FunctionSymbol),
      loadedMain names types (pre ++ .FunctionConst body :: post) main
        = .to (loadedFunction names types body) := by
  intro pre
  induction pre with
  | nil =>
    intro main
    rw [List.nil_append, loadedMain, hname, if_pos rfl]
    exact loadedMain_of_no_main names types post _ hpost
  | cons c pre ih =>
    intro main
    cases c with
    | NumberConst value => exact ih main
    | StringConst value => exact ih main
    | FunctionConst body' => exact ih _

theorem eq_take_append_drop {α : Type} {l : List α} {i : Nat} {x : α} (h : l[i]? = some x) :
    l = l.take i ++ x :: l.drop (i + 1) := by
  have hi : i < l.length := by
    by_contra hge
    rw [List.getElem?_eq_none (Nat.le_of_not_lt hge)] at h
    cases h
  rw [List.getElem?_eq_getElem hi] at h
  injection h with h
  rw [← h, ← List.drop_eq_getElem_cons hi, List.take_append_drop]

/-- C19. For every stream of the grammar in which the user constant `i` is a
function named `main` and no other function constant is, the loader returns a
module, without printing, whose `_main` is the function symbol of the pool
entry `i + 3`, and no other function symbol of the pool is named `main`. -/
theorem main_is_the_function_named_main (d : ModuleDecl) (hwf : d.WellFormed)
    (hres : NamesResolve d.types) (i : Nat) (body : FunctionBody)
    (hi : d.consts[i]? = some (.FunctionConst body))
    (hname : strcmp_eq (stringOfBytes body.name) "main" = true)
    (huniq : ∀ j body', d.consts[j]? = some (.FunctionConst body') →
      strcmp_eq (stringOfBytes body'.name) "main" = true → j = i) :
    ∃ m f, readBCModule (encodeModule d) = some (m, [])
      ∧ m.consts[i + 3]? = some (.to (.FunctionConst f))
      ∧ m._main = .to f
      ∧ f.symbol.name = stringOfBytes body.name
      ∧ ∀ j g, m.consts[j]? = some (.to (.FunctionConst g)) →
          strcmp_eq g.symbol.name "main" = true → j = i + 3 := by
  have hload := readBCModule_encodeModule d [] hwf hres
  rw [List.append_nil] at hload
  refine ⟨loadedModule d, _, hload, loadedModule_consts_user hi, ?_, rfl, ?_⟩
  · show loadedMain _ _ d.consts _ = _
    have hsplit := eq_take_append_drop hi
    rw [hsplit]
    apply loadedMain_of_last_main _ _ _ _ hname
    intro body' hmem
    obtain ⟨k, hk⟩ := List.getElem?_of_mem hmem
    rw [List.getElem?_drop] at hk
    cases hc : strcmp_eq (stringOfBytes body'.name) "main" with
    | false => rfl
    | true =>
      have := huniq _ body' hk hc
      omega
  · intro j g hj hg
    by_cases hlt : j < 3
    · exfalso
      have hsys : (loadedModule d).consts[j]? = addSystemFunctions[j]? := by
        show (addSystemFunctions ++ d.consts.map _)[j]? = _
        rw [List.getElem?_append_left (by exact hlt)]
      rw [hsys] at hj
      interval_cases j
      · injection hj with hj; injection hj with hj; injection hj with hj
        subst hj; revert hg; decide
      · injection hj with hj; injection hj with hj; injection hj with hj
        subst hj; revert hg; decide
      · injection hj with hj; injection hj with hj; injection hj with hj
        subst hj; revert hg; decide
    · obtain ⟨k, rfl⟩ : ∃ k, j = k + 3 := ⟨j - 3, by omega⟩
      have huser : (loadedModule d).consts[k + 3]?
          = (d.consts[k]?).map
              (fun c => Ptr.to (loadedConst (typeNamesOf d.types) (loadedTypes d.types) c)) := by
        show (addSystemFunctions ++ d.consts.map _)[k + 3]? = _
        rw [getElem?_append_map addSystemFunctions _ _ 3 k (by rfl)]
      rw [huser] at hj
      cases hk : d.consts[k]? with
      | none => rw [hk] at hj; cases hj
      | some c =>
        rw [hk] at hj
        simp only [Option.map_some', Option.some.injEq, Ptr.to.injEq] at hj
        cases c with
        | NumberConst value => cases hj
        | StringConst value => cases hj
        | FunctionConst body' =>
          simp only [loadedConst, createFunctionConst, Const.FunctionConst.injEq] at hj
          subst hj
          rw [huniq k body' hk hg]

/-- C19, witness: the sample stream, whose user constant 3 is `main`. -/
theorem main_is_the_function_named_main_witness :
    ∃ m f, readBCModule (encodeModule sampleDecl) = some (m, [])
      ∧ m.consts[3 + 3]? = some (.to (.FunctionConst f))
      ∧ m._main = .to f
      ∧ f.symbol.name = stringOfBytes (ascii "main")
      ∧ ∀ j g, m.consts[j]? = some (.to (.FunctionConst g)) →
          strcmp_eq g.symbol.name "main" = true → j = 3 + 3 :=
  main_is_the_function_named_main sampleDecl (by decide) (by decide) 3
    { name := ascii "main", typeName := ascii "@main", opStackSize := 3
      vars := [], byteCode := callCode 20 22 }
    rfl (by decide)
    (fun j body' hj hmain => by
      have hlt : j < 4 := by
        by_contra hge
        rw [List.getElem?_eq_none (by
          show sampleDecl.consts.length ≤ j
          exact Nat.le_of_not_lt hge)] at hj
        cases hj
      interval_cases j
      · injection hj with hj; injection hj with hj; subst hj; revert hmain; decide
      · cases hj
      · cases hj
      · rfl)

/-! ## C14: the built-in function constants -/

/-- C14. The module loaded from the stream without user types and constants:
the pool slots 0, 1 and 2 are function constants named `println`, `tick` and
`integer_to_string`, without bytecode, whose parameter types are `[integer]`,
none and `[integer]`; the field `returnType` of each of the three function
types was never assigned (`createFunctionType` drops its argument
`returnType`), so that it is not a reference to `void` (entry 8), `integer`
(entry 6) or `string` (entry 2). -/
theorem builtin_return_types_never_assigned :
    ∃ m println tick integer_to_string,
      readBCModule (encodeModule emptyDecl) = some (m, [])
      ∧ m.consts = [.to (.FunctionConst println), .to (.FunctionConst tick),
          .to (.FunctionConst integer_to_string)]
      ∧ (println.symbol.name = "println" ∧ tick.symbol.name = "tick"
          ∧ integer_to_string.symbol.name = "integer_to_string")
      ∧ (println.byteCode = none ∧ tick.byteCode = none ∧ integer_to_string.byteCode = none)
      ∧ (println.numByteCodes = 0 ∧ tick.numByteCodes = 0
          ∧ integer_to_string.numByteCodes = 0)
      ∧ (paramTypesOf println = some [.to 6] ∧ paramCountOf println = some 1
          ∧ paramTypesOf tick = none ∧ paramCountOf tick = some 0
          ∧ paramTypesOf integer_to_string = some [.to 6]
          ∧ paramCountOf integer_to_string = some 1)
      ∧ (typeNameAt m 2 = some "string" ∧ typeNameAt m 6 = some "integer"
          ∧ typeNameAt m 8 = some "void")
      ∧ (returnTypeOf println = some .indeterminate ∧ returnTypeOf tick = some .indeterminate
          ∧ returnTypeOf integer_to_string = some .indeterminate) :=
  ⟨_, _, _, _, rfl, rfl, ⟨rfl, rfl, rfl⟩, ⟨rfl, rfl, rfl⟩, ⟨rfl, rfl, rfl⟩,
    ⟨rfl, rfl, rfl, rfl, rfl, rfl⟩, ⟨rfl, rfl, rfl⟩, ⟨rfl, rfl, rfl⟩⟩

/-- The same holds of every module loaded from a stream of the grammar: its
first three pool slots are those of `addSystemFunctions`, in whose function
types `returnType` is unassigned. -/
theorem builtin_return_types_in_every_module (d : ModuleDecl) (hwf : d.WellFormed)
    (hres : NamesResolve d.types) :
    ∃ m, readBCModule (encodeModule d) = some (m, [])
      ∧ m.consts.take 3 = addSystemFunctions
      ∧ ∀ c ∈ addSystemFunctions, ∃ f, c = .to (.FunctionConst f)
          ∧ returnTypeOf f = some .indeterminate := by
  have hload := readBCModule_encodeModule d [] hwf hres
  rw [List.append_nil] at hload
  refine ⟨loadedModule d, hload, ?_, ?_⟩
  · show (addSystemFunctions ++ d.consts.map _).take 3 = _
    rw [List.take_append_of_le_length (by decide)]
    rfl
  · intro c hc
    simp only [addSystemFunctions, List.mem_cons, List.mem_singleton, List.not_mem_nil,
      or_false] at hc
    rcases hc with rfl | rfl | rfl <;> exact ⟨_, rfl, rfl⟩

/-! ## C18: the kind of a union type -/

/-- C18. The module loaded from the stream whose only user type is the union
`U` of `integer` and `string` (kind byte 3): the entry 9 of the type table is
the object of a union type with its two members resolved, and the tag `kind`
that `createUnionType` stored in it is `SimpleT`, the tag of the simple types
(such as the entry 0, `any`), not `UnionT`. -/
theorem union_type_loaded_with_simple_kind :
    ∃ m u any, readBCModule (encodeModule unionDecl) = some (m, [])
      ∧ m.types[9]? = some (.to u)
      ∧ u = .UnionType "U" .SimpleT 2 (some [.to 6, .to 2])
      ∧ u.kind = .SimpleT
      ∧ u.kind ≠ .UnionT
      ∧ m.types[0]? = some (.to any)
      ∧ any = .SimpleType "any" .SimpleT 0 none
      ∧ u.kind = any.kind :=
  ⟨_, _, _, rfl, rfl, rfl, rfl, by decide, rfl, rfl, rfl⟩

/-- The same holds of every union type of every stream of the grammar: the
loaded object has the tag `SimpleT`. -/
theorem union_type_kind_in_every_module (d : ModuleDecl) (hwf : d.WellFormed)
    (hres : NamesResolve d.types) :
    ∃ m, readBCModule (encodeModule d) = some (m, [])
      ∧ ∀ i name members, d.types[i]? = some (.UnionType name members) →
          ∃ u, m.types[i + 9]? = some (.to u) ∧ u.kind = .SimpleT := by
  have hload := readBCModule_encodeModule d [] hwf hres
  rw [List.append_nil] at hload
  exact ⟨loadedModule d, hload, fun i name members hi =>
    ⟨_, loadedModule_types_user hi, rfl⟩⟩

/-- The kinds of the simple types and of the function types are those of
their kind bytes. -/
theorem simple_and_function_kinds_preserved (d : ModuleDecl) (hwf : d.WellFormed)
    (hres : NamesResolve d.types) :
    ∃ m, readBCModule (encodeModule d) = some (m, [])
      ∧ (∀ i name upperTypes, d.types[i]? = some (.SimpleType name upperTypes) →
          ∃ t, m.types[i + 9]? = some (.to t) ∧ t.kind = .SimpleT)
      ∧ (∀ i name returnTypeName paramTypes,
          d.types[i]? = some (.FunctionType name returnTypeName paramTypes) →
          ∃ t, m.types[i + 9]? = some (.to t) ∧ t.kind = .FunctionT) := by
  have hload := readBCModule_encodeModule d [] hwf hres
  rw [List.append_nil] at hload
  exact ⟨loadedModule d, hload,
    fun i name upperTypes hi => ⟨_, loadedModule_types_user hi, rfl⟩,
    fun i name returnTypeName paramTypes hi => ⟨_, loadedModule_types_user hi, rfl⟩⟩

/-! ## C17: resolution of the type references -/

theorem resolveName_of_resolves {names : List String} {s : String}
    (h : ∃ name ∈ names, strcmp_eq s name = true) :
    ∃ k name, resolveName names s = .to k ∧ names[k]? = some name
      ∧ strcmp_eq s name = true := by
  obtain ⟨k, hk⟩ := Option.isSome_iff_exists.1 (firstIndexFrom_isSome s names 0 h)
  obtain ⟨-, -, name, hget, hcmp, -⟩ := firstIndexFrom_bounds s names 0 k hk
  rw [Nat.sub_zero] at hget
  exact ⟨k, name, by rw [resolveName, hk], hget, hcmp⟩

theorem loadedTypes_names (ds : List TypeDecl) :
    (loadedTypes ds).map (fun p => match p with
      | .to t => some t.name
      | _ => none) = (typeNamesOf ds).map some := by
  simp only [loadedTypes, typeNamesOf, List.map_append, List.map_map]
  congr 1
  apply List.map_congr_left
  intro t _
  simp only [Function.comp, loadedType_name]

theorem loadedTypes_getElem_of_name {ds : List TypeDecl} {k : Nat} {name : String}
    (h : (typeNamesOf ds)[k]? = some name) :
    ∃ t, (loadedTypes ds)[k]? = some (.to t) ∧ t.name = name := by
  have hk := congrArg (fun l => l[k]?) (loadedTypes_names ds)
  simp only [List.getElem?_map, h, Option.map_some'] at hk
  cases hp : (loadedTypes ds)[k]? with
  | none => rw [hp] at hk; cases hk
  | some p =>
    rw [hp] at hk
    rcases p with _ | _ | t
    · simp at hk
    · simp at hk
    · simp only [Option.map_some', Option.some.injEq] at hk
      exact ⟨t, rfl, hk⟩

theorem refersTo_resolveName {d : ModuleDecl} {s : ByteString} (h : Resolves d.types s) :
    RefersTo (loadedModule d) (resolveName (typeNamesOf d.types) (stringOfBytes s)) s := by
  obtain ⟨k, name, hk, hget, hcmp⟩ := resolveName_of_resolves h
  obtain ⟨t, ht, hname⟩ := loadedTypes_getElem_of_name hget
  exact ⟨k, t, hk, ht, by rw [hname]; exact hcmp⟩

theorem pointsTo_typeAt {d : ModuleDecl} {s : ByteString} (h : Resolves d.types s) :
    PointsTo (loadedModule d)
      (typeAt (loadedTypes d.types) (resolveName (typeNamesOf d.types) (stringOfBytes s))) s := by
  obtain ⟨k, name, hk, hget, hcmp⟩ := resolveName_of_resolves h
  obtain ⟨t, ht, hname⟩ := loadedTypes_getElem_of_name hget
  refine ⟨k, t, ?_, ht, by rw [hname]; exact hcmp⟩
  rw [hk, typeAt, List.getD_eq_getElem?_getD, ht]
  rfl

theorem forall₂_map_left {α β : Type} {R : β → α → Prop} {f : α → β} :
    ∀ (l : List α), (∀ x ∈ l, R (f x) x) → List.Forall₂ R (l.map f) l := by
  intro l
  induction l with
  | nil => intro _; exact List.Forall₂.nil
  | cons x l ih =>
    intro h
    exact List.Forall₂.cons (h x (List.mem_cons_self _ _))
      (ih (fun y hy => h y (List.mem_cons_of_mem _ hy)))

theorem loadedType_refs (names : List String) (t : TypeDecl) :
    (loadedType names t).refs
      = t.refNames.map (fun s => resolveName names (stringOfBytes s)) := by
  cases t <;> rfl

/-- C17. For every stream of the grammar in which every referenced type name
is the name of a system type or of a user type of the stream, wherever that
type is declared, the loader returns a module, without printing, in which
the references of every user type (upper types; return type and parameter
types; members) are, one for each name of the stream and in the same order,
entries of the type table whose name `strcmp` finds equal to the name
referenced, and in which `theType` of every function symbol and of every
local points to the object of such an entry. -/
theorem type_references_resolved (d : ModuleDecl) (hwf : d.WellFormed)
    (hres : NamesResolve d.types) (hsym : SymbolNamesResolve d) :
    ∃ m, readBCModule (encodeModule d) = some (m, [])
      ∧ (∀ i t, d.types[i]? = some t →
          ∃ p, m.types[i + 9]? = some (.to p) ∧ List.Forall₂ (RefersTo m) p.refs t.refNames)
      ∧ (∀ i body, d.consts[i]? = some (.FunctionConst body) →
          ∃ f vars, m.consts[i + 3]? = some (.to (.FunctionConst f))
            ∧ PointsTo m f.symbol.theType body.typeName
            ∧ f.vars = some vars
            ∧ List.Forall₂ (fun (v : VarSymbol) (decl : VarDecl) =>
                PointsTo m v.symbol.theType decl.typeName) vars body.vars) := by
  have hload := readBCModule_encodeModule d [] hwf hres
  rw [List.append_nil] at hload
  refine ⟨loadedModule d, hload, ?_, ?_⟩
  · intro i t hi
    refine ⟨_, loadedModule_types_user hi, ?_⟩
    rw [loadedType_refs]
    apply forall₂_map_left
    intro s hs
    exact refersTo_resolveName (hres t (List.getElem?_mem hi) s hs)
  · intro i body hi
    obtain ⟨hf, hv⟩ := hsym _ (List.getElem?_mem hi)
    refine ⟨_, _, loadedModule_consts_user hi, pointsTo_typeAt hf, rfl, ?_⟩
    apply forall₂_map_left
    intro v hmem
    exact pointsTo_typeAt (hv v hmem)

/-- C17, witness: the sample stream, in which the simple type `T` refers to
the union type `U` declared after it. -/
theorem type_references_resolved_witness :
    ∃ m, readBCModule (encodeModule sampleDecl) = some (m, [])
      ∧ (∀ i t, sampleDecl.types[i]? = some t →
          ∃ p, m.types[i + 9]? = some (.to p) ∧ List.Forall₂ (RefersTo m) p.refs t.refNames)
      ∧ (∀ i body, sampleDecl.consts[i]? = some (.FunctionConst body) →
          ∃ f vars, m.consts[i + 3]? = some (.to (.FunctionConst f))
            ∧ PointsTo m f.symbol.theType body.typeName
            ∧ f.vars = some vars
            ∧ List.Forall₂ (fun (v : VarSymbol) (decl : VarDecl) =>
                PointsTo m v.symbol.theType decl.typeName) vars body.vars) :=
  type_references_resolved sampleDecl (by decide) (by decide) (by decide)

set_option maxRecDepth 100000 in
/-- The references of the type `T` of the sample stream: the union type `U`,
declared after `T`, is the entry 12 and `any` the entry 0. -/
theorem sample_forward_reference :
    ∃ m t, readBCModule (encodeModule sampleDecl) = some (m, [])
      ∧ m.types[11]? = some (.to t) ∧ t.refs = [.to 12, .to 0]
      ∧ typeNameAt m 12 = some "U" ∧ typeNameAt m 0 = some "any" :=
  ⟨_, _, rfl, rfl, rfl, rfl, rfl⟩

/-! ## C20: the round trip of the loader -/

set_option maxRecDepth 100000 in
theorem byteToChar_facts : ∀ n : Nat, n < 256 →
    UInt8.ofNat (byteToChar (UInt8.ofNat n)).toNat = UInt8.ofNat n
      ∧ (UInt8.ofNat n ≠ 0 → (byteToChar (UInt8.ofNat n) != Char.ofNat 0) = true) := by
  decide

theorem ofNat_toNat_byteToChar (b : UInt8) : UInt8.ofNat (byteToChar b).toNat = b := by
  have hb : UInt8.ofNat b.toNat = b := UInt8.toNat.inj (UInt8.toNat_ofNat_of_lt b.toNat_lt)
  have key := (byteToChar_facts b.toNat b.toNat_lt).1
  rwa [hb] at key

theorem byteToChar_ne_zero {b : UInt8} (h : b ≠ 0) : (byteToChar b != Char.ofNat 0) = true := by
  have hb : UInt8.ofNat b.toNat = b := UInt8.toNat.inj (UInt8.toNat_ofNat_of_lt b.toNat_lt)
  have key := (byteToChar_facts b.toNat b.toNat_lt).2
  rw [hb] at key
  exact key h

theorem cstr_stringOfBytes {s : ByteString} (h : s.NulFree) :
    cstr (stringOfBytes s) = s.map byteToChar := by
  rw [cstr, stringOfBytes]
  show List.takeWhile _ (s.map byteToChar) = _
  rw [List.takeWhile_eq_self_iff]
  intro c hc
  obtain ⟨b, hb, rfl⟩ := List.mem_map.1 hc
  exact byteToChar_ne_zero (fun h0 => h (h0 ▸ hb))

theorem bytesOfString_stringOfBytes {s : ByteString} (h : s.NulFree) :
    bytesOfString (stringOfBytes s) = s := by
  rw [bytesOfString, cstr_stringOfBytes h, List.map_map]
  conv_rhs => rw [← List.map_id s]
  apply List.map_congr_left
  intro b _
  exact ofNat_toNat_byteToChar b

/-- A string without a zero character: `strcmp` compares all of it. -/
theorem eq_of_strcmp_eq {a b : String} (ha : cstr a = a.data) (hb : cstr b = b.data)
    (h : strcmp_eq a b = true) : a = b := by
  rw [strcmp_eq, ha, hb] at h
  have hdata : a.data = b.data := by simpa using h
  cases a
  cases b
  simp only at hdata
  rw [hdata]

theorem cstr_of_mem_typeNamesOf {types : List TypeDecl}
    (hnul : ∀ t ∈ types, TypeDecl.NulFree t) :
    ∀ name ∈ typeNamesOf types, cstr name = name.data := by
  intro name hname
  rcases List.mem_append.1 hname with hsys | huser
  · simp only [systemNames, List.mem_cons, List.mem_singleton, List.not_mem_nil,
      or_false] at hsys
    rcases hsys with rfl | rfl | rfl | rfl | rfl | rfl | rfl | rfl | rfl <;> decide
  · obtain ⟨t, ht, rfl⟩ := List.mem_map.1 huser
    exact cstr_stringOfBytes (hnul t ht).1

theorem allSome_map {α β : Type} {f : α → Option β} {g : α → β} :
    ∀ (l : List α), (∀ x ∈ l, f x = some (g x)) → allSome (l.map f) = some (l.map g) := by
  intro l
  induction l with
  | nil => intro _; rfl
  | cons x l ih =>
    intro h
    rw [List.map_cons, h x (List.mem_cons_self _ _), allSome,
      ih (fun y hy => h y (List.mem_cons_of_mem _ hy))]
    rfl

theorem allSome_map_self {α β : Type} {f : β → Option α} {r : α → β} :
    ∀ (l : List α), (∀ x ∈ l, f (r x) = some x) → allSome ((l.map r).map f) = some l := by
  intro l h
  rw [List.map_map]
  have := @allSome_map α α (f ∘ r) id l (fun x hx => h x hx)
  rwa [List.map_id] at this

theorem refName_resolveName {d : ModuleDecl} (hnul : ∀ t ∈ d.types, TypeDecl.NulFree t)
    {s : ByteString} (hs : s.NulFree) (h : Resolves d.types s) :
    refName (loadedModule d) (resolveName (typeNamesOf d.types) (stringOfBytes s)) = some s := by
  obtain ⟨k, name, hk, hget, hcmp⟩ := resolveName_of_resolves h
  obtain ⟨t, ht, hname⟩ := loadedTypes_getElem_of_name hget
  have heq : stringOfBytes s = name :=
    eq_of_strcmp_eq (by rw [cstr_stringOfBytes hs]; rfl)
      (cstr_of_mem_typeNamesOf hnul name (List.getElem?_mem hget)) hcmp
  have htn : typeNameAt (loadedModule d) k = some t.name := by
    show (match (loadedTypes d.types)[k]? with
      | some (.to t) => some t.name
      | _ => none) = _
    rw [ht]
  rw [hk, refName, htn, hname, ← heq, Option.map_some', bytesOfString_stringOfBytes hs]

theorem typeNameOf_typeAt {d : ModuleDecl} (hnul : ∀ t ∈ d.types, TypeDecl.NulFree t)
    {s : ByteString} (hs : s.NulFree) (h : Resolves d.types s) :
    typeNameOf (typeAt (loadedTypes d.types)
      (resolveName (typeNamesOf d.types) (stringOfBytes s))) = some s := by
  obtain ⟨k, name, hk, hget, hcmp⟩ := resolveName_of_resolves h
  obtain ⟨t, ht, hname⟩ := loadedTypes_getElem_of_name hget
  have heq : stringOfBytes s = name :=
    eq_of_strcmp_eq (by rw [cstr_stringOfBytes hs]; rfl)
      (cstr_of_mem_typeNamesOf hnul name (List.getElem?_mem hget)) hcmp
  rw [hk, typeAt, List.getD_eq_getElem?_getD, ht, Option.getD_some, typeNameOf, hname, ← heq,
    bytesOfString_stringOfBytes hs]

theorem declOfType_loadedType {d : ModuleDecl} (hnul : ∀ t ∈ d.types, TypeDecl.NulFree t)
    {t : TypeDecl} (ht : t.NulFree) (hres : ∀ s ∈ t.refNames, Resolves d.types s) :
    declOfType (loadedModule d) (.to (loadedType (typeNamesOf d.types) t)) = some t := by
  have href : ∀ s ∈ t.refNames, refName (loadedModule d)
      (resolveName (typeNamesOf d.types) (stringOfBytes s)) = some s :=
    fun s hs => refName_resolveName hnul (ht.2 s hs) (hres s hs)
  have hname := bytesOfString_stringOfBytes ht.1
  cases t with
  | SimpleType name upperTypes =>
    simp only [loadedType, declOfType]
    rw [allSome_map_self upperTypes href]
    simp only [TypeDecl.name] at hname
    rw [Option.map_some', hname]
  | FunctionType name returnTypeName paramTypes =>
    simp only [loadedType, declOfType]
    rw [allSome_map_self paramTypes (fun s hs => href s (List.mem_cons_of_mem _ hs)),
      href returnTypeName (List.mem_cons_self _ _)]
    simp only [TypeDecl.name] at hname
    simp only [hname]
  | UnionType name members =>
    simp only [loadedType, declOfType]
    rw [allSome_map_self members href]
    simp only [TypeDecl.name] at hname
    rw [Option.map_some', hname]

theorem declOfVar_loadedVar {d : ModuleDecl} (hnul : ∀ t ∈ d.types, TypeDecl.NulFree t)
    {v : VarDecl} (hv : v.NulFree) (hres : Resolves d.types v.typeName) :
    declOfVar (loadedVar (typeNamesOf d.types) (loadedTypes d.types) v) = some v := by
  have ht := typeNameOf_typeAt hnul hv.2 hres
  simp only [declOfVar, loadedVar, createVarSymbol, ht, Option.map_some',
    bytesOfString_stringOfBytes hv.1]

theorem declOfConst_loadedConst {d : ModuleDecl} (hnul : ∀ t ∈ d.types, TypeDecl.NulFree t)
    {c : ConstDecl} (hc : c.NulFree) (hres : c.TypeNamesResolve d.types)
    (hwf : c.WellFormed) :
    declOfConst (.to (loadedConst (typeNamesOf d.types) (loadedTypes d.types) c))
      = some c.withCapacity := by
  cases c with
  | NumberConst value =>
    simp only [loadedConst, createNumberConst, declOfConst, ConstDecl.withCapacity,
      Int.toNat_ofNat]
    rw [UInt8.toNat.inj (UInt8.toNat_ofNat_of_lt value.toNat_lt)]
  | StringConst value =>
    simp only [loadedConst, createStringConst, declOfConst, ConstDecl.withCapacity,
      bytesOfString_stringOfBytes hc]
  | FunctionConst body =>
    obtain ⟨hname, htype, hvars⟩ := hc
    obtain ⟨hrt, hrv⟩ := hres
    have ht := typeNameOf_typeAt hnul htype hrt
    have hv : allSome ((body.vars.map
        (loadedVar (typeNamesOf d.types) (loadedTypes d.types))).map declOfVar)
        = some body.vars :=
      allSome_map_self body.vars
        (fun v hmem => declOfVar_loadedVar hnul (hvars v hmem) (hrv v hmem))
    have hcode : (if body.byteCode.length = 0 then none else some body.byteCode).getD []
        = body.byteCode := by
      by_cases hz : body.byteCode.length = 0
      · rw [if_pos hz, List.length_eq_zero.1 hz]; rfl
      · rw [if_neg hz]; rfl
    simp only [loadedConst, createFunctionConst, declOfConst, declOfFunction, loadedFunction,
      createFunctionSymbol, ht, Option.getD_some, hv, hcode, Option.map_some',
      ConstDecl.withCapacity, bytesOfString_stringOfBytes hname]
    rfl

theorem loadedConst_withCapacity (names : List String) (types : List (Ptr PType))
    (c : ConstDecl) :
    loadedConst names types c.withCapacity = loadedConst names types c := by
  cases c <;> rfl

theorem loadedMain_withCapacity (names : List String) (types : List (Ptr PType)) :
    ∀ (consts : List ConstDecl) (main : Ptr FunctionSymbol),
      loadedMain names types (consts.map ConstDecl.withCapacity) main
        = loadedMain names types consts main := by
  intro consts
  induction consts with
  | nil => intro main; rfl
  | cons c consts ih =>
    intro main
    cases c with
    | NumberConst value => exact ih main
    | StringConst value => exact ih main
    | FunctionConst body => exact ih _

theorem loadedModule_withCapacity (d : ModuleDecl) :
    loadedModule d.withCapacity = loadedModule d := by
  simp only [loadedModule, ModuleDecl.withCapacity, List.length_map, List.map_map,
    loadedMain_withCapacity]
  congr 2
  apply List.map_congr_left
  intro c _
  simp only [Function.comp, loadedConst_withCapacity]

theorem wellFormed_withCapacity {d : ModuleDecl} (h : d.WellFormed) :
    d.withCapacity.WellFormed := by
  obtain ⟨h1, h2, h3, h4⟩ := h
  refine ⟨h1, h2, by simpa [ModuleDecl.withCapacity] using h3, ?_⟩
  intro c hc
  obtain ⟨c', hc', rfl⟩ := List.mem_map.1 hc
  have := h4 c' hc'
  cases c' <;> exact this

theorem declOfModule_loadedModule {d : ModuleDecl} (hwf : d.WellFormed)
    (hres : NamesResolve d.types) (hsym : SymbolNamesResolve d) (hnul : d.NulFree) :
    declOfModule (loadedModule d) = some d.withCapacity := by
  have htypes : allSome (((loadedModule d).types.drop SYS_TYPES).map
      (declOfType (loadedModule d))) = some d.types := by
    show allSome (((addSystemTypes ++ d.types.map _).drop SYS_TYPES).map _) = _
    rw [List.drop_left' (by rfl)]
    exact allSome_map_self d.types
      (fun t ht => declOfType_loadedType hnul.1 (hnul.1 t ht) (hres t ht))
  have hconsts : allSome (((loadedModule d).consts.drop SYS_FUNS).map declOfConst)
      = some (d.consts.map ConstDecl.withCapacity) := by
    show allSome (((addSystemFunctions ++ d.consts.map _).drop SYS_FUNS).map _) = _
    rw [List.drop_left' (by rfl), List.map_map]
    exact allSome_map d.consts
      (fun c hc => declOfConst_loadedConst hnul.1 (hnul.2 c hc) (hsym c hc) (hwf.2.2.2 c hc))
  rw [declOfModule, htypes, hconsts]
  rfl

/-- C20. For every stream of the grammar whose type names are names of system
types or of user types of the stream and whose strings are C strings (no zero
byte), the loader returns a module `m`; the stream written from `m` by the
grammar (its user types with the names of the types that they refer to, its
user constants, every function with its name, the name of its type, its
capacity, its locals and its bytecode) is again a stream of the grammar, and
the loader returns the same module `m` for it: same types, kinds, references,
constants, functions, bytecode and `_main`. -/
theorem loader_round_trip (d : ModuleDecl) (hwf : d.WellFormed)
    (hres : NamesResolve d.types) (hsym : SymbolNamesResolve d) (hnul : d.NulFree) :
    ∃ m d', readBCModule (encodeModule d) = some (m, [])
      ∧ declOfModule m = some d'
      ∧ d'.WellFormed
      ∧ readBCModule (encodeModule d') = some (m, []) := by
  have hload := readBCModule_encodeModule d [] hwf hres
  rw [List.append_nil] at hload
  have hwf' := wellFormed_withCapacity hwf
  have hload' := readBCModule_encodeModule d.withCapacity [] hwf' hres
  rw [List.append_nil, loadedModule_withCapacity] at hload'
  exact ⟨loadedModule d, d.withCapacity, hload, declOfModule_loadedModule hwf hres hsym hnul,
    hwf', hload'⟩

/-- C20, witness: the sample stream. -/
theorem loader_round_trip_witness :
    ∃ m d', readBCModule (encodeModule sampleDecl) = some (m, [])
      ∧ declOfModule m = some d'
      ∧ d'.WellFormed
      ∧ readBCModule (encodeModule d') = some (m, []) :=
  loader_round_trip sampleDecl (by decide) (by decide) (by decide) (by decide)

/-! ## The arena: one allocation, one return -/

theorem blockAt_setBlock_self {arena : Arena} {i : Int} {cur : ArenaBlock} (block : ArenaBlock)
    (h : arena.blockAt i = some cur) : (arena.setBlock i block).blockAt i = some block := by
  unfold Arena.blockAt at h ⊢
  split at h
  · rename_i hi
    have hlt : i.toNat < arena.blocks.length := by
      rcases List.getElem?_eq_some_iff.1 h with ⟨hlt, -⟩
      exact hlt
    simp only [hi, if_true, Arena.setBlock, List.getElem?_set_self hlt]
  · cases h

theorem blockAt_addArenaBlock {arena : Arena} {i : Int} {cur : ArenaBlock} (blockSize : Nat)
    (h : arena.blockAt i = some cur) : (addArenaBlock arena blockSize).blockAt i = some cur := by
  unfold Arena.blockAt at h ⊢
  split at h
  · rename_i hi
    have hlt : i.toNat < arena.blocks.length := by
      rcases List.getElem?_eq_some_iff.1 h with ⟨hlt, -⟩
      exact hlt
    simp only [hi, if_true, addArenaBlock, List.getElem?_append_left hlt, h]
  · cases h

/-- The allocation when it fits in the active block: the address returned and
the address of the offset word are those of the arithmetic on `ArenaBlock*`,
in which `sizeof(ArenaBlock) + offset` counts objects of 16 bytes. -/
theorem allocFromArena_of_fits {arena : Arena} {cur : ArenaBlock} (size : Nat)
    (hcur : arena.blockAt arena.pos = some cur)
    (hfit : cur.offset + size + sizeof_size_t ≤ cur.size) :
    allocFromArena arena size = some
      ({ block := arena.pos.toNat, byteOffset := blockPlus (sizeof_ArenaBlock + cur.offset) },
       arena.setBlock arena.pos
        { cur with
          offset := cur.offset + size + sizeof_size_t
          words := Function.update cur.words
            (blockPlus (sizeof_ArenaBlock + (cur.offset + size))) (some cur.offset) }) := by
  simp only [allocFromArena, hcur, Option.bind_eq_bind, Option.some_bind, not_lt.2 hfit, if_false]

/-- The allocation when it does not fit and a later block exists: `pos` is
incremented and the later block is used from the offset that it has. -/
theorem allocFromArena_of_later_block {arena : Arena} {cur later : ArenaBlock} (size : Nat)
    (hcur : arena.blockAt arena.pos = some cur)
    (hfit : cur.offset + size + sizeof_size_t > cur.size)
    (hpos : arena.pos < (arena.numBlocks : Int) - 1)
    (hlater : arena.blockAt (arena.pos + 1) = some later) :
    allocFromArena arena size = some
      ({ block := (arena.pos + 1).toNat
         byteOffset := blockPlus (sizeof_ArenaBlock + later.offset) },
       Arena.setBlock { arena with pos := arena.pos + 1 } (arena.pos + 1)
        { later with
          offset := later.offset + size + sizeof_size_t
          words := Function.update later.words
            (blockPlus (sizeof_ArenaBlock + (later.offset + size))) (some later.offset) }) := by
  have h : Arena.blockAt { arena with pos := arena.pos + 1 } (arena.pos + 1) = some later := hlater
  simp only [allocFromArena, hcur, Option.bind_eq_bind, Option.some_bind, hfit, hpos, if_true, h]

/-- The allocation when it does not fit and the active block is the last one:
a block is appended, `pos` is not changed, and the memory is taken from the
block that was active, past its size. -/
theorem allocFromArena_of_last_block {arena : Arena} {cur : ArenaBlock} (size : Nat)
    (hcur : arena.blockAt arena.pos = some cur)
    (hfit : cur.offset + size + sizeof_size_t > cur.size)
    (hpos : ¬ arena.pos < (arena.numBlocks : Int) - 1) :
    allocFromArena arena size = some
      ({ block := arena.pos.toNat, byteOffset := blockPlus (sizeof_ArenaBlock + cur.offset) },
       (addArenaBlock arena ARENA_BLOCK_SIZE).setBlock arena.pos
        { cur with
          offset := cur.offset + size + sizeof_size_t
          words := Function.update cur.words
            (blockPlus (sizeof_ArenaBlock + (cur.offset + size))) (some cur.offset) }) := by
  have h : (addArenaBlock arena ARENA_BLOCK_SIZE).blockAt
      (addArenaBlock arena ARENA_BLOCK_SIZE).pos = some cur :=
    blockAt_addArenaBlock ARENA_BLOCK_SIZE hcur
  simp only [allocFromArena, hcur, Option.bind_eq_bind, Option.some_bind, hfit, hpos, if_true,
    if_false, h]
  rfl

/-- No address that `allocFromArena` computes is the byte of the payload that
the offset designates: the distance is `240 + 15 * offset` bytes. -/
theorem blockPlus_ne_payloadByte (o : Nat) :
    blockPlus (sizeof_ArenaBlock + o) = payloadByte o + (240 + 15 * o) := by
  simp only [blockPlus, payloadByte, sizeof_ArenaBlock]
  omega

/-! ## C28: the frame that `createStackFrame` returns -/

/-- C28. For every function symbol, `createStackFrame` under `USE_ARENA`, on
the arena that `initArena` leaves, returns a frame with `returnIndex = 0`,
`prev = NULL` and the bytecode of the function, as it does without the arena,
but the `top` of its operand stack has not been assigned, whereas without the
arena `createOprandStack` sets `top = -1`. -/
theorem fresh_frame_top_unassigned_with_arena (functionSym : FunctionSymbol) :
    ∃ frame arena frame0,
      createStackFrame USE_ARENA initArena functionSym = some (frame, arena)
      ∧ createStackFrame false initArena functionSym = some (frame0, initArena)
      ∧ frame.oprandStack.top = none ∧ frame0.oprandStack.top = some (-1)
      ∧ frame.returnIndex = 0 ∧ frame0.returnIndex = 0
      ∧ frame.prev = none ∧ frame0.prev = none
      ∧ frame.byteCode = functionSym.byteCode ∧ frame0.byteCode = functionSym.byteCode := by
  have halloc : ∃ mem arena,
      allocFromArena initArena functionSym.frameSize = some (mem, arena) := by
    have hcur : initArena.blockAt initArena.pos
        = some { size := ARENA_BLOCK_SIZE, offset := 0, words := fun _ => none } := rfl
    by_cases hfit : (0 : Nat) + functionSym.frameSize + sizeof_size_t ≤ ARENA_BLOCK_SIZE
    · exact ⟨_, _, allocFromArena_of_fits functionSym.frameSize hcur hfit⟩
    · exact ⟨_, _, allocFromArena_of_last_block functionSym.frameSize hcur (not_le.1 hfit)
        (by decide)⟩
  obtain ⟨mem, arena, h⟩ := halloc
  refine ⟨{ byteCode := functionSym.byteCode, returnIndex := 0
            localVars := List.replicate functionSym.numVars none
            oprandStack := { data := List.replicate functionSym.opStackSize none, top := none }
            prev := none }, arena, _, ?_, rfl, rfl, rfl, rfl, rfl, rfl, rfl, rfl, rfl⟩
  simp only [createStackFrame, USE_ARENA, if_true, h, Option.bind_eq_bind, Option.some_bind]

/-! ## C29: the addresses of an allocation -/

/-- C29. On the arena that `initArena` leaves (active offset 0), the call
`allocFromArena(136)` fits, sets the active offset to `0 + 136 + 8` and
changes neither `pos` nor `numBlocks`, but the address that it returns is the
byte 256 of the block, not the byte 0 of the payload (byte 16 of the block),
and the offset word, with the value 0, is stored at the byte 2432 of the
block, not at the byte 136 of the payload (byte 152 of the block), which is
left unassigned.  A second call `allocFromArena(136)`, from the offset 144,
returns the byte 2560, not the byte 144 of the payload (byte 160), and stores
its offset word, 144, at the byte 4736 of a block of 4112 bytes. -/
theorem allocation_addresses_are_scaled :
    ∃ mem arena block mem' arena' block',
      allocFromArena initArena 136 = some (mem, arena)
      ∧ arena.blockAt arena.pos = some block
      ∧ mem.block = 0 ∧ mem.byteOffset = 256 ∧ payloadByte 0 = 16
      ∧ block.words 2432 = some 0 ∧ payloadByte (0 + 136) = 152 ∧ block.words 152 = none
      ∧ block.offset = 0 + 136 + sizeof_size_t
      ∧ arena.pos = initArena.pos ∧ arena.numBlocks = initArena.numBlocks
      ∧ allocFromArena arena 136 = some (mem', arena')
      ∧ arena'.blockAt arena'.pos = some block'
      ∧ mem'.block = 0 ∧ mem'.byteOffset = 2560 ∧ payloadByte 144 = 160
      ∧ block'.words 4736 = some 144 ∧ payloadByte (144 + 136) = 296 ∧ block'.words 296 = none
      ∧ block'.bytes = 4112
      ∧ block'.offset = 144 + 136 + sizeof_size_t
      ∧ arena'.pos = arena.pos ∧ arena'.numBlocks = arena.numBlocks :=
  ⟨_, _, _, _, _, _, rfl, rfl, rfl, rfl, rfl, rfl, rfl, rfl, rfl, rfl, rfl, rfl, rfl, rfl, rfl,
    rfl, rfl, rfl, rfl, rfl, rfl, rfl, rfl⟩

/-- In every arena, an allocation that fits in the active block sets the
active offset to `o + n + 8` and changes neither `pos` nor `numBlocks`; the
address returned is the byte `16 * (16 + o)` of the active block and the
offset word, with the value `o`, is stored at the byte `16 * (16 + o + n)`:
neither is the byte of the payload that the offset designates. -/
theorem allocFromArena_postcondition (arena : Arena) (cur : ArenaBlock) (n : Nat)
    (hcur : arena.blockAt arena.pos = some cur)
    (hfit : cur.offset + n + sizeof_size_t ≤ cur.size) :
    ∃ mem arena' block,
      allocFromArena arena n = some (mem, arena')
      ∧ arena'.blockAt arena'.pos = some block
      ∧ mem.block = arena.pos.toNat
      ∧ mem.byteOffset = 16 * (16 + cur.offset)
      ∧ mem.byteOffset ≠ payloadByte cur.offset
      ∧ block.words (16 * (16 + cur.offset + n)) = some cur.offset
      ∧ 16 * (16 + cur.offset + n) ≠ payloadByte (cur.offset + n)
      ∧ block.offset = cur.offset + n + sizeof_size_t
      ∧ block.size = cur.size
      ∧ arena'.pos = arena.pos ∧ arena'.numBlocks = arena.numBlocks := by
  refine ⟨_, _, _, allocFromArena_of_fits n hcur hfit, blockAt_setBlock_self _ hcur, rfl, rfl,
    ?_, ?_, ?_, rfl, rfl, rfl, rfl⟩
  · show blockPlus (sizeof_ArenaBlock + cur.offset) ≠ payloadByte cur.offset
    simp only [blockPlus, payloadByte, sizeof_ArenaBlock]; omega
  · have e : 16 * (16 + cur.offset + n) = blockPlus (sizeof_ArenaBlock + (cur.offset + n)) := by
      simp only [blockPlus, sizeof_ArenaBlock]; omega
    rw [e]
    exact Function.update_same _ _ _
  · simp only [payloadByte, sizeof_ArenaBlock]; omega

/-! ## C30: an allocation that does not fit -/

/-- C30. After 28 calls `allocFromArena(136)` on the arena that `initArena`
leaves, the only block is active at the offset 4032, where 136 bytes and an
offset word do not fit.  The next call `allocFromArena(136)` appends a block
of `ARENA_BLOCK_SIZE` bytes, but `pos` stays 0: the memory returned is in
block 0, whose offset becomes 4176, beyond its size of 4096, and the block
appended keeps the offset 0.  Only the call after that one, finding a later
block, increments `pos` and takes its memory from block 1, at the offset 0
that the block has. -/
theorem appended_block_is_not_made_active :
    ∃ arena mem arena' old new mem'' arena'' old'' new'',
      allocTimes 136 28 initArena = some arena
      ∧ arena.pos = 0 ∧ arena.numBlocks = 1 ∧ arena.activeOffset = some 4032
      ∧ 4032 + 136 + sizeof_size_t > ARENA_BLOCK_SIZE
      ∧ allocFromArena arena 136 = some (mem, arena')
      ∧ arena'.numBlocks = 2 ∧ arena'.pos = 0
      ∧ mem.block = 0 ∧ mem.byteOffset = blockPlus (sizeof_ArenaBlock + 4032)
      ∧ arena'.blocks = [old, new]
      ∧ old.offset = 4176 ∧ old.size = 4096 ∧ new.offset = 0 ∧ new.size = ARENA_BLOCK_SIZE
      ∧ allocFromArena arena' 136 = some (mem'', arena'')
      ∧ arena''.numBlocks = 2 ∧ arena''.pos = 1
      ∧ mem''.block = 1 ∧ mem''.byteOffset = blockPlus (sizeof_ArenaBlock + 0)
      ∧ arena''.blocks = [old'', new'']
      ∧ old''.offset = 4176 ∧ new''.offset = 144 :=
  ⟨_, _, _, _, _, _, _, _, _, rfl, rfl, rfl, rfl, by decide, rfl, rfl, rfl, rfl, rfl, rfl, rfl,
    rfl, rfl, rfl, rfl, rfl, rfl, rfl, rfl, rfl, rfl, rfl⟩

/-! ## C24: an allocation and its return -/

/-- C24. On the arena that `initArena` leaves (`pos = 0`, active offset 0),
the call `allocFromArena(136)` followed by `returnToArena()` brings the
offset of block 0 back to 0 and, this offset being 0, decrements `pos`: `pos`
is then -1 and designates no block. -/
theorem allocate_then_return_moves_pos_before_first_block :
    ∃ mem arena arena' block,
      initArena.pos = 0 ∧ initArena.activeOffset = some 0
      ∧ allocFromArena initArena 136 = some (mem, arena)
      ∧ arena.pos = 0 ∧ arena.activeOffset = some 144
      ∧ returnToArena arena = some arena'
      ∧ arena'.pos = -1 ∧ arena'.activeOffset = none
      ∧ arena'.blocks = [block] ∧ block.offset = 0 :=
  ⟨_, _, _, _, rfl, rfl, rfl, rfl, rfl, rfl, rfl, rfl, rfl, rfl⟩

/-! ## C23: the arena after `execute` -/

/-- C23. Under `USE_ARENA`, on the arena that `initArena` leaves (`pos = 0`,
active offset 0), `execute` on a module whose `main` is `_return` alone, and
on the module whose `main` starts calls nested nine deep, returns 0 and
leaves the offset of block 0 at 0, but `pos` at -1, where it designates no
block. -/
theorem arena_pos_not_restored_after_main_returns (clock : Nat → Int) :
    initArena.pos = 0 ∧ initArena.activeOffset = some 0
    ∧ (∃ arena block,
        execute USE_ARENA clock initArena
          (scenarioModuleWith noopFunction (mainFunction 0 [0xb1])) 1
          = some (.returned 0 [] arena)
        ∧ arena.pos = -1 ∧ arena.activeOffset = none
        ∧ arena.blocks = [block] ∧ block.offset = 0)
    ∧ (∃ arena block,
        execute USE_ARENA clock initArena nestedCallsModule 19 = some (.returned 0 [] arena)
        ∧ arena.pos = -1 ∧ arena.activeOffset = none
        ∧ arena.blocks = [block] ∧ block.offset = 0) :=
  ⟨rfl, rfl, ⟨_, _, rfl, rfl, rfl, rfl, rfl⟩, ⟨_, _, rfl, rfl, rfl, rfl, rfl⟩⟩

/-! ## C21: type names that resolve to no type -/

theorem firstIndexFrom_none (s : String) :
    ∀ (names : List String) (i : Nat),
      (¬ ∃ name ∈ names, strcmp_eq s name = true) → firstIndexFrom s names i = none := by
  intro names i h
  cases hk : firstIndexFrom s names i with
  | none => rfl
  | some k =>
    obtain ⟨-, -, name, hget, hcmp, -⟩ := firstIndexFrom_bounds s names i k hk
    exact absurd ⟨name, List.getElem?_mem hget, hcmp⟩ h

theorem resolveName_of_not_resolves {types : List TypeDecl} {typeName : ByteString}
    (h : ¬ Resolves types typeName) :
    resolveName (typeNamesOf types) (stringOfBytes typeName) = .null := by
  rw [resolveName, firstIndexFrom_none _ _ 0 h]

/-- C21, as stated, fails on the stream whose only constant is the function
`main` of the type `@main`, with a local of the type `T`, neither being the
name of a type: the loader returns a module, without printing, in which
`main` is in slot 3 and is `_main`, and `theType` of the function and of its
local are `NULL`.  Without the arena `execute` runs this module and returns
0. -/
theorem undeclared_type_names_are_loaded :
    ¬ Resolves undeclaredNamesDecl.types (ascii "@main")
    ∧ ¬ Resolves undeclaredNamesDecl.types (ascii "T")
    ∧ ∃ m f v, readBCModule (encodeModule undeclaredNamesDecl) = some (m, [])
        ∧ m.consts[3]? = some (.to (.FunctionConst f)) ∧ m._main = .to f
        ∧ f.symbol.theType = .null ∧ f.vars = some [v] ∧ v.symbol.theType = .null
        ∧ execute false (fun _ => 0) initArena m 1 = some (.returned 0 [] initArena) := by
  refine ⟨by decide, by decide, loadedModule undeclaredNamesDecl, _, _, ?_,
    rfl, rfl, rfl, rfl, rfl, rfl⟩
  have h := readBCModule_encodeModule undeclaredNamesDecl [] (by decide) (by decide)
  rw [List.append_nil] at h
  exact h

theorem forall₂_map_of_forall {α β : Type} (f : α → β) (R : β → α → Prop) :
    ∀ l : List α, (∀ a ∈ l, R (f a) a) → List.Forall₂ R (l.map f) l := by
  intro l
  induction l with
  | nil => intro _; exact List.Forall₂.nil
  | cons a l ih =>
    intro h
    exact List.Forall₂.cons (h a (List.mem_cons_self _ _))
      (ih (fun b hb => h b (List.mem_cons_of_mem _ hb)))

/-- C21, amended.  For every stream of the grammar in which the names that
the types refer to are names of types, the loader returns a module and prints
nothing, whether or not the type names of the functions and of their locals
are names of types: `theType` of a function whose type name is the name of no
system or user type is `NULL`, and so is `theType` of such a local. -/
theorem unresolved_symbol_type_is_null (d : ModuleDecl) (hwf : d.WellFormed)
    (hres : NamesResolve d.types) :
    ∃ m, readBCModule (encodeModule d) = some (m, [])
      ∧ ∀ i body, d.consts[i]? = some (.FunctionConst body) →
          ∃ f vars, m.consts[i + 3]? = some (.to (.FunctionConst f))
            ∧ f.vars = some vars
            ∧ (¬ Resolves d.types body.typeName → f.symbol.theType = .null)
            ∧ List.Forall₂ (fun (v : VarSymbol) (decl : VarDecl) =>
                ¬ Resolves d.types decl.typeName → v.symbol.theType = .null) vars body.vars := by
  have hload := readBCModule_encodeModule d [] hwf hres
  rw [List.append_nil] at hload
  refine ⟨loadedModule d, hload, ?_⟩
  intro i body hi
  refine ⟨_, _, loadedModule_consts_user hi, rfl, ?_, ?_⟩
  · intro hn
    show typeAt _ (resolveName _ _) = _
    rw [resolveName_of_not_resolves hn]
    rfl
  · apply forall₂_map_of_forall
    intro v _ hn
    show typeAt _ (resolveName _ _) = _
    rw [resolveName_of_not_resolves hn]
    rfl

/-- C21, amended: witness.  The stream `undeclaredNamesDecl`. -/
theorem unresolved_symbol_type_is_null_witness :
    ∃ m, readBCModule (encodeModule undeclaredNamesDecl) = some (m, [])
      ∧ ∀ i body, undeclaredNamesDecl.consts[i]? = some (.FunctionConst body) →
          ∃ f vars, m.consts[i + 3]? = some (.to (.FunctionConst f))
            ∧ f.vars = some vars
            ∧ (¬ Resolves undeclaredNamesDecl.types body.typeName → f.symbol.theType = .null)
            ∧ List.Forall₂ (fun (v : VarSymbol) (decl : VarDecl) =>
                ¬ Resolves undeclaredNamesDecl.types decl.typeName → v.symbol.theType = .null)
                vars body.vars :=
  unresolved_symbol_type_is_null undeclaredNamesDecl (by decide) (by decide)

/-- The loader on the stream whose simple type `T` has the upper type `V`, the
name of no type: `getType`, called by `buildTypes` with the number of entries
plus `SYS_TYPES` as the number of entries, goes on reading `typeNames` past
its end, on which C places no requirement. -/
theorem undeclared_upper_type_reads_past_type_names :
    ¬ NamesResolve undeclaredUpperDecl.types
    ∧ readBCModule (encodeModule undeclaredUpperDecl) = none :=
  ⟨by decide, rfl⟩

/-! ## C22: streams without `main` and unknown kind bytes -/

theorem encodeEntries_known (consts : List ConstDecl) :
    encodeEntries (consts.map ConstEntry.known) = encodeConsts consts := by
  induction consts with
  | nil => rfl
  | cons c consts ih =>
    show encodeConst c ++ encodeEntries (consts.map ConstEntry.known) = _
    rw [ih]
    rfl

/-- A stream of the grammar is a stream none of whose constants has an
unknown kind byte. -/
theorem encodeModuleWith_known (d : ModuleDecl) :
    encodeModuleWith d.types (d.consts.map ConstEntry.known) = encodeModule d := by
  rw [encodeModuleWith, encodeEntries_known, List.length_map]
  rfl

theorem entryMessages_known (consts : List ConstDecl) :
    entryMessages (consts.map ConstEntry.known) = [] := by
  induction consts with
  | nil => rfl
  | cons c consts ih => exact ih

/-- The loader on the stream `5 "types" 1 9 6 "consts" 0`, whose only type
has the kind byte 9: after the text `Unsupported type kind: 9` the loop goes
on, the entry of the type is never assigned, and `buildTypes` reads its tag
through the unassigned pointer, on which C places no requirement. -/
theorem unknown_type_kind_reads_unassigned_entry :
    readBCModule [5, 0x74, 0x79, 0x70, 0x65, 0x73, 1, 9, 6, 0x63, 0x6f, 0x6e, 0x73, 0x74, 0x73, 0]
      = none
    ∧ readTypes [5, 0x74, 0x79, 0x70, 0x65, 0x73, 1, 9, 6, 0x63, 0x6f, 0x6e, 0x73, 0x74, 0x73, 0]
        1 0 { index := 7, arrays := arraysAfter [] 1, stdout := [] }
      = some { index := 8, arrays := arraysAfter [] 1
               stdout := ["Unsupported type kind: 9\n"] } :=
  ⟨rfl, rfl⟩

/-! ## What one iteration does to the frames and to the arena -/

theorem LocalOp.op_prev {frame frame' : StackFrame} (h : LocalOp frame frame') :
    frame'.prev = frame.prev := by
  rcases h with ⟨_, h⟩ | ⟨_, h⟩ | ⟨_, _, h⟩
  · exact pushToOpStack_prev h
  · exact popFromOpStack_prev h
  · exact storeLocal_prev h

theorem LocalOps.ops_prev {frame frame' : StackFrame} (h : LocalOps frame frame') :
    frame'.prev = frame.prev := by
  induction h with
  | refl => rfl
  | tail _ hop ih => exact hop.op_prev.trans ih

theorem LocalOp.op_byteCode {frame frame' : StackFrame} (h : LocalOp frame frame') :
    frame'.byteCode = frame.byteCode ∧ frame'.returnIndex = frame.returnIndex := by
  rcases h with ⟨_, h⟩ | ⟨_, h⟩ | ⟨_, _, h⟩
  · unfold pushToOpStack at h
    split at h
    · cases h
    · split at h
      · injection h with h; rw [← h]; exact ⟨rfl, rfl⟩
      · cases h
  · unfold popFromOpStack at h
    split at h
    · cases h
    · split at h
      · split at h
        · injection h with h; injection h with _ h; rw [← h]; exact ⟨rfl, rfl⟩
        · cases h
      · cases h
  · unfold storeLocal at h
    split at h
    · injection h with h; rw [← h]; exact ⟨rfl, rfl⟩
    · cases h

theorem LocalOps.ops_byteCode {frame frame' : StackFrame} (h : LocalOps frame frame') :
    frame'.byteCode = frame.byteCode ∧ frame'.returnIndex = frame.returnIndex := by
  induction h with
  | refl => exact ⟨rfl, rfl⟩
  | tail _ hop ih => exact ⟨hop.op_byteCode.1.trans ih.1, hop.op_byteCode.2.trans ih.2⟩

theorem LocalOps.push {frame frame' : StackFrame} {value : VM_NUMBER}
    (h : pushToOpStack frame value = some frame') : LocalOps frame frame' :=
  Relation.ReflTransGen.single (Or.inl ⟨value, h⟩)

theorem LocalOps.pop {frame frame' : StackFrame} {value : VM_NUMBER}
    (h : popFromOpStack frame = some (value, frame')) : LocalOps frame frame' :=
  Relation.ReflTransGen.single (Or.inr (Or.inl ⟨value, h⟩))

theorem LocalOps.store {frame frame' : StackFrame} {i : Nat} {value : VM_NUMBER}
    (h : storeLocal frame i value = some frame') : LocalOps frame frame' :=
  Relation.ReflTransGen.single (Or.inr (Or.inr ⟨i, value, h⟩))

theorem LocalStep.of_ops {st : ExecState} {start frame : StackFrame} {r : StepResult}
    (hops : LocalOps start frame) (h : LocalStep st frame r) : LocalStep st start r := by
  obtain ⟨st', hr, h1, h2⟩ := h
  exact ⟨st', hr, Relation.ReflTransGen.trans hops h1, h2⟩

theorem fetch_localStep {st : ExecState} {frame : StackFrame} {index : Nat} {r : StepResult}
    (h : fetch st frame index = some r) : LocalStep st frame r := by
  unfold fetch at h
  split at h
  · injection h with h
    exact ⟨_, h.symm, Relation.ReflTransGen.refl, rfl, rfl, rfl, rfl⟩
  · cases h

theorem pushAndFetch_localStep {st : ExecState} {value : VM_NUMBER} {index : Nat}
    {r : StepResult} (h : pushAndFetch st value index = some r) : LocalStep st st.frame r := by
  simp only [pushAndFetch, Option.bind_eq_bind, Option.bind_eq_some] at h
  obtain ⟨frame, hpush, hf⟩ := h
  exact (fetch_localStep hf).of_ops (LocalOps.push hpush)

theorem storeAndFetch_localStep {st : ExecState} {varIndex index : Nat} {r : StepResult}
    (h : storeAndFetch st varIndex index = some r) : LocalStep st st.frame r := by
  simp only [storeAndFetch, Option.bind_eq_bind, Option.bind_eq_some] at h
  obtain ⟨⟨value, frame⟩, hpop, frame', hstore, hf⟩ := h
  exact ((fetch_localStep hf).of_ops (LocalOps.store hstore)).of_ops (LocalOps.pop hpop)

theorem compareAndBranch_localStep {st : ExecState} {rel : VM_NUMBER → VM_NUMBER → Bool}
    {r : StepResult} (h : compareAndBranch st rel = some r) : LocalStep st st.frame r := by
  simp only [compareAndBranch, Option.bind_eq_bind, Option.bind_eq_some] at h
  obtain ⟨byte1, -, byte2, -, ⟨vright, f1⟩, hpop1, ⟨vleft, f2⟩, hpop2, hf⟩ := h
  have : LocalStep st f2 r := by
    dsimp only at hf
    split at hf <;> exact fetch_localStep hf
  exact (this.of_ops (LocalOps.pop hpop2)).of_ops (LocalOps.pop hpop1)

theorem testAndBranch_localStep {st : ExecState} {test : VM_NUMBER → Bool}
    {r : StepResult} (h : testAndBranch st test = some r) : LocalStep st st.frame r := by
  simp only [testAndBranch, Option.bind_eq_bind, Option.bind_eq_some] at h
  obtain ⟨byte1, -, byte2, -, ⟨value, frame⟩, hpop, hf⟩ := h
  have : LocalStep st frame r := by
    dsimp only at hf
    split at hf <;> exact fetch_localStep hf
  exact this.of_ops (LocalOps.pop hpop)

theorem arithmetic_localStep {st : ExecState} {f1 f2 : StackFrame} {x y value : VM_NUMBER}
    {r : StepResult} (hpop1 : popFromOpStack st.frame = some (x, f1))
    (hpop2 : popFromOpStack f1 = some (y, f2))
    (h : pushAndFetch { st with frame := f2 } value st.codeIndex = some r) :
    LocalStep st st.frame r := by
  have h' : LocalStep st f2 r := pushAndFetch_localStep h
  exact (h'.of_ops (LocalOps.pop hpop2)).of_ops (LocalOps.pop hpop1)

/-- The cases of the `switch`: `ireturn`, `_return`, `invokestatic`, an
opcode whose case works on the current frame alone, or an unknown opcode. -/
theorem stepCase_cases {useArena : Bool} {clock : Nat → Int} {bcModule : BCModule}
    {st : ExecState} {r : StepResult} (h : stepCase useArena clock bcModule st = some r) :
    (OpCode.ofByte st.opCode = some .ireturn ∧ doReturn useArena st true = some r)
    ∨ (OpCode.ofByte st.opCode = some ._return ∧ doReturn useArena st false = some r)
    ∨ (OpCode.ofByte st.opCode = some .invokestatic
        ∧ doInvokestatic useArena clock bcModule st = some r)
    ∨ (OpCode.ofByte st.opCode ≠ some .ireturn ∧ OpCode.ofByte st.opCode ≠ some ._return
        ∧ OpCode.ofByte st.opCode ≠ some .invokestatic
        ∧ (LocalStep st st.frame r
          ∨ r = .done (.returned (-2)
              (st.stdout ++ ["Unknown op code: " ++ fmt_x st.opCode ++ "."]) st.arena))) := by
  unfold stepCase at h
  split at h
  all_goals first
    | exact Or.inl ⟨by assumption, h⟩
    | exact Or.inr (Or.inl ⟨by assumption, h⟩)
    | exact Or.inr (Or.inr (Or.inl ⟨by assumption, h⟩))
    | (refine Or.inr (Or.inr (Or.inr ⟨?_, ?_, ?_, ?_⟩))
       · rename_i hop; rw [hop]; decide
       · rename_i hop; rw [hop]; decide
       · rename_i hop; rw [hop]; decide
       · first
           | exact Or.inl (pushAndFetch_localStep h)
           | exact Or.inl (storeAndFetch_localStep h)
           | exact Or.inl (compareAndBranch_localStep h)
           | exact Or.inl (testAndBranch_localStep h)
           | (simp only [Option.bind_eq_bind, Option.bind_eq_some] at h
              obtain ⟨_, -, h⟩ := h
              first
                | exact Or.inl (pushAndFetch_localStep h)
                | exact Or.inl (storeAndFetch_localStep h)
                | (obtain ⟨_, -, h⟩ := h
                   first
                     | exact Or.inl (pushAndFetch_localStep h)
                     | exact Or.inl (fetch_localStep h)))
           | (simp only [Option.bind_eq_bind, Option.bind_eq_some] at h
              obtain ⟨⟨_, f1⟩, hpop1, ⟨_, f2⟩, hpop2, h⟩ := h
              first
                | exact Or.inl (arithmetic_localStep hpop1 hpop2 h)
                | (obtain ⟨_, -, h⟩ := h
                   exact Or.inl (arithmetic_localStep hpop1 hpop2 h)))
           | (simp only [Option.bind_eq_bind, Option.bind_eq_some] at h
              obtain ⟨_, -, _, -, _, -, frame, hstore, h⟩ := h
              exact Or.inl ((fetch_localStep h).of_ops (LocalOps.store hstore))))
    | (refine Or.inr (Or.inr (Or.inr ⟨by assumption, by assumption, by assumption, ?_⟩))
       injection h with h
       exact Or.inr h.symm)

/-- The case `invokestatic`, branch by branch. -/
theorem doInvokestatic_cases {useArena : Bool} {clock : Nat → Int} {bcModule : BCModule}
    {st : ExecState} {r : StepResult}
    (h : doInvokestatic useArena clock bcModule st = some r) :
    ∃ byte1 byte2 functionSym,
      st.code[st.codeIndex + 1]? = some byte1 ∧ st.code[st.codeIndex + 2]? = some byte2
      ∧ functionConstAt bcModule (twoBytes byte1 byte2) = some functionSym
      ∧ ((strcmp_eq functionSym.symbol.name "println" = true
            ∧ ∃ param frame st', popFromOpStack st.frame = some (param, frame)
              ∧ r = .next st' ∧ st'.frame = frame ∧ st'.arena = st.arena ∧ st'.code = st.code
              ∧ st'.codeIndex = st.codeIndex + 2 + 1
              ∧ st'.stdout = st.stdout ++ [fmt_d param ++ "\n"])
        ∨ (strcmp_eq functionSym.symbol.name "println" = false
            ∧ strcmp_eq functionSym.symbol.name "tick" = true
            ∧ ∃ frame st', pushToOpStack st.frame (toVM_NUMBER (clock st.clockCalls)) = some frame
              ∧ r = .next st' ∧ st'.frame = frame ∧ st'.arena = st.arena ∧ st'.code = st.code
              ∧ st'.codeIndex = st.codeIndex + 2 + 1 ∧ st'.stdout = st.stdout)
        ∨ (strcmp_eq functionSym.symbol.name "println" = false
            ∧ strcmp_eq functionSym.symbol.name "tick" = false
            ∧ ∃ frame0 arena paramCount frame lastFrame,
              createStackFrame useArena st.arena functionSym = some (frame0, arena)
              ∧ paramCountOf functionSym = some paramCount
              ∧ passParams paramCount frame0
                  { st.frame with returnIndex := st.codeIndex + 2 + 1 } = some (frame, lastFrame)
              ∧ ((∃ code st', frame.byteCode = some code ∧ r = .next st'
                    ∧ st'.frame = { frame with prev := some lastFrame } ∧ st'.arena = arena
                    ∧ st'.code = code ∧ st'.codeIndex = 0 ∧ st'.stdout = st.stdout)
                ∨ (frame.byteCode = none ∧ ∃ out, r = .done (.returned (-1) out arena))))) := by
  simp only [doInvokestatic, Option.bind_eq_bind, Option.bind_eq_some] at h
  obtain ⟨byte1, hb1, byte2, hb2, functionSym, hfun, h⟩ := h
  refine ⟨byte1, byte2, functionSym, hb1, hb2, hfun, ?_⟩
  split at h
  · rename_i hname
    simp only [Option.bind_eq_bind, Option.bind_eq_some, Option.some.injEq] at h
    obtain ⟨⟨param, frame⟩, hpop, opCode, -, h⟩ := h
    exact Or.inl ⟨hname, param, frame, _, hpop, h.symm, rfl, rfl, rfl, rfl, rfl⟩
  · rename_i hname
    have hname' : strcmp_eq functionSym.symbol.name "println" = false := by
      simpa using hname
    split at h
    · rename_i htick
      simp only [Option.bind_eq_bind, Option.bind_eq_some, Option.some.injEq] at h
      obtain ⟨opCode, -, frame, hpush, h⟩ := h
      exact Or.inr (Or.inl ⟨hname', htick, frame, _, hpush, h.symm, rfl, rfl, rfl, rfl, rfl⟩)
    · rename_i htick
      have htick' : strcmp_eq functionSym.symbol.name "tick" = false := by
        simpa using htick
      simp only [Option.bind_eq_bind, Option.bind_eq_some] at h
      obtain ⟨⟨frame0, arena⟩, hcreate, paramCount, hcount, ⟨frame, lastFrame⟩, hpass, h⟩ := h
      refine Or.inr (Or.inr ⟨hname', htick', frame0, arena, paramCount, frame, lastFrame,
        hcreate, hcount, hpass, ?_⟩)
      dsimp only at h
      split at h
      · rename_i code hcode
        simp only [Option.bind_eq_bind, Option.bind_eq_some, Option.some.injEq] at h
        obtain ⟨opCode, -, h⟩ := h
        exact Or.inl ⟨code, _, hcode, h.symm, rfl, rfl, rfl, rfl, rfl⟩
      · rename_i hcode
        injection h with h
        exact Or.inr ⟨hcode, _, h.symm⟩

/-- The cases `ireturn` and `_return`, branch by branch. -/
theorem doReturn_cases {useArena : Bool} {st : ExecState} {isIreturn : Bool} {r : StepResult}
    (h : doReturn useArena st isIreturn = some r) :
    ∃ retValue lastFrame arena,
      (if isIreturn then popFromOpStack st.frame = some (retValue, lastFrame)
        else lastFrame = st.frame)
      ∧ lastFrame.prev = st.frame.prev
      ∧ deleteStackFrame useArena st.arena lastFrame = some arena
      ∧ ((lastFrame.prev = none ∧ r = .done (.returned 0 st.stdout arena))
        ∨ ∃ caller frame, lastFrame.prev = some caller
            ∧ (if isIreturn then pushToOpStack caller retValue = some frame else frame = caller)
            ∧ ((∃ code st', frame.byteCode = some code ∧ r = .next st' ∧ st'.frame = frame
                  ∧ st'.arena = arena ∧ st'.code = code ∧ st'.codeIndex = frame.returnIndex
                  ∧ st'.stdout = st.stdout)
              ∨ (frame.byteCode = none ∧ ∃ out, r = .done (.returned (-1) out arena)))) := by
  cases isIreturn with
  | false =>
    simp only [doReturn, Bool.false_eq_true, if_false, Option.bind_eq_bind, Option.some_bind,
      Option.bind_eq_some] at h
    obtain ⟨arena, hdel, h⟩ := h
    refine ⟨0, st.frame, arena, by simp, rfl, hdel, ?_⟩
    split at h
    · rename_i hprev
      injection h with h
      exact Or.inl ⟨hprev, h.symm⟩
    · rename_i caller hprev
      refine Or.inr ⟨caller, caller, hprev, by simp, ?_⟩
      split at h
      · rename_i code hcode
        simp only [Option.bind_eq_bind, Option.bind_eq_some, Option.some.injEq] at h
        obtain ⟨opCode, -, h⟩ := h
        exact Or.inl ⟨code, _, hcode, h.symm, rfl, rfl, rfl, rfl, rfl⟩
      · rename_i hcode
        injection h with h
        exact Or.inr ⟨hcode, _, h.symm⟩
  | true =>
    simp only [doReturn, if_true, Option.bind_eq_bind, Option.some_bind,
      Option.bind_eq_some] at h
    obtain ⟨⟨retValue, lastFrame⟩, hpop, arena, hdel, h⟩ := h
    refine ⟨retValue, lastFrame, arena, by simpa using hpop, popFromOpStack_prev hpop, hdel, ?_⟩
    dsimp only at h
    split at h
    · rename_i hprev
      injection h with h
      exact Or.inl ⟨hprev, h.symm⟩
    · rename_i caller hprev
      simp only [Option.bind_eq_bind, Option.bind_eq_some] at h
      obtain ⟨frame, hpush, h⟩ := h
      refine Or.inr ⟨caller, frame, hprev, by simpa using hpush, ?_⟩
      split at h
      · rename_i code hcode
        simp only [Option.bind_eq_bind, Option.bind_eq_some, Option.some.injEq] at h
        obtain ⟨opCode, -, h⟩ := h
        exact Or.inl ⟨code, _, hcode, h.symm, rfl, rfl, rfl, rfl, rfl⟩
      · rename_i hcode
        injection h with h
        exact Or.inr ⟨hcode, _, h.symm⟩

theorem passParams_localOps :
    ∀ (n : Nat) (frame lastFrame frame' lastFrame' : StackFrame),
      passParams n frame lastFrame = some (frame', lastFrame') →
      LocalOps frame frame' ∧ LocalOps lastFrame lastFrame' := by
  intro n
  induction n with
  | zero =>
    intro frame lastFrame frame' lastFrame' h
    simp only [passParams, Option.some.injEq, Prod.mk.injEq] at h
    obtain ⟨rfl, rfl⟩ := h
    exact ⟨Relation.ReflTransGen.refl, Relation.ReflTransGen.refl⟩
  | succ n ih =>
    intro frame lastFrame frame' lastFrame' h
    simp only [passParams, Option.bind_eq_bind] at h
    cases hpop : popFromOpStack lastFrame with
    | none => simp [hpop] at h
    | some r =>
      obtain ⟨value, lf⟩ := r
      simp only [hpop, Option.some_bind] at h
      cases hst : storeLocal frame n value with
      | none => simp [hst] at h
      | some fr =>
        simp only [hst, Option.some_bind] at h
        obtain ⟨h1, h2⟩ := ih fr lf frame' lastFrame' h
        exact ⟨Relation.ReflTransGen.trans (LocalOps.store hst) h1,
          Relation.ReflTransGen.trans (LocalOps.pop hpop) h2⟩

/-! ## C26: the number of live frames -/

theorem stepCase_of_step_returned {useArena : Bool} {clock : Nat → Int} {bcModule : BCModule}
    {st : ExecState} {code : Int} {out : List String} {arena : Arena}
    (h : step useArena clock bcModule st = .done (.returned code out arena)) :
    stepCase useArena clock bcModule st = some (.done (.returned code out arena)) := by
  unfold step at h
  split at h
  · rename_i r hr
    rw [hr, h]
  · cases h

theorem LocalStep.next {st : ExecState} {start : StackFrame} {st' : ExecState}
    (h : LocalStep st start (.next st')) :
    LocalOps start st'.frame ∧ st'.arena = st.arena ∧ st'.code = st.code
      ∧ st'.stdout = st.stdout ∧ st'.clockCalls = st.clockCalls := by
  obtain ⟨s, hr, h⟩ := h
  injection hr with hr
  subst hr
  exact h

theorem LocalStep.not_done {st : ExecState} {start : StackFrame} {outcome : Outcome}
    (h : LocalStep st start (.done outcome)) : False := by
  obtain ⟨s, hr, -⟩ := h
  cases hr

/-- The live frames after an iteration that ends with `continue;`: the same
as before, with one more frame whose `prev` is the frame of the caller, or
without the current frame. -/
theorem stepCase_liveFrames {useArena : Bool} {clock : Nat → Int} {bcModule : BCModule}
    {st st' : ExecState} (h : stepCase useArena clock bcModule st = some (.next st')) :
    (OpCode.ofByte st.opCode = some .invokestatic →
      ∃ byte1 byte2 functionSym,
        st.code[st.codeIndex + 1]? = some byte1 ∧ st.code[st.codeIndex + 2]? = some byte2
        ∧ functionConstAt bcModule (twoBytes byte1 byte2) = some functionSym
        ∧ (strcmp_eq functionSym.symbol.name "println" = true
            ∨ strcmp_eq functionSym.symbol.name "tick" = true →
            st'.frame.callers = st.frame.callers)
        ∧ (strcmp_eq functionSym.symbol.name "println" = false →
            strcmp_eq functionSym.symbol.name "tick" = false →
            ∃ lastFrame, st'.frame.callers = lastFrame :: st.frame.callers))
    ∧ (OpCode.ofByte st.opCode = some .ireturn ∨ OpCode.ofByte st.opCode = some ._return →
        ∃ caller, st.frame.callers = caller :: st'.frame.callers)
    ∧ (OpCode.ofByte st.opCode ≠ some .invokestatic → OpCode.ofByte st.opCode ≠ some .ireturn →
        OpCode.ofByte st.opCode ≠ some ._return → st'.frame.callers = st.frame.callers) := by
  have hret : ∀ isIreturn, doReturn useArena st isIreturn = some (.next st') →
      ∃ caller, st.frame.callers = caller :: st'.frame.callers := by
    intro isIreturn hr
    obtain ⟨caller, h1, h2⟩ := doReturn_prev hr
    exact ⟨caller, by rw [callers_of_prev_some h1, callers_congr h2]⟩
  rcases stepCase_cases h with ⟨hop, hr⟩ | ⟨hop, hr⟩ | ⟨hop, hi⟩ | ⟨h1, h2, h3, hl⟩
  · refine ⟨fun h' => ?_, fun _ => hret _ hr, fun _ h' _ => absurd hop h'⟩
    rw [hop] at h'; cases h'
  · refine ⟨fun h' => ?_, fun _ => hret _ hr, fun _ _ h' => absurd hop h'⟩
    rw [hop] at h'; cases h'
  · refine ⟨fun _ => ?_, fun h' => ?_, fun h' _ _ => absurd hop h'⟩
    · obtain ⟨byte1, byte2, functionSym, hb1, hb2, hfun, hcases⟩ := doInvokestatic_cases hi
      refine ⟨byte1, byte2, functionSym, hb1, hb2, hfun, ?_, ?_⟩
      · intro hname
        rcases hcases with ⟨-, param, frame, s, hpop, hr, hf, -⟩
          | ⟨-, -, frame, s, hpush, hr, hf, -⟩
          | ⟨hn1, hn2, -⟩
        · injection hr with hr
          subst hr
          exact callers_congr (by rw [hf]; exact popFromOpStack_prev hpop)
        · injection hr with hr
          subst hr
          exact callers_congr (by rw [hf]; exact pushToOpStack_prev hpush)
        · rcases hname with hname | hname
          · rw [hn1] at hname; cases hname
          · rw [hn2] at hname; cases hname
      · intro hn1 hn2
        rcases hcases with ⟨hname, -⟩ | ⟨-, hname, -⟩
          | ⟨-, -, frame0, arena, paramCount, frame, lastFrame, -, -, hpass, hrest⟩
        · rw [hn1] at hname; cases hname
        · rw [hn2] at hname; cases hname
        · rcases hrest with ⟨code, s, -, hr, hf, -⟩ | ⟨-, out, hr⟩
          · injection hr with hr
            subst hr
            refine ⟨lastFrame, ?_⟩
            have hprev : st'.frame.prev = some lastFrame := by rw [hf]
            rw [callers_of_prev_some hprev]
            congr 1
            exact callers_congr (passParams_prev _ _ _ _ _ hpass).2
          · cases hr
    · rcases h' with h' | h' <;> rw [hop] at h' <;> cases h'
  · refine ⟨fun h' => absurd h' h3, fun h' => ?_, fun _ _ _ => ?_⟩
    · rcases h' with h' | h'
      · exact absurd h' h1
      · exact absurd h' h2
    · rcases hl with hl | hl
      · exact callers_congr hl.next.1.ops_prev
      · cases hl

/-- C26, as stated, fails at the `invokestatic println` of `bipush 3; bipush
4; iadd; invokestatic println; _return`, reached with 7 on the operand stack:
the iteration prints `7` and goes on in the frame of `main`, the only live
frame before and after, with and without the arena. -/
theorem println_call_adds_no_frame :
    OpCode.ofByte (mainState additionCode 5 0xb8 [] [7]).opCode = some .invokestatic
    ∧ (mainState additionCode 5 0xb8 [] [7]).liveFrames = 1
    ∧ (∃ st', step false (fun _ => 0) (scenarioModule (mainFunction 0 additionCode))
          (mainState additionCode 5 0xb8 [] [7]) = .next st'
        ∧ st'.liveFrames = 1 ∧ st'.stdout = ["7\n"] ∧ st'.codeIndex = 8)
    ∧ (∃ st', step USE_ARENA (fun _ => 0) (scenarioModule (mainFunction 0 additionCode))
          (mainState additionCode 5 0xb8 [] [7]) = .next st'
        ∧ st'.liveFrames = 1 ∧ st'.stdout = ["7\n"] ∧ st'.codeIndex = 8) :=
  ⟨rfl, rfl, ⟨_, rfl, rfl, rfl, rfl⟩, ⟨_, rfl, rfl, rfl, rfl⟩⟩

/-- C26, amended.  In every state: an iteration on `invokestatic` that goes on
leaves as many live frames as before when the function called is named
`println` or `tick`, and one more, linked to those of before, when it is
named otherwise; an iteration on `ireturn` or `_return` that goes on leaves
one live frame less; an iteration on any other opcode that goes on leaves as
many.  An iteration ends `execute` with 0 only on `ireturn` or `_return` in a
state whose current frame, which it deletes, is the only live one; and when
`execute` returns 0, it is such an iteration, reached from the frame of
`main`, that returned. -/
theorem frame_chain_length (useArena : Bool) (clock : Nat → Int) (bcModule : BCModule) :
    (∀ st st', step useArena clock bcModule st = .next st' →
      (OpCode.ofByte st.opCode = some .invokestatic →
        ∃ byte1 byte2 functionSym,
          st.code[st.codeIndex + 1]? = some byte1 ∧ st.code[st.codeIndex + 2]? = some byte2
          ∧ functionConstAt bcModule (twoBytes byte1 byte2) = some functionSym
          ∧ (strcmp_eq functionSym.symbol.name "println" = true
              ∨ strcmp_eq functionSym.symbol.name "tick" = true →
              st'.liveFrames = st.liveFrames)
          ∧ (strcmp_eq functionSym.symbol.name "println" = false →
              strcmp_eq functionSym.symbol.name "tick" = false →
              st'.liveFrames = st.liveFrames + 1))
      ∧ (OpCode.ofByte st.opCode = some .ireturn ∨ OpCode.ofByte st.opCode = some ._return →
          st'.liveFrames + 1 = st.liveFrames)
      ∧ (OpCode.ofByte st.opCode ≠ some .invokestatic →
          OpCode.ofByte st.opCode ≠ some .ireturn →
          OpCode.ofByte st.opCode ≠ some ._return → st'.liveFrames = st.liveFrames))
    ∧ (∀ st out arena, step useArena clock bcModule st = .done (.returned 0 out arena) →
        (OpCode.ofByte st.opCode = some .ireturn ∨ OpCode.ofByte st.opCode = some ._return)
        ∧ st.liveFrames = 1)
    ∧ (∀ arena0 fuel out arena,
        execute useArena clock arena0 bcModule fuel = some (.returned 0 out arena) →
        ∃ st0 n st, enter useArena arena0 bcModule = .next st0 ∧ st0.liveFrames = 1
          ∧ stepsFrom useArena clock bcModule n st0 = some st ∧ st.liveFrames = 1
          ∧ step useArena clock bcModule st = .done (.returned 0 out arena)) := by
  have hdone : ∀ st out arena,
      step useArena clock bcModule st = .done (.returned 0 out arena) →
      (OpCode.ofByte st.opCode = some .ireturn ∨ OpCode.ofByte st.opCode = some ._return)
      ∧ st.liveFrames = 1 := by
    intro st out arena h
    have hret : ∀ isIreturn, doReturn useArena st isIreturn
        = some (.done (.returned 0 out arena)) → st.liveFrames = 1 := by
      intro isIreturn hr
      obtain ⟨retValue, lastFrame, arena', -, hprev, -, hcases⟩ := doReturn_cases hr
      rcases hcases with ⟨hnone, -⟩ | ⟨caller, frame, -, -, hrest⟩
      · show st.frame.callers.length + 1 = 1
        rw [callers_of_prev_none (hprev ▸ hnone)]
        rfl
      · rcases hrest with ⟨code, s, -, hr', -⟩ | ⟨-, out', hr'⟩
        · cases hr'
        · injection hr' with hr'
          injection hr' with hr'
          cases hr'
    rcases stepCase_cases (stepCase_of_step_returned h) with ⟨hop, hr⟩ | ⟨hop, hr⟩ | ⟨hop, hi⟩
      | ⟨-, -, -, hl⟩
    · exact ⟨Or.inl hop, hret _ hr⟩
    · exact ⟨Or.inr hop, hret _ hr⟩
    · obtain ⟨byte1, byte2, functionSym, -, -, -, hcases⟩ := doInvokestatic_cases hi
      rcases hcases with ⟨-, _, _, _, -, hr, -⟩ | ⟨-, -, _, _, -, hr, -⟩
        | ⟨-, -, _, _, _, _, _, -, -, -, hrest⟩
      · cases hr
      · cases hr
      · rcases hrest with ⟨_, _, -, hr, -⟩ | ⟨-, _, hr⟩
        · cases hr
        · injection hr with hr
          injection hr with hr
          cases hr
    · rcases hl with hl | hl
      · exact absurd hl LocalStep.not_done
      · injection hl with hl
        injection hl with hl
        cases hl
  refine ⟨?_, hdone, ?_⟩
  · intro st st' h
    obtain ⟨h1, h2, h3⟩ := stepCase_liveFrames (stepCase_of_step h)
    refine ⟨fun hop => ?_, fun hop => ?_, fun a b c => ?_⟩
    · obtain ⟨byte1, byte2, functionSym, hb1, hb2, hfun, hsame, hmore⟩ := h1 hop
      refine ⟨byte1, byte2, functionSym, hb1, hb2, hfun, fun hn => ?_, fun hn1 hn2 => ?_⟩
      · show st'.frame.callers.length + 1 = st.frame.callers.length + 1
        rw [hsame hn]
      · obtain ⟨lastFrame, hl⟩ := hmore hn1 hn2
        show st'.frame.callers.length + 1 = st.frame.callers.length + 1 + 1
        rw [hl]
        rfl
    · obtain ⟨caller, hc⟩ := h2 hop
      show st'.frame.callers.length + 1 + 1 = st.frame.callers.length + 1
      rw [hc]
      rfl
    · show st'.frame.callers.length + 1 = st.frame.callers.length + 1
      rw [h3 a b c]
  · intro arena0 fuel out arena h
    unfold execute at h
    split at h
    · rename_i st0 henter
      have hrun : ∀ (fuel : Nat) (s : ExecState),
          run useArena clock bcModule fuel s = some (.returned 0 out arena) →
          ∃ n st, stepsFrom useArena clock bcModule n s = some st
            ∧ step useArena clock bcModule st = .done (.returned 0 out arena) := by
        intro fuel
        induction fuel with
        | zero => intro s hs; cases hs
        | succ fuel ih =>
          intro s hs
          rw [run] at hs
          split at hs
          · rename_i s' hstep
            obtain ⟨n, st, hn, hst⟩ := ih s' hs
            exact ⟨n + 1, st, by rw [stepsFrom_succ n hstep]; exact hn, hst⟩
          · rename_i outcome hstep
            injection hs with hs
            exact ⟨0, s, rfl, by rw [hstep, hs]⟩
      obtain ⟨n, st, hn, hst⟩ := hrun fuel st0 h
      refine ⟨st0, n, st, henter, ?_, hn, (hdone st out arena hst).2, hst⟩
      unfold enter at henter
      split at henter
      · cases henter
      · cases henter
      · rename_i functionSym _
        split at henter
        · cases henter
        · rename_i frame arena1 hcreate
          split at henter
          · cases henter
          · split at henter
            · cases henter
            · injection henter with henter
              subst henter
              show frame.callers.length + 1 = 1
              have hprev : frame.prev = none := by
                cases useArena
                · simp only [createStackFrame, Bool.false_eq_true, if_false,
                    Option.some.injEq, Prod.mk.injEq] at hcreate
                  rw [← hcreate.1]
                · simp only [createStackFrame, if_true, Option.bind_eq_bind,
                    Option.bind_eq_some, Option.some.injEq, Prod.mk.injEq] at hcreate
                  obtain ⟨_, -, hcreate, -⟩ := hcreate
                  rw [← hcreate]
              rw [callers_of_prev_none hprev]
              rfl
    · rename_i outcome henter
      injection h with h
      subst h
      unfold enter at henter
      split at henter
      · cases henter
      · injection henter with henter
        injection henter with henter
        cases henter
      · split at henter
        · cases henter
        · split at henter
          · injection henter with henter
            injection henter with henter
            cases henter
          · split at henter
            · cases henter
            · cases henter

/-- C26, amended: witness.  In the module of the user-call scenario without
the arena: the `invokestatic add` of `main` leaves two live frames where
there was one; four iterations later the `ireturn` of `add` leaves one where
there were two; and the `_return` of `main`, on which `execute` returns 0, is
executed with one live frame. -/
theorem frame_chain_length_witness :
    (∃ st', step false (fun _ => 0) (scenarioModule (mainFunction 0 (callCode 20 22)))
          addCallSite = .next st'
        ∧ addCallSite.liveFrames = 1 ∧ st'.liveFrames = addCallSite.liveFrames + 1)
    ∧ (∃ st', step false (fun _ => 0) (scenarioModule (mainFunction 0 (callCode 20 22)))
          (stateAfter false (fun _ => 0) (scenarioModule (mainFunction 0 (callCode 20 22))) 4
            addCallSite) = .next st'
        ∧ st'.liveFrames + 1
          = (stateAfter false (fun _ => 0) (scenarioModule (mainFunction 0 (callCode 20 22))) 4
              addCallSite).liveFrames
        ∧ st'.liveFrames = 1)
    ∧ (step false (fun _ => 0) (scenarioModule (mainFunction 0 (callCode 20 22)))
          (stateAfter false (fun _ => 0) (scenarioModule (mainFunction 0 (callCode 20 22))) 6
            addCallSite) = .done (.returned 0 ["42\n"] initArena)
        ∧ (stateAfter false (fun _ => 0) (scenarioModule (mainFunction 0 (callCode 20 22))) 6
            addCallSite).liveFrames = 1) := by
  have hlaw := frame_chain_length false (fun _ => 0)
    (scenarioModule (mainFunction 0 (callCode 20 22)))
  refine ⟨⟨_, rfl, rfl, ?_⟩, ⟨_, rfl, ?_, rfl⟩, rfl, ?_⟩
  · obtain ⟨byte1, byte2, functionSym, hb1, hb2, hfun, -, hmore⟩ :=
      (hlaw.1 addCallSite _ rfl).1 rfl
    have e1 : byte1 = 0 := by
      have : (some (0 : UInt8)) = some byte1 := hb1
      injection this with this
      exact this.symm
    have e2 : byte2 = 3 := by
      have : (some (3 : UInt8)) = some byte2 := hb2
      injection this with this
      exact this.symm
    subst e1 e2
    have e3 : functionSym = addFunction := by
      have : (some addFunction) = some functionSym := hfun
      injection this with this
      exact this.symm
    subst e3
    exact hmore rfl rfl
  · exact (hlaw.1 (stateAfter false (fun _ => 0)
      (scenarioModule (mainFunction 0 (callCode 20 22))) 4 addCallSite) _ rfl).2.1 (Or.inl rfl)
  · exact (hlaw.2.1 (stateAfter false (fun _ => 0)
      (scenarioModule (mainFunction 0 (callCode 20 22))) 6 addCallSite) ["42\n"] initArena rfl).2

/-! ## C27: the bound of the operand stack -/

theorem LocalOp.op_stackOk {capacity : Nat} {frame frame' : StackFrame}
    (hok : frame.StackOk capacity) (h : LocalOp frame frame') : frame'.StackOk capacity := by
  obtain ⟨hlen, top, htop, h0, h1⟩ := hok
  rcases h with ⟨value, h⟩ | ⟨value, h⟩ | ⟨i, value, h⟩
  · simp only [pushToOpStack, htop] at h
    split at h
    · rename_i hroom
      injection h with h
      rw [← h]
      refine ⟨by simp only [List.length_set]; exact hlen, top + 1, rfl, by omega, ?_⟩
      have := hroom.2
      rw [hlen] at this
      omega
    · cases h
  · simp only [popFromOpStack, htop] at h
    split at h
    · rename_i hpos
      split at h
      · injection h with h
        injection h with _ h
        rw [← h]
        exact ⟨hlen, top - 1, rfl, by omega, by omega⟩
      · cases h
    · cases h
  · unfold storeLocal at h
    split at h
    · injection h with h
      rw [← h]
      exact ⟨hlen, top, htop, h0, h1⟩
    · cases h

theorem LocalOps.ops_stackOk {capacity : Nat} {frame frame' : StackFrame}
    (hok : frame.StackOk capacity) (h : LocalOps frame frame') : frame'.StackOk capacity := by
  induction h with
  | refl => exact hok
  | tail _ hop ih => exact hop.op_stackOk ih

/-- Without the arena, the frame that `createStackFrame` returns has an empty
operand stack (`top = -1`) of `opStackSize` cells, no caller and the bytecode
of the function. -/
theorem createStackFrame_stackOk {arena arena' : Arena} {functionSym : FunctionSymbol}
    {frame : StackFrame}
    (h : createStackFrame false arena functionSym = some (frame, arena')) :
    frame.StackOk functionSym.opStackSize ∧ frame.prev = none
      ∧ frame.byteCode = functionSym.byteCode := by
  simp only [createStackFrame, Bool.false_eq_true, if_false, Option.some.injEq,
    Prod.mk.injEq] at h
  rw [← h.1]
  refine ⟨⟨?_, -1, rfl, by omega, by omega⟩, rfl, rfl⟩
  simp only [createOprandStack, List.length_replicate]

theorem functionConstAt_capacity {bcModule : BCModule} {index : Nat}
    {functionSym : FunctionSymbol} (hcap : bcModule.CapacityTwenty)
    (h : functionConstAt bcModule index = some functionSym) :
    functionSym.byteCode = none ∨ functionSym.opStackSize = 20 := by
  unfold functionConstAt at h
  split at h
  · rename_i f hget
    injection h with h
    subst h
    exact hcap.1 index _ hget
  · cases h

theorem StackOk_of_oprandStack {capacity : Nat} {frame frame' : StackFrame}
    (hok : frame.StackOk capacity) (h : frame'.oprandStack = frame.oprandStack) :
    frame'.StackOk capacity := by
  unfold StackFrame.StackOk at hok ⊢
  rw [h]
  exact hok

/-- Without the arena, in a module whose functions with bytecode have 20
cells, an iteration that goes on keeps every operand stack of the live frames
within `0 <= top + 1 <= 20`. -/
theorem step_stacksOk {clock : Nat → Int} {bcModule : BCModule} {st st' : ExecState}
    (hcap : bcModule.CapacityTwenty) (hok : st.StacksOk)
    (h : step false clock bcModule st = .next st') : st'.StacksOk := by
  obtain ⟨hcur, hcallers⟩ := hok
  rcases stepCase_cases (stepCase_of_step h) with ⟨-, hr⟩ | ⟨-, hr⟩ | ⟨-, hi⟩ | ⟨-, -, -, hl⟩
  · obtain ⟨retValue, lastFrame, arena, hpop, hprev, -, hcases⟩ := doReturn_cases hr
    rcases hcases with ⟨-, hr'⟩ | ⟨caller, frame, hcaller, hpush, hrest⟩
    · cases hr'
    · rcases hrest with ⟨code, s, -, hr', hf, -⟩ | ⟨-, out, hr'⟩
      · injection hr' with hr'
        subst hr'
        have hst : st.frame.callers = caller :: caller.callers :=
          callers_of_prev_some (hprev ▸ hcaller)
        have hc : caller.StackOk 20 := hcallers caller (by rw [hst]; exact List.mem_cons_self _ _)
        simp only [if_true] at hpush
        have hops : LocalOps caller frame := LocalOps.push hpush
        refine ⟨by rw [hf]; exact hops.ops_stackOk hc, fun f hfm => hcallers f ?_⟩
        rw [hf, callers_congr hops.ops_prev] at hfm
        rw [hst]
        exact List.mem_cons_of_mem _ hfm
      · cases hr'
  · obtain ⟨retValue, lastFrame, arena, hlast, hprev, -, hcases⟩ := doReturn_cases hr
    rcases hcases with ⟨-, hr'⟩ | ⟨caller, frame, hcaller, hframe, hrest⟩
    · cases hr'
    · rcases hrest with ⟨code, s, -, hr', hf, -⟩ | ⟨-, out, hr'⟩
      · injection hr' with hr'
        subst hr'
        have hst : st.frame.callers = caller :: caller.callers :=
          callers_of_prev_some (hprev ▸ hcaller)
        have hc : caller.StackOk 20 := hcallers caller (by rw [hst]; exact List.mem_cons_self _ _)
        simp only [Bool.false_eq_true, if_false] at hframe
        subst hframe
        refine ⟨by rw [hf]; exact hc, fun f hfm => hcallers f ?_⟩
        rw [hf] at hfm
        rw [hst]
        exact List.mem_cons_of_mem _ hfm
      · cases hr'
  · obtain ⟨byte1, byte2, functionSym, -, -, hfun, hcases⟩ := doInvokestatic_cases hi
    rcases hcases with ⟨-, param, frame, s, hpop, hr, hf, -⟩
      | ⟨-, -, frame, s, hpush, hr, hf, -⟩
      | ⟨-, -, frame0, arena, paramCount, frame, lastFrame, hcreate, -, hpass, hrest⟩
    · injection hr with hr
      subst hr
      have hops : LocalOps st.frame frame := LocalOps.pop hpop
      refine ⟨by rw [hf]; exact hops.ops_stackOk hcur, fun f hfm => hcallers f ?_⟩
      rw [hf, callers_congr hops.ops_prev] at hfm
      exact hfm
    · injection hr with hr
      subst hr
      have hops : LocalOps st.frame frame := LocalOps.push hpush
      refine ⟨by rw [hf]; exact hops.ops_stackOk hcur, fun f hfm => hcallers f ?_⟩
      rw [hf, callers_congr hops.ops_prev] at hfm
      exact hfm
    · rcases hrest with ⟨code, s, hcode, hr, hf, -⟩ | ⟨-, out, hr⟩
      · injection hr with hr
        subst hr
        obtain ⟨hok0, -, hbc0⟩ := createStackFrame_stackOk hcreate
        obtain ⟨hops1, hops2⟩ := passParams_localOps _ _ _ _ _ hpass
        have hsize : functionSym.opStackSize = 20 := by
          rcases functionConstAt_capacity hcap hfun with hnone | h20
          · rw [hops1.ops_byteCode.1, hbc0, hnone] at hcode
            cases hcode
          · exact h20
        rw [hsize] at hok0
        have hbase : ({ st.frame with returnIndex := st.codeIndex + 2 + 1 } : StackFrame).StackOk
            20 := StackOk_of_oprandStack hcur rfl
        have hlast : lastFrame.StackOk 20 := hops2.ops_stackOk hbase
        have hprev : st'.frame.prev = some lastFrame := by rw [hf]
        have hchain : ({ st.frame with returnIndex := st.codeIndex + 2 + 1 } : StackFrame).callers
            = st.frame.callers := callers_congr rfl
        refine ⟨StackOk_of_oprandStack (hops1.ops_stackOk hok0) (by rw [hf]), fun f hfm => ?_⟩
        rw [callers_of_prev_some hprev, callers_congr hops2.ops_prev, hchain] at hfm
        rcases List.mem_cons.1 hfm with rfl | hfm
        · exact hlast
        · exact hcallers f hfm
      · cases hr
  · rcases hl with hl | hl
    · obtain ⟨hops, -⟩ := hl.next
      refine ⟨hops.ops_stackOk hcur, fun f hfm => hcallers f ?_⟩
      rw [callers_congr hops.ops_prev] at hfm
      exact hfm
    · cases hl

theorem enter_stacksOk {arena : Arena} {bcModule : BCModule} {st : ExecState}
    (hcap : bcModule.CapacityTwenty) (h : enter false arena bcModule = .next st) :
    st.StacksOk := by
  unfold enter at h
  split at h
  · cases h
  · cases h
  · rename_i functionSym hmain
    split at h
    · cases h
    · rename_i frame arena1 hcreate
      split at h
      · cases h
      · split at h
        · cases h
        · injection h with h
          subst h
          obtain ⟨hok, hprev, -⟩ := createStackFrame_stackOk hcreate
          rw [hcap.2 functionSym hmain] at hok
          refine ⟨hok, fun f hfm => ?_⟩
          have : frame.callers = [] := callers_of_prev_none hprev
          simp only [this, List.not_mem_nil] at hfm

theorem stepsFrom_stacksOk {clock : Nat → Int} {bcModule : BCModule}
    (hcap : bcModule.CapacityTwenty) :
    ∀ (n : Nat) (st st' : ExecState), st.StacksOk →
      stepsFrom false clock bcModule n st = some st' → st'.StacksOk := by
  intro n
  induction n with
  | zero =>
    intro st st' hok h
    simp only [stepsFrom, Option.some.injEq] at h
    exact h ▸ hok
  | succ n ih =>
    intro st st' hok h
    rw [stepsFrom] at h
    split at h
    · rename_i s hstep
      exact ih s st' (step_stacksOk hcap hok hstep) h
    · cases h

theorem readFunctionSymbol_opStackSize {bc : List UInt8} {index numTypes : Nat}
    {typeNames : List (Option String)} {types : List (Ptr PType)}
    {functionSym : FunctionSymbol} {index' : Nat}
    (h : readFunctionSymbol bc index numTypes typeNames types = some (functionSym, index')) :
    functionSym.opStackSize = 20 := by
  simp only [readFunctionSymbol, Option.bind_eq_bind, Option.bind_eq_some] at h
  obtain ⟨_, -, _, -, _, -, _, -, _, -, _, -, _, -, h⟩ := h
  split at h
  · simp only [Option.some_bind, Option.some.injEq, Prod.mk.injEq] at h
    rw [← h.1]
    rfl
  · simp only [Option.bind_eq_some, Option.some_bind, Option.some.injEq, Prod.mk.injEq] at h
    obtain ⟨_, -, h, -⟩ := h
    rw [← h]
    rfl

theorem store_getElem? {α : Type} {array array' : List α} {i : Nat} {x : α}
    (h : store array i x = some array') (j : Nat) (y : α) (hj : array'[j]? = some y) :
    y = x ∨ array[j]? = some y := by
  unfold store at h
  split at h
  · injection h with h
    subst h
    by_cases hij : i = j
    · subst hij
      rw [List.getElem?_set_self (by assumption)] at hj
      injection hj with hj
      exact Or.inl hj.symm
    · rw [List.getElem?_set_ne hij] at hj
      exact Or.inr hj
  · cases h

/-- The functions that the loop over the constants puts in the pool have an
operand stack of 20 cells, and so has the function that it leaves in
`_main`. -/
theorem readConsts_capacity (bc : List UInt8) (numTypes : Nat)
    (typeNames : List (Option String)) (types : List (Ptr PType)) :
    ∀ (n i : Nat) (st st' : ConstsState),
      readConsts bc numTypes typeNames types n i st = some st' →
      ((∀ (j : Nat) (f : FunctionSymbol), st.consts[j]? = some (.to (.FunctionConst f)) →
          f.byteCode = none ∨ f.opStackSize = 20)
        ∧ ∀ f : FunctionSymbol, st._main = .to f → f.opStackSize = 20) →
      ((∀ (j : Nat) (f : FunctionSymbol), st'.consts[j]? = some (.to (.FunctionConst f)) →
          f.byteCode = none ∨ f.opStackSize = 20)
        ∧ ∀ f : FunctionSymbol, st'._main = .to f → f.opStackSize = 20) := by
  intro n
  induction n with
  | zero =>
    intro i st st' h hinv
    simp only [readConsts, Option.some.injEq] at h
    exact h ▸ hinv
  | succ n ih =>
    intro i st st' h hinv
    simp only [readConsts, Option.bind_eq_bind, Option.bind_eq_some] at h
    obtain ⟨constType, -, h⟩ := h
    split at h
    · simp only [Option.bind_eq_some, Option.some_bind] at h
      obtain ⟨value, -, consts, hstore, hrest⟩ := h
      refine ih (i + 1) _ st' hrest ⟨fun j f hj => ?_, hinv.2⟩
      rcases store_getElem? hstore j _ hj with hx | hold
      · cases hx
      · exact hinv.1 j f hold
    · split at h
      · simp only [Option.bind_eq_some, Option.some_bind] at h
        obtain ⟨⟨strValue, index⟩, -, consts, hstore, hrest⟩ := h
        refine ih (i + 1) _ st' hrest ⟨fun j f hj => ?_, hinv.2⟩
        rcases store_getElem? hstore j _ hj with hx | hold
        · cases hx
        · exact hinv.1 j f hold
      · split at h
        · simp only [Option.bind_eq_some, Option.some_bind] at h
          obtain ⟨⟨functionSym, index⟩, hread, consts, hstore, hrest⟩ := h
          have h20 := readFunctionSymbol_opStackSize hread
          refine ih (i + 1) _ st' hrest ⟨fun j f hj => ?_, fun f hf => ?_⟩
          · rcases store_getElem? hstore j _ hj with hx | hold
            · injection hx with hx
              injection hx with hx
              rw [hx]
              exact Or.inr h20
            · exact hinv.1 j f hold
          · dsimp only at hf
            split at hf
            · injection hf with hf
              rw [← hf]
              exact h20
            · exact hinv.2 f hf
        · simp only [Option.some_bind] at h
          exact ih (i + 1) _ st' h hinv

/-- In every module that the loader returns, whatever the stream, every
function of the pool that has bytecode has an operand stack of 20 cells, and
so has `main`. -/
theorem readBCModule_capacity {bc : List UInt8} {bcModule : BCModule} {out : List String}
    (h : readBCModule bc = some (bcModule, out)) : bcModule.CapacityTwenty := by
  simp only [readBCModule, Option.bind_eq_bind, Option.bind_eq_some, Option.some.injEq,
    Prod.mk.injEq] at h
  obtain ⟨_, -, numTypes, -, st, -, types, -, _, -, numConsts, -, st', hconsts, hm, -⟩ := h
  have hinv := readConsts_capacity bc _ _ _ _ _ _ _ hconsts ⟨fun j f hj => ?_, fun f hf => ?_⟩
  · rw [← hm]
    exact hinv
  · left
    dsimp only at hj
    by_cases hlt : j < addSystemFunctions.length
    · rw [List.getElem?_append_left hlt] at hj
      have h3 : j < 3 := hlt
      interval_cases j
      · injection hj with hj; injection hj with hj; injection hj with hj; rw [← hj]; rfl
      · injection hj with hj; injection hj with hj; injection hj with hj; rw [← hj]; rfl
      · injection hj with hj; injection hj with hj; injection hj with hj; rw [← hj]; rfl
    · rw [List.getElem?_append_right (not_lt.1 hlt)] at hj
      rcases List.getElem?_eq_some_iff.1 hj with ⟨_, hj'⟩
      rw [List.getElem_replicate] at hj'
      cases hj'
  · cases hf

/-- C27, as stated, fails, without the arena, on the module loaded from the
stream whose `main` is 21 times `iconst_0`, then `_return`: after 20
iterations the 20 cells of the operand stack are in use (`top = 19`) and the
next instruction is an `iconst_0`, whose push, `data[++top] = value`, is
outside the array; and on the module loaded from the stream whose `main` is
`istore_0; _return`: the pop of `istore_0`, `data[top--]` with `top = -1`,
reads outside the array.  Neither the loader nor `execute` checks, and C
places no requirement on such an access. -/
theorem push_and_pop_outside_operand_stack :
    (∃ m st0 st,
      readBCModule (encodeModule overflowDecl) = some (m, [])
      ∧ enter false initArena m = .next st0
      ∧ stepsFrom false (fun _ => 0) m 20 st0 = some st
      ∧ st.frame.oprandStack.data.length = 20 ∧ st.frame.oprandStack.top = some 19
      ∧ OpCode.ofByte st.opCode = some .iconst_0
      ∧ pushToOpStack st.frame 0 = none
      ∧ step false (fun _ => 0) m st = .done .undefined
      ∧ execute false (fun _ => 0) initArena m 21 = some .undefined)
    ∧ (∃ m st0,
      readBCModule (encodeModule underflowDecl) = some (m, [])
      ∧ enter false initArena m = .next st0
      ∧ st0.frame.oprandStack.data.length = 20 ∧ st0.frame.oprandStack.top = some (-1)
      ∧ OpCode.ofByte st0.opCode = some .istore_0
      ∧ popFromOpStack st0.frame = none
      ∧ step false (fun _ => 0) m st0 = .done .undefined
      ∧ execute false (fun _ => 0) initArena m 1 = some .undefined) := by
  have h1 := readBCModule_encodeModule overflowDecl [] (by decide) (by decide)
  have h2 := readBCModule_encodeModule underflowDecl [] (by decide) (by decide)
  rw [List.append_nil] at h1 h2
  exact ⟨⟨loadedModule overflowDecl, _, _, h1, rfl, rfl, rfl, rfl, rfl, rfl, rfl, rfl⟩,
    ⟨loadedModule underflowDecl, _, h2, rfl, rfl, rfl, rfl, rfl, rfl, rfl⟩⟩

/-- C27, amended.  Without the arena, where `createStackFrame` sets `top =
-1`: for every module that the loader returns, whatever the stream, in every
state that `execute` reaches from the frame of `main`, the operand stack of
the current frame and that of every frame linked from it have 20 cells and
`0 <= top + 1 <= 20`.  Nothing checks the bound: in such a state a push with
`top + 1 = 20` and a pop with `top + 1 = 0` are outside the array (no
iteration follows). -/
theorem operand_stack_within_capacity (bc : List UInt8) (bcModule : BCModule)
    (out : List String) (clock : Nat → Int) (arena : Arena) (st0 st : ExecState) (n : Nat)
    (hload : readBCModule bc = some (bcModule, out))
    (henter : enter false arena bcModule = .next st0)
    (hrun : stepsFrom false clock bcModule n st0 = some st) :
    st.StacksOk
    ∧ (st.frame.oprandStack.top = some 19 → ∀ value, pushToOpStack st.frame value = none)
    ∧ (st.frame.oprandStack.top = some (-1) → popFromOpStack st.frame = none) := by
  have hcap := readBCModule_capacity hload
  have hok := stepsFrom_stacksOk hcap n st0 st (enter_stacksOk hcap henter) hrun
  refine ⟨hok, fun htop value => ?_, fun htop => ?_⟩
  · have hlen := hok.1.1
    simp only [pushToOpStack, htop, hlen]
    rfl
  · simp only [popFromOpStack, htop]
    rfl

/-- C27, amended: witness.  The module loaded from the stream whose `main` is
21 times `iconst_0`, after the 20 pushes that fit. -/
theorem operand_stack_within_capacity_witness :
    (stateAfter false (fun _ => 0) (loadedModule overflowDecl) 20
        (mainState (List.replicate 21 0x03 ++ [0xb1]) 0 0x03 [] [])).StacksOk
    ∧ ((stateAfter false (fun _ => 0) (loadedModule overflowDecl) 20
          (mainState (List.replicate 21 0x03 ++ [0xb1]) 0 0x03 [] [])).frame.oprandStack.top
        = some 19 →
        ∀ value, pushToOpStack (stateAfter false (fun _ => 0) (loadedModule overflowDecl) 20
          (mainState (List.replicate 21 0x03 ++ [0xb1]) 0 0x03 [] [])).frame value = none)
    ∧ ((stateAfter false (fun _ => 0) (loadedModule overflowDecl) 20
          (mainState (List.replicate 21 0x03 ++ [0xb1]) 0 0x03 [] [])).frame.oprandStack.top
        = some (-1) →
        popFromOpStack (stateAfter false (fun _ => 0) (loadedModule overflowDecl) 20
          (mainState (List.replicate 21 0x03 ++ [0xb1]) 0 0x03 [] [])).frame = none) :=
  operand_stack_within_capacity (encodeModule overflowDecl) (loadedModule overflowDecl) []
    (fun _ => 0) initArena (mainState (List.replicate 21 0x03 ++ [0xb1]) 0 0x03 [] []) _ 20
    (by
      have h := readBCModule_encodeModule overflowDecl [] (by decide) (by decide)
      rw [List.append_nil] at h
      exact h)
    rfl rfl

/-! ## Allocations and returns in last-in, first-out order -/

theorem BlockAgree.block_refl (x : ArenaBlock) : BlockAgree x x :=
  ⟨rfl, rfl, fun _ _ => rfl⟩

theorem BlockAgree.block_trans {x y z : ArenaBlock} (h1 : BlockAgree x y) (h2 : BlockAgree y z) :
    BlockAgree x z := by
  obtain ⟨s1, o1, w1⟩ := h1
  obtain ⟨s2, o2, w2⟩ := h2
  refine ⟨s2.trans s1, o2.trans o1, fun k hk => ?_⟩
  rw [w2 k (by rw [o1]; exact hk), w1 k hk]

theorem Arena.Agree.arena_refl (a : Arena) : a.Agree a :=
  ⟨rfl, fun _ x _ h => ⟨x, h, BlockAgree.block_refl x⟩⟩

theorem Arena.Agree.arena_trans {a b c : Arena} (h1 : a.Agree b) (h2 : b.Agree c) : a.Agree c := by
  obtain ⟨p1, b1⟩ := h1
  obtain ⟨p2, b2⟩ := h2
  refine ⟨p2.trans p1, fun i x hi hx => ?_⟩
  obtain ⟨y, hy, hxy⟩ := b1 i x hi hx
  obtain ⟨z, hz, hyz⟩ := b2 i y (by rw [p1]; exact hi) hy
  exact ⟨z, hz, hxy.block_trans hyz⟩

theorem Arena.blockAt_natCast (a : Arena) (i : Nat) : a.blockAt (i : Int) = a.blocks[i]? := by
  simp only [Arena.blockAt, Int.natCast_nonneg, if_true, Int.toNat_ofNat]

theorem Arena.WellFormed.current {a : Arena} (h : a.WellFormed) :
    ∃ (p : Nat) (cur : ArenaBlock), a.pos = (p : Int) ∧ a.blocks[p]? = some cur
      ∧ a.blockAt a.pos = some cur := by
  obtain ⟨h0, hlt, -, -⟩ := h
  obtain ⟨p, hp⟩ := Int.eq_ofNat_of_zero_le h0
  rw [hp, Int.toNat_ofNat] at hlt
  refine ⟨p, a.blocks[p], hp, List.getElem?_eq_getElem hlt, ?_⟩
  rw [hp, Arena.blockAt_natCast, List.getElem?_eq_getElem hlt]

theorem Arena.Agree.live {a b : Arena} (h : a.Agree b) (hwf : a.WellFormed) (hl : a.Live) :
    b.Live := by
  obtain ⟨p, cur, hp, hcur, hat⟩ := hwf.current
  obtain ⟨cur', hat', hpos⟩ := hl
  rw [hat] at hat'
  injection hat' with hat'
  subst hat'
  obtain ⟨y, hy, -, ho, -⟩ := h.2 p cur (by rw [hp]) hcur
  refine ⟨y, ?_, by rw [ho]; exact hpos⟩
  rw [h.1, hp, Arena.blockAt_natCast]
  exact hy

theorem Arena.setBlock_blocks (a : Arena) (i : Nat) (block : ArenaBlock) :
    (a.setBlock (i : Int) block).blocks = a.blocks.set i block := by
  simp only [Arena.setBlock, Int.toNat_ofNat]

/-- What `allocFromArena` does to a well-formed arena: the memory is taken
from the block `q`, the current block or the one after it, which it leaves
`pushed`; the other blocks are left as they are, and a block may be appended.
When the block `q` is the one after the current block, it held nothing. -/
theorem allocFromArena_push {a a1 : Arena} {n : Nat} {mem : ArenaPtr} (hwf : a.WellFormed)
    (h : allocFromArena a n = some (mem, a1)) :
    ∃ (p q : Nat) (x : ArenaBlock), a.pos = (p : Int) ∧ a1.pos = (q : Int)
      ∧ a.blocks[q]? = some x ∧ a1.blocks[q]? = some (x.pushed n)
      ∧ (∀ i, i ≠ q → i < a.blocks.length → a1.blocks[i]? = a.blocks[i]?)
      ∧ (q = p ∨ (q = p + 1 ∧ x.offset = 0))
      ∧ a1.WellFormed := by
  obtain ⟨p, cur, hp, hcur, hat⟩ := hwf.current
  obtain ⟨h0, hlt, hnum, hlater⟩ := hwf
  have hplt : p < a.blocks.length := by
    rw [hp, Int.toNat_ofNat] at hlt
    exact hlt
  by_cases hfit : cur.offset + n + sizeof_size_t ≤ cur.size
  · rw [allocFromArena_of_fits n hat hfit] at h
    injection h with h
    injection h with _ h
    subst h
    refine ⟨p, p, cur, hp, hp, hcur, ?_, ?_, Or.inl rfl, ?_⟩
    · rw [hp, Arena.setBlock_blocks, List.getElem?_set_self hplt]
      rfl
    · intro i hi _
      rw [hp, Arena.setBlock_blocks, List.getElem?_set_ne (Ne.symm hi)]
    · refine ⟨h0, ?_, ?_, ?_⟩
      · rw [hp, Arena.setBlock_blocks, List.length_set]
        exact hlt
      · rw [hp, Arena.setBlock_blocks, List.length_set]
        exact hnum
      · intro i block hi hb
        have hi' : a.pos < (i : Int) := hi
        rw [hp, Arena.setBlock_blocks, List.getElem?_set_ne (by
          intro e; rw [hp, e] at hi'; exact absurd hi' (lt_irrefl _))] at hb
        exact hlater i block hi' hb
  · have hfit' := not_le.1 hfit
    by_cases hpos : a.pos < (a.numBlocks : Int) - 1
    · have hq : p + 1 < a.blocks.length := by
        rw [hp, hnum] at hpos
        omega
      have hlaterb : a.blocks[p + 1]? = some a.blocks[p + 1] := List.getElem?_eq_getElem hq
      have hat1 : a.blockAt (a.pos + 1) = some a.blocks[p + 1] := by
        rw [hp, show ((p : Int) + 1) = ((p + 1 : Nat) : Int) by push_cast; rfl,
          Arena.blockAt_natCast]
        exact hlaterb
      have hempty : (a.blocks[p + 1]).offset = 0 :=
        hlater (p + 1) _ (by rw [hp]; push_cast; omega) hlaterb
      rw [allocFromArena_of_later_block n hat hfit' hpos hat1] at h
      injection h with h
      injection h with _ h
      subst h
      have hcast : a.pos + 1 = ((p + 1 : Nat) : Int) := by rw [hp]; push_cast; rfl
      refine ⟨p, p + 1, a.blocks[p + 1], hp, hcast, hlaterb, ?_, ?_, Or.inr ⟨rfl, hempty⟩, ?_⟩
      · rw [hcast, Arena.setBlock_blocks]
        show (a.blocks.set (p + 1) _)[p + 1]? = _
        rw [List.getElem?_set_self hq]
        rfl
      · intro i hi _
        rw [hcast, Arena.setBlock_blocks]
        show (a.blocks.set (p + 1) _)[i]? = _
        rw [List.getElem?_set_ne (Ne.symm hi)]
      · refine ⟨?_, ?_, ?_, ?_⟩
        · show 0 ≤ a.pos + 1
          omega
        · rw [hcast, Arena.setBlock_blocks]
          show ((p + 1 : Nat) : Int).toNat < (a.blocks.set (p + 1) _).length
          rw [Int.toNat_ofNat, List.length_set]
          exact hq
        · rw [hcast, Arena.setBlock_blocks]
          show a.numBlocks = (a.blocks.set (p + 1) _).length
          rw [List.length_set]
          exact hnum
        · intro i block hi hb
          have hi' : a.pos + 1 < (i : Int) := hi
          rw [hcast, Arena.setBlock_blocks] at hb
          have hb' : (a.blocks.set (p + 1) _)[i]? = some block := hb
          rw [List.getElem?_set_ne (by
            intro e; rw [hcast, e] at hi'; exact absurd hi' (lt_irrefl _))] at hb'
          exact hlater i block (by omega) hb'
    · rw [allocFromArena_of_last_block n hat hfit' hpos] at h
      injection h with h
      injection h with _ h
      subst h
      have hblocks : ((addArenaBlock a ARENA_BLOCK_SIZE).setBlock a.pos
          { size := cur.size, offset := cur.offset + n + sizeof_size_t
            words := Function.update cur.words
              (blockPlus (sizeof_ArenaBlock + (cur.offset + n))) (some cur.offset) }).blocks
          = a.blocks.set p (cur.pushed n)
            ++ [{ size := ARENA_BLOCK_SIZE, offset := 0, words := fun _ => none }] := by
        rw [hp, Arena.setBlock_blocks]
        show (a.blocks ++ _).set p _ = _
        rw [List.set_append_left _ _ hplt]
        rfl
      refine ⟨p, p, cur, hp, hp, hcur, ?_, ?_, Or.inl rfl, ?_⟩
      · rw [hblocks, List.getElem?_append_left (by rw [List.length_set]; exact hplt),
          List.getElem?_set_self hplt]
      · intro i hi hil
        rw [hblocks, List.getElem?_append_left (by rw [List.length_set]; exact hil),
          List.getElem?_set_ne (Ne.symm hi)]
      · refine ⟨h0, ?_, ?_, ?_⟩
        · rw [hblocks, List.length_append, List.length_set]
          exact Nat.lt_add_right _ hlt
        · rw [hblocks, List.length_append, List.length_set]
          show a.numBlocks + 1 = _
          rw [hnum]
          rfl
        · intro i block hi hb
          have hi' : a.pos < (i : Int) := hi
          have hne : p ≠ i := by
            intro e; rw [hp, e] at hi'; exact absurd hi' (lt_irrefl _)
          rw [hblocks] at hb
          by_cases hil : i < a.blocks.length
          · rw [List.getElem?_append_left (by rw [List.length_set]; exact hil),
              List.getElem?_set_ne hne] at hb
            exact hlater i block hi' hb
          · rw [List.getElem?_append_right (by rw [List.length_set]; exact not_lt.1 hil)] at hb
            rw [List.length_set] at hb
            cases hk : i - a.blocks.length with
            | zero =>
              rw [hk] at hb
              injection hb with hb
              rw [← hb]
              rfl
            | succ k =>
              rw [hk] at hb
              cases hb

theorem ArenaBlock.pushed_word (x : ArenaBlock) (n : Nat) :
    (x.pushed n).words (blockPlus (sizeof_Arena + (x.pushed n).offset - sizeof_size_t))
      = some x.offset := by
  have e : sizeof_Arena + (x.pushed n).offset - sizeof_size_t
      = sizeof_ArenaBlock + (x.offset + n) := by
    simp only [ArenaBlock.pushed, sizeof_Arena, sizeof_ArenaBlock, sizeof_size_t]
    omega
  rw [e]
  exact Function.update_same _ _ _

theorem ArenaBlock.pushed_below (x : ArenaBlock) (n k : Nat)
    (hk : k < blockPlus (sizeof_ArenaBlock + x.offset)) : (x.pushed n).words k = x.words k := by
  apply Function.update_noteq
  simp only [blockPlus, sizeof_ArenaBlock] at hk ⊢
  omega

theorem blockPlus_lt_pushed (x : ArenaBlock) (n : Nat) :
    blockPlus (sizeof_Arena + (x.pushed n).offset - sizeof_size_t)
      < blockPlus (sizeof_ArenaBlock + (x.pushed n).offset) := by
  simp only [blockPlus, ArenaBlock.pushed, sizeof_Arena, sizeof_ArenaBlock, sizeof_size_t]
  omega

theorem allocFromArena_live {a a1 : Arena} {n : Nat} {mem : ArenaPtr} (hwf : a.WellFormed)
    (h : allocFromArena a n = some (mem, a1)) : a1.Live := by
  obtain ⟨p, q, x, -, hq, -, hx1, -, -, -⟩ := allocFromArena_push hwf h
  refine ⟨x.pushed n, by rw [hq, Arena.blockAt_natCast]; exact hx1, ?_⟩
  simp only [ArenaBlock.pushed, sizeof_size_t]
  omega

/-- The return that matches an allocation.  When `allocFromArena` has led from
the arena `a`, whose current block holds an allocation, to `a1`, and the arena
`b` has the allocations of `a1`, then `returnToArena` on `b` is defined and
leads to an arena that has the allocations of `a`: the same `pos`, and the
same offsets in the blocks up to it. -/
theorem returnToArena_after_alloc {a a1 b : Arena} {n : Nat} {mem : ArenaPtr}
    (hwf : a.WellFormed) (hlive : a.Live) (h : allocFromArena a n = some (mem, a1))
    (hagree : a1.Agree b) (hwfb : b.WellFormed) :
    ∃ c, returnToArena b = some c ∧ a.Agree c ∧ c.WellFormed := by
  obtain ⟨p, q, x, hp, hq, hx, hx1, hother, hpq, hwf1⟩ := allocFromArena_push hwf h
  obtain ⟨hbpos, hbelow⟩ := hagree
  obtain ⟨y, hy, hysize, hyoff, hywords⟩ := hbelow q (x.pushed n) (by rw [hq]) hx1
  obtain ⟨hb0, hblt, hbnum, hblater⟩ := hwfb
  have hbq : b.pos = (q : Int) := hbpos.trans hq
  have hqlt : q < b.blocks.length := by
    rw [hbq, Int.toNat_ofNat] at hblt
    exact hblt
  have hword : y.words (blockPlus (sizeof_Arena + y.offset - sizeof_size_t)) = some x.offset := by
    rw [hyoff, hywords _ (blockPlus_lt_pushed x n), ArenaBlock.pushed_word]
  have hat : b.blockAt b.pos = some y := by
    rw [hbq, Arena.blockAt_natCast]
    exact hy
  have hret : returnToArena b
      = if x.offset = 0 then
          some { b.setBlock b.pos { y with offset := x.offset } with pos := b.pos - 1 }
        else some (b.setBlock b.pos { y with offset := x.offset }) := by
    simp only [returnToArena, hat, Option.bind_eq_bind, Option.some_bind, hword]
    rfl
  have hblocks : (b.setBlock b.pos { y with offset := x.offset }).blocks
      = b.blocks.set q { y with offset := x.offset } := by
    rw [hbq, Arena.setBlock_blocks]
  have hsame : ∀ (i : Nat) (z : ArenaBlock), i ≠ q → (i : Int) ≤ a.pos →
      a.blocks[i]? = some z →
      ∃ w, (b.blocks.set q { y with offset := x.offset })[i]? = some w ∧ BlockAgree z w := by
    intro i z hi hle hz
    have hil : i < a.blocks.length := (List.getElem?_eq_some_iff.1 hz).1
    have hle1 : (i : Int) ≤ a1.pos := by
      rw [hq]
      rw [hp] at hle
      rcases hpq with e | ⟨e, -⟩ <;> rw [e] <;> push_cast <;> omega
    obtain ⟨w, hw, hzw⟩ := hbelow i z hle1 (by rw [hother i hi hil]; exact hz)
    exact ⟨w, by rw [List.getElem?_set_ne (Ne.symm hi)]; exact hw, hzw⟩
  rcases hpq with e | ⟨e, hempty⟩
  · subst e
    obtain ⟨cur, hcur, hpos⟩ := hlive
    rw [hp, Arena.blockAt_natCast, hx] at hcur
    injection hcur with hcur
    subst hcur
    have hne : x.offset ≠ 0 := Nat.pos_iff_ne_zero.1 hpos
    rw [if_neg hne] at hret
    refine ⟨_, hret, ⟨hbq.trans hp.symm, fun i z hle hz => ?_⟩, ⟨hb0, ?_, ?_, ?_⟩⟩
    · rw [hblocks]
      by_cases hi : i = q
      · subst hi
        rw [hx] at hz
        injection hz with hz
        subst hz
        refine ⟨_, List.getElem?_set_self hqlt, hysize, rfl, fun k hk => ?_⟩
        show y.words k = x.words k
        rw [hywords k (by
          simp only [blockPlus, ArenaBlock.pushed, sizeof_ArenaBlock] at hk ⊢
          omega), ArenaBlock.pushed_below x n k hk]
      · exact hsame i z hi hle hz
    · rw [hblocks, List.length_set]
      exact hblt
    · rw [hblocks, List.length_set]
      exact hbnum
    · intro i block hi hb
      have hi' : b.pos < (i : Int) := hi
      rw [hblocks, List.getElem?_set_ne (by
        intro e; rw [hbq, e] at hi'; exact absurd hi' (lt_irrefl _))] at hb
      exact hblater i block hi' hb
  · subst e
    rw [if_pos hempty] at hret
    have hpos' : b.pos - 1 = (p : Int) := by
      rw [hbq]
      push_cast
      omega
    refine ⟨_, hret, ⟨hpos'.trans hp.symm, fun i z hle hz => ?_⟩, ⟨?_, ?_, ?_, ?_⟩⟩
    · show ∃ w, (b.setBlock b.pos { y with offset := x.offset }).blocks[i]? = some w ∧ _
      rw [hblocks]
      refine hsame i z ?_ hle hz
      intro e
      rw [hp, e] at hle
      push_cast at hle
      omega
    · show 0 ≤ b.pos - 1
      rw [hpos']
      exact Int.natCast_nonneg p
    · show (b.pos - 1).toNat < (b.setBlock b.pos { y with offset := x.offset }).blocks.length
      rw [hpos', Int.toNat_ofNat, hblocks, List.length_set]
      omega
    · show b.numBlocks = (b.setBlock b.pos { y with offset := x.offset }).blocks.length
      rw [hblocks, List.length_set]
      exact hbnum
    · intro i block hi hb
      have hi' : b.pos - 1 < (i : Int) := hi
      have hb' : (b.setBlock b.pos { y with offset := x.offset }).blocks[i]? = some block := hb
      rw [hblocks] at hb'
      by_cases hiq : i = p + 1
      · subst hiq
        rw [List.getElem?_set_self hqlt] at hb'
        injection hb' with hb'
        rw [← hb']
        exact hempty
      · rw [List.getElem?_set_ne (Ne.symm hiq)] at hb'
        refine hblater i block ?_ hb'
        rw [hbq]
        rw [hpos'] at hi'
        push_cast
        omega

theorem createStackFrame_alloc {arena arena' : Arena} {functionSym : FunctionSymbol}
    {frame : StackFrame}
    (h : createStackFrame true arena functionSym = some (frame, arena')) :
    ∃ mem, allocFromArena arena functionSym.frameSize = some (mem, arena') := by
  simp only [createStackFrame, if_true, Option.bind_eq_bind, Option.bind_eq_some,
    Option.some.injEq, Prod.mk.injEq] at h
  obtain ⟨⟨mem, arena1⟩, halloc, -, harena⟩ := h
  exact ⟨mem, by rw [halloc, ← harena]⟩

/-- Under `USE_ARENA`, an iteration that goes on leaves the frames and the
arena as they are, or adds a frame for which it calls `allocFromArena`, or
deletes the current frame, for which it calls `returnToArena`. -/
theorem step_arena_effect {clock : Nat → Int} {bcModule : BCModule} {st st' : ExecState}
    (h : step true clock bcModule st = .next st') :
    (st'.frame.callers = st.frame.callers ∧ st'.arena = st.arena)
    ∨ (∃ lastFrame n mem, st'.frame.callers = lastFrame :: st.frame.callers
        ∧ allocFromArena st.arena n = some (mem, st'.arena))
    ∨ (∃ caller, st.frame.callers = caller :: st'.frame.callers
        ∧ returnToArena st.arena = some st'.arena) := by
  have hs := stepCase_of_step h
  obtain ⟨hcall, hretn, hsame⟩ := stepCase_liveFrames hs
  have hret : ∀ isIreturn, doReturn true st isIreturn = some (.next st') →
      returnToArena st.arena = some st'.arena := by
    intro isIreturn hr
    obtain ⟨retValue, lastFrame, arena, -, -, hdel, hcases⟩ := doReturn_cases hr
    rcases hcases with ⟨-, hr'⟩ | ⟨caller, frame, -, -, hrest⟩
    · cases hr'
    · rcases hrest with ⟨code, s, -, hr', -, ha, -⟩ | ⟨-, out, hr'⟩
      · injection hr' with hr'
        subst hr'
        rw [ha]
        exact hdel
      · cases hr'
  rcases stepCase_cases hs with ⟨hop, hr⟩ | ⟨hop, hr⟩ | ⟨hop, hi⟩ | ⟨h1, h2, h3, hl⟩
  · obtain ⟨caller, hc⟩ := hretn (Or.inl hop)
    exact Or.inr (Or.inr ⟨caller, hc, hret _ hr⟩)
  · obtain ⟨caller, hc⟩ := hretn (Or.inr hop)
    exact Or.inr (Or.inr ⟨caller, hc, hret _ hr⟩)
  · obtain ⟨byte1, byte2, functionSym, -, -, -, hcases⟩ := doInvokestatic_cases hi
    rcases hcases with ⟨-, param, frame, s, hpop, hr, hf, ha, -⟩
      | ⟨-, -, frame, s, hpush, hr, hf, ha, -⟩
      | ⟨-, -, frame0, arena, paramCount, frame, lastFrame, hcreate, -, hpass, hrest⟩
    · injection hr with hr
      subst hr
      exact Or.inl ⟨callers_congr (by rw [hf]; exact popFromOpStack_prev hpop), ha⟩
    · injection hr with hr
      subst hr
      exact Or.inl ⟨callers_congr (by rw [hf]; exact pushToOpStack_prev hpush), ha⟩
    · rcases hrest with ⟨code, s, -, hr, hf, ha, -⟩ | ⟨-, out, hr⟩
      · injection hr with hr
        subst hr
        obtain ⟨mem, halloc⟩ := createStackFrame_alloc hcreate
        refine Or.inr (Or.inl ⟨lastFrame, _, mem, ?_, by rw [ha]; exact halloc⟩)
        have hprev : st'.frame.prev = some lastFrame := by rw [hf]
        rw [callers_of_prev_some hprev]
        congr 1
        exact callers_congr (passParams_prev _ _ _ _ _ hpass).2
      · cases hr
  · rcases hl with hl | hl
    · exact Or.inl ⟨hsame h3 h1 h2, hl.next.2.1⟩
    · cases hl

theorem stepsFrom_add {useArena : Bool} {clock : Nat → Int} {bcModule : BCModule} :
    ∀ (a b : Nat) (st : ExecState),
      stepsFrom useArena clock bcModule (a + b) st
        = (stepsFrom useArena clock bcModule a st).bind (stepsFrom useArena clock bcModule b) := by
  intro a
  induction a with
  | zero => intro b st; simp only [Nat.zero_add, stepsFrom, Option.some_bind]
  | succ a ih =>
    intro b st
    rw [show a + 1 + b = (a + b) + 1 by omega]
    simp only [stepsFrom]
    split
    · exact ih b _
    · rfl

/-- The first return below a depth of the chain of frames: a run that starts
with at least `depth` callers and ends with fewer passes through a state
after which the number of callers is below `depth` for the first time. -/
theorem first_return_below {useArena : Bool} {clock : Nat → Int} {bcModule : BCModule}
    (depth : Nat) :
    ∀ (n : Nat) (st s : ExecState), depth ≤ st.frame.callers.length →
      s.frame.callers.length < depth →
      stepsFrom useArena clock bcModule n st = some s →
      ∃ (j : Nat) (sj sj' : ExecState), j < n
        ∧ stepsFrom useArena clock bcModule j st = some sj
        ∧ (∀ k, k ≤ j → ∀ sk, stepsFrom useArena clock bcModule k st = some sk →
            depth ≤ sk.frame.callers.length)
        ∧ step useArena clock bcModule sj = .next sj'
        ∧ sj'.frame.callers.length < depth
        ∧ stepsFrom useArena clock bcModule (n - 1 - j) sj' = some s := by
  intro n
  induction n with
  | zero =>
    intro st s hst hs h
    simp only [stepsFrom, Option.some.injEq] at h
    subst h
    omega
  | succ n ih =>
    intro st s hst hs h
    rw [stepsFrom] at h
    split at h
    · rename_i st1 hstep
      by_cases hlow : st1.frame.callers.length < depth
      · refine ⟨0, st, st1, Nat.succ_pos n, rfl, ?_, hstep, hlow, ?_⟩
        · intro k hk sk hsk
          have : k = 0 := Nat.le_zero.1 hk
          subst this
          simp only [stepsFrom, Option.some.injEq] at hsk
          exact hsk ▸ hst
        · simpa using h
      · obtain ⟨j, sj, sj', hj, hsj, hall, hstepj, hlowj, hrest⟩ :=
          ih st1 s (not_lt.1 hlow) hs h
        refine ⟨j + 1, sj, sj', Nat.succ_lt_succ hj, ?_, ?_, hstepj, hlowj, ?_⟩
        · rw [stepsFrom_succ j hstep]
          exact hsj
        · intro k hk sk hsk
          cases k with
          | zero =>
            simp only [stepsFrom, Option.some.injEq] at hsk
            exact hsk ▸ hst
          | succ k =>
            rw [stepsFrom_succ k hstep] at hsk
            exact hall k (Nat.le_of_succ_le_succ hk) sk hsk
        · rw [show n + 1 - 1 - (j + 1) = n - 1 - j by omega]
          exact hrest
    · cases h

theorem stepsFrom_one {useArena : Bool} {clock : Nat → Int} {bcModule : BCModule}
    {st st' : ExecState} (h : step useArena clock bcModule st = .next st') :
    stepsFrom useArena clock bcModule 1 st = some st' := by
  rw [stepsFrom_succ 0 h]
  rfl

/-- Under `USE_ARENA`, a run during which the chain of frames is never shorter
than at its start, and at whose end it is as long as at its start, leaves the
arena with the allocations that it had at the start: every frame created
during the run has been deleted, last created first. -/
theorem balanced_run_arena {clock : Nat → Int} {bcModule : BCModule} :
    ∀ (n : Nat) (st s : ExecState), st.arena.WellFormed → st.arena.Live →
      stepsFrom true clock bcModule n st = some s →
      (∀ k, k ≤ n → ∀ sk, stepsFrom true clock bcModule k st = some sk →
        st.frame.callers.length ≤ sk.frame.callers.length) →
      s.frame.callers.length = st.frame.callers.length →
      st.arena.Agree s.arena ∧ s.arena.WellFormed := by
  intro n
  induction n using Nat.strong_induction_on with
  | _ n ih =>
    intro st s hwf hlive hrun hdepth hsame
    cases n with
    | zero =>
      simp only [stepsFrom, Option.some.injEq] at hrun
      subst hrun
      exact ⟨Arena.Agree.arena_refl _, hwf⟩
    | succ m =>
      have hrun0 := hrun
      rw [stepsFrom] at hrun
      split at hrun
      · rename_i st1 hstep
        have hshift : ∀ k sk, stepsFrom true clock bcModule k st1 = some sk →
            stepsFrom true clock bcModule (k + 1) st = some sk := by
          intro k sk hk
          rw [stepsFrom_succ k hstep]
          exact hk
        rcases step_arena_effect hstep with ⟨hc, ha⟩ | ⟨lastFrame, size, mem, hc, halloc⟩
          | ⟨caller, hc, -⟩
        · have := ih m (Nat.lt_succ_self m) st1 s (ha ▸ hwf) (ha ▸ hlive) hrun
            (fun k hk sk hsk => by
              rw [hc]
              exact hdepth (k + 1) (Nat.succ_le_succ hk) sk (hshift k sk hsk))
            (by rw [hc]; exact hsame)
          rw [ha] at this
          exact this
        · have hd1 : st1.frame.callers.length = st.frame.callers.length + 1 := by
            rw [hc]
            rfl
          obtain ⟨j, sj, sj', hj, hsj, hall, hstepj, hlow, hrest⟩ :=
            first_return_below (st.frame.callers.length + 1) m st1 s (by rw [hd1])
              (by rw [hsame]; exact Nat.lt_succ_self _) hrun
          have hsjd := hall j (Nat.le_refl j) sj hsj
          rcases step_arena_effect hstepj with ⟨hcj, -⟩ | ⟨_, _, _, hcj, -⟩ | ⟨callerj, hcj, hretj⟩
          · rw [hcj] at hlow
            omega
          · rw [hcj, List.length_cons] at hlow
            omega
          · have hdj : sj.frame.callers.length = sj'.frame.callers.length + 1 := by
              rw [hcj]
              rfl
            have hwf1 : st1.arena.WellFormed := by
              obtain ⟨_, _, _, -, -, -, -, -, -, h⟩ := allocFromArena_push hwf halloc
              exact h
            have hlive1 : st1.arena.Live := allocFromArena_live hwf halloc
            obtain ⟨hag1, hwfj⟩ := ih j (Nat.lt_succ_of_lt hj) st1 sj hwf1 hlive1 hsj
              (fun k hk sk hsk => by rw [hd1]; exact hall k hk sk hsk)
              (by omega)
            obtain ⟨c, hc', hagc, hwfc⟩ := returnToArena_after_alloc hwf hlive halloc hag1 hwfj
            rw [hretj] at hc'
            injection hc' with hc'
            subst hc'
            have hsj1 : stepsFrom true clock bcModule (j + 1) st1 = some sj' := by
              rw [stepsFrom_add j 1 st1, hsj, Option.some_bind]
              exact stepsFrom_one hstepj
            obtain ⟨hag2, hwfs⟩ := ih (m - 1 - j) (by omega) sj' s hwfc
              (hagc.live hwf hlive) hrest
              (fun k hk sk hsk => by
                have h1 : stepsFrom true clock bcModule (j + 1 + k) st1 = some sk := by
                  rw [stepsFrom_add (j + 1) k st1, hsj1, Option.some_bind]
                  exact hsk
                have h2 := hdepth (j + 1 + k + 1) (by omega) sk (hshift _ sk h1)
                omega)
              (by omega)
            exact ⟨hagc.arena_trans hag2, hwfs⟩
        · have h1 := hdepth 1 (by omega) st1 (stepsFrom_one hstep)
          rw [hc, List.length_cons] at h1
          omega
      · cases hrun

theorem Arena.Stacked.wellFormed_live {arena0 : Arena} {depth : Nat} {arena : Arena}
    (h : Arena.Stacked arena0 depth arena) : arena.WellFormed ∧ arena.Live := by
  induction h with
  | main hwf halloc =>
    obtain ⟨_, _, _, -, -, -, -, -, -, h⟩ := allocFromArena_push hwf halloc
    exact ⟨h, allocFromArena_live hwf halloc⟩
  | call _ halloc ih =>
    obtain ⟨_, _, _, -, -, -, -, -, -, h⟩ := allocFromArena_push ih.1 halloc
    exact ⟨h, allocFromArena_live ih.1 halloc⟩
  | agree _ hagree hwf ih => exact ⟨hwf, hagree.live ih.1 ih.2⟩

theorem Arena.Stacked.returned_of_agree {arena0 : Arena} {depth' : Nat} {a : Arena}
    (h : Arena.Stacked arena0 depth' a) :
    ∀ (depth : Nat) (b c : Arena), depth' = depth + 1 → a.Agree b → b.WellFormed →
      returnToArena b = some c → Arena.Stacked arena0 depth c := by
  induction h with
  | main _ _ => intro depth b c hd; cases hd
  | call hcaller halloc _ =>
    intro depth b c hd hagree hwfb hret
    injection hd with hd
    subst hd
    obtain ⟨hwf, hlive⟩ := hcaller.wellFormed_live
    obtain ⟨c', hc', hagc, hwfc⟩ := returnToArena_after_alloc hwf hlive halloc hagree hwfb
    rw [hret] at hc'
    injection hc' with hc'
    subst hc'
    exact Arena.Stacked.agree hcaller hagc hwfc
  | agree _ hagree' _ ih =>
    intro depth b c hd hagree hwfb hret
    exact ih depth b c hd (hagree'.arena_trans hagree) hwfb hret

theorem Arena.Stacked.returned {arena0 : Arena} {depth : Nat} {b c : Arena}
    (h : Arena.Stacked arena0 (depth + 1) b) (hret : returnToArena b = some c) :
    Arena.Stacked arena0 depth c :=
  h.returned_of_agree depth b c rfl (Arena.Agree.arena_refl b) h.wellFormed_live.1 hret

theorem enter_stacked {arena0 : Arena} {bcModule : BCModule} {st0 : ExecState}
    (hwf : arena0.WellFormed) (h : enter true arena0 bcModule = .next st0) :
    Arena.Stacked arena0 st0.frame.callers.length st0.arena := by
  unfold enter at h
  split at h
  · cases h
  · cases h
  · rename_i functionSym _
    split at h
    · cases h
    · rename_i frame arena1 hcreate
      split at h
      · cases h
      · split at h
        · cases h
        · injection h with h
          subst h
          obtain ⟨mem, halloc⟩ := createStackFrame_alloc hcreate
          have hprev : frame.prev = none := by
            simp only [createStackFrame, if_true, Option.bind_eq_bind,
              Option.bind_eq_some, Option.some.injEq, Prod.mk.injEq] at hcreate
            obtain ⟨_, -, hcreate, -⟩ := hcreate
            rw [← hcreate]
          show Arena.Stacked arena0 frame.callers.length arena1
          rw [callers_of_prev_none hprev]
          exact Arena.Stacked.main hwf halloc

/-- Under `USE_ARENA`, in every state that `execute` reaches from the frame of
`main`, allocated in a well-formed arena, the arena holds the frames of the
chain, allocated one above the other. -/
theorem stepsFrom_stacked {clock : Nat → Int} {bcModule : BCModule} {arena0 : Arena} :
    ∀ (n : Nat) (st s : ExecState), Arena.Stacked arena0 st.frame.callers.length st.arena →
      stepsFrom true clock bcModule n st = some s →
      Arena.Stacked arena0 s.frame.callers.length s.arena := by
  intro n
  induction n with
  | zero =>
    intro st s hst h
    simp only [stepsFrom, Option.some.injEq] at h
    exact h ▸ hst
  | succ n ih =>
    intro st s hst h
    rw [stepsFrom] at h
    split at h
    · rename_i st1 hstep
      refine ih st1 s ?_ h
      rcases step_arena_effect hstep with ⟨hc, ha⟩ | ⟨lastFrame, size, mem, hc, halloc⟩
        | ⟨caller, hc, hret⟩
      · rw [hc, ha]
        exact hst
      · rw [hc]
        exact Arena.Stacked.call hst halloc
      · rw [hc] at hst
        exact hst.returned hret
    · cases h

theorem initArena_wellFormed : initArena.WellFormed := by
  refine ⟨Int.le_refl _, Nat.zero_lt_one, rfl, fun i block hi hb => ?_⟩
  have hi' : (0 : Int) < (i : Int) := hi
  have hb' : ([{ size := ARENA_BLOCK_SIZE, offset := 0, words := fun _ => none }]
      : List ArenaBlock)[i]? = some block := hb
  cases i with
  | zero => exact absurd hi' (lt_irrefl _)
  | succ i => cases hb'

theorem Arena.Agree.activeOffset {a b : Arena} (h : a.Agree b) (hwf : a.WellFormed) :
    b.pos = a.pos ∧ b.activeOffset = a.activeOffset := by
  obtain ⟨p, cur, hp, hcur, hat⟩ := hwf.current
  obtain ⟨y, hy, -, ho, -⟩ := h.2 p cur (by rw [hp]) hcur
  refine ⟨h.1, ?_⟩
  rw [Arena.activeOffset, Arena.activeOffset, hat, h.1, hp, Arena.blockAt_natCast, hy]
  show some y.offset = some cur.offset
  rw [ho]

/-- The bookkeeping of the arena across a call, in the memory of the
embedding, in which an offset word is read back as it was written wherever the
code puts it, also outside the bytes of the block (see the section on a call
from a live frame for where it puts it).  Under `USE_ARENA`, `execute` being
entered with a well-formed arena (such as the one that `initArena` leaves):
take a state `st` that it reaches
and whose current instruction is an `invokestatic` of a function that is
neither `println` nor `tick`, and let `st1` be the state after this call.  Let
`s` be a state reached from `st1` in `n` iterations during which the chain of
frames is never shorter than at `st1`, and in which it is as long as at
`st1`, the current instruction of `s` being `_return` or `ireturn`: the
return that matches the call.  Whatever calls and returns the `n` iterations
made, and whichever blocks their frames were taken from, the call
`returnToArena()` of `deleteStackFrame` in `s` is defined and leaves `pos` and
the offset of the current block as they were in `st`, before the frame of the
callee was allocated; the state after the return, if the iteration goes on,
has this arena. -/
theorem arena_balance_across_call (clock : Nat → Int) (bcModule : BCModule) (arena0 : Arena)
    (st0 st st1 s : ExecState) (byte1 byte2 : UInt8) (f : FunctionSymbol) (k n : Nat)
    (hwf : arena0.WellFormed)
    (henter : enter USE_ARENA arena0 bcModule = .next st0)
    (hreach : stepsFrom USE_ARENA clock bcModule k st0 = some st)
    (hop : OpCode.ofByte st.opCode = some .invokestatic)
    (hb1 : st.code[st.codeIndex + 1]? = some byte1)
    (hb2 : st.code[st.codeIndex + 2]? = some byte2)
    (hfun : functionConstAt bcModule (byte1.toNat * 256 + byte2.toNat) = some f)
    (hname1 : strcmp_eq f.symbol.name "println" = false)
    (hname2 : strcmp_eq f.symbol.name "tick" = false)
    (hcall : step USE_ARENA clock bcModule st = .next st1)
    (hrun : stepsFrom USE_ARENA clock bcModule n st1 = some s)
    (hdepth : ∀ j, j ≤ n → ∀ sj, stepsFrom USE_ARENA clock bcModule j st1 = some sj →
      st1.frame.callers.length ≤ sj.frame.callers.length)
    (hsame : s.frame.callers.length = st1.frame.callers.length)
    (hret : OpCode.ofByte s.opCode = some ._return ∨ OpCode.ofByte s.opCode = some .ireturn) :
    ∃ arena offset,
      (∀ frame, deleteStackFrame USE_ARENA s.arena frame = some arena)
      ∧ arena.pos = st.arena.pos
      ∧ st.arena.activeOffset = some offset ∧ arena.activeOffset = some offset
      ∧ ∀ s', step USE_ARENA clock bcModule s = .next s' → s'.arena = arena := by
  rw [← twoBytes_eq] at hfun
  have hstacked : Arena.Stacked arena0 st.frame.callers.length st.arena :=
    stepsFrom_stacked k st0 st (enter_stacked hwf henter) hreach
  obtain ⟨hwfst, hlivest⟩ := hstacked.wellFormed_live
  -- the call allocates the frame of the callee
  obtain ⟨byte1', byte2', f', hb1', hb2', hfun', -, hmore⟩ :=
    (stepCase_liveFrames (stepCase_of_step hcall)).1 hop
  rw [hb1] at hb1'
  rw [hb2] at hb2'
  injection hb1' with hb1'
  injection hb2' with hb2'
  subst hb1' hb2'
  rw [hfun] at hfun'
  injection hfun' with hfun'
  subst hfun'
  obtain ⟨lastFrame, hchain⟩ := hmore hname1 hname2
  have halloc : ∃ size mem, allocFromArena st.arena size = some (mem, st1.arena) := by
    rcases step_arena_effect hcall with ⟨hc, -⟩ | ⟨_, size, mem, -, halloc⟩ | ⟨caller, hc, -⟩
    · rw [hc] at hchain
      have := congrArg List.length hchain
      simp only [List.length_cons] at this
      omega
    · exact ⟨size, mem, halloc⟩
    · rw [hchain] at hc
      have := congrArg List.length hc
      simp only [List.length_cons] at this
      omega
  obtain ⟨size, mem, halloc⟩ := halloc
  have hwf1 : st1.arena.WellFormed := by
    obtain ⟨_, _, _, -, -, -, -, -, -, h⟩ := allocFromArena_push hwfst halloc
    exact h
  -- the run up to the matching return
  obtain ⟨hagree, hwfs⟩ := balanced_run_arena n st1 s hwf1
    (allocFromArena_live hwfst halloc) hrun hdepth hsame
  obtain ⟨c, hc, hagc, -⟩ := returnToArena_after_alloc hwfst hlivest halloc hagree hwfs
  obtain ⟨hpos, hoff⟩ := hagc.activeOffset hwfst
  obtain ⟨cur, hcur, -⟩ := hlivest
  refine ⟨c, cur.offset, fun frame => ?_, hpos, ?_, ?_, fun s' hs' => ?_⟩
  · simp only [deleteStackFrame, USE_ARENA, if_true]
    exact hc
  · rw [Arena.activeOffset, hcur]
    rfl
  · rw [hoff, Arena.activeOffset, hcur]
    rfl
  · obtain ⟨caller, hcallers⟩ := (stepCase_liveFrames (stepCase_of_step hs')).2.1
      (hret.elim Or.inr Or.inl)
    rcases step_arena_effect hs' with ⟨hc', -⟩ | ⟨_, _, _, hc', -⟩ | ⟨_, -, hret'⟩
    · rw [hc'] at hcallers
      have := congrArg List.length hcallers
      simp only [List.length_cons] at this
      omega
    · rw [hc'] at hcallers
      have := congrArg List.length hcallers
      simp only [List.length_cons] at this
      omega
    · rw [hc] at hret'
      injection hret' with hret'
      exact hret'.symm

theorem chainNotShorter_spec {useArena : Bool} {clock : Nat → Int} {bcModule : BCModule}
    {depth : Nat} :
    ∀ (n : Nat) (st : ExecState), chainNotShorter useArena clock bcModule depth n st = true →
      ∀ k, k ≤ n → ∀ sk, stepsFrom useArena clock bcModule k st = some sk →
        depth ≤ sk.frame.callers.length := by
  intro n
  induction n with
  | zero =>
    intro st h k hk sk hsk
    have hk0 : k = 0 := Nat.le_zero.1 hk
    subst hk0
    simp only [stepsFrom, Option.some.injEq] at hsk
    subst hsk
    simpa [chainNotShorter] using h
  | succ n ih =>
    intro st h k hk sk hsk
    simp only [chainNotShorter, Bool.and_eq_true, decide_eq_true_eq] at h
    cases k with
    | zero =>
      simp only [stepsFrom, Option.some.injEq] at hsk
      subst hsk
      exact h.1
    | succ k =>
      rw [stepsFrom] at hsk
      split at hsk
      · rename_i st' hstep
        have h2 := h.2
        rw [hstep] at h2
        exact ih st' h2 k (Nat.le_of_succ_le_succ hk) sk hsk
      · cases hsk

/-- Instance.  On the arena that `initArena` leaves: in the module whose
`main` starts calls nested nine deep, the call of `f1` by `main`, made with
`pos = 0` and the offset 144, and the `_return` of `f1`, 16 iterations later,
after eight nested calls and their returns; and in the module whose functions
have 255 locals, the call of `noop` by `w3`, whose frame is taken from the
second block, made with `pos = 0` and the offset 4656, and the `_return` of
`noop`. -/
theorem arena_balance_across_call_witness :
    (∃ st0 st st1 s,
      enter USE_ARENA initArena nestedCallsModule = .next st0
      ∧ stepsFrom USE_ARENA (fun _ => 0) nestedCallsModule 0 st0 = some st
      ∧ step USE_ARENA (fun _ => 0) nestedCallsModule st = .next st1
      ∧ stepsFrom USE_ARENA (fun _ => 0) nestedCallsModule 16 st1 = some s
      ∧ st.arena.pos = 0 ∧ st.arena.activeOffset = some 144
      ∧ s.arena.activeOffset = some 288
      ∧ ∃ arena offset,
        (∀ frame, deleteStackFrame USE_ARENA s.arena frame = some arena)
        ∧ arena.pos = st.arena.pos
        ∧ st.arena.activeOffset = some offset ∧ arena.activeOffset = some offset
        ∧ ∀ s', step USE_ARENA (fun _ => 0) nestedCallsModule s = .next s' → s'.arena = arena)
    ∧ (∃ st0 st st1,
      enter USE_ARENA initArena wideCallsModule = .next st0
      ∧ stepsFrom USE_ARENA (fun _ => 0) wideCallsModule 3 st0 = some st
      ∧ step USE_ARENA (fun _ => 0) wideCallsModule st = .next st1
      ∧ st.arena.pos = 0 ∧ st.arena.activeOffset = some 4656
      ∧ st1.arena.pos = 1 ∧ st1.arena.activeOffset = some 1164
      ∧ ∃ arena offset,
        (∀ frame, deleteStackFrame USE_ARENA st1.arena frame = some arena)
        ∧ arena.pos = st.arena.pos
        ∧ st.arena.activeOffset = some offset ∧ arena.activeOffset = some offset
        ∧ ∀ s', step USE_ARENA (fun _ => 0) wideCallsModule st1 = .next s' → s'.arena = arena) :=
  ⟨⟨_, _, _, _, rfl, rfl, rfl, rfl, rfl, rfl, rfl,
      arena_balance_across_call (fun _ => 0) nestedCallsModule initArena _ _ _ _ 0 11
        (linkFunction "f1" 10) 0 16 initArena_wellFormed rfl rfl rfl rfl rfl rfl rfl rfl rfl rfl
        (chainNotShorter_spec 16 _ rfl) rfl (.inl rfl)⟩,
    ⟨_, _, _, rfl, rfl, rfl, rfl, rfl, rfl, rfl,
      arena_balance_across_call (fun _ => 0) wideCallsModule initArena _ _ _ _ 0 3
        wideNoopFunction 3 0 initArena_wellFormed rfl rfl rfl rfl rfl rfl rfl rfl rfl rfl
        (chainNotShorter_spec 0 _ rfl) rfl (.inl rfl)⟩⟩

/-! ## C23, for every program: the arena after `main` has returned -/

theorem Arena.Stacked.first_alloc {arena0 : Arena} {depth : Nat} {b : Arena}
    (h : Arena.Stacked arena0 depth b) (hd : depth = 0) :
    ∃ size mem a, allocFromArena arena0 size = some (mem, a) ∧ a.Agree b := by
  induction h with
  | main _ halloc => exact ⟨_, _, _, halloc, Arena.Agree.arena_refl _⟩
  | call _ _ _ => cases hd
  | agree _ hagree _ ih =>
    obtain ⟨size, mem, a, halloc, hag⟩ := ih hd
    exact ⟨size, mem, a, halloc, hag.arena_trans hagree⟩

/-- The return of the first allocation made in the arena that `initArena`
leaves: the offset of block 0 is 0 again and `pos` is -1. -/
theorem returnToArena_first_alloc {size : Nat} {mem : ArenaPtr} {a b c : Arena}
    (halloc : allocFromArena initArena size = some (mem, a)) (hagree : a.Agree b)
    (hret : returnToArena b = some c) :
    c.pos = -1 ∧ c.activeOffset = none
      ∧ ∃ block, c.blocks[0]? = some block ∧ block.offset = 0 := by
  obtain ⟨p, q, x, -, hq, hx, hx1, -, -, -⟩ := allocFromArena_push initArena_wellFormed halloc
  have hq0 : q = 0 := by
    have hlt : q < initArena.blocks.length := (List.getElem?_eq_some_iff.1 hx).1
    have hlen : initArena.blocks.length = 1 := rfl
    omega
  subst hq0
  have hxo : x.offset = 0 := by
    have hx' : some ({ size := ARENA_BLOCK_SIZE, offset := 0, words := fun _ => none }
        : ArenaBlock) = some x := hx
    injection hx' with hx'
    rw [← hx']
  obtain ⟨hbpos, hbelow⟩ := hagree
  obtain ⟨y, hy, -, hyoff, hywords⟩ := hbelow 0 (x.pushed size) (by rw [hq]) hx1
  have hbq : b.pos = ((0 : Nat) : Int) := hbpos.trans hq
  have hlt : 0 < b.blocks.length := (List.getElem?_eq_some_iff.1 hy).1
  have hword : y.words (blockPlus (sizeof_Arena + y.offset - sizeof_size_t)) = some 0 := by
    rw [hyoff, hywords _ (blockPlus_lt_pushed x size), ArenaBlock.pushed_word, hxo]
  have hat : b.blockAt b.pos = some y := by
    rw [hbq, Arena.blockAt_natCast]
    exact hy
  have hc : returnToArena b
      = some { b.setBlock b.pos { y with offset := 0 } with pos := b.pos - 1 } := by
    simp only [returnToArena, hat, Option.bind_eq_bind, Option.some_bind, hword]
    rfl
  rw [hret] at hc
  injection hc with hc
  subst hc
  have hpos : b.pos - 1 = -1 := by
    rw [hbq]
    rfl
  refine ⟨hpos, ?_, { y with offset := 0 }, ?_, rfl⟩
  · show (Arena.blockAt _ (b.pos - 1)).map _ = none
    rw [hpos]
    rfl
  · show (b.setBlock b.pos { y with offset := 0 }).blocks[0]? = some _
    rw [hbq, Arena.setBlock_blocks, List.getElem?_set_self hlt]

theorem run_reaches_done {useArena : Bool} {clock : Nat → Int} {bcModule : BCModule}
    {outcome : Outcome} :
    ∀ (fuel : Nat) (s : ExecState), run useArena clock bcModule fuel s = some outcome →
      ∃ n st, stepsFrom useArena clock bcModule n s = some st
        ∧ step useArena clock bcModule st = .done outcome := by
  intro fuel
  induction fuel with
  | zero => intro s hs; cases hs
  | succ fuel ih =>
    intro s hs
    rw [run] at hs
    split at hs
    · rename_i s' hstep
      obtain ⟨n, st, hn, hst⟩ := ih s' hs
      exact ⟨n + 1, st, by rw [stepsFrom_succ n hstep]; exact hn, hst⟩
    · rename_i outcome' hstep
      injection hs with hs
      exact ⟨0, s, rfl, by rw [hstep, hs]⟩

/-- The iteration in which `execute` returns 0 is the return of a frame
without caller, whose memory it has given back. -/
theorem step_returned_zero {useArena : Bool} {clock : Nat → Int} {bcModule : BCModule}
    {st : ExecState} {out : List String} {arena : Arena}
    (h : step useArena clock bcModule st = .done (.returned 0 out arena)) :
    st.frame.prev = none ∧ ∃ frame, deleteStackFrame useArena st.arena frame = some arena := by
  have hret : ∀ isIreturn, doReturn useArena st isIreturn
      = some (.done (.returned 0 out arena)) →
      st.frame.prev = none ∧ ∃ frame, deleteStackFrame useArena st.arena frame = some arena := by
    intro isIreturn hr
    obtain ⟨retValue, lastFrame, arena', -, hprev, hdel, hcases⟩ := doReturn_cases hr
    rcases hcases with ⟨hnone, hr'⟩ | ⟨caller, frame, -, -, hrest⟩
    · injection hr' with hr'
      injection hr' with _ _ ha
      exact ⟨hprev ▸ hnone, lastFrame, by rw [ha]; exact hdel⟩
    · rcases hrest with ⟨code, s, -, hr', -⟩ | ⟨-, out', hr'⟩
      · cases hr'
      · injection hr' with hr'
        injection hr' with hr'
        cases hr'
  rcases stepCase_cases (stepCase_of_step_returned h) with ⟨hop, hr⟩ | ⟨hop, hr⟩ | ⟨hop, hi⟩
    | ⟨-, -, -, hl⟩
  · exact hret _ hr
  · exact hret _ hr
  · obtain ⟨byte1, byte2, functionSym, -, -, -, hcases⟩ := doInvokestatic_cases hi
    rcases hcases with ⟨-, _, _, _, -, hr, -⟩ | ⟨-, -, _, _, -, hr, -⟩
      | ⟨-, -, _, _, _, _, _, -, -, -, hrest⟩
    · cases hr
    · cases hr
    · rcases hrest with ⟨_, _, -, hr, -⟩ | ⟨-, _, hr⟩
      · cases hr
      · injection hr with hr
        injection hr with hr
        cases hr
  · rcases hl with hl | hl
    · exact absurd hl LocalStep.not_done
    · injection hl with hl
      injection hl with hl
      cases hl

theorem enter_not_returned_zero {useArena : Bool} {arena0 : Arena} {bcModule : BCModule}
    {out : List String} {arena : Arena}
    (h : enter useArena arena0 bcModule = .done (.returned 0 out arena)) : False := by
  unfold enter at h
  split at h
  · cases h
  · injection h with h
    injection h with h
    cases h
  · split at h
    · cases h
    · split at h
      · injection h with h
        injection h with h
        cases h
      · split at h
        · cases h
        · cases h

/-- Under `USE_ARENA`, on the arena that `initArena` leaves (`pos = 0`, active
offset 0): for every module, whenever `execute` returns 0, which it does when
`main` returns, the offset of block 0 is 0 again and `pos` is -1, where it
designates no block. -/
theorem arena_pos_after_main_returns (clock : Nat → Int) (bcModule : BCModule) (fuel : Nat)
    (out : List String) (arena : Arena)
    (h : execute USE_ARENA clock initArena bcModule fuel = some (.returned 0 out arena)) :
    arena.pos = -1 ∧ arena.activeOffset = none
      ∧ ∃ block, arena.blocks[0]? = some block ∧ block.offset = 0 := by
  have h' : execute true clock initArena bcModule fuel = some (.returned 0 out arena) := h
  unfold execute at h'
  split at h'
  · rename_i st0 henter
    obtain ⟨n, st, hn, hst⟩ := run_reaches_done fuel st0 h'
    obtain ⟨hprev, frame, hdel⟩ := step_returned_zero hst
    have hstacked := stepsFrom_stacked n st0 st (enter_stacked initArena_wellFormed henter) hn
    obtain ⟨size, mem, a, halloc, hagree⟩ :=
      hstacked.first_alloc (by rw [callers_of_prev_none hprev]; rfl)
    exact returnToArena_first_alloc halloc hagree hdel
  · rename_i outcome henter
    injection h' with h'
    subst h'
    exact (enter_not_returned_zero henter).elim

/-- Instance: the module whose `main` starts calls nested nine deep. -/
theorem arena_pos_after_main_returns_witness :
    ∃ arena, execute USE_ARENA (fun _ => 0) initArena nestedCallsModule 19
        = some (.returned 0 [] arena)
      ∧ arena.pos = -1 ∧ arena.activeOffset = none
      ∧ ∃ block, arena.blocks[0]? = some block ∧ block.offset = 0 :=
  ⟨_, rfl, arena_pos_after_main_returns (fun _ => 0) nestedCallsModule 19 [] _ rfl⟩

/-! ## C32: every frame fits an empty block -/

theorem readFunctionSymbol_numVars {bc : List UInt8} {index numTypes : Nat}
    {typeNames : List (Option String)} {types : List (Ptr PType)}
    {functionSym : FunctionSymbol} {index' : Nat}
    (h : readFunctionSymbol bc index numTypes typeNames types = some (functionSym, index')) :
    ∃ numVars : UInt8, functionSym.numVars = numVars.toNat
      ∧ functionSym.frameSize = sizeof_StackFrame + sizeof_VM_NUMBER * numVars.toNat
          + sizeof_OprandStack + sizeof_VM_NUMBER * 20 := by
  simp only [readFunctionSymbol, Option.bind_eq_bind, Option.bind_eq_some] at h
  obtain ⟨_, -, _, -, _, -, _, -, numVars, -, _, -, _, -, h⟩ := h
  refine ⟨numVars, ?_⟩
  split at h
  · simp only [Option.some_bind, Option.some.injEq, Prod.mk.injEq] at h
    rw [← h.1]
    exact ⟨rfl, rfl⟩
  · simp only [Option.bind_eq_some, Option.some_bind, Option.some.injEq, Prod.mk.injEq] at h
    obtain ⟨_, -, h, -⟩ := h
    rw [← h]
    exact ⟨rfl, rfl⟩

theorem readFunctionSymbol_fits {bc : List UInt8} {index numTypes : Nat}
    {typeNames : List (Option String)} {types : List (Ptr PType)}
    {functionSym : FunctionSymbol} {index' : Nat}
    (h : readFunctionSymbol bc index numTypes typeNames types = some (functionSym, index')) :
    functionSym.numVars ≤ 255 ∧ functionSym.opStackSize = 20 ∧ functionSym.FitsEmptyBlock := by
  obtain ⟨numVars, hn, hsize⟩ := readFunctionSymbol_numVars h
  have h20 := readFunctionSymbol_opStackSize h
  have hlt : numVars.toNat < 256 := numVars.toNat_lt
  refine ⟨by omega, h20, ?_, ?_⟩
  · rw [hsize, hn, h20]
    simp only [sizeof_StackFrame, sizeof_VM_NUMBER, sizeof_OprandStack]
    omega
  · rw [hsize]
    simp only [sizeof_StackFrame, sizeof_VM_NUMBER, sizeof_OprandStack, sizeof_size_t,
      ARENA_BLOCK_SIZE]
    omega

/-- What holds of the functions that `readFunctionSymbol` returns, and of
those that the pool holds before the loop over the constants, holds of those
that it holds afterwards and of the function left in `_main`. -/
theorem readConsts_functions (P : FunctionSymbol → Prop) (bc : List UInt8) (numTypes : Nat)
    (typeNames : List (Option String)) (types : List (Ptr PType))
    (hread : ∀ (index : Nat) (f : FunctionSymbol) (index' : Nat),
      readFunctionSymbol bc index numTypes typeNames types = some (f, index') → P f) :
    ∀ (n i : Nat) (st st' : ConstsState),
      readConsts bc numTypes typeNames types n i st = some st' →
      ((∀ (j : Nat) (f : FunctionSymbol), st.consts[j]? = some (.to (.FunctionConst f)) → P f)
        ∧ ∀ f : FunctionSymbol, st._main = .to f → P f) →
      ((∀ (j : Nat) (f : FunctionSymbol), st'.consts[j]? = some (.to (.FunctionConst f)) → P f)
        ∧ ∀ f : FunctionSymbol, st'._main = .to f → P f) := by
  intro n
  induction n with
  | zero =>
    intro i st st' h hinv
    simp only [readConsts, Option.some.injEq] at h
    exact h ▸ hinv
  | succ n ih =>
    intro i st st' h hinv
    simp only [readConsts, Option.bind_eq_bind, Option.bind_eq_some] at h
    obtain ⟨constType, -, h⟩ := h
    split at h
    · simp only [Option.bind_eq_some, Option.some_bind] at h
      obtain ⟨value, -, consts, hstore, hrest⟩ := h
      refine ih (i + 1) _ st' hrest ⟨fun j f hj => ?_, hinv.2⟩
      rcases store_getElem? hstore j _ hj with hx | hold
      · cases hx
      · exact hinv.1 j f hold
    · split at h
      · simp only [Option.bind_eq_some, Option.some_bind] at h
        obtain ⟨⟨strValue, index⟩, -, consts, hstore, hrest⟩ := h
        refine ih (i + 1) _ st' hrest ⟨fun j f hj => ?_, hinv.2⟩
        rcases store_getElem? hstore j _ hj with hx | hold
        · cases hx
        · exact hinv.1 j f hold
      · split at h
        · simp only [Option.bind_eq_some, Option.some_bind] at h
          obtain ⟨⟨functionSym, index⟩, hread', consts, hstore, hrest⟩ := h
          have hP := hread _ _ _ hread'
          refine ih (i + 1) _ st' hrest ⟨fun j f hj => ?_, fun f hf => ?_⟩
          · rcases store_getElem? hstore j _ hj with hx | hold
            · injection hx with hx
              injection hx with hx
              rw [hx]
              exact hP
            · exact hinv.1 j f hold
          · dsimp only at hf
            split at hf
            · injection hf with hf
              rw [← hf]
              exact hP
            · exact hinv.2 f hf
        · simp only [Option.some_bind] at h
          exact ih (i + 1) _ st' h hinv

theorem addSystemFunctions_fits (j : Nat) (f : FunctionSymbol)
    (hj : addSystemFunctions[j]? = some (.to (.FunctionConst f))) : f.FitsEmptyBlock := by
  have hlt : j < addSystemFunctions.length := (List.getElem?_eq_some_iff.1 hj).1
  have h3 : j < 3 := hlt
  interval_cases j
  · injection hj with hj; injection hj with hj; injection hj with hj; rw [← hj]; decide
  · injection hj with hj; injection hj with hj; injection hj with hj; rw [← hj]; decide
  · injection hj with hj; injection hj with hj; injection hj with hj; rw [← hj]; decide

/-- In every module that the loader returns, whatever the stream, the frame
of every function of the pool, and of `main`, fits an empty block. -/
theorem readBCModule_fits {bc : List UInt8} {bcModule : BCModule} {out : List String}
    (h : readBCModule bc = some (bcModule, out)) :
    (∀ (i : Nat) (f : FunctionSymbol), bcModule.consts[i]? = some (.to (.FunctionConst f)) →
      f.FitsEmptyBlock)
    ∧ ∀ f : FunctionSymbol, bcModule._main = .to f → f.FitsEmptyBlock := by
  simp only [readBCModule, Option.bind_eq_bind, Option.bind_eq_some, Option.some.injEq,
    Prod.mk.injEq] at h
  obtain ⟨_, -, numTypes, -, st, -, types, -, _, -, numConsts, -, st', hconsts, hm, -⟩ := h
  have hinv := readConsts_functions FunctionSymbol.FitsEmptyBlock bc _ _ _
    (fun _ _ _ hr => (readFunctionSymbol_fits hr).2.2) _ _ _ _ hconsts
    ⟨fun j f hj => ?_, fun f hf => ?_⟩
  · rw [← hm]
    exact hinv
  · dsimp only at hj
    by_cases hlt : j < addSystemFunctions.length
    · rw [List.getElem?_append_left hlt] at hj
      exact addSystemFunctions_fits j f hj
    · rw [List.getElem?_append_right (not_lt.1 hlt)] at hj
      rcases List.getElem?_eq_some_iff.1 hj with ⟨_, hj'⟩
      rw [List.getElem_replicate] at hj'
      cases hj'
  · cases hf

/-- C32. Every function symbol that `readFunctionSymbol` returns, whatever the
bytes it reads, has at most 255 locals and an operand stack of 20 cells; its
`frameSize` is `sizeof(StackFrame) + numVars*sizeof(VM_NUMBER) +
sizeof(OprandStack) + opStackSize*sizeof(VM_NUMBER)`, at most 1156, and
`frameSize + sizeof(size_t) <= ARENA_BLOCK_SIZE`.  The same holds of the three
symbols that `addSystemFunctions` creates, whose frames take 100, 96 and 100
bytes, and so of every function of the pool of a module that `readBCModule`
returns, and of its `main`. -/
theorem every_frame_fits_an_empty_block :
    (∀ (bc : List UInt8) (index numTypes : Nat) (typeNames : List (Option String))
        (types : List (Ptr PType)) (functionSym : FunctionSymbol) (index' : Nat),
      readFunctionSymbol bc index numTypes typeNames types = some (functionSym, index') →
      functionSym.numVars ≤ 255 ∧ functionSym.opStackSize = 20
        ∧ functionSym.FitsEmptyBlock ∧ functionSym.frameSize ≤ 1156)
    ∧ (∃ println tick integer_to_string : FunctionSymbol,
        addSystemFunctions = [.to (.FunctionConst println), .to (.FunctionConst tick),
          .to (.FunctionConst integer_to_string)]
        ∧ println.FitsEmptyBlock ∧ println.frameSize = 100
        ∧ tick.FitsEmptyBlock ∧ tick.frameSize = 96
        ∧ integer_to_string.FitsEmptyBlock ∧ integer_to_string.frameSize = 100)
    ∧ (∀ (bc : List UInt8) (bcModule : BCModule) (out : List String),
        readBCModule bc = some (bcModule, out) →
        (∀ (i : Nat) (f : FunctionSymbol),
          bcModule.consts[i]? = some (.to (.FunctionConst f)) → f.FitsEmptyBlock)
        ∧ ∀ f : FunctionSymbol, bcModule._main = .to f → f.FitsEmptyBlock) := by
  refine ⟨fun bc index numTypes typeNames types functionSym index' h => ?_,
    ⟨_, _, _, rfl, by decide, rfl, by decide, rfl, by decide, rfl⟩,
    fun bc bcModule out h => readBCModule_fits h⟩
  obtain ⟨h255, h20, hfits⟩ := readFunctionSymbol_fits h
  refine ⟨h255, h20, hfits, ?_⟩
  rw [hfits.1, h20]
  simp only [sizeof_StackFrame, sizeof_VM_NUMBER, sizeof_OprandStack]
  omega

set_option maxRecDepth 100000 in
theorem wideDecl_loaded :
    readBCModule (encodeModule wideDecl) = some (loadedModule wideDecl, []) := by
  have h := readBCModule_encodeModule wideDecl [] (by decide) (by decide)
  rw [List.append_nil] at h
  exact h

set_option maxRecDepth 100000 in
theorem wideDecl_function :
    ∃ wide, (loadedModule wideDecl).consts[3]? = some (.to (.FunctionConst wide))
      ∧ wide.numVars = 255 ∧ wide.opStackSize = 20 ∧ wide.frameSize = 1156 :=
  ⟨_, rfl, rfl, rfl, rfl⟩

/-- C32, witness: the stream whose function `wide` has 255 locals.  The
function, in the pool slot 3 of the module loaded, has the frame size 1156,
the largest that the loader produces, and 1156 + 8 is at most 4096. -/
theorem every_frame_fits_an_empty_block_witness :
    ∃ m wide, readBCModule (encodeModule wideDecl) = some (m, [])
      ∧ m.consts[3]? = some (.to (.FunctionConst wide))
      ∧ wide.numVars = 255 ∧ wide.opStackSize = 20 ∧ wide.frameSize = 1156
      ∧ wide.FitsEmptyBlock := by
  obtain ⟨wide, hslot, hfacts⟩ := wideDecl_function
  exact ⟨_, wide, wideDecl_loaded, hslot, hfacts.1, hfacts.2.1, hfacts.2.2,
    (every_frame_fits_an_empty_block.2.2 _ _ _ wideDecl_loaded).1 3 wide hslot⟩

/-! ## C35: the built-in functions are selected by name -/

theorem step_tick {useArena : Bool} {clock : Nat → Int} {bcModule : BCModule}
    {st : ExecState} (byte1 byte2 : UInt8) {opCode : UInt8} {functionSym : FunctionSymbol}
    {frame : StackFrame}
    (hop : OpCode.ofByte st.opCode = some .invokestatic)
    (hb1 : st.code[st.codeIndex + 1]? = some byte1)
    (hb2 : st.code[st.codeIndex + 2]? = some byte2)
    (hfun : functionConstAt bcModule (twoBytes byte1 byte2) = some functionSym)
    (hname1 : strcmp_eq functionSym.symbol.name "println" = false)
    (hname2 : strcmp_eq functionSym.symbol.name "tick" = true)
    (hnext : st.code[st.codeIndex + 2 + 1]? = some opCode)
    (hpush : pushToOpStack st.frame (toVM_NUMBER (clock st.clockCalls)) = some frame) :
    step useArena clock bcModule st = .next { st with
      functionSym := functionSym
      frame := frame, codeIndex := st.codeIndex + 2 + 1, opCode := opCode
      clockCalls := st.clockCalls + 1 } := by
  apply step_of_stepCase
  simp [stepCase, hop, doInvokestatic, hb1, hb2, hfun, hname1, hname2, hpush, hnext]

/-- C35. Take a state whose current instruction is `invokestatic` with the
operand bytes `byte1`, `byte2`, the entry `byte1*256 + byte2` of the pool
being a function constant, at whatever index and with or without bytecode,
and a byte `opCode` following the operand bytes.  When `strcmp` finds the name
of the function equal to `println` and the operand stack holds `value` on
top (cell `t`), one iteration of the loop takes `value` off the stack (`top =
t - 1`), writes `value` and a newline to the standard output and goes on in
the same code at `codeIndex + 3` with the same frame, of which nothing else
has changed, and with the same arena.  When the name is not `println` and
`strcmp` finds it equal to `tick`, and the operand stack has `t` cells in use
(`top = t - 1`) and room for one more, one iteration puts the value of
`clock()` in the cell `t` (`top = t`) and goes on in the same code at
`codeIndex + 3` with the same frame, of which nothing else has changed, and
the same arena.  In both cases no frame is created: the chain of callers is
the same. -/
theorem builtins_are_selected_by_name
    (useArena : Bool) (clock : Nat → Int) (bcModule : BCModule) (st : ExecState)
    (byte1 byte2 opCode : UInt8) (functionSym : FunctionSymbol) (t : Nat)
    (hop : OpCode.ofByte st.opCode = some .invokestatic)
    (hb1 : st.code[st.codeIndex + 1]? = some byte1)
    (hb2 : st.code[st.codeIndex + 2]? = some byte2)
    (hfun : functionConstAt bcModule (byte1.toNat * 256 + byte2.toNat) = some functionSym)
    (hnext : st.code[st.codeIndex + 3]? = some opCode) :
    (strcmp_eq functionSym.symbol.name "println" = true →
      ∀ value : VM_NUMBER, st.frame.oprandStack.top = some (t : Int) →
        st.frame.oprandStack.data[t]? = some (some value) →
        ∃ st', step useArena clock bcModule st = .next st'
          ∧ st' = { st with
              functionSym := functionSym
              frame := { st.frame with
                oprandStack := { st.frame.oprandStack with top := some ((t : Int) - 1) } }
              codeIndex := st.codeIndex + 3
              opCode := opCode
              stdout := st.stdout ++ [fmt_d value ++ "\n"] }
          ∧ st'.code = st.code ∧ st'.arena = st.arena
          ∧ st'.frame.callers = st.frame.callers)
    ∧ (strcmp_eq functionSym.symbol.name "println" = false →
      strcmp_eq functionSym.symbol.name "tick" = true →
      st.frame.oprandStack.top = some ((t : Int) - 1) →
      t < st.frame.oprandStack.data.length →
        ∃ st', step useArena clock bcModule st = .next st'
          ∧ st' = { st with
              functionSym := functionSym
              frame := { st.frame with
                oprandStack :=
                  { data := st.frame.oprandStack.data.set t
                      (some (toVM_NUMBER (clock st.clockCalls)))
                    top := some (t : Int) } }
              codeIndex := st.codeIndex + 3
              opCode := opCode
              clockCalls := st.clockCalls + 1 }
          ∧ st'.code = st.code ∧ st'.arena = st.arena
          ∧ st'.frame.callers = st.frame.callers) := by
  rw [← twoBytes_eq] at hfun
  refine ⟨fun hname value htop hcell => ?_, fun hname1 hname2 htop hroom => ?_⟩
  · refine ⟨_, step_println byte1 byte2 hop hb1 hb2 hfun hname (popFromOpStack_eq htop hcell)
      hnext, rfl, rfl, rfl, ?_⟩
    exact callers_congr rfl
  · refine ⟨_, step_tick byte1 byte2 hop hb1 hb2 hfun hname1 hname2 hnext
      (pushToOpStack_eq _ htop hroom), rfl, rfl, rfl, ?_⟩
    exact callers_congr rfl

set_option maxRecDepth 100000 in
theorem shadowDecl_loaded :
    readBCModule (encodeModule shadowDecl) = some (loadedModule shadowDecl, []) := by
  have h := readBCModule_encodeModule shadowDecl [] (by decide) (by decide)
  rw [List.append_nil] at h
  exact h

set_option maxRecDepth 100000 in
theorem shadowDecl_functions :
    ∃ println tick main,
      (loadedModule shadowDecl).consts[3]? = some (.to (.FunctionConst println))
      ∧ (loadedModule shadowDecl).consts[4]? = some (.to (.FunctionConst tick))
      ∧ (loadedModule shadowDecl).consts[5]? = some (.to (.FunctionConst main))
      ∧ (loadedModule shadowDecl)._main = .to main
      ∧ println.symbol.name = "println"
      ∧ println.byteCode = some [0x10, 9, 0xb8, 0x00, 0x00, 0xb1]
      ∧ tick.symbol.name = "tick" ∧ tick.byteCode = some [0x10, 5, 0xac]
      ∧ main.byteCode = some shadowCode :=
  ⟨_, _, _, rfl, rfl, rfl, rfl, rfl, rfl, rfl, rfl, rfl⟩

/-- C35, witness.  In the module loaded from the stream whose functions
`println` and `tick` have bytecode and are in the pool slots 3 and 4: at the
`invokestatic #3` of `main`, with 7 on the operand stack, one iteration writes
`7` and a newline and goes on in `main` at the index 5 with an empty stack;
at the `invokestatic #4` of `main`, with an empty stack and `clock()`
returning 1000, one iteration pushes 1000 and goes on in `main` at the index
8. -/
theorem builtins_are_selected_by_name_witness :
    (∃ st', step false (fun k => 1000 + k) (loadedModule shadowDecl)
          (mainState shadowCode 2 0xb8 [] [7]) = .next st'
        ∧ st'.stdout = ["7\n"] ∧ st'.frame.oprandStack.top = some (-1)
        ∧ st'.code = shadowCode ∧ st'.codeIndex = 5 ∧ st'.opCode = 0xb8
        ∧ st'.arena = initArena ∧ st'.frame.callers = [])
    ∧ (∃ st', step false (fun k => 1000 + k) (loadedModule shadowDecl)
          (mainState shadowCode 5 0xb8 [] []) = .next st'
        ∧ st'.stdout = [] ∧ st'.frame.oprandStack.top = some 0
        ∧ st'.frame.oprandStack.data[0]? = some (some 1000)
        ∧ st'.code = shadowCode ∧ st'.codeIndex = 8 ∧ st'.opCode = 0xb8
        ∧ st'.arena = initArena ∧ st'.frame.callers = []) := by
  obtain ⟨println, tick, main, h3, h4, -, -, hname, -, hname', -, -⟩ := shadowDecl_functions
  have hf3 : functionConstAt (loadedModule shadowDecl)
      ((0 : UInt8).toNat * 256 + (3 : UInt8).toNat) = some println := by
    show functionConstAt (loadedModule shadowDecl) 3 = some println
    rw [functionConstAt, h3]
  have hf4 : functionConstAt (loadedModule shadowDecl)
      ((0 : UInt8).toNat * 256 + (4 : UInt8).toNat) = some tick := by
    show functionConstAt (loadedModule shadowDecl) 4 = some tick
    rw [functionConstAt, h4]
  obtain ⟨s1, hstep1, hs1, -, -, -⟩ :=
    (builtins_are_selected_by_name false (fun k => 1000 + k) (loadedModule shadowDecl)
      (mainState shadowCode 2 0xb8 [] [7]) 0 3 0xb8 println 0 rfl rfl rfl hf3 rfl).1
      (by rw [hname]; rfl) 7 rfl rfl
  obtain ⟨s2, hstep2, hs2, -, -, -⟩ :=
    (builtins_are_selected_by_name false (fun k => 1000 + k) (loadedModule shadowDecl)
      (mainState shadowCode 5 0xb8 [] []) 0 4 0xb8 tick 0 rfl rfl rfl hf4 rfl).2
      (by rw [hname']; rfl) (by rw [hname']; rfl) rfl (by decide)
  refine ⟨⟨s1, hstep1, ?_⟩, ⟨s2, hstep2, ?_⟩⟩
  · rw [hs1]
    exact ⟨rfl, rfl, rfl, rfl, rfl, rfl, rfl⟩
  · rw [hs2]
    exact ⟨rfl, rfl, rfl, rfl, rfl, rfl, rfl, rfl⟩

set_option maxRecDepth 100000 in
/-- Without the arena, `execute` on the module loaded from the stream whose
functions `println` and `tick` have bytecode: `main` writes 7 and the value
of `clock()`, here 1000, and returns 0 after 5 iterations; the bytecode of
the two functions, which would write 9 and push 5, is not executed. -/
theorem execute_shadowed_builtins :
    ∃ m, readBCModule (encodeModule shadowDecl) = some (m, [])
      ∧ execute false (fun k => 1000 + k) initArena m 5
          = some (.returned 0 ["7\n", "1000\n"] initArena) :=
  ⟨_, shadowDecl_loaded, rfl⟩

/-! ## C34: the first match of a name -/

/-- The loop of `getType` when the entry `k`, among those that it visits, is
the first from `i` on whose name `strcmp` finds equal to `typeName`: it
returns the value of `types[k]`. -/
theorem getTypeFrom_match (typeName : String) (typeNames : List (Option String))
    (types : List (Ptr PType)) (k : Nat)
    (hmatch : ∃ name, typeNames[k]? = some (some name) ∧ strcmp_eq typeName name = true) :
    ∀ (n i : Nat), i ≤ k → k < i + n →
      (∀ j, i ≤ j → j < k →
        ∃ name, typeNames[j]? = some (some name) ∧ strcmp_eq typeName name = false) →
      getTypeFrom typeName typeNames types n i = typeRefAt types k := by
  intro n
  induction n with
  | zero => intro i h1 h2; omega
  | succ n ih =>
    intro i h1 h2 hbefore
    by_cases hik : i = k
    · subst hik
      obtain ⟨name, hname, hc⟩ := hmatch
      simp only [getTypeFrom, hname, hc, if_true]
    · obtain ⟨name, hname, hc⟩ := hbefore i (Nat.le_refl i) (by omega)
      simp only [getTypeFrom, hname, hc, Bool.false_eq_true, if_false]
      exact ih (i + 1) (by omega) (by omega) (fun j hj1 hj2 => hbefore j (by omega) hj2)

/-- The loop of `getType` when `strcmp` finds none of the names of the
entries that it visits equal to `typeName`: it returns `NULL`. -/
theorem getTypeFrom_no_match (typeName : String) (typeNames : List (Option String))
    (types : List (Ptr PType)) :
    ∀ (n i : Nat),
      (∀ j, i ≤ j → j < i + n →
        ∃ name, typeNames[j]? = some (some name) ∧ strcmp_eq typeName name = false) →
      getTypeFrom typeName typeNames types n i = some .null := by
  intro n
  induction n with
  | zero => intro i _; rfl
  | succ n ih =>
    intro i hnone
    obtain ⟨name, hname, hc⟩ := hnone i (Nat.le_refl i) (by omega)
    simp only [getTypeFrom, hname, hc, Bool.false_eq_true, if_false]
    exact ih (i + 1) (fun j hj1 hj2 => hnone j (by omega) (by omega))

theorem typeRefAt_isSome {types : List (Ptr PType)} {k : Nat} (h : k < types.length) :
    ∃ ref, typeRefAt types k = some ref := by
  unfold typeRefAt
  rw [List.getElem?_eq_getElem h]
  cases types[k] <;> exact ⟨_, rfl⟩

theorem resolveName_first {names : List String} {s : String}
    (h : ∃ name ∈ names, strcmp_eq s name = true) :
    ∃ k name, resolveName names s = .to k ∧ names[k]? = some name
      ∧ strcmp_eq s name = true
      ∧ ∀ (j : Nat) (name' : String), j < k → names[j]? = some name' →
          strcmp_eq s name' = false := by
  obtain ⟨k, hk⟩ := Option.isSome_iff_exists.1 (firstIndexFrom_isSome s names 0 h)
  obtain ⟨-, -, name, hget, hcmp, hbefore⟩ := firstIndexFrom_bounds s names 0 k hk
  rw [Nat.sub_zero] at hget hbefore
  exact ⟨k, name, by rw [resolveName, hk], hget, hcmp, hbefore⟩

theorem loadedTypes_name_of_getElem {ds : List TypeDecl} {j : Nat} {t : PType}
    (h : (loadedTypes ds)[j]? = some (.to t)) : (typeNamesOf ds)[j]? = some t.name := by
  have hj := congrArg (fun l => l[j]?) (loadedTypes_names ds)
  simp only [List.getElem?_map, h, Option.map_some'] at hj
  cases hn : (typeNamesOf ds)[j]? with
  | none => rw [hn] at hj; cases hj
  | some name =>
    rw [hn] at hj
    simp only [Option.map_some', Option.some.injEq] at hj
    rw [hj]

theorem firstEntryNamed_resolveName {d : ModuleDecl} {s : ByteString}
    (h : Resolves d.types s) :
    ∃ k, resolveName (typeNamesOf d.types) (stringOfBytes s) = .to k
      ∧ FirstEntryNamed (loadedModule d) s k := by
  obtain ⟨k, name, hk, hget, hcmp, hbefore⟩ := resolveName_first h
  obtain ⟨t, ht, hname⟩ := loadedTypes_getElem_of_name hget
  refine ⟨k, hk, ⟨t, ht, by rw [hname]; exact hcmp⟩, fun j t' hj ht' => ?_⟩
  exact hbefore j t'.name hj (loadedTypes_name_of_getElem ht')

theorem refersToFirst_resolveName {d : ModuleDecl} {s : ByteString} (h : Resolves d.types s) :
    RefersToFirst (loadedModule d) (resolveName (typeNamesOf d.types) (stringOfBytes s)) s := by
  obtain ⟨k, hk, hfirst⟩ := firstEntryNamed_resolveName h
  exact ⟨k, hk, hfirst⟩

theorem pointsToFirst_typeAt {d : ModuleDecl} {s : ByteString} (h : Resolves d.types s) :
    PointsToFirst (loadedModule d)
      (typeAt (loadedTypes d.types) (resolveName (typeNamesOf d.types) (stringOfBytes s))) s := by
  obtain ⟨k, hk, hfirst⟩ := firstEntryNamed_resolveName h
  exact ⟨k, by rw [hk]; rfl, hfirst⟩

/-- The first entry of a name is no later than any entry of that name. -/
theorem FirstEntryNamed.not_later {bcModule : BCModule} {name : ByteString} {k : Nat}
    (h : FirstEntryNamed bcModule name k) (i : Nat) (t : PType)
    (hi : bcModule.types[i]? = some (.to t))
    (hname : strcmp_eq (stringOfBytes name) t.name = true) : k ≤ i := by
  by_contra hlt
  have := h.2 i t (Nat.lt_of_not_le hlt) hi
  rw [hname] at this
  cases this

/-- C34. The function `getType`: when the entry `k`, one of the `numTypes`
entries that it may visit, is the entry with the smallest index whose name
`strcmp` finds equal to the requested name, it returns the value `types[k]`,
whatever the entries after `k` hold; and when `strcmp` finds the name of none
of the `numTypes` entries equal to it, it returns `NULL`.  And for every stream of the grammar
whose type names resolve, the loader returns a module in which every
reference of a user type (upper types; return type and parameter types;
members) is the first entry of the type table with the name referenced, and
`theType` of every function symbol and of every local points to the object of
the first entry with the name that the stream gives: when an entry `i` has
that name, the entry referred to is `i` or comes before `i`, so that it is no
entry `j` that comes after `i`, whether `i` is a system type or a user
type. -/
theorem name_lookup_takes_first_match :
    (∀ (typeName : String) (numTypes : Nat) (typeNames : List (Option String))
        (types : List (Ptr PType)) (k : Nat),
      k < numTypes → k < types.length → FirstNamed typeName typeNames k →
      ∃ ref, getType typeName numTypes typeNames types = some ref
        ∧ typeRefAt types k = some ref
        ∧ ∀ t, types[k]? = some (.to t) → ref = .to k)
    ∧ (∀ (typeName : String) (numTypes : Nat) (typeNames : List (Option String))
        (types : List (Ptr PType)),
      (∀ i, i < numTypes →
        ∃ name, typeNames[i]? = some (some name) ∧ strcmp_eq typeName name = false) →
      getType typeName numTypes typeNames types = some .null)
    ∧ (∀ d : ModuleDecl, d.WellFormed → NamesResolve d.types → SymbolNamesResolve d →
      ∃ m, readBCModule (encodeModule d) = some (m, [])
        ∧ (∀ i t, d.types[i]? = some t →
            ∃ p, m.types[i + 9]? = some (.to p)
              ∧ List.Forall₂ (RefersToFirst m) p.refs t.refNames)
        ∧ (∀ i body, d.consts[i]? = some (.FunctionConst body) →
            ∃ f vars, m.consts[i + 3]? = some (.to (.FunctionConst f))
              ∧ PointsToFirst m f.symbol.theType body.typeName
              ∧ f.vars = some vars
              ∧ List.Forall₂ (fun (v : VarSymbol) (decl : VarDecl) =>
                  PointsToFirst m v.symbol.theType decl.typeName) vars body.vars)
        ∧ (∀ (name : ByteString) (k i j : Nat) (t : PType), FirstEntryNamed m name k →
            m.types[i]? = some (.to t) → strcmp_eq (stringOfBytes name) t.name = true →
            i < j → k ≤ i ∧ k ≠ j)) := by
  refine ⟨fun typeName numTypes typeNames types k hk hlen hfirst => ?_,
    fun typeName numTypes typeNames types hnone => ?_,
    fun d hwf hres hsym => ?_⟩
  · obtain ⟨ref, href⟩ := typeRefAt_isSome hlen
    have hget := getTypeFrom_match typeName typeNames types k hfirst.1 numTypes 0
      (Nat.zero_le k) (by omega) (fun j _ hj => hfirst.2 j hj)
    refine ⟨ref, by rw [getType, hget, href], href, fun t ht => ?_⟩
    rw [typeRefAt_of_object ht] at href
    injection href with href
    exact href.symm
  · exact getTypeFrom_no_match typeName typeNames types numTypes 0
      (fun j _ hj => hnone j (by omega))
  · have hload := readBCModule_encodeModule d [] hwf hres
    rw [List.append_nil] at hload
    refine ⟨loadedModule d, hload, ?_, ?_, ?_⟩
    · intro i t hi
      refine ⟨_, loadedModule_types_user hi, ?_⟩
      rw [loadedType_refs]
      apply forall₂_map_left
      intro s hs
      exact refersToFirst_resolveName (hres t (List.getElem?_mem hi) s hs)
    · intro i body hi
      obtain ⟨hf, hv⟩ := hsym _ (List.getElem?_mem hi)
      refine ⟨_, _, loadedModule_consts_user hi, pointsToFirst_typeAt hf, rfl, ?_⟩
      apply forall₂_map_left
      intro v hmem
      exact pointsToFirst_typeAt (hv v hmem)
    · intro name k i j t hfirst hi hname hij
      have hle := hfirst.not_later i t hi hname
      exact ⟨hle, by omega⟩

/-- C34, witness.  The name `T` in a table of three entries named `integer`,
`T` and `T`; and the stream in which a user type has the name of the system
type `integer` and two user types are named `T`. -/
theorem name_lookup_takes_first_match_witness :
    (1 < 3 ∧ FirstNamed "T" [some "integer", some "T", some "T"] 1
      ∧ ∃ ref, getType "T" 3 [some "integer", some "T", some "T"]
          [.to sysTypes.Integer, .to (createSimpleType "T" 0 none),
            .to (createUnionType "T" 0 none)] = some ref
        ∧ typeRefAt [.to sysTypes.Integer, .to (createSimpleType "T" 0 none),
            .to (createUnionType "T" 0 none)] 1 = some ref
        ∧ ∀ t, ([.to sysTypes.Integer, .to (createSimpleType "T" 0 none),
            .to (createUnionType "T" 0 none)] : List (Ptr PType))[1]? = some (.to t) →
            ref = .to 1)
    ∧ getType "U" 3 [some "integer", some "T", some "T"]
        [.to sysTypes.Integer, .to (createSimpleType "T" 0 none),
          .to (createUnionType "T" 0 none)] = some .null
    ∧ (∃ m, readBCModule (encodeModule duplicateNamesDecl) = some (m, [])
        ∧ (∀ i t, duplicateNamesDecl.types[i]? = some t →
            ∃ p, m.types[i + 9]? = some (.to p)
              ∧ List.Forall₂ (RefersToFirst m) p.refs t.refNames)
        ∧ (∀ i body, duplicateNamesDecl.consts[i]? = some (.FunctionConst body) →
            ∃ f vars, m.consts[i + 3]? = some (.to (.FunctionConst f))
              ∧ PointsToFirst m f.symbol.theType body.typeName
              ∧ f.vars = some vars
              ∧ List.Forall₂ (fun (v : VarSymbol) (decl : VarDecl) =>
                  PointsToFirst m v.symbol.theType decl.typeName) vars body.vars)
        ∧ (∀ (name : ByteString) (k i j : Nat) (t : PType), FirstEntryNamed m name k →
            m.types[i]? = some (.to t) → strcmp_eq (stringOfBytes name) t.name = true →
            i < j → k ≤ i ∧ k ≠ j)) :=
  have hfirst : FirstNamed "T" [some "integer", some "T", some "T"] 1 :=
    ⟨⟨"T", rfl, by decide⟩, fun j hj => by
      have h0 : j = 0 := by omega
      subst h0
      exact ⟨"integer", rfl, by decide⟩⟩
  ⟨⟨by decide, hfirst,
      name_lookup_takes_first_match.1 "T" 3 [some "integer", some "T", some "T"]
        [.to sysTypes.Integer, .to (createSimpleType "T" 0 none),
          .to (createUnionType "T" 0 none)] 1 (by decide) (by decide) hfirst⟩,
    name_lookup_takes_first_match.2.1 "U" 3 [some "integer", some "T", some "T"]
      [.to sysTypes.Integer, .to (createSimpleType "T" 0 none),
        .to (createUnionType "T" 0 none)]
      (fun i hi => by interval_cases i <;> exact ⟨_, rfl, by decide⟩),
    name_lookup_takes_first_match.2.2 duplicateNamesDecl (by decide) (by decide) (by decide)⟩

set_option maxRecDepth 100000 in
/-- The stream in which a user type has the name of the system type `integer`
and two user types are named `T`: in the module loaded, the entries 6 and 9
of the type table are named `integer` and the entries 10 and 11 are named
`T`; the union type (entry 11) refers to the entries 6 and 10, the function
type `@main` (entry 12) to the entries 10 and 6, and the locals of `main`
have the simple type of the entry 10 and the system type `integer` of the
entry 6, not the union type of the entry 11 nor the function type of the
entry 9. -/
theorem duplicate_names_resolve_to_first_entry :
    ∃ m fmain main x y,
      readBCModule (encodeModule duplicateNamesDecl) = some (m, [])
      ∧ typeNameAt m 6 = some "integer" ∧ typeNameAt m 9 = some "integer"
      ∧ typeNameAt m 10 = some "T" ∧ typeNameAt m 11 = some "T"
      ∧ m.types[6]? = some (.to sysTypes.Integer)
      ∧ m.types[9]? = some (.to (.FunctionType "integer" .FunctionT (.to 8) 0 (some [])))
      ∧ m.types[10]? = some (.to (.SimpleType "T" .SimpleT 1 (some [.to 0])))
      ∧ m.types[11]? = some (.to (.UnionType "T" .SimpleT 2 (some [.to 6, .to 10])))
      ∧ m.types[12]? = some (.to fmain) ∧ fmain.refs = [.to 10, .to 6]
      ∧ m.consts[3]? = some (.to (.FunctionConst main))
      ∧ main.symbol.theType = .to fmain
      ∧ main.vars = some [x, y]
      ∧ x.symbol.theType = .to (.SimpleType "T" .SimpleT 1 (some [.to 0]))
      ∧ y.symbol.theType = .to sysTypes.Integer :=
  ⟨_, _, _, _, _, rfl, rfl, rfl, rfl, rfl, rfl, rfl, rfl, rfl, rfl, rfl, rfl, rfl, rfl, rfl,
    rfl⟩

/-! ## C33: the regions of a frame -/

/-- C33. For every function symbol that `createFunctionSymbol` makes, with
`numVars` locals and an operand stack of `opStackSize` cells, the slab is of
`frameSize = 56 + 4*numVars + 4*opStackSize` bytes and the partition of the
specification puts the locals at the byte 40, the header of the operand stack
at `40 + 4*numVars` and its cells at `56 + 4*numVars`, ending at `frameSize`.
The pointers that `createStackFrame` computes, by arithmetic on `StackFrame*`,
`VM_NUMBER*` and `OprandStack*` in which the sizes count objects, are
elsewhere: the locals at the byte 1600 of the slab, the header of the operand
stack at `1600 + 16*numVars` and its cells at `1856 + 16*numVars`, so that
the cells end `1800 + 12*numVars` bytes after the end of the slab; the four
regions are in the order of the specification and disjoint.  For a
function without locals read by the loader, whose slab has 136 bytes, and for
one with 255 locals, whose slab has 1156 bytes, the three regions begin after
the end of the slab.  On the arena that `initArena` leaves, the frame of
`main` being the first allocation and the frame of its callee the second,
both without locals, the locals of the callee are at the byte 4160 of a block
of 4112 bytes. -/
theorem frame_regions_are_not_the_slab_partition
    (functionName : String) (functionType : Ptr PType) (numVars : Nat)
    (vars : Option (List VarSymbol)) (opStackSize numByteCodes : Nat)
    (byteCode : Option (List UInt8)) :
    (∃ f code slab,
      f = createFunctionSymbol functionName functionType numVars vars opStackSize
        numByteCodes byteCode
      ∧ code = framePointers f ∧ slab = slabPartition f
      ∧ f.frameSize = 56 + 4 * numVars + 4 * opStackSize
      ∧ slab.localVars = 40 ∧ code.localVars = 1600
      ∧ slab.oprandStack = 40 + 4 * numVars ∧ code.oprandStack = 1600 + 16 * numVars
      ∧ slab.data = 56 + 4 * numVars ∧ code.data = 1856 + 16 * numVars
      ∧ slab.data + sizeof_VM_NUMBER * opStackSize = f.frameSize
      ∧ code.data + sizeof_VM_NUMBER * opStackSize = f.frameSize + (1800 + 12 * numVars)
      ∧ sizeof_StackFrame ≤ code.localVars
      ∧ code.localVars + sizeof_VM_NUMBER * numVars ≤ code.oprandStack
      ∧ code.oprandStack + sizeof_OprandStack ≤ code.data)
    ∧ ((mainFunction 0 [0xb1]).frameSize = 136
      ∧ framePointers (mainFunction 0 [0xb1])
          = { localVars := 1600, oprandStack := 1600, data := 1856 }
      ∧ slabPartition (mainFunction 0 [0xb1])
          = { localVars := 40, oprandStack := 40, data := 56 })
    ∧ (wideNoopFunction.frameSize = 1156
      ∧ framePointers wideNoopFunction
          = { localVars := 1600, oprandStack := 5680, data := 5936 }
      ∧ slabPartition wideNoopFunction
          = { localVars := 40, oprandStack := 1060, data := 1076 })
    ∧ (∃ frame arena mem callee arena' mem' block,
      createStackFrame USE_ARENA initArena (mainFunction 0 noopCallCode) = some (frame, arena)
      ∧ allocFromArena initArena (mainFunction 0 noopCallCode).frameSize = some (mem, arena)
      ∧ mem.block = 0 ∧ mem.byteOffset = 256
      ∧ createStackFrame USE_ARENA arena noopFunction = some (callee, arena')
      ∧ allocFromArena arena noopFunction.frameSize = some (mem', arena')
      ∧ mem'.block = 0 ∧ mem'.byteOffset = 2560
      ∧ mem'.byteOffset + (framePointers noopFunction).localVars = 4160
      ∧ arena'.blocks = [block] ∧ block.bytes = 4112) := by
  refine ⟨⟨_, _, _, rfl, rfl, rfl, ?_, rfl, rfl, ?_, ?_, ?_, ?_, ?_, ?_, ?_, ?_, ?_⟩,
    ⟨rfl, rfl, rfl⟩, ⟨rfl, rfl, rfl⟩,
    ⟨_, _, _, _, _, _, _, rfl, rfl, rfl, rfl, rfl, rfl, rfl, rfl, rfl, rfl, rfl⟩⟩
  all_goals
    simp only [createFunctionSymbol, framePointers, slabPartition, framePlus, numberPlus,
      oprandStackPlus, sizeof_StackFrame, sizeof_VM_NUMBER, sizeof_OprandStack]
    omega

/-! ## C31: the offsets of the blocks -/

/-- C31. On the arena that `initArena` leaves, four calls
`allocFromArena(1156)`, the size of the frame of a function with 255 locals,
each of which fits an empty block with its offset word (1164 bytes out of
4096): the fourth does not fit in block 0, whose offset is 3492; a block is
appended but `pos` stays 0, and the offset of block 0 becomes 4656, more than
its size of 4096.  The same happens when returns come between the
allocations, as in `alloc 2000; alloc 100; return; alloc 2000; alloc 100`,
which leaves the offset 4124 in block 0, and in `execute` on the module whose
functions have 255 locals, after the three calls that follow the entry into
`main`.  When the first allocation is returned, as in `alloc 136; return;
alloc 136`, `pos` is -1 and the next allocation reads `arena.blocks[-1]`. -/
theorem block_offset_exceeds_capacity :
    (∃ arena old,
      lifoOrder 0 [.alloc 1156, .alloc 1156, .alloc 1156, .alloc 1156] = true
      ∧ sizesFit [.alloc 1156, .alloc 1156, .alloc 1156, .alloc 1156] = true
      ∧ arenaCalls [.alloc 1156, .alloc 1156, .alloc 1156] initArena = some old
      ∧ old.pos = 0 ∧ old.numBlocks = 1 ∧ old.activeOffset = some 3492
      ∧ old.WithinCapacity
      ∧ arenaCalls [.alloc 1156, .alloc 1156, .alloc 1156, .alloc 1156] initArena = some arena
      ∧ arena.pos = 0 ∧ arena.numBlocks = 2 ∧ arena.activeOffset = some 4656
      ∧ arena.blocks.map (fun block => (block.offset, block.size))
          = [(4656, 4096), (0, 4096)]
      ∧ ¬ arena.WithinCapacity)
    ∧ (∃ arena,
      lifoOrder 0 [.alloc 2000, .alloc 100, .ret, .alloc 2000, .alloc 100] = true
      ∧ sizesFit [.alloc 2000, .alloc 100, .ret, .alloc 2000, .alloc 100] = true
      ∧ arenaCalls [.alloc 2000, .alloc 100, .ret, .alloc 2000, .alloc 100] initArena
          = some arena
      ∧ arena.pos = 0
      ∧ arena.blocks.map (fun block => (block.offset, block.size))
          = [(4124, 4096), (0, 4096)]
      ∧ ¬ arena.WithinCapacity)
    ∧ (∃ st0 st,
      enter USE_ARENA initArena wideCallsModule = .next st0
      ∧ stepsFrom USE_ARENA (fun _ => 0) wideCallsModule 3 st0 = some st
      ∧ st.frame.callers.length = 3
      ∧ st.arena.blocks.map (fun block => (block.offset, block.size))
          = [(4656, 4096), (0, 4096)]
      ∧ ¬ st.arena.WithinCapacity)
    ∧ (lifoOrder 0 [.alloc 136, .ret, .alloc 136] = true
      ∧ sizesFit [.alloc 136, .ret, .alloc 136] = true
      ∧ (∃ arena, arenaCalls [.alloc 136, .ret] initArena = some arena ∧ arena.pos = -1)
      ∧ arenaCalls [.alloc 136, .ret, .alloc 136] initArena = none) :=
  ⟨⟨_, _, rfl, rfl, rfl, rfl, rfl, rfl, by decide, rfl, rfl, rfl, rfl, rfl, by decide⟩,
    ⟨_, rfl, rfl, rfl, rfl, rfl, by decide⟩,
    ⟨_, _, rfl, rfl, rfl, rfl, by decide⟩,
    ⟨rfl, rfl, ⟨_, rfl, rfl⟩, rfl⟩⟩

/-- An allocation that does not fit in the active block when this block is
the last one: whatever the arena, the memory is taken from the active block,
whose offset it sets beyond the size of the block, and `pos` is not
changed. -/
theorem allocFromArena_beyond_capacity (arena : Arena) (cur : ArenaBlock) (size : Nat)
    (hcur : arena.blockAt arena.pos = some cur)
    (hfit : cur.offset + size + sizeof_size_t > cur.size)
    (hpos : ¬ arena.pos < (arena.numBlocks : Int) - 1) :
    ∃ mem arena' block,
      allocFromArena arena size = some (mem, arena')
      ∧ arena'.pos = arena.pos ∧ arena'.numBlocks = arena.numBlocks + 1
      ∧ arena'.blockAt arena'.pos = some block
      ∧ block.size = cur.size ∧ block.offset = cur.offset + size + sizeof_size_t
      ∧ block.size < block.offset
      ∧ ¬ arena'.WithinCapacity := by
  refine ⟨_, _, _, allocFromArena_of_last_block size hcur hfit hpos, rfl, rfl,
    blockAt_setBlock_self _ (blockAt_addArenaBlock ARENA_BLOCK_SIZE hcur), rfl, rfl, hfit, ?_⟩
  intro hwithin
  have hat := blockAt_setBlock_self
    { cur with
      offset := cur.offset + size + sizeof_size_t
      words := Function.update cur.words
        (blockPlus (sizeof_ArenaBlock + (cur.offset + size))) (some cur.offset) }
    (blockAt_addArenaBlock ARENA_BLOCK_SIZE hcur)
  unfold Arena.blockAt at hat
  split at hat
  · have hle := hwithin _ (List.getElem?_mem hat)
    exact absurd hfit (not_lt.2 hle)
  · cases hat

/-- An allocation that fits in the active block, or that finds a block after
the active one, in a well-formed arena whose blocks are of `ARENA_BLOCK_SIZE`
bytes, the size with the offset word fitting an empty block: the offsets that
were within the sizes of the blocks stay so. -/
theorem allocFromArena_within_capacity {arena arena' : Arena} {cur : ArenaBlock} {size : Nat}
    {mem : ArenaPtr} (hwf : arena.WellFormed) (hwithin : arena.WithinCapacity)
    (hsizes : ∀ block ∈ arena.blocks, block.size = ARENA_BLOCK_SIZE)
    (hsize : size + sizeof_size_t ≤ ARENA_BLOCK_SIZE)
    (hcur : arena.blockAt arena.pos = some cur)
    (hroom : cur.offset + size + sizeof_size_t ≤ cur.size
      ∨ arena.pos < (arena.numBlocks : Int) - 1)
    (h : allocFromArena arena size = some (mem, arena')) :
    arena'.WithinCapacity ∧ arena'.numBlocks = arena.numBlocks
      ∧ ∀ block ∈ arena'.blocks, block.size = ARENA_BLOCK_SIZE := by
  obtain ⟨h0, hlt, hnum, hlater⟩ := hwf
  by_cases hfit : cur.offset + size + sizeof_size_t ≤ cur.size
  · rw [allocFromArena_of_fits size hcur hfit] at h
    injection h with h
    injection h with _ h
    subst h
    have hmem : cur ∈ arena.blocks := by
      unfold Arena.blockAt at hcur
      rw [if_pos h0] at hcur
      exact List.getElem?_mem hcur
    refine ⟨fun block hb => ?_, rfl, fun block hb => ?_⟩
    · rcases List.mem_or_eq_of_mem_set hb with hold | hnew
      · exact hwithin block hold
      · rw [hnew]
        exact hfit
    · rcases List.mem_or_eq_of_mem_set hb with hold | hnew
      · exact hsizes block hold
      · rw [hnew]
        exact hsizes cur hmem
  · have hpos : arena.pos < (arena.numBlocks : Int) - 1 := by
      rcases hroom with hr | hr
      · exact absurd hr hfit
      · exact hr
    obtain ⟨p, hp⟩ := Int.eq_ofNat_of_zero_le h0
    have hp1 : p + 1 < arena.blocks.length := by
      rw [hp, hnum] at hpos
      omega
    have hget : arena.blocks[p + 1]? = some arena.blocks[p + 1] :=
      List.getElem?_eq_getElem hp1
    have hat : arena.blockAt (arena.pos + 1) = some arena.blocks[p + 1] := by
      rw [hp]
      exact (Arena.blockAt_natCast arena (p + 1)).trans hget
    have hoff : (arena.blocks[p + 1]).offset = 0 :=
      hlater (p + 1) _ (by rw [hp]; push_cast; omega) hget
    have hmem : arena.blocks[p + 1] ∈ arena.blocks := List.getElem_mem _
    rw [allocFromArena_of_later_block size hcur (not_le.1 hfit) hpos hat] at h
    injection h with h
    injection h with _ h
    subst h
    refine ⟨fun block hb => ?_, rfl, fun block hb => ?_⟩
    · rcases List.mem_or_eq_of_mem_set hb with hold | hnew
      · exact hwithin block hold
      · rw [hnew]
        show (arena.blocks[p + 1]).offset + size + sizeof_size_t ≤ (arena.blocks[p + 1]).size
        rw [hoff, hsizes _ hmem, Nat.zero_add]
        exact hsize
    · rcases List.mem_or_eq_of_mem_set hb with hold | hnew
      · exact hsizes block hold
      · rw [hnew]
        exact hsizes (arena.blocks[p + 1]) hmem

theorem Arena.Chain.good {Good : Arena → Prop} {depth : Nat} {arena : Arena}
    (h : Arena.Chain Good depth arena) : Good arena := by
  cases h with
  | base hs => exact hs
  | alloc _ _ hs => exact hs
  | agree _ _ hs => exact hs

theorem Arena.Chain.weaken {Good Good' : Arena → Prop} (himp : ∀ a, Good a → Good' a)
    {depth : Nat} {arena : Arena} (h : Arena.Chain Good depth arena) :
    Arena.Chain Good' depth arena := by
  induction h with
  | base hs => exact Arena.Chain.base (himp _ hs)
  | alloc _ halloc hs ih => exact Arena.Chain.alloc ih halloc (himp _ hs)
  | agree _ hagree hs ih => exact Arena.Chain.agree ih hagree (himp _ hs)

/-- An arena that has the allocations of an arena whose offsets are within the
sizes of the blocks, and is well formed, has its offsets within the sizes of
its blocks. -/
theorem Arena.Agree.within_capacity {a b : Arena} (h : a.Agree b) (hwfa : a.WellFormed)
    (hwfb : b.WellFormed) (hwithin : a.WithinCapacity) : b.WithinCapacity := by
  intro y hy
  obtain ⟨i, hi⟩ := List.getElem?_of_mem hy
  obtain ⟨hbpos, hbelow⟩ := h
  by_cases hle : (i : Int) ≤ a.pos
  · obtain ⟨h0, hlt, -, -⟩ := hwfa
    obtain ⟨p, hp⟩ := Int.eq_ofNat_of_zero_le h0
    have hil : i < a.blocks.length := by
      rw [hp, Int.toNat_ofNat] at hlt
      rw [hp] at hle
      omega
    obtain ⟨y', hy', hsize, hoff, -⟩ := hbelow i _ hle (List.getElem?_eq_getElem hil)
    rw [hi] at hy'
    injection hy' with hy'
    subst hy'
    rw [hsize, hoff]
    exact hwithin _ (List.getElem_mem _)
  · have h0 := hwfb.2.2.2 i y (by rw [hbpos]; omega) hi
    rw [h0]
    exact Nat.zero_le _

/-- The function `returnToArena` changes the size of no block, nor
`numBlocks`. -/
theorem returnToArena_sizes {b c : Arena} (h : returnToArena b = some c) :
    c.numBlocks = b.numBlocks
      ∧ ((∀ block ∈ b.blocks, block.size = ARENA_BLOCK_SIZE) →
          ∀ block ∈ c.blocks, block.size = ARENA_BLOCK_SIZE) := by
  simp only [returnToArena, Option.bind_eq_bind, Option.bind_eq_some] at h
  obtain ⟨block, hat, prevOffset, -, h⟩ := h
  have hmem : block ∈ b.blocks := by
    unfold Arena.blockAt at hat
    split at hat
    · exact List.getElem?_mem hat
    · cases hat
  have hblocks : ∀ (arena : Arena),
      arena.blocks = (b.setBlock b.pos { block with offset := prevOffset }).blocks →
      (∀ x ∈ b.blocks, x.size = ARENA_BLOCK_SIZE) →
      ∀ x ∈ arena.blocks, x.size = ARENA_BLOCK_SIZE := by
    intro arena he hsizes x hx
    rw [he] at hx
    rcases List.mem_or_eq_of_mem_set hx with hold | hnew
    · exact hsizes x hold
    · rw [hnew]
      exact hsizes block hmem
  split at h
  · injection h with h
    subst h
    exact ⟨rfl, hblocks _ rfl⟩
  · injection h with h
    subst h
    exact ⟨rfl, hblocks _ rfl⟩

/-- The return of the most recent allocation leads to an arena that has the
allocations of the arena in which the allocation was made, and its
property. -/
theorem Arena.Chain.chain_returned {Good : Arena → Prop}
    (huse : ∀ a, Good a → a.InUse)
    (hback : ∀ a b c, Good a → Good b → a.Agree c → c.WellFormed →
      returnToArena b = some c → Good c)
    {depth' : Nat} {a : Arena} (h : Arena.Chain Good depth' a) :
    ∀ (depth : Nat) (b : Arena), depth' = depth + 1 → a.Agree b → Good b →
      ∃ c, returnToArena b = some c ∧ Arena.Chain Good depth c := by
  induction h with
  | base _ => intro depth b hd; cases hd
  | alloc hcaller halloc _ _ =>
    intro depth b hd hagree hb
    injection hd with hd
    subst hd
    obtain ⟨hwf, hlive⟩ := huse _ hcaller.good
    obtain ⟨c, hc, hagc, hwfc⟩ :=
      returnToArena_after_alloc hwf hlive halloc hagree (huse _ hb).1
    exact ⟨c, hc, Arena.Chain.agree hcaller hagc (hback _ _ _ hcaller.good hb hagc hwfc hc)⟩
  | agree _ hagree' _ ih =>
    intro depth b hd hagree hb
    exact ih depth b hd (hagree'.arena_trans hagree) hb

theorem Arena.InUse.inUse_after_return {depth : Nat} {b : Arena}
    (h : Arena.Chain Arena.InUse (depth + 1) b) :
    ∃ c, returnToArena b = some c ∧ Arena.Chain Arena.InUse depth c :=
  Arena.Chain.chain_returned (fun _ ha => ha)
    (fun _ _ _ ha _ hagree hwfc _ => ⟨hwfc, hagree.live ha.1 ha.2⟩)
    h depth b rfl (Arena.Agree.arena_refl b) h.good

theorem Arena.Sound.sound_after_return {depth : Nat} {b : Arena}
    (h : Arena.Chain Arena.Sound (depth + 1) b) :
    ∃ c, returnToArena b = some c ∧ Arena.Chain Arena.Sound depth c :=
  Arena.Chain.chain_returned (fun _ ha => ha.1)
    (fun _ _ _ ha hb hagree hwfc hc =>
      ⟨⟨hwfc, hagree.live ha.1.1 ha.1.2⟩, hagree.within_capacity ha.1.1 hwfc ha.2.1,
        (returnToArena_sizes hc).2 hb.2.2⟩)
    h depth b rfl (Arena.Agree.arena_refl b) h.good

theorem allocFromArena_defined {arena : Arena} (hwf : arena.WellFormed) (size : Nat) :
    ∃ mem arena1, allocFromArena arena size = some (mem, arena1) := by
  obtain ⟨p, cur, hp, hcur, hat⟩ := hwf.current
  by_cases h1 : cur.offset + size + sizeof_size_t ≤ cur.size
  · exact ⟨_, _, allocFromArena_of_fits size hat h1⟩
  · by_cases h2 : arena.pos < (arena.numBlocks : Int) - 1
    · have hp1 : p + 1 < arena.blocks.length := by
        rw [hp, hwf.2.2.1] at h2
        omega
      have hlater : arena.blockAt (arena.pos + 1) = some arena.blocks[p + 1] := by
        rw [hp]
        exact (Arena.blockAt_natCast arena (p + 1)).trans (List.getElem?_eq_getElem hp1)
      exact ⟨_, _, allocFromArena_of_later_block size hat (not_le.1 h1) h2 hlater⟩
    · exact ⟨_, _, allocFromArena_of_last_block size hat (not_le.1 h1) h2⟩

/-- From an arena in use with `depth` allocations outstanding, every sequence
of calls in LIFO order is defined. -/
theorem arenaCalls_defined :
    ∀ (calls : List ArenaCall) (depth : Nat) (arena : Arena),
      Arena.Chain Arena.InUse depth arena → lifoOrder depth calls = true →
      ∃ final, arenaCalls calls arena = some final := by
  intro calls
  induction calls with
  | nil => intro depth arena _ _; exact ⟨arena, rfl⟩
  | cons call calls ih =>
    intro depth arena hf hlifo
    cases call with
    | alloc size =>
      have hlifo' : lifoOrder (depth + 1) calls = true := by
        rw [lifoOrder] at hlifo
        exact hlifo
      obtain ⟨mem, arena1, halloc⟩ := allocFromArena_defined hf.good.1 size
      have hwf1 : arena1.WellFormed := by
        obtain ⟨_, _, _, -, -, -, -, -, -, h⟩ := allocFromArena_push hf.good.1 halloc
        exact h
      obtain ⟨final, hfinal⟩ := ih (depth + 1) arena1
        (Arena.Chain.alloc hf halloc ⟨hwf1, allocFromArena_live hf.good.1 halloc⟩) hlifo'
      exact ⟨final, by
        simp only [arenaCalls, halloc, Option.bind_eq_bind, Option.some_bind, hfinal]⟩
    | ret =>
      cases depth with
      | zero => simp [lifoOrder] at hlifo
      | succ depth =>
        have hlifo' : lifoOrder depth calls = true := by
          rw [lifoOrder] at hlifo
          exact hlifo
        obtain ⟨c, hc, hfc⟩ := Arena.InUse.inUse_after_return hf
        obtain ⟨final, hfinal⟩ := ih depth c hfc hlifo'
        exact ⟨final, by
          simp only [arenaCalls, hc, Option.bind_eq_bind, Option.some_bind, hfinal]⟩

/-- What `allocFromArena` does to `numBlocks` in a well-formed arena: it
leaves it, and then the memory fitted in the active block or a block came
after it, or it adds one. -/
theorem allocFromArena_numBlocks {arena arena' : Arena} {size : Nat} {mem : ArenaPtr}
    (hwf : arena.WellFormed) (h : allocFromArena arena size = some (mem, arena')) :
    ∃ cur, arena.blockAt arena.pos = some cur
      ∧ ((arena'.numBlocks = arena.numBlocks
          ∧ (cur.offset + size + sizeof_size_t ≤ cur.size
            ∨ arena.pos < (arena.numBlocks : Int) - 1))
        ∨ arena'.numBlocks = arena.numBlocks + 1) := by
  obtain ⟨p, cur, hp, hcur, hat⟩ := hwf.current
  refine ⟨cur, hat, ?_⟩
  by_cases hfit : cur.offset + size + sizeof_size_t ≤ cur.size
  · rw [allocFromArena_of_fits size hat hfit] at h
    injection h with h
    injection h with _ h
    subst h
    exact Or.inl ⟨rfl, Or.inl hfit⟩
  · by_cases hpos : arena.pos < (arena.numBlocks : Int) - 1
    · have hp1 : p + 1 < arena.blocks.length := by
        rw [hp, hwf.2.2.1] at hpos
        omega
      have hlater : arena.blockAt (arena.pos + 1) = some arena.blocks[p + 1] := by
        rw [hp]
        exact (Arena.blockAt_natCast arena (p + 1)).trans (List.getElem?_eq_getElem hp1)
      rw [allocFromArena_of_later_block size hat (not_le.1 hfit) hpos hlater] at h
      injection h with h
      injection h with _ h
      subst h
      exact Or.inl ⟨rfl, Or.inr hpos⟩
    · rw [allocFromArena_of_last_block size hat (not_le.1 hfit) hpos] at h
      injection h with h
      injection h with _ h
      subst h
      exact Or.inr rfl

/-- No call of the arena takes a block away. -/
theorem arenaCalls_numBlocks_le :
    ∀ (calls : List ArenaCall) (arena final : Arena),
      arenaCalls calls arena = some final → arena.numBlocks ≤ final.numBlocks := by
  intro calls
  induction calls with
  | nil =>
    intro arena final h
    simp only [arenaCalls, Option.some.injEq] at h
    rw [h]
  | cons call calls ih =>
    intro arena final h
    cases call with
    | alloc size =>
      simp only [arenaCalls, Option.bind_eq_bind, Option.bind_eq_some] at h
      obtain ⟨⟨mem, arena1⟩, halloc, hrest⟩ := h
      have hle := ih arena1 final hrest
      have h1 : arena.numBlocks ≤ arena1.numBlocks := by
        simp only [allocFromArena, Option.bind_eq_bind, Option.bind_eq_some,
          Option.some.injEq, Prod.mk.injEq] at halloc
        obtain ⟨cur, -, block, -, -, ha⟩ := halloc
        rw [← ha]
        show arena.numBlocks ≤ (if _ then if _ then _ else _ else _ : Arena).numBlocks
        split
        · split
          · exact Nat.le_refl _
          · exact Nat.le_succ _
        · exact Nat.le_refl _
      omega
    | ret =>
      simp only [arenaCalls, Option.bind_eq_bind, Option.bind_eq_some] at h
      obtain ⟨arena1, hret, hrest⟩ := h
      have hle := ih arena1 final hrest
      rw [(returnToArena_sizes hret).1] at hle
      exact hle

theorem arenaCalls_capacity :
    ∀ (calls : List ArenaCall) (depth : Nat) (arena final : Arena),
      Arena.Chain Arena.Sound depth arena →
      lifoOrder depth calls = true → sizesFit calls = true →
      arenaCalls calls arena = some final →
      final.numBlocks = arena.numBlocks → final.WithinCapacity := by
  intro calls
  induction calls with
  | nil =>
    intro depth arena final hf _ _ h _
    simp only [arenaCalls, Option.some.injEq] at h
    rw [← h]
    exact hf.good.2.1
  | cons call calls ih =>
    intro depth arena final hf hlifo hfit h hnum
    obtain ⟨⟨hwf, hlive⟩, hwithin, hsizes⟩ := hf.good
    cases call with
    | alloc size =>
      simp only [sizesFit, Bool.and_eq_true, decide_eq_true_eq] at hfit
      have hlifo' : lifoOrder (depth + 1) calls = true := by
        rw [lifoOrder] at hlifo
        exact hlifo
      simp only [arenaCalls, Option.bind_eq_bind, Option.bind_eq_some] at h
      obtain ⟨⟨mem, arena1⟩, halloc, hrest⟩ := h
      have hle := arenaCalls_numBlocks_le calls arena1 final hrest
      obtain ⟨cur, hat, hcases⟩ := allocFromArena_numBlocks hwf halloc
      rcases hcases with ⟨hnum1, hroom⟩ | hnum1
      · obtain ⟨hw1, -, hs1⟩ :=
          allocFromArena_within_capacity hwf hwithin hsizes hfit.1 hat hroom halloc
        have hwf1 : arena1.WellFormed := by
          obtain ⟨_, _, _, -, -, -, -, -, -, h⟩ := allocFromArena_push hwf halloc
          exact h
        exact ih (depth + 1) arena1 final
          (Arena.Chain.alloc hf halloc ⟨⟨hwf1, allocFromArena_live hwf halloc⟩, hw1, hs1⟩)
          hlifo' hfit.2 hrest (hnum.trans hnum1.symm)
      · omega
    | ret =>
      cases depth with
      | zero => simp [lifoOrder] at hlifo
      | succ depth =>
        have hlifo' : lifoOrder depth calls = true := by
          rw [lifoOrder] at hlifo
          exact hlifo
        have hfit' : sizesFit calls = true := by
          rw [sizesFit] at hfit
          exact hfit
        simp only [arenaCalls, Option.bind_eq_bind, Option.bind_eq_some] at h
        obtain ⟨c, hc, hrest⟩ := h
        obtain ⟨c', hc', hfc⟩ := Arena.Sound.sound_after_return hf
        rw [hc] at hc'
        injection hc' with hc'
        subst hc'
        exact ih depth c final hfc hlifo' hfit' hrest
          (hnum.trans (returnToArena_sizes hc).1.symm)

/-- From a sound arena with `depth` allocations outstanding, every sequence
of calls in LIFO order, of sizes that fit an empty block with their offset
word, is defined; and when the arena then has the number of blocks that it
had, so that no allocation had to append a block, the offsets of its blocks
are within their sizes. -/
theorem arenaCalls_within_capacity (calls : List ArenaCall) (depth : Nat) (arena : Arena)
    (hchain : Arena.Chain Arena.Sound depth arena)
    (hlifo : lifoOrder depth calls = true) (hfit : sizesFit calls = true) :
    ∃ final, arenaCalls calls arena = some final
      ∧ (final.numBlocks = arena.numBlocks → final.WithinCapacity) := by
  obtain ⟨final, hfinal⟩ := arenaCalls_defined calls depth arena
    (hchain.weaken (fun _ ha => ha.1)) hlifo
  exact ⟨final, hfinal, arenaCalls_capacity calls depth arena final hchain hlifo hfit hfinal⟩

theorem initArena_first_alloc_sound {size : Nat} {mem : ArenaPtr} {arena : Arena}
    (hsize : size + sizeof_size_t ≤ ARENA_BLOCK_SIZE)
    (h : allocFromArena initArena size = some (mem, arena)) :
    arena.Sound ∧ arena.numBlocks = 1 := by
  have hwf := initArena_wellFormed
  have hsizes : ∀ block ∈ initArena.blocks, block.size = ARENA_BLOCK_SIZE := by
    intro block hb
    have hb' : block ∈ [({ size := ARENA_BLOCK_SIZE, offset := 0, words := fun _ => none }
        : ArenaBlock)] := hb
    rw [List.mem_singleton] at hb'
    rw [hb']
  have hwithin : initArena.WithinCapacity := by
    intro block hb
    have hb' : block ∈ [({ size := ARENA_BLOCK_SIZE, offset := 0, words := fun _ => none }
        : ArenaBlock)] := hb
    rw [List.mem_singleton] at hb'
    rw [hb']
    exact Nat.zero_le _
  have hat : initArena.blockAt initArena.pos
      = some { size := ARENA_BLOCK_SIZE, offset := 0, words := fun _ => none } := rfl
  obtain ⟨hw1, hn1, hs1⟩ := allocFromArena_within_capacity hwf hwithin hsizes hsize hat
    (Or.inl (by rw [Nat.zero_add]; exact hsize)) h
  have hwf1 : arena.WellFormed := by
    obtain ⟨_, _, _, -, -, -, -, -, -, h'⟩ := allocFromArena_push hwf h
    exact h'
  exact ⟨⟨⟨hwf1, allocFromArena_live hwf h⟩, hw1, hs1⟩, hn1⟩

/-- On the arena that `initArena` leaves: a first allocation, which is not
returned, then calls in LIFO order, the sizes fitting an empty block with
their offset word.  The calls are defined, and when no block has been
appended the offset of the block is within its size. -/
theorem arenaCalls_from_initArena (size : Nat) (calls : List ArenaCall)
    (hsize : size + sizeof_size_t ≤ ARENA_BLOCK_SIZE)
    (hlifo : lifoOrder 0 calls = true) (hfit : sizesFit calls = true) :
    ∃ final, arenaCalls (.alloc size :: calls) initArena = some final
      ∧ (final.numBlocks = 1 → final.WithinCapacity) := by
  obtain ⟨mem, arena, halloc⟩ := allocFromArena_defined initArena_wellFormed size
  obtain ⟨hsound, hnum⟩ := initArena_first_alloc_sound hsize halloc
  obtain ⟨final, hfinal, hcap⟩ :=
    arenaCalls_within_capacity calls 0 arena (Arena.Chain.base hsound) hlifo hfit
  refine ⟨final, ?_, fun h1 => hcap (h1.trans hnum.symm)⟩
  simp only [arenaCalls, halloc, Option.bind_eq_bind, Option.some_bind, hfinal]

/-- Instance: the frame of `main`, then two nested calls and their returns,
frames of 136 bytes. -/
theorem arenaCalls_from_initArena_witness :
    ∃ final, arenaCalls [.alloc 136, .alloc 136, .alloc 136, .ret, .ret] initArena = some final
      ∧ (final.numBlocks = 1 → final.WithinCapacity) :=
  arenaCalls_from_initArena 136 [.alloc 136, .alloc 136, .ret, .ret] (by decide) rfl rfl

set_option maxRecDepth 100000 in
theorem twoBlockArena_blocks :
    ∃ b0 b1, twoBlockArena.blocks = [b0, b1] ∧ twoBlockArena.pos = 0
      ∧ twoBlockArena.numBlocks = 2
      ∧ b0.offset = 3492 ∧ b0.size = ARENA_BLOCK_SIZE
      ∧ b1.offset = 0 ∧ b1.size = ARENA_BLOCK_SIZE :=
  ⟨_, _, rfl, rfl, rfl, rfl, rfl, rfl, rfl⟩

theorem twoBlockArena_sound : twoBlockArena.Sound ∧ twoBlockArena.numBlocks = 2 := by
  obtain ⟨b0, b1, hblocks, hpos, hnum, hoff0, hsize0, hoff1, hsize1⟩ := twoBlockArena_blocks
  have hmem : ∀ block ∈ twoBlockArena.blocks, block = b0 ∨ block = b1 := by
    intro block hb
    rw [hblocks] at hb
    simpa using hb
  refine ⟨⟨⟨⟨?_, ?_, ?_, fun i block hi hb => ?_⟩, ⟨b0, ?_, ?_⟩⟩, fun block hb => ?_,
    fun block hb => ?_⟩, hnum⟩
  · rw [hpos]
  · rw [hpos, hblocks]
    exact Nat.zero_lt_two
  · rw [hnum, hblocks]
    rfl
  · rw [hpos] at hi
    rw [hblocks] at hb
    cases i with
    | zero => exact absurd hi (lt_irrefl _)
    | succ i =>
      cases i with
      | zero =>
        simp only [List.getElem?_cons_succ, List.getElem?_cons_zero, Option.some.injEq] at hb
        rw [← hb]
        exact hoff1
      | succ i => simp at hb
  · rw [hpos]
    show twoBlockArena.blocks[0]? = some b0
    rw [hblocks]
    rfl
  · rw [hoff0]
    decide
  · rcases hmem block hb with h | h <;> rw [h]
    · rw [hoff0, hsize0]
      decide
    · rw [hoff1]
      exact Nat.zero_le _
  · rcases hmem block hb with h | h <;> rw [h]
    · exact hsize0
    · exact hsize1

set_option maxRecDepth 100000 in
/-- Instance with two blocks: from the arena whose first block holds 3492
bytes and whose second block holds nothing, an allocation of 1156 bytes, which
moves to the second block, a nested one of 136 bytes and their returns leave
the offsets within the sizes of the blocks; no block is appended. -/
theorem arenaCalls_within_capacity_witness :
    ∃ final, arenaCalls [.alloc 1156, .alloc 136, .ret, .ret] twoBlockArena = some final
      ∧ (final.numBlocks = twoBlockArena.numBlocks → final.WithinCapacity)
      ∧ final.numBlocks = 2 ∧ final.pos = 0 ∧ final.activeOffset = some 3492 := by
  obtain ⟨final, hfinal, hcap⟩ := arenaCalls_within_capacity [.alloc 1156, .alloc 136, .ret, .ret]
    0 twoBlockArena (Arena.Chain.base twoBlockArena_sound.1) rfl rfl
  have hfinal' : ∃ final', arenaCalls [.alloc 1156, .alloc 136, .ret, .ret] twoBlockArena
      = some final' ∧ final'.numBlocks = 2 ∧ final'.pos = 0
      ∧ final'.activeOffset = some 3492 := ⟨_, rfl, rfl, rfl, rfl⟩
  obtain ⟨final', hf', h2, h3, h4⟩ := hfinal'
  rw [hfinal] at hf'
  injection hf' with hf'
  subst hf'
  exact ⟨final, hfinal, hcap, h2, h3, h4⟩

/-! ## The module of a stream without `main` -/

/-- A stream of the grammar none of whose functions is named `main`: the
variable `_main` of `readBCModule`, declared without a value, is never
assigned, so that the field `_main` of the module returned holds no value;
`execute`, which compares it with `NULL` and then reads through it, is
undefined on this module, in both builds, whatever the arena. -/
theorem execute_without_main_is_undefined (d : ModuleDecl) (hwf : d.WellFormed)
    (hres : NamesResolve d.types)
    (hmain : ∀ body, ConstDecl.FunctionConst body ∈ d.consts →
      strcmp_eq (stringOfBytes body.name) "main" = false)
    (useArena : Bool) (clock : Nat → Int) (arena : Arena) (fuel : Nat) :
    ∃ m, readBCModule (encodeModule d) = some (m, [])
      ∧ m._main = .indeterminate
      ∧ execute useArena clock arena m fuel = some .undefined := by
  have hload := readBCModule_encodeModule d [] hwf hres
  rw [List.append_nil] at hload
  have hm : (loadedModule d)._main = .indeterminate :=
    loadedMain_of_no_main _ _ d.consts .indeterminate hmain
  refine ⟨loadedModule d, hload, hm, ?_⟩
  unfold execute enter
  rw [hm]

/-- Instance: the stream `5 "types" 0 6 "consts" 0`, without user types and
without user constants, under `USE_ARENA` on the arena that `initArena`
leaves. -/
theorem execute_without_main_is_undefined_witness :
    ∃ m, readBCModule (encodeModule emptyDecl) = some (m, [])
      ∧ m._main = .indeterminate
      ∧ execute USE_ARENA (fun _ => 0) initArena m 1 = some .undefined :=
  execute_without_main_is_undefined emptyDecl (by decide) (by decide)
    (fun _ h => by cases h) USE_ARENA (fun _ => 0) initArena 1

/-! ## C25: a call from a live frame -/

/-- C25. Under `USE_ARENA`, on the arena that `initArena` leaves, in the
module whose `main` starts calls nested nine deep: `execute` enters its loop
at the `invokestatic` of `f1`, made from the frame of `main`, which is live
(`pos = 0`, active offset 144).  The call takes the frame of `f1`, of 136
bytes, with `allocFromArena`: it fits in block 0, the address returned is the
byte 2560 of the block, and the offset word, with the value 144, is written
at the byte 4736 of the block, which is where `returnToArena` reads it; the
block has 4112 bytes.  The header of the operand stack of the frame, to which
`createStackFrame` writes, is at the byte 4160.  Likewise in the module whose
functions have 255 locals, at the call of `noop` by `w3`, whose frame is
taken from the second block: the offset word, with the value 0, is written at
the byte 18752 of that block of 4112 bytes. -/
theorem call_from_live_frame_writes_outside_block :
    (∃ st0 st1 mem block,
      enter USE_ARENA initArena nestedCallsModule = .next st0
      ∧ OpCode.ofByte st0.opCode = some .invokestatic
      ∧ st0.arena.pos = 0 ∧ st0.arena.activeOffset = some 144
      ∧ step USE_ARENA (fun _ => 0) nestedCallsModule st0 = .next st1
      ∧ st1.frame.callers.length = 1
      ∧ (linkFunction "f1" 10).frameSize = 136
      ∧ allocFromArena st0.arena (linkFunction "f1" 10).frameSize = some (mem, st1.arena)
      ∧ mem.block = 0 ∧ mem.byteOffset = 2560
      ∧ st1.arena.pos = 0 ∧ st1.arena.blockAt st1.arena.pos = some block
      ∧ block.offset = 288
      ∧ blockPlus (sizeof_ArenaBlock + (144 + 136)) = 4736
      ∧ block.words 4736 = some 144
      ∧ blockPlus (sizeof_Arena + block.offset - sizeof_size_t) = 4736
      ∧ block.bytes = 4112
      ∧ mem.byteOffset + (framePointers (linkFunction "f1" 10)).oprandStack = 4160)
    ∧ (∃ st0 st st1 mem block,
      enter USE_ARENA initArena wideCallsModule = .next st0
      ∧ stepsFrom USE_ARENA (fun _ => 0) wideCallsModule 3 st0 = some st
      ∧ OpCode.ofByte st.opCode = some .invokestatic
      ∧ st.frame.callers.length = 3
      ∧ st.arena.pos = 0 ∧ st.arena.activeOffset = some 4656
      ∧ step USE_ARENA (fun _ => 0) wideCallsModule st = .next st1
      ∧ wideNoopFunction.frameSize = 1156
      ∧ allocFromArena st.arena wideNoopFunction.frameSize = some (mem, st1.arena)
      ∧ mem.block = 1 ∧ mem.byteOffset = 256
      ∧ st1.arena.pos = 1 ∧ st1.arena.blockAt st1.arena.pos = some block
      ∧ block.offset = 1164
      ∧ blockPlus (sizeof_ArenaBlock + (0 + 1156)) = 18752
      ∧ block.words 18752 = some 0
      ∧ blockPlus (sizeof_Arena + block.offset - sizeof_size_t) = 18752
      ∧ block.bytes = 4112) :=
  ⟨⟨_, _, _, _, rfl, rfl, rfl, rfl, rfl, rfl, rfl, rfl, rfl, rfl, rfl, rfl, rfl, rfl, rfl, rfl,
      rfl, rfl⟩,
    ⟨_, _, _, _, _, rfl, rfl, rfl, rfl, rfl, rfl, rfl, rfl, rfl, rfl, rfl, rfl, rfl, rfl, rfl,
      rfl, rfl, rfl⟩⟩

/-- An allocation that fits in the active block, of `ARENA_BLOCK_SIZE` bytes,
when the offset of the block and the size together are 241 or more, as they
are when the block holds a frame and the size is that of a frame: the offset
word is written at a byte of the block that is not among the bytes that
`malloc` gave the block, and this is the byte that `returnToArena` reads. -/
theorem offset_word_outside_block (arena : Arena) (cur : ArenaBlock) (size : Nat)
    (hcur : arena.blockAt arena.pos = some cur)
    (hsize : cur.size = ARENA_BLOCK_SIZE)
    (hfit : cur.offset + size + sizeof_size_t ≤ cur.size)
    (hlive : 241 ≤ cur.offset + size) :
    ∃ mem arena' block,
      allocFromArena arena size = some (mem, arena')
      ∧ arena'.blockAt arena'.pos = some block
      ∧ block.words (blockPlus (sizeof_ArenaBlock + (cur.offset + size))) = some cur.offset
      ∧ blockPlus (sizeof_Arena + block.offset - sizeof_size_t)
          = blockPlus (sizeof_ArenaBlock + (cur.offset + size))
      ∧ block.bytes = 4112
      ∧ block.bytes ≤ blockPlus (sizeof_ArenaBlock + (cur.offset + size)) := by
  refine ⟨_, _, _, allocFromArena_of_fits size hcur hfit, blockAt_setBlock_self _ hcur,
    Function.update_same _ _ _, ?_, ?_, ?_⟩
  · simp only [blockPlus, sizeof_Arena, sizeof_ArenaBlock, sizeof_size_t]
    omega
  · show sizeof_ArenaBlock + cur.size = 4112
    rw [hsize]
    rfl
  · show sizeof_ArenaBlock + cur.size ≤ _
    rw [hsize]
    simp only [blockPlus, sizeof_ArenaBlock, ARENA_BLOCK_SIZE]
    omega

/-- Instance: the second allocation of 136 bytes on the arena that `initArena`
leaves, the first one having set the offset to 144. -/
theorem offset_word_outside_block_witness :
    ∃ arena cur mem arena' block,
      allocTimes 136 1 initArena = some arena
      ∧ arena.blockAt arena.pos = some cur ∧ cur.offset = 144
      ∧ allocFromArena arena 136 = some (mem, arena')
      ∧ arena'.blockAt arena'.pos = some block
      ∧ block.words (blockPlus (sizeof_ArenaBlock + (cur.offset + 136))) = some cur.offset
      ∧ blockPlus (sizeof_Arena + block.offset - sizeof_size_t)
          = blockPlus (sizeof_ArenaBlock + (cur.offset + 136))
      ∧ block.bytes = 4112
      ∧ block.bytes ≤ blockPlus (sizeof_ArenaBlock + (cur.offset + 136)) := by
  obtain ⟨arena, cur, harena, hcur, hoff, hsize⟩ :
      ∃ arena cur, allocTimes 136 1 initArena = some arena
        ∧ arena.blockAt arena.pos = some cur ∧ cur.offset = 144
        ∧ cur.size = ARENA_BLOCK_SIZE := ⟨_, _, rfl, rfl, rfl, rfl⟩
  obtain ⟨mem, arena', block, h⟩ := offset_word_outside_block arena cur 136 hcur hsize
    (by rw [hoff, hsize]; decide) (by rw [hoff]; decide)
  exact ⟨arena, cur, mem, arena', block, harena, hcur, hoff, h⟩

end CScript
